import Mathlib

/-!
# Voxel world simulation: block codec, world store, fluid and redstone engines

A shallow embedding of `src/blocks.js` and `src/world.js`.

Conventions of the embedding
* JavaScript numbers that the simulation handles are integers; they are `Int` here.
  `Math.floor` of an integer is the integer itself; `Math.floor (a / b)` is `Int.fdiv a b`
  and the JavaScript remainder `a % b` (sign of the dividend) is `Int.tmod a b`.
* String keys such as "x,y,z" are injective in their integer fields and are modelled
  by tuples.
* A JavaScript `Set` is an insertion-ordered list without duplicates, a `Map` is an
  insertion-ordered association list.
* `Uint8Array` cells are `Fin 256`; a store converts with `% 256`.
* `config.js` is not part of the sources: its constants are the fields of `Config`.
-/

namespace Voxel

/-! ## blocks.js -/

/-- The numeric block ids of `BLOCK_IDS` / `BLOCK`. -/
structure BlockIds where
  AIR : Int := 0
  GRASS : Int := 1
  DIRT : Int := 2
  STONE : Int := 3
  SAND : Int := 4
  LOG : Int := 5
  LEAVES : Int := 6
  PLANKS : Int := 7
  GLASS : Int := 8
  WATER : Int := 9
  COBBLE : Int := 10
  WOODEN_CHAIR : Int := 11
  WATER_FLOW_0 : Int := 12
  WATER_FLOW_1 : Int := 13
  WATER_FLOW_2 : Int := 14
  WATER_FLOW_3 : Int := 15
  WATER_FLOW_4 : Int := 16
  WATER_FLOW_5 : Int := 17
  WATER_FLOW_6 : Int := 18
  WATER_FLOW_7 : Int := 19
  REDSTONE_DUST_0 : Int := 20
  REDSTONE_DUST_15 : Int := 35
  REPEATER_START : Int := 36
  REPEATER_END : Int := 43
  COMPARATOR_START : Int := 44
  COMPARATOR_END : Int := 171
  PISTON_START : Int := 172
  PISTON_END : Int := 179
  PISTON_HEAD_START : Int := 180
  PISTON_HEAD_END : Int := 183
  REDSTONE_BLOCK : Int := 184

/-- The frozen table `BLOCK`. -/
@[reducible] def BLOCK : BlockIds := {}

/-- A horizontal unit vector `{dx, dz}`. -/
structure DirVec where
  dx : Int
  dz : Int
deriving DecidableEq, Repr

/-- `normalizeHorizontalDir(dir)`: `((d % 4) + 4) % 4` with the JavaScript remainder. -/
def normalizeHorizontalDir (dir : Int) : Int :=
  Int.tmod (Int.tmod dir 4 + 4) 4

/-- `HORIZONTAL_DIR_LOOKUP[i]`: north, east, south, west. -/
def HORIZONTAL_DIR_LOOKUP (i : Int) : DirVec :=
  if i = 0 then ⟨0, -1⟩
  else if i = 1 then ⟨1, 0⟩
  else if i = 2 then ⟨0, 1⟩
  else ⟨-1, 0⟩

/-- `getHorizontalDirVector(dir)`. -/
def getHorizontalDirVector (dir : Int) : DirVec :=
  HORIZONTAL_DIR_LOOKUP (normalizeHorizontalDir dir)

/-- `getOppositeHorizontalDir(dir)`. -/
def getOppositeHorizontalDir (dir : Int) : Int := normalizeHorizontalDir (dir + 2)

/-- `getLeftHorizontalDir(dir)`. -/
def getLeftHorizontalDir (dir : Int) : Int := normalizeHorizontalDir (dir + 3)

/-- `getRightHorizontalDir(dir)`. -/
def getRightHorizontalDir (dir : Int) : Int := normalizeHorizontalDir (dir + 1)

/-- `isWaterFlowId(id)`. -/
def isWaterFlowId (id : Int) : Bool :=
  decide (id ≥ BLOCK.WATER_FLOW_0) && decide (id ≤ BLOCK.WATER_FLOW_7)

/-- `isWater(id)`. -/
def isWater (id : Int) : Bool := decide (id = BLOCK.WATER) || isWaterFlowId id

/-- `isWaterSource(id)`. -/
def isWaterSource (id : Int) : Bool := decide (id = BLOCK.WATER)

/-- `isFlowingWater(id)`. -/
def isFlowingWater (id : Int) : Bool := isWaterFlowId id

/-- `getWaterLevel(id)`; `none` is JavaScript `null`. -/
def getWaterLevel (id : Int) : Option Int :=
  if id = BLOCK.WATER ∨ id = BLOCK.WATER_FLOW_0 then some 0
  else if isWaterFlowId id then some (id - BLOCK.WATER_FLOW_0)
  else none

/-- `WATER_FLOW_IDS[i]` for an index `0..7`. -/
def WATER_FLOW_IDS (i : Int) : Int :=
  if i = 0 then BLOCK.WATER_FLOW_0
  else if i = 1 then BLOCK.WATER_FLOW_1
  else if i = 2 then BLOCK.WATER_FLOW_2
  else if i = 3 then BLOCK.WATER_FLOW_3
  else if i = 4 then BLOCK.WATER_FLOW_4
  else if i = 5 then BLOCK.WATER_FLOW_5
  else if i = 6 then BLOCK.WATER_FLOW_6
  else BLOCK.WATER_FLOW_7

/-- `getFlowingWaterId(level)`. -/
def getFlowingWaterId (level : Int) : Int :=
  let clamped := max 0 (min 7 level)
  WATER_FLOW_IDS clamped

/-- `isRedstoneDust(id)`. -/
def isRedstoneDust (id : Int) : Bool :=
  decide (id ≥ BLOCK.REDSTONE_DUST_0) && decide (id ≤ BLOCK.REDSTONE_DUST_15)

/-- `getDustPower(id)`. -/
def getDustPower (id : Int) : Int :=
  if !isRedstoneDust id then 0 else id - BLOCK.REDSTONE_DUST_0

/-- `makeDustId(power)`. -/
def makeDustId (power : Int) : Int :=
  let clamped := max 0 (min 15 power)
  BLOCK.REDSTONE_DUST_0 + clamped

/-- `isRepeater(id)`. -/
def isRepeater (id : Int) : Bool :=
  decide (id ≥ BLOCK.REPEATER_START) && decide (id ≤ BLOCK.REPEATER_END)

/-- `getRepeaterDir(id)`. -/
def getRepeaterDir (id : Int) : Int :=
  if !isRepeater id then 0 else Int.fdiv (id - BLOCK.REPEATER_START) 2

/-- `isRepeaterPowered(id)`; `v & 1` is the lowest bit of `v`, here `v % 2`. -/
def isRepeaterPowered (id : Int) : Bool :=
  if !isRepeater id then false else decide ((id - BLOCK.REPEATER_START) % 2 = 1)

/-- `makeRepeaterId(dir, powered)`. -/
def makeRepeaterId (dir : Int) (powered : Bool) : Int :=
  BLOCK.REPEATER_START + normalizeHorizontalDir dir * 2 + (if powered then 1 else 0)

/-- `isComparator(id)`. -/
def isComparator (id : Int) : Bool :=
  decide (id ≥ BLOCK.COMPARATOR_START) && decide (id ≤ BLOCK.COMPARATOR_END)

/-- `getComparatorDir(id)`. -/
def getComparatorDir (id : Int) : Int :=
  if !isComparator id then 0 else Int.fdiv (id - BLOCK.COMPARATOR_START) 32

/-- `isComparatorSubtract(id)`. -/
def isComparatorSubtract (id : Int) : Bool :=
  if !isComparator id then false
  else decide (Int.tmod (id - BLOCK.COMPARATOR_START) 32 ≥ 16)

/-- `getComparatorOutput(id)`. -/
def getComparatorOutput (id : Int) : Int :=
  if !isComparator id then 0 else Int.tmod (id - BLOCK.COMPARATOR_START) 16

/-- `makeComparatorId(dir, subtract, output)`. -/
def makeComparatorId (dir : Int) (subtract : Bool) (output : Int) : Int :=
  let d := normalizeHorizontalDir dir
  let out := max 0 (min 15 output)
  let subtractBit : Int := if subtract then 16 else 0
  BLOCK.COMPARATOR_START + d * 32 + subtractBit + out

/-- `isPiston(id)`. -/
def isPiston (id : Int) : Bool :=
  decide (id ≥ BLOCK.PISTON_START) && decide (id ≤ BLOCK.PISTON_END)

/-- `getPistonDir(id)`. -/
def getPistonDir (id : Int) : Int :=
  if !isPiston id then 0 else Int.fdiv (id - BLOCK.PISTON_START) 2

/-- `isPistonExtended(id)`; `v & 1` is the lowest bit of `v`, here `v % 2`. -/
def isPistonExtended (id : Int) : Bool :=
  if !isPiston id then false else decide ((id - BLOCK.PISTON_START) % 2 = 1)

/-- `makePistonId(dir, extended)`. -/
def makePistonId (dir : Int) (extended : Bool) : Int :=
  BLOCK.PISTON_START + normalizeHorizontalDir dir * 2 + (if extended then 1 else 0)

/-- `isPistonHead(id)`. -/
def isPistonHead (id : Int) : Bool :=
  decide (id ≥ BLOCK.PISTON_HEAD_START) && decide (id ≤ BLOCK.PISTON_HEAD_END)

/-- `getPistonHeadDir(id)`. -/
def getPistonHeadDir (id : Int) : Int :=
  if !isPistonHead id then 0 else id - BLOCK.PISTON_HEAD_START

/-- `makePistonHeadId(dir)`. -/
def makePistonHeadId (dir : Int) : Int :=
  BLOCK.PISTON_HEAD_START + normalizeHorizontalDir dir

/-- `isRedstoneComponent(id)`. -/
def isRedstoneComponent (id : Int) : Bool :=
  isRedstoneDust id || isRepeater id || isComparator id || decide (id = BLOCK.REDSTONE_BLOCK)

/-- The `textures` record of a block descriptor. -/
structure Textures where
  all : Option String := none
  top : Option String := none
  bottom : Option String := none
  side : Option String := none
deriving DecidableEq, Repr

/-- A block descriptor of `BLOCK_DEFS` (the sub-cube geometry `modelParts` is left out). -/
structure BlockDef where
  name : String
  solid : Bool
  transparent : Bool
  liquid : Bool
  layer : String
  textures : Textures
deriving DecidableEq, Repr

/-- `BLOCK_DEFS[id]` as filled by the `defineBlock` calls; `none` where nothing is registered. -/
def BLOCK_DEFS (id : Int) : Option BlockDef :=
  if id = BLOCK.AIR then
    some ⟨"Air", false, true, false, "empty", { all := some "air" }⟩
  else if id = BLOCK.GRASS then
    some ⟨"Grass Block", true, false, false, "opaque",
      { top := some "grass_top", bottom := some "dirt", side := some "grass_side" }⟩
  else if id = BLOCK.DIRT then
    some ⟨"Dirt", true, false, false, "opaque", { all := some "dirt" }⟩
  else if id = BLOCK.STONE then
    some ⟨"Stone", true, false, false, "opaque", { all := some "stone" }⟩
  else if id = BLOCK.SAND then
    some ⟨"Sand", true, false, false, "opaque", { all := some "sand" }⟩
  else if id = BLOCK.LOG then
    some ⟨"Oak Log", true, false, false, "opaque",
      { top := some "log_top", bottom := some "log_top", side := some "log_side" }⟩
  else if id = BLOCK.LEAVES then
    some ⟨"Leaves", true, true, false, "cutout", { all := some "leaves" }⟩
  else if id = BLOCK.PLANKS then
    some ⟨"Planks", true, false, false, "opaque", { all := some "planks" }⟩
  else if id = BLOCK.GLASS then
    some ⟨"Glass", true, true, false, "cutout", { all := some "glass" }⟩
  else if id = BLOCK.WATER then
    some ⟨"Water", false, true, true, "translucent", { all := some "water" }⟩
  else if isWaterFlowId id then
    some ⟨"Flowing Water", false, true, true, "translucent", { all := some "water" }⟩
  else if id = BLOCK.COBBLE then
    some ⟨"Cobblestone", true, false, false, "opaque", { all := some "cobble" }⟩
  else if id = BLOCK.WOODEN_CHAIR then
    some ⟨"Wooden Chair", true, true, false, "opaque", { all := some "chair_wood" }⟩
  else if isRedstoneDust id then
    let power := getDustPower id
    some ⟨"Redstone Dust", false, true, false, "cutout",
      { top := some (if power > 0 then "redstone_dust_on" else "redstone_dust_off"),
        bottom := some "stone",
        side := some (if power > 0 then "redstone_dust_on" else "redstone_dust_off") }⟩
  else if isRepeater id then
    let powered := isRepeaterPowered id
    some ⟨if powered then "Repeater (On)" else "Repeater", false, true, false, "cutout",
      { top := some (if powered then "repeater_on" else "repeater_off"),
        bottom := some "stone", side := some "stone" }⟩
  else if isComparator id then
    let output := getComparatorOutput id
    some ⟨if isComparatorSubtract id then "Comparator (Subtract)" else "Comparator",
      false, true, false, "cutout",
      { top := some (if output > 0 then "comparator_on" else "comparator_off"),
        bottom := some "stone", side := some "stone" }⟩
  else if isPiston id then
    let extended := isPistonExtended id
    some ⟨if extended then "Piston (Extended)" else "Piston", true, false, false, "opaque",
      { top := some (if extended then "piston_head" else "piston_top"),
        bottom := some "piston_side", side := some "piston_side" }⟩
  else if isPistonHead id then
    some ⟨"Piston Head", true, false, false, "opaque", { all := some "piston_head" }⟩
  else if id = BLOCK.REDSTONE_BLOCK then
    some ⟨"Redstone Block", true, false, false, "opaque", { all := some "redstone_block" }⟩
  else none

/-- The descriptor registered for air, `BLOCK_DEFS[BLOCK.AIR]`. -/
def airDef : BlockDef := ⟨"Air", false, true, false, "empty", { all := some "air" }⟩

/-- `getBlockDef(id)`: `BLOCK_DEFS[id] ?? BLOCK_DEFS[BLOCK.AIR]`. -/
def getBlockDef (id : Int) : BlockDef :=
  match BLOCK_DEFS id with
  | some d => d
  | none => airDef

/-- `isOpaqueSolid(id)`. -/
def isOpaqueSolid (id : Int) : Bool :=
  let d := getBlockDef id
  d.solid && !d.transparent && !d.liquid

/-- `isSolidForCollision(id)`. -/
def isSolidForCollision (id : Int) : Bool :=
  let d := getBlockDef id
  d.solid && !d.liquid

/-! ## config.js (absent from the sources): the constants world.js reads -/

/-- The integer constants of `CONFIG` used by the world store and the two engines. -/
structure Config where
  CHUNK_SIZE : Int
  WORLD_HEIGHT : Int
  WATER_LEVEL : Int
  VIEW_DISTANCE : Int
  UNLOAD_DISTANCE : Int
  CHUNK_GEN_PER_FRAME : Nat
  MAX_MESH_REBUILDS_PER_FRAME : Nat
  WATER_UPDATES_PER_FRAME : Nat
  REDSTONE_UPDATES_PER_FRAME : Nat

/-! ## world.js: the world store -/

/-- A world cell `(x, y, z)`; also the key string "x,y,z" of the simulation queues. -/
abbrev Cell := Int × Int × Int

/-- A chunk coordinate `(cx, cz)`; also the key string "cx,cz". -/
abbrev ChunkKey := Int × Int

/-- `ALL_NEIGHBOR_OFFSETS` as `(dx, dy, dz)`. -/
def ALL_NEIGHBOR_OFFSETS : List (Int × Int × Int) :=
  [(1, 0, 0), (-1, 0, 0), (0, 1, 0), (0, -1, 0), (0, 0, 1), (0, 0, -1)]

/-- `worldToChunkCoord(value)`: `Math.floor(value / CHUNK_SIZE)`. -/
def worldToChunkCoord (cfg : Config) (value : Int) : Int :=
  Int.fdiv value cfg.CHUNK_SIZE

/-- `worldToLocalCoord(value)`. -/
def worldToLocalCoord (cfg : Config) (value : Int) : Int :=
  let m := Int.tmod value cfg.CHUNK_SIZE
  if m < 0 then m + cfg.CHUNK_SIZE else m

/-- `chunkDistance(aX, aZ, bX, bZ)`. -/
def chunkDistance (aX aZ bX bZ : Int) : Int :=
  max |aX - bX| |aZ - bZ|

/-- The conversion `value | 0` to a signed 32-bit integer. -/
def toInt32 (value : Int) : Int := (value + 2147483648) % 4294967296 - 2147483648

/-- `clampPower(value)`. -/
def clampPower (value : Int) : Int := max 0 (min 15 (toInt32 value))

/-- Conversion of an integer to a `Uint8Array` element. -/
def toUint8 (id : Int) : Fin 256 :=
  ⟨(id % 256).toNat, by
    have h1 : 0 ≤ id % 256 := Int.emod_nonneg _ (by decide)
    have h2 : id % 256 < 256 := Int.emod_lt_of_pos _ (by decide)
    omega⟩

/-- A `VoxelChunk`: its grid coordinates and its `Uint8Array` of block ids. -/
structure VoxelChunk where
  cx : Int
  cz : Int
  blocks : Int → Fin 256

/-- `VoxelChunk.index(lx, y, lz)`. -/
def VoxelChunk.index (cfg : Config) (lx y lz : Int) : Int :=
  y * cfg.CHUNK_SIZE * cfg.CHUNK_SIZE + lz * cfg.CHUNK_SIZE + lx

/-- `VoxelChunk.get(lx, y, lz)`. -/
def VoxelChunk.get (cfg : Config) (c : VoxelChunk) (lx y lz : Int) : Int :=
  if lx < 0 ∨ lx ≥ cfg.CHUNK_SIZE ∨ lz < 0 ∨ lz ≥ cfg.CHUNK_SIZE ∨ y < 0 ∨ y ≥ cfg.WORLD_HEIGHT then
    BLOCK.AIR
  else
    ((c.blocks (VoxelChunk.index cfg lx y lz)).val : Int)

/-- `VoxelChunk.set(lx, y, lz, id)`. -/
def VoxelChunk.set (cfg : Config) (c : VoxelChunk) (lx y lz id : Int) : VoxelChunk :=
  if lx < 0 ∨ lx ≥ cfg.CHUNK_SIZE ∨ lz < 0 ∨ lz ≥ cfg.CHUNK_SIZE ∨ y < 0 ∨ y ≥ cfg.WORLD_HEIGHT then
    c
  else
    { c with blocks := fun i => if i = VoxelChunk.index cfg lx y lz then toUint8 id else c.blocks i }


/-- The mutable state of `VoxelWorld` that the store and the engines read and write
(the scene, the materials, the atlas and the noise field are left out). -/
structure VoxelWorld where
  chunks : ChunkKey → Option VoxelChunk
  pendingChunkGeneration : List ChunkKey
  pendingChunkSet : List ChunkKey
  dirtyChunks : List ChunkKey
  fluidQueue : List Cell
  fluidQueued : List Cell
  redstoneQueue : List Cell
  redstoneQueued : List Cell
  editsByChunk : List (ChunkKey × List (Cell × Int))
  centerChunkX : Int
  centerChunkZ : Int
  saveTimer : Bool

/-- `Set.prototype.add`: appends a key that is not yet in the set. -/
def setAdd {κ : Type} [DecidableEq κ] (s : List κ) (k : κ) : List κ :=
  if k ∈ s then s else s ++ [k]

/-- `Map.prototype.set`: replaces the value of a present key in place, appends a new key. -/
def mapSet {κ ν : Type} [DecidableEq κ] : List (κ × ν) → κ → ν → List (κ × ν)
  | [], k, v => [(k, v)]
  | (k1, v1) :: rest, k, v => if k1 = k then (k, v) :: rest else (k1, v1) :: mapSet rest k v

/-- `Map.prototype.get`. -/
def mapGet {κ ν : Type} [DecidableEq κ] : List (κ × ν) → κ → Option ν
  | [], _ => none
  | (k1, v1) :: rest, k => if k1 = k then some v1 else mapGet rest k

/-- `VoxelWorld.getChunk(cx, cz)`. -/
def getChunk (w : VoxelWorld) (cx cz : Int) : Option VoxelChunk := w.chunks (cx, cz)

/-- `VoxelWorld.hasChunk(cx, cz)`. -/
def hasChunk (w : VoxelWorld) (cx cz : Int) : Bool := (w.chunks (cx, cz)).isSome

/-- `VoxelWorld.markChunkDirty(cx, cz)`. -/
def markChunkDirty (w : VoxelWorld) (cx cz : Int) : VoxelWorld :=
  if !hasChunk w cx cz then w
  else { w with dirtyChunks := setAdd w.dirtyChunks (cx, cz) }

/-- `VoxelWorld.getBlock(x, y, z)`. -/
def getBlock (cfg : Config) (w : VoxelWorld) (x y z : Int) : Int :=
  if y < 0 ∨ y ≥ cfg.WORLD_HEIGHT then BLOCK.AIR
  else
    let cx := worldToChunkCoord cfg x
    let cz := worldToChunkCoord cfg z
    match getChunk w cx cz with
    | none => BLOCK.AIR
    | some chunk =>
      let lx := worldToLocalCoord cfg x
      let lz := worldToLocalCoord cfg z
      chunk.get cfg lx y lz

/-- `VoxelWorld.scheduleSaveEdits()`: (re)arms the debounce timer. -/
def scheduleSaveEdits (w : VoxelWorld) : VoxelWorld := { w with saveTimer := true }

/-- `VoxelWorld.recordEdit(cx, cz, lx, y, lz, id)`. -/
def recordEdit (w : VoxelWorld) (cx cz lx y lz id : Int) : VoxelWorld :=
  let key : ChunkKey := (cx, cz)
  let changes : List (Cell × Int) :=
    match mapGet w.editsByChunk key with
    | some c => c
    | none => []
  let changes := mapSet changes (lx, y, lz) id
  scheduleSaveEdits { w with editsByChunk := mapSet w.editsByChunk key changes }

/-- `VoxelWorld.enqueueFluidUpdate(x, y, z)`. -/
def enqueueFluidUpdate (cfg : Config) (w : VoxelWorld) (x y z : Int) : VoxelWorld :=
  if y < 0 ∨ y ≥ cfg.WORLD_HEIGHT then w
  else
    let cx := worldToChunkCoord cfg x
    let cz := worldToChunkCoord cfg z
    if !hasChunk w cx cz then w
    else if (x, y, z) ∈ w.fluidQueued then w
    else { w with fluidQueued := w.fluidQueued ++ [(x, y, z)],
                  fluidQueue := w.fluidQueue ++ [(x, y, z)] }

/-- `VoxelWorld.enqueueFluidNeighbors(x, y, z)`: the three nested loops over `-1..1`. -/
def enqueueFluidNeighbors (cfg : Config) (w : VoxelWorld) (x y z : Int) : VoxelWorld :=
  ([-1, 0, 1] : List Int).foldl (fun w dy =>
    ([-1, 0, 1] : List Int).foldl (fun w dz =>
      ([-1, 0, 1] : List Int).foldl (fun w dx =>
        if |dx| + |dy| + |dz| > 2 then w
        else enqueueFluidUpdate cfg w (x + dx) (y + dy) (z + dz)) w) w) w

/-- `VoxelWorld.enqueueRedstoneUpdate(x, y, z)`. -/
def enqueueRedstoneUpdate (cfg : Config) (w : VoxelWorld) (x y z : Int) : VoxelWorld :=
  if y < 0 ∨ y ≥ cfg.WORLD_HEIGHT then w
  else
    let cx := worldToChunkCoord cfg x
    let cz := worldToChunkCoord cfg z
    if !hasChunk w cx cz then w
    else if (x, y, z) ∈ w.redstoneQueued then w
    else { w with redstoneQueued := w.redstoneQueued ++ [(x, y, z)],
                  redstoneQueue := w.redstoneQueue ++ [(x, y, z)] }

/-- `VoxelWorld.enqueueRedstoneNeighbors(x, y, z)`. -/
def enqueueRedstoneNeighbors (cfg : Config) (w : VoxelWorld) (x y z : Int) : VoxelWorld :=
  ALL_NEIGHBOR_OFFSETS.foldl
    (fun w offset => enqueueRedstoneUpdate cfg w (x + offset.1) (y + offset.2.1) (z + offset.2.2))
    (enqueueRedstoneUpdate cfg w x y z)

/-- The option record of `setBlock`, with its defaults. -/
structure SetBlockOptions where
  saveEdit : Bool := true
  updateFluids : Bool := true
  updateRedstone : Bool := true

/-- The options `{saveEdit: false, updateFluids: false, updateRedstone: false}` of the
simulation-internal writes. -/
def internalWrite : SetBlockOptions := ⟨false, false, false⟩

/-- `VoxelWorld.setBlock(x, y, z, id, options)`: the new state and the returned flag. -/
def setBlock (cfg : Config) (w : VoxelWorld) (x y z id : Int) (opts : SetBlockOptions) :
    VoxelWorld × Bool :=
  if y < 0 ∨ y ≥ cfg.WORLD_HEIGHT then (w, false)
  else
    let cx := worldToChunkCoord cfg x
    let cz := worldToChunkCoord cfg z
    match getChunk w cx cz with
    | none => (w, false)
    | some chunk =>
      let lx := worldToLocalCoord cfg x
      let lz := worldToLocalCoord cfg z
      let old := chunk.get cfg lx y lz
      if old = id then (w, false)
      else
        let chunk := chunk.set cfg lx y lz id
        let w := { w with chunks := fun k => if k = (cx, cz) then some chunk else w.chunks k }
        let w := markChunkDirty w cx cz
        let w := if lx = 0 then markChunkDirty w (cx - 1) cz else w
        let w := if lx = cfg.CHUNK_SIZE - 1 then markChunkDirty w (cx + 1) cz else w
        let w := if lz = 0 then markChunkDirty w cx (cz - 1) else w
        let w := if lz = cfg.CHUNK_SIZE - 1 then markChunkDirty w cx (cz + 1) else w
        let w := if opts.saveEdit then recordEdit w cx cz lx y lz id else w
        let w := if opts.updateFluids then enqueueFluidNeighbors cfg w x y z else w
        let w := if opts.updateRedstone then enqueueRedstoneNeighbors cfg w x y z else w
        (w, true)

/-! ## world.js: the fluid engine -/

/-- `VoxelWorld.isFluidSupportBlock(id)`. -/
def isFluidSupportBlock (id : Int) : Bool :=
  let d := getBlockDef id
  d.solid && !d.liquid

/-- `VoxelWorld.canWaterOccupyCell(id)`. -/
def canWaterOccupyCell (id : Int) : Bool :=
  decide (id = BLOCK.AIR) || isFlowingWater id

/-- `VoxelWorld.shouldCreateWaterSource(x, y, z)`. -/
def shouldCreateWaterSource (cfg : Config) (w : VoxelWorld) (x y z : Int) : Bool :=
  if !isFluidSupportBlock (getBlock cfg w x (y - 1) z) then false
  else
    let adjacentSources : Int := 0
    let adjacentSources :=
      if isWaterSource (getBlock cfg w (x + 1) y z) then adjacentSources + 1 else adjacentSources
    let adjacentSources :=
      if isWaterSource (getBlock cfg w (x - 1) y z) then adjacentSources + 1 else adjacentSources
    let adjacentSources :=
      if isWaterSource (getBlock cfg w x y (z + 1)) then adjacentSources + 1 else adjacentSources
    let adjacentSources :=
      if isWaterSource (getBlock cfg w x y (z - 1)) then adjacentSources + 1 else adjacentSources
    decide (adjacentSources ≥ 2)

/-- One pass of the neighbour loop of `computeDesiredWaterLevel`; `none` stands for the
initial `Infinity` of `minNeighborLevel`. -/
def waterNeighborStep (cfg : Config) (w : VoxelWorld) (x y z : Int)
    (minNeighborLevel : Option Int) (offset : Int × Int) : Option Int :=
  let nx := x + offset.1
  let nz := z + offset.2
  let neighborId := getBlock cfg w nx y nz
  if !isWater neighborId then minNeighborLevel
  else
    let belowNeighborId := getBlock cfg w nx (y - 1) nz
    let aboveNeighborId := getBlock cfg w nx (y + 1) nz
    let donorSupported :=
      isFluidSupportBlock belowNeighborId || isWaterSource neighborId || isWater aboveNeighborId
    if !donorSupported then minNeighborLevel
    else
      match getWaterLevel neighborId with
      | none => minNeighborLevel
      | some neighborLevel =>
        match minNeighborLevel with
        | none => some neighborLevel
        | some m => some (min m neighborLevel)

/-- `VoxelWorld.computeDesiredWaterLevel(x, y, z)`; `none` is `null`. -/
def computeDesiredWaterLevel (cfg : Config) (w : VoxelWorld) (x y z : Int) : Option Int :=
  let current := getBlock cfg w x y z
  if !canWaterOccupyCell current then none
  else
    let aboveId := getBlock cfg w x (y + 1) z
    if isWater aboveId then some 0
    else
      let neighborOffsets : List (Int × Int) := [(1, 0), (-1, 0), (0, 1), (0, -1)]
      match neighborOffsets.foldl (waterNeighborStep cfg w x y z) none with
      | none => none
      | some minNeighborLevel =>
        let nextLevel := minNeighborLevel + 1
        if nextLevel > 7 then none else some nextLevel

/-- `VoxelWorld.updateWaterAt(x, y, z)`. -/
def updateWaterAt (cfg : Config) (w : VoxelWorld) (x y z : Int) : VoxelWorld :=
  let current := getBlock cfg w x y z
  if current = BLOCK.WATER then w
  else if !canWaterOccupyCell current then w
  else
    let desiredLevel := computeDesiredWaterLevel cfg w x y z
    let targetId :=
      match desiredLevel with
      | none => BLOCK.AIR
      | some level =>
        if shouldCreateWaterSource cfg w x y z then BLOCK.WATER else getFlowingWaterId level
    if current = targetId then w
    else
      let w := (setBlock cfg w x y z targetId internalWrite).1
      enqueueFluidNeighbors cfg w x y z

/-- The body of the `while` loop of `processFluidUpdates` up to and including the next
evaluated cell: cells whose chunk is not loaded are shifted out and skipped (`continue`);
`k` is the rest of the loop after `processed += 1`. -/
def fluidDrainStep (cfg : Config) (k : VoxelWorld → VoxelWorld) (w : VoxelWorld) :
    List Cell → VoxelWorld
  | [] => w
  | node :: rest =>
    let w := { w with fluidQueue := rest, fluidQueued := w.fluidQueued.erase node }
    let cx := worldToChunkCoord cfg node.1
    let cz := worldToChunkCoord cfg node.2.2
    if !hasChunk w cx cz then fluidDrainStep cfg k w rest
    else k (updateWaterAt cfg w node.1 node.2.1 node.2.2)

/-- `VoxelWorld.processFluidUpdates(limit)`: `limit` counts the evaluations still allowed
(`limit - processed`). -/
def processFluidUpdates (cfg : Config) : Nat → VoxelWorld → VoxelWorld
  | 0, w => w
  | limit + 1, w => fluidDrainStep cfg (processFluidUpdates cfg limit) w w.fluidQueue

/-! ## world.js: the redstone engine -/

/-- The record `{weak, strong}` returned by `getDirectSignalFromBlock`. -/
structure Signal where
  weak : Int
  strong : Int
deriving DecidableEq, Repr

/-- `VoxelWorld.getDirectSignalFromBlock(sourceId, sx, sy, sz, tx, ty, tz)`. -/
def getDirectSignalFromBlock (sourceId sx sy sz tx ty tz : Int) : Signal :=
  let dx := tx - sx
  let dy := ty - sy
  let dz := tz - sz
  if sourceId = BLOCK.REDSTONE_BLOCK then ⟨15, 15⟩
  else if isRedstoneDust sourceId then
    let power := getDustPower sourceId
    if power ≤ 0 then ⟨0, 0⟩
    else
      let manhattan := |dx| + |dy| + |dz|
      if manhattan ≠ 1 then ⟨0, 0⟩
      else if dy = 0 ∨ dy = -1 then ⟨power, 0⟩
      else ⟨0, 0⟩
  else if isRepeater sourceId then
    if !isRepeaterPowered sourceId then ⟨0, 0⟩
    else
      let dir := getRepeaterDir sourceId
      let front := getHorizontalDirVector dir
      if dy = 0 ∧ dx = front.dx ∧ dz = front.dz then ⟨15, 15⟩ else ⟨0, 0⟩
  else if isComparator sourceId then
    let out := getComparatorOutput sourceId
    if out ≤ 0 then ⟨0, 0⟩
    else
      let dir := getComparatorDir sourceId
      let front := getHorizontalDirVector dir
      if dy = 0 ∧ dx = front.dx ∧ dz = front.dz then ⟨out, out⟩ else ⟨0, 0⟩
  else ⟨0, 0⟩

/-- The loop of `getStrongPowerAt` over the remaining offsets, `power` being the running
maximum; it returns 15 as soon as the maximum reaches 15. -/
def getStrongPowerLoop (cfg : Config) (w : VoxelWorld) (x y z : Int) :
    List (Int × Int × Int) → Int → Int
  | [], power => power
  | offset :: rest, power =>
    let sx := x + offset.1
    let sy := y + offset.2.1
    let sz := z + offset.2.2
    let sourceId := getBlock cfg w sx sy sz
    if sourceId = BLOCK.AIR then getStrongPowerLoop cfg w x y z rest power
    else
      let signal := getDirectSignalFromBlock sourceId sx sy sz x y z
      let power := max power signal.strong
      if power ≥ 15 then 15 else getStrongPowerLoop cfg w x y z rest power

/-- `VoxelWorld.getStrongPowerAt(x, y, z)`. -/
def getStrongPowerAt (cfg : Config) (w : VoxelWorld) (x y z : Int) : Int :=
  getStrongPowerLoop cfg w x y z ALL_NEIGHBOR_OFFSETS 0

/-- `VoxelWorld.isHardPoweredBlock(x, y, z)`. -/
def isHardPoweredBlock (cfg : Config) (w : VoxelWorld) (x y z : Int) : Bool :=
  let id := getBlock cfg w x y z
  if !isOpaqueSolid id then false
  else decide (getStrongPowerAt cfg w x y z > 0)

/-- `VoxelWorld.getSignalFromSourceToTarget(sx, sy, sz, tx, ty, tz)`. -/
def getSignalFromSourceToTarget (cfg : Config) (w : VoxelWorld) (sx sy sz tx ty tz : Int) : Int :=
  let sourceId := getBlock cfg w sx sy sz
  if sourceId = BLOCK.AIR then 0
  else
    let signal := getDirectSignalFromBlock sourceId sx sy sz tx ty tz
    let power := max signal.weak signal.strong
    if isOpaqueSolid sourceId && isHardPoweredBlock cfg w sx sy sz then max power 15
    else power

/-- `VoxelWorld.getComponentInputSignal(x, y, z, sourceDx, sourceDy, sourceDz)`. -/
def getComponentInputSignal (cfg : Config) (w : VoxelWorld) (x y z sourceDx sourceDy sourceDz : Int) :
    Int :=
  let sx := x + sourceDx
  let sy := y + sourceDy
  let sz := z + sourceDz
  getSignalFromSourceToTarget cfg w sx sy sz x y z

/-- One pass of the neighbour loop of `updateDustAt`. -/
def dustNeighborStep (cfg : Config) (w : VoxelWorld) (x y z : Int)
    (nextPower : Int) (offset : Int × Int × Int) : Int :=
  let nx := x + offset.1
  let ny := y + offset.2.1
  let nz := z + offset.2.2
  let neighborId := getBlock cfg w nx ny nz
  if isRedstoneDust neighborId then max nextPower (getDustPower neighborId - 1)
  else max nextPower (getSignalFromSourceToTarget cfg w nx ny nz x y z)

/-- `VoxelWorld.updateDustAt(x, y, z)`. -/
def updateDustAt (cfg : Config) (w : VoxelWorld) (x y z : Int) : VoxelWorld :=
  let id := getBlock cfg w x y z
  if !isRedstoneDust id then w
  else
    let nextPower := ALL_NEIGHBOR_OFFSETS.foldl (dustNeighborStep cfg w x y z) 0
    let nextId := makeDustId (clampPower nextPower)
    if nextId = id then w
    else
      let w := (setBlock cfg w x y z nextId internalWrite).1
      enqueueRedstoneNeighbors cfg w x y z

/-- `VoxelWorld.updateRepeaterAt(x, y, z)`. -/
def updateRepeaterAt (cfg : Config) (w : VoxelWorld) (x y z : Int) : VoxelWorld :=
  let id := getBlock cfg w x y z
  if !isRepeater id then w
  else
    let dir := getRepeaterDir id
    let backDir := getOppositeHorizontalDir dir
    let back := getHorizontalDirVector backDir
    let input := getComponentInputSignal cfg w x y z back.dx 0 back.dz
    let nextId := makeRepeaterId dir (decide (input > 0))
    if nextId = id then w
    else
      let w := (setBlock cfg w x y z nextId internalWrite).1
      enqueueRedstoneNeighbors cfg w x y z

/-- The output computed by `updateComparatorAt` from the rear and side inputs. -/
def comparatorOutput (subtract : Bool) (rearInput sideInput : Int) : Int :=
  if subtract then clampPower (rearInput - sideInput)
  else if rearInput ≥ sideInput then clampPower rearInput else 0

/-- `VoxelWorld.updateComparatorAt(x, y, z)`. -/
def updateComparatorAt (cfg : Config) (w : VoxelWorld) (x y z : Int) : VoxelWorld :=
  let id := getBlock cfg w x y z
  if !isComparator id then w
  else
    let dir := getComparatorDir id
    let backDir := getOppositeHorizontalDir dir
    let leftDir := getLeftHorizontalDir dir
    let rightDir := getRightHorizontalDir dir
    let back := getHorizontalDirVector backDir
    let left := getHorizontalDirVector leftDir
    let right := getHorizontalDirVector rightDir
    let rearInput := getComponentInputSignal cfg w x y z back.dx 0 back.dz
    let sideInput := max
      (getComponentInputSignal cfg w x y z left.dx 0 left.dz)
      (getComponentInputSignal cfg w x y z right.dx 0 right.dz)
    let subtract := isComparatorSubtract id
    let output := comparatorOutput subtract rearInput sideInput
    let nextId := makeComparatorId dir subtract output
    if nextId = id then w
    else
      let w := (setBlock cfg w x y z nextId internalWrite).1
      enqueueRedstoneNeighbors cfg w x y z

/-- `VoxelWorld.toggleComparatorMode(x, y, z)`. -/
def toggleComparatorMode (cfg : Config) (w : VoxelWorld) (x y z : Int) : VoxelWorld × Bool :=
  let id := getBlock cfg w x y z
  if !isComparator id then (w, false)
  else
    let dir := getComparatorDir id
    let subtract := !isComparatorSubtract id
    let output := getComparatorOutput id
    let nextId := makeComparatorId dir subtract output
    let r := setBlock cfg w x y z nextId ⟨true, false, false⟩
    if r.2 then (enqueueRedstoneNeighbors cfg r.1 x y z, true) else (r.1, false)

/-- The loop of `isPistonPowered` over the remaining offsets. -/
def isPistonPoweredLoop (cfg : Config) (w : VoxelWorld) (x y z : Int) (front : DirVec) :
    List (Int × Int × Int) → Bool
  | [] => false
  | offset :: rest =>
    if offset.2.1 = 0 ∧ offset.1 = front.dx ∧ offset.2.2 = front.dz then
      isPistonPoweredLoop cfg w x y z front rest
    else
      let sx := x + offset.1
      let sy := y + offset.2.1
      let sz := z + offset.2.2
      if getSignalFromSourceToTarget cfg w sx sy sz x y z > 0 then true
      else isPistonPoweredLoop cfg w x y z front rest

/-- `VoxelWorld.isPistonPowered(x, y, z, dir)`. -/
def isPistonPowered (cfg : Config) (w : VoxelWorld) (x y z dir : Int) : Bool :=
  isPistonPoweredLoop cfg w x y z (getHorizontalDirVector dir) ALL_NEIGHBOR_OFFSETS

/-- `VoxelWorld.canPistonMoveBlock(id)`. -/
def canPistonMoveBlock (id : Int) : Bool :=
  if id = BLOCK.AIR ∨ isWater id then false
  else if isPistonHead id then false
  else if isPiston id ∧ isPistonExtended id then false
  else true

/-- A collected chain node `{x, y, z, id}` of `tryExtendPiston`. -/
structure ChainNode where
  x : Int
  y : Int
  z : Int
  id : Int
deriving DecidableEq, Repr

/-- The scanning loop `for (let i = 0; i < 13; i += 1)` of `tryExtendPiston`; the first
argument counts the iterations left.  `none` is `return false`; `some (chain, cx, cz)` is the
state with which the loop is left, by `break` or by running out of iterations. -/
def pistonScan (cfg : Config) (w : VoxelWorld) (front : DirVec) (cy : Int) :
    Nat → List ChainNode → Int → Int → Option (List ChainNode × Int × Int)
  | 0, chain, cx, cz => some (chain, cx, cz)
  | n + 1, chain, cx, cz =>
    let id := getBlock cfg w cx cy cz
    if id = BLOCK.AIR ∨ isWater id then some (chain, cx, cz)
    else if !canPistonMoveBlock id then none
    else
      let chain := chain ++ [⟨cx, cy, cz, id⟩]
      let cx := cx + front.dx
      let cz := cz + front.dz
      if chain.length > 12 then none
      else pistonScan cfg w front cy n chain cx cz

/-- The body of the shifting loop of `tryExtendPiston` for one chain node. -/
def pistonShiftNode (cfg : Config) (front : DirVec) (w : VoxelWorld) (node : ChainNode) :
    VoxelWorld :=
  let tx := node.x + front.dx
  let ty := node.y
  let tz := node.z + front.dz
  let w := (setBlock cfg w tx ty tz node.id internalWrite).1
  let w := (setBlock cfg w node.x node.y node.z BLOCK.AIR internalWrite).1
  let w := enqueueRedstoneNeighbors cfg w node.x node.y node.z
  let w := enqueueRedstoneNeighbors cfg w tx ty tz
  let w := enqueueFluidNeighbors cfg w node.x node.y node.z
  enqueueFluidNeighbors cfg w tx ty tz

/-- `VoxelWorld.tryExtendPiston(x, y, z, dir)`: the new state and the returned flag. -/
def tryExtendPiston (cfg : Config) (w : VoxelWorld) (x y z dir : Int) : VoxelWorld × Bool :=
  let front := getHorizontalDirVector dir
  match pistonScan cfg w front y 13 [] (x + front.dx) (z + front.dz) with
  | none => (w, false)
  | some (chain, cx, cz) =>
    let destinationId := getBlock cfg w cx y cz
    if destinationId ≠ BLOCK.AIR ∧ !isWater destinationId then (w, false)
    else
      let w := chain.reverse.foldl (pistonShiftNode cfg front) w
      let w := (setBlock cfg w (x + front.dx) y (z + front.dz) (makePistonHeadId dir)
        internalWrite).1
      let w := (setBlock cfg w x y z (makePistonId dir true) internalWrite).1
      let w := enqueueRedstoneNeighbors cfg w x y z
      let w := enqueueRedstoneNeighbors cfg w (x + front.dx) y (z + front.dz)
      let w := enqueueFluidNeighbors cfg w (x + front.dx) y (z + front.dz)
      (w, true)

/-- `VoxelWorld.tryRetractPiston(x, y, z, dir)`: the new state and the returned flag. -/
def tryRetractPiston (cfg : Config) (w : VoxelWorld) (x y z dir : Int) : VoxelWorld × Bool :=
  let front := getHorizontalDirVector dir
  let hx := x + front.dx
  let hy := y
  let hz := z + front.dz
  let frontId := getBlock cfg w hx hy hz
  let w :=
    if isPistonHead frontId ∧ getPistonHeadDir frontId = dir then
      let w := (setBlock cfg w hx hy hz BLOCK.AIR internalWrite).1
      let w := enqueueRedstoneNeighbors cfg w hx hy hz
      enqueueFluidNeighbors cfg w hx hy hz
    else w
  let w := (setBlock cfg w x y z (makePistonId dir false) internalWrite).1
  (enqueueRedstoneNeighbors cfg w x y z, true)

/-- `VoxelWorld.updatePistonAt(x, y, z)`. -/
def updatePistonAt (cfg : Config) (w : VoxelWorld) (x y z : Int) : VoxelWorld :=
  let id := getBlock cfg w x y z
  if !isPiston id then w
  else
    let dir := getPistonDir id
    let extended := isPistonExtended id
    let powered := isPistonPowered cfg w x y z dir
    if powered ∧ !extended then (tryExtendPiston cfg w x y z dir).1
    else if !powered ∧ extended then (tryRetractPiston cfg w x y z dir).1
    else w

/-- `VoxelWorld.evaluateRedstoneAt(x, y, z)`. -/
def evaluateRedstoneAt (cfg : Config) (w : VoxelWorld) (x y z : Int) : VoxelWorld :=
  let id := getBlock cfg w x y z
  if isRedstoneDust id then updateDustAt cfg w x y z
  else if isRepeater id then updateRepeaterAt cfg w x y z
  else if isComparator id then updateComparatorAt cfg w x y z
  else if isPiston id then updatePistonAt cfg w x y z
  else w

/-- The body of the `while` loop of `processRedstoneUpdates` up to and including the next
evaluated cell: cells whose chunk is not loaded are shifted out and skipped (`continue`);
`k` is the rest of the loop after `processed += 1`. -/
def redstoneDrainStep (cfg : Config) (k : VoxelWorld → VoxelWorld) (w : VoxelWorld) :
    List Cell → VoxelWorld
  | [] => w
  | node :: rest =>
    let w := { w with redstoneQueue := rest, redstoneQueued := w.redstoneQueued.erase node }
    let cx := worldToChunkCoord cfg node.1
    let cz := worldToChunkCoord cfg node.2.2
    if !hasChunk w cx cz then redstoneDrainStep cfg k w rest
    else k (evaluateRedstoneAt cfg w node.1 node.2.1 node.2.2)

/-- `VoxelWorld.processRedstoneUpdates(limit)`: `limit` counts the evaluations still
allowed (`limit - processed`). -/
def processRedstoneUpdates (cfg : Config) : Nat → VoxelWorld → VoxelWorld
  | 0, w => w
  | limit + 1, w => redstoneDrainStep cfg (processRedstoneUpdates cfg limit) w w.redstoneQueue

/-- `VoxelWorld.isSolidAt(x, y, z)`. -/
def isSolidAt (cfg : Config) (w : VoxelWorld) (x y z : Int) : Bool :=
  let d := getBlockDef (getBlock cfg w x y z)
  d.solid && !d.liquid

/-! ## Predicates used to state the properties -/

/-- The cell `(x, y, z)` lies in the height range `0..WORLD_HEIGHT-1` and in a loaded chunk. -/
def cellLoaded (cfg : Config) (w : VoxelWorld) (x y z : Int) : Prop :=
  0 ≤ y ∧ y < cfg.WORLD_HEIGHT ∧
    hasChunk w (worldToChunkCoord cfg x) (worldToChunkCoord cfg z) = true

instance cellLoadedDecidable (cfg : Config) (w : VoxelWorld) (x y z : Int) :
    Decidable (cellLoaded cfg w x y z) := by
  unfold cellLoaded; infer_instance

/-- The part of `setBlock` after the three rejecting guards: the write into the chunk array,
the dirty marks, the optional overlay record and the optional seeding of the two queues. -/
def setBlockCommit (cfg : Config) (w : VoxelWorld) (chunk : VoxelChunk) (x y z id : Int)
    (opts : SetBlockOptions) : VoxelWorld :=
  let cx := worldToChunkCoord cfg x
  let cz := worldToChunkCoord cfg z
  let lx := worldToLocalCoord cfg x
  let lz := worldToLocalCoord cfg z
  let chunk := chunk.set cfg lx y lz id
  let w := { w with chunks := fun k => if k = (cx, cz) then some chunk else w.chunks k }
  let w := markChunkDirty w cx cz
  let w := if lx = 0 then markChunkDirty w (cx - 1) cz else w
  let w := if lx = cfg.CHUNK_SIZE - 1 then markChunkDirty w (cx + 1) cz else w
  let w := if lz = 0 then markChunkDirty w cx (cz - 1) else w
  let w := if lz = cfg.CHUNK_SIZE - 1 then markChunkDirty w cx (cz + 1) else w
  let w := if opts.saveEdit then recordEdit w cx cz lx y lz id else w
  let w := if opts.updateFluids then enqueueFluidNeighbors cfg w x y z else w
  let w := if opts.updateRedstone then enqueueRedstoneNeighbors cfg w x y z else w
  w

/-! ## Concrete configurations and worlds on which the properties are exercised -/

/-- A configuration with 16 by 16 chunks of height 64. -/
def sampleConfig : Config :=
  { CHUNK_SIZE := 16, WORLD_HEIGHT := 64, WATER_LEVEL := 20, VIEW_DISTANCE := 2,
    UNLOAD_DISTANCE := 3, CHUNK_GEN_PER_FRAME := 1, MAX_MESH_REBUILDS_PER_FRAME := 2,
    WATER_UPDATES_PER_FRAME := 64, REDSTONE_UPDATES_PER_FRAME := 64 }

/-- The world whose only loaded chunk is `(0, 0)` with the given block array; queues, dirty set
and edit overlay are empty. -/
def worldOfBlocks (blocks : Int → Fin 256) : VoxelWorld :=
  { chunks := fun k => if k = (0, 0) then some ⟨0, 0, blocks⟩ else none,
    pendingChunkGeneration := [], pendingChunkSet := [], dirtyChunks := [],
    fluidQueue := [], fluidQueued := [], redstoneQueue := [], redstoneQueued := [],
    editsByChunk := [], centerChunkX := 0, centerChunkZ := 0, saveTimer := false }

/-- One loaded chunk filled with air. -/
def airWorld : VoxelWorld := worldOfBlocks (fun _ => 0)

/-- A retracted piston at `(1, 1, 1)` facing east with `n` blocks (stone and planks in turn)
in the cells `(2, 1, 1) .. (n + 1, 1, 1)` in front of it; everything else is air.  The array
index of `(x, 1, 1)` is `272 + x`. -/
def pistonWorld (n : Int) : VoxelWorld :=
  worldOfBlocks (fun i =>
    if i = 273 then 174
    else if 274 ≤ i ∧ i < 274 + n then (if i % 2 = 0 then 3 else 7)
    else 0)

/-- Stone under the air cell `(5, 1, 5)`, water sources at `(4, 1, 5)` and `(6, 1, 5)`. -/
def poolWorld : VoxelWorld :=
  worldOfBlocks (fun i => if i = 85 then 3 else if i = 340 ∨ i = 342 then 9 else 0)

/-- A comparator at `(5, 1, 5)` facing north, in compare or subtract mode with output 0; behind
it at `(5, 1, 6)` a comparator facing north with output 10, on its left at `(4, 1, 5)` a
comparator facing east with output 4.  The array index of `(x, y, z)` is `256 y + 16 z + x`. -/
def comparatorWorld (subtract : Bool) : VoxelWorld :=
  worldOfBlocks (fun i =>
    if i = 341 then (if subtract then 60 else 44)
    else if i = 357 then 54
    else if i = 340 then 80
    else 0)

/-- The chain that `tryExtendPiston` collects in front of a piston at `(x, y, z)`, listed from
the farthest node to the nearest: node `i` (for `i = k, ..., 1`) is the cell `i` steps along
`front`, with the id `ids i`. -/
def descChain (x y z : Int) (front : DirVec) (ids : Nat → Int) : Nat → List ChainNode
  | 0 => []
  | k + 1 =>
    ⟨x + ((k + 1 : Nat) : Int) * front.dx, y, z + ((k + 1 : Nat) : Int) * front.dz, ids (k + 1)⟩ ::
      descChain x y z front ids k

/-! ## Straight lines of cells: the dust line and the water channel -/

/-- `front` is one of the four horizontal unit vectors of `HORIZONTAL_DIR_LOOKUP`. -/
def isUnitDir (front : DirVec) : Prop :=
  (front.dx = 1 ∧ front.dz = 0) ∨ (front.dx = -1 ∧ front.dz = 0) ∨
  (front.dx = 0 ∧ front.dz = 1) ∨ (front.dx = 0 ∧ front.dz = -1)

instance isUnitDirDecidable (front : DirVec) : Decidable (isUnitDir front) := by
  unfold isUnitDir; infer_instance

/-- The cell `(a, b, c)` is one of the cells `1..N` of the line that starts next to
`(x0, y0, z0)` and runs along `front`: cell `k` is `(x0 + k * front.dx, y0, z0 + k * front.dz)`. -/
def onLine (x0 y0 z0 : Int) (front : DirVec) (N : Nat) (a b c : Int) : Prop :=
  ∃ k : Nat, k < N ∧
    (a = x0 + ((k + 1 : Nat) : Int) * front.dx ∧ b = y0 ∧ c = z0 + ((k + 1 : Nat) : Int) * front.dz)

instance onLineDecidable (x0 y0 z0 : Int) (front : DirVec) (N : Nat) (a b c : Int) :
    Decidable (onLine x0 y0 z0 front N a b c) := by
  unfold onLine; infer_instance

/-- The id is of no family that `evaluateRedstoneAt` acts on. -/
def nonEvaluable (id : Int) : Prop :=
  isRedstoneDust id = false ∧ isRepeater id = false ∧ isComparator id = false ∧
    isPiston id = false

instance nonEvaluableDecidable (id : Int) : Decidable (nonEvaluable id) := by
  unfold nonEvaluable; infer_instance

/-- What the neighbour at `offset` contributes to the maximum of `updateDustAt`. -/
def dustContribution (cfg : Config) (w : VoxelWorld) (x y z : Int) (offset : Int × Int × Int) :
    Int :=
  if isRedstoneDust (getBlock cfg w (x + offset.1) (y + offset.2.1) (z + offset.2.2)) then
    getDustPower (getBlock cfg w (x + offset.1) (y + offset.2.1) (z + offset.2.2)) - 1
  else
    getSignalFromSourceToTarget cfg w (x + offset.1) (y + offset.2.1) (z + offset.2.2) x y z

/-- The setting of the dust decay property: a redstone block at `(x0, y0, z0)`, dust of power
0 in the cells `1..N` of the line along `front`, and around the line nothing that acts or
signals: every neighbour of a dust cell that is neither on the line nor the block holds an id
that `evaluateRedstoneAt` ignores and sends the dust cell the signal 0. -/
structure DustLineSetup (cfg : Config) (w : VoxelWorld) (x0 y0 z0 : Int) (front : DirVec)
    (N : Nat) : Prop where
  chunkSize : 0 < cfg.CHUNK_SIZE
  unit : isUnitDir front
  block : getBlock cfg w x0 y0 z0 = BLOCK.REDSTONE_BLOCK
  dust : ∀ k : Nat, k < N →
    getBlock cfg w (x0 + ((k + 1 : Nat) : Int) * front.dx) y0
      (z0 + ((k + 1 : Nat) : Int) * front.dz) = makeDustId 0
  quiet : ∀ k : Nat, k < N → ∀ o ∈ ALL_NEIGHBOR_OFFSETS,
    ¬ onLine x0 y0 z0 front N (x0 + ((k + 1 : Nat) : Int) * front.dx + o.1) (y0 + o.2.1)
      (z0 + ((k + 1 : Nat) : Int) * front.dz + o.2.2) →
    ¬ (x0 + ((k + 1 : Nat) : Int) * front.dx + o.1 = x0 ∧ y0 + o.2.1 = y0 ∧
      z0 + ((k + 1 : Nat) : Int) * front.dz + o.2.2 = z0) →
    nonEvaluable (getBlock cfg w (x0 + ((k + 1 : Nat) : Int) * front.dx + o.1) (y0 + o.2.1)
      (z0 + ((k + 1 : Nat) : Int) * front.dz + o.2.2)) ∧
    getSignalFromSourceToTarget cfg w (x0 + ((k + 1 : Nat) : Int) * front.dx + o.1) (y0 + o.2.1)
      (z0 + ((k + 1 : Nat) : Int) * front.dz + o.2.2)
      (x0 + ((k + 1 : Nat) : Int) * front.dx) y0 (z0 + ((k + 1 : Nat) : Int) * front.dz) = 0

/-- The redstone queue of a world in the setting of the dust decay property: the membership
set has no duplicates and holds only queued cells, every queued cell is a dust cell of the line
or a cell that `evaluateRedstoneAt` ignores, and the first dust cell is queued. -/
structure DustLineQueue (cfg : Config) (w : VoxelWorld) (x0 y0 z0 : Int) (front : DirVec)
    (N : Nat) : Prop where
  nodup : w.redstoneQueued.Nodup
  queued : ∀ c ∈ w.redstoneQueued, c ∈ w.redstoneQueue
  entries : ∀ c ∈ w.redstoneQueue,
    onLine x0 y0 z0 front N c.1 c.2.1 c.2.2 ∨ nonEvaluable (getBlock cfg w c.1 c.2.1 c.2.2)
  first : 0 < N → (x0 + front.dx, y0, z0 + front.dz) ∈ w.redstoneQueue

/-- The state of a drain of the redstone queue that started from `w0` in the setting of the
dust decay property: the same chunks are loaded, nothing off the line has changed, the first
`j` dust cells carry the powers `15, 14, ...` and the others power 0, and if cell `j + 1` is
still to be powered (`j < N`, `j < 15`) it is queued. -/
structure DustLineInv (cfg : Config) (w0 : VoxelWorld) (x0 y0 z0 : Int) (front : DirVec)
    (N : Nat) (j : Nat) (w : VoxelWorld) : Prop where
  loaded : ∀ k, (w.chunks k).isSome = (w0.chunks k).isSome
  frame : ∀ a b c : Int, ¬ onLine x0 y0 z0 front N a b c →
    getBlock cfg w a b c = getBlock cfg w0 a b c
  line : ∀ k : Nat, k < N →
    getBlock cfg w (x0 + ((k + 1 : Nat) : Int) * front.dx) y0
      (z0 + ((k + 1 : Nat) : Int) * front.dz) = makeDustId (if k < j then 15 - (k : Int) else 0)
  jle : j ≤ N ∧ j ≤ 15
  nodup : w.redstoneQueued.Nodup
  queued : ∀ c ∈ w.redstoneQueued, c ∈ w.redstoneQueue
  entries : ∀ c ∈ w.redstoneQueue,
    onLine x0 y0 z0 front N c.1 c.2.1 c.2.2 ∨ nonEvaluable (getBlock cfg w0 c.1 c.2.1 c.2.2)

/-- A configuration with 32 by 32 chunks of height 4. -/
def lineConfig : Config :=
  { CHUNK_SIZE := 32, WORLD_HEIGHT := 4, WATER_LEVEL := 1, VIEW_DISTANCE := 2,
    UNLOAD_DISTANCE := 3, CHUNK_GEN_PER_FRAME := 1, MAX_MESH_REBUILDS_PER_FRAME := 2,
    WATER_UPDATES_PER_FRAME := 64, REDSTONE_UPDATES_PER_FRAME := 64 }

/-- With `lineConfig`: a stone floor in the layer `y = 0`, a redstone block at `(1, 1, 1)` and
20 dust cells of power 0 at `(2, 1, 1) .. (21, 1, 1)`; the first dust cell is queued for
redstone evaluation.  The array index of `(x, y, z)` is `1024 y + 32 z + x`. -/
def dustLineWorld : VoxelWorld :=
  { worldOfBlocks (fun i =>
      if i < 1024 then 3
      else if i = 1057 then 184
      else if 1058 ≤ i ∧ i ≤ 1077 then 20
      else 0) with
    redstoneQueue := [(2, 1, 1)], redstoneQueued := [(2, 1, 1)] }

/-! ## The water channel -/

/-- The offsets `(dx, dy, dz)` in the order in which the three nested loops of
`enqueueFluidNeighbors` visit them. -/
def fluidLoopOffsets : List (Int × Int × Int) :=
  [(-1, -1, -1), (0, -1, -1), (1, -1, -1),
   (-1, -1, 0), (0, -1, 0), (1, -1, 0),
   (-1, -1, 1), (0, -1, 1), (1, -1, 1),
   (-1, 0, -1), (0, 0, -1), (1, 0, -1),
   (-1, 0, 0), (0, 0, 0), (1, 0, 0),
   (-1, 0, 1), (0, 0, 1), (1, 0, 1),
   (-1, 1, -1), (0, 1, -1), (1, 1, -1),
   (-1, 1, 0), (0, 1, 0), (1, 1, 0),
   (-1, 1, 1), (0, 1, 1), (1, 1, 1)]

/-- The four horizontal offsets `(dx, dz)` of `computeDesiredWaterLevel`. -/
def waterNeighborOffsets : List (Int × Int) := [(1, 0), (-1, 0), (0, 1), (0, -1)]

/-- The level that the neighbour at `offset` contributes to the minimum of
`computeDesiredWaterLevel`; `none` when the neighbour is skipped. -/
def waterContribution (cfg : Config) (w : VoxelWorld) (x y z : Int) (offset : Int × Int) :
    Option Int :=
  if !isWater (getBlock cfg w (x + offset.1) y (z + offset.2)) then none
  else if !(isFluidSupportBlock (getBlock cfg w (x + offset.1) (y - 1) (z + offset.2)) ||
      isWaterSource (getBlock cfg w (x + offset.1) y (z + offset.2)) ||
      isWater (getBlock cfg w (x + offset.1) (y + 1) (z + offset.2))) then none
  else getWaterLevel (getBlock cfg w (x + offset.1) y (z + offset.2))

/-- A cell off the channel that no drain changes: a water source, a cell that water cannot
occupy, or an air cell with no water above it and none in its four horizontal neighbours,
all of them off the channel. -/
def waterInert (cfg : Config) (w : VoxelWorld) (x0 y0 z0 : Int) (front : DirVec) (M : Nat)
    (a b c : Int) : Prop :=
  getBlock cfg w a b c = BLOCK.WATER ∨
  canWaterOccupyCell (getBlock cfg w a b c) = false ∨
  (getBlock cfg w a b c = BLOCK.AIR ∧
    ¬ onLine x0 y0 z0 front M a (b + 1) c ∧ isWater (getBlock cfg w a (b + 1) c) = false ∧
    ∀ o ∈ waterNeighborOffsets,
      ¬ onLine x0 y0 z0 front M (a + o.1) b (c + o.2) ∧
      isWater (getBlock cfg w (a + o.1) b (c + o.2)) = false)

instance waterInertDecidable (cfg : Config) (w : VoxelWorld) (x0 y0 z0 : Int) (front : DirVec)
    (M : Nat) (a b c : Int) : Decidable (waterInert cfg w x0 y0 z0 front M a b c) := by
  unfold waterInert; infer_instance

/-- The setting of the water settling property: a water source at `(x0, y0, z0)`, the cells
`1..M` of the channel along `front` hold air, each on a supporting floor block, with no water
above and no water beside them, and every off-channel cell that `enqueueFluidNeighbors` of a
channel cell reaches is inert. -/
structure WaterChannelSetup (cfg : Config) (w : VoxelWorld) (x0 y0 z0 : Int) (front : DirVec)
    (M : Nat) : Prop where
  chunkSize : 0 < cfg.CHUNK_SIZE
  unit : isUnitDir front
  source : getBlock cfg w x0 y0 z0 = BLOCK.WATER
  air : ∀ m : Nat, m < M →
    getBlock cfg w (x0 + ((m + 1 : Nat) : Int) * front.dx) y0
      (z0 + ((m + 1 : Nat) : Int) * front.dz) = BLOCK.AIR
  floor : ∀ m : Nat, m < M →
    isFluidSupportBlock (getBlock cfg w (x0 + ((m + 1 : Nat) : Int) * front.dx) (y0 - 1)
      (z0 + ((m + 1 : Nat) : Int) * front.dz)) = true
  above : ∀ m : Nat, m < M →
    isWater (getBlock cfg w (x0 + ((m + 1 : Nat) : Int) * front.dx) (y0 + 1)
      (z0 + ((m + 1 : Nat) : Int) * front.dz)) = false
  walls : ∀ m : Nat, m < M → ∀ o ∈ waterNeighborOffsets,
    ¬ onLine x0 y0 z0 front M (x0 + ((m + 1 : Nat) : Int) * front.dx + o.1) y0
      (z0 + ((m + 1 : Nat) : Int) * front.dz + o.2) →
    ¬ (x0 + ((m + 1 : Nat) : Int) * front.dx + o.1 = x0 ∧
      z0 + ((m + 1 : Nat) : Int) * front.dz + o.2 = z0) →
    isWater (getBlock cfg w (x0 + ((m + 1 : Nat) : Int) * front.dx + o.1) y0
      (z0 + ((m + 1 : Nat) : Int) * front.dz + o.2)) = false
  halo : ∀ m : Nat, m < M → ∀ d ∈ fluidLoopOffsets, |d.1| + |d.2.1| + |d.2.2| ≤ 2 →
    onLine x0 y0 z0 front M (x0 + ((m + 1 : Nat) : Int) * front.dx + d.1) (y0 + d.2.1)
      (z0 + ((m + 1 : Nat) : Int) * front.dz + d.2.2) ∨
    waterInert cfg w x0 y0 z0 front M (x0 + ((m + 1 : Nat) : Int) * front.dx + d.1) (y0 + d.2.1)
      (z0 + ((m + 1 : Nat) : Int) * front.dz + d.2.2)

/-- The fluid queue of a world in the setting of the water settling property: the membership
set has no duplicates and holds only queued cells, every queued cell is a channel cell or
inert, and the first channel cell is queued. -/
structure WaterChannelQueue (cfg : Config) (w : VoxelWorld) (x0 y0 z0 : Int) (front : DirVec)
    (M : Nat) : Prop where
  nodup : w.fluidQueued.Nodup
  queued : ∀ c ∈ w.fluidQueued, c ∈ w.fluidQueue
  entries : ∀ c ∈ w.fluidQueue,
    onLine x0 y0 z0 front M c.1 c.2.1 c.2.2 ∨
      waterInert cfg w x0 y0 z0 front M c.1 c.2.1 c.2.2
  first : 0 < M → (x0 + front.dx, y0, z0 + front.dz) ∈ w.fluidQueue

/-- The state of a drain of the fluid queue that started from `w0` in the setting of the water
settling property: the same chunks are loaded, nothing off the channel has changed, the first
`j` channel cells hold flowing water of the levels `1, 2, ...` and the others air. -/
structure WaterChannelInv (cfg : Config) (w0 : VoxelWorld) (x0 y0 z0 : Int) (front : DirVec)
    (M : Nat) (j : Nat) (w : VoxelWorld) : Prop where
  loaded : ∀ k, (w.chunks k).isSome = (w0.chunks k).isSome
  frame : ∀ a b c : Int, ¬ onLine x0 y0 z0 front M a b c →
    getBlock cfg w a b c = getBlock cfg w0 a b c
  line : ∀ m : Nat, m < M →
    getBlock cfg w (x0 + ((m + 1 : Nat) : Int) * front.dx) y0
      (z0 + ((m + 1 : Nat) : Int) * front.dz) =
      (if m < j then getFlowingWaterId ((m : Int) + 1) else BLOCK.AIR)
  jle : j ≤ M ∧ j ≤ 7
  nodup : w.fluidQueued.Nodup
  queued : ∀ c ∈ w.fluidQueued, c ∈ w.fluidQueue
  entries : ∀ c ∈ w.fluidQueue,
    onLine x0 y0 z0 front M c.1 c.2.1 c.2.2 ∨
      waterInert cfg w0 x0 y0 z0 front M c.1 c.2.1 c.2.2

/-- With `lineConfig`: a stone floor in the layer `y = 0`; in the layer `y = 1` a water source
at `(1, 1, 1)`, the air cells `(2, 1, 1) .. (11, 1, 1)` of a channel and stone around them
(the rows `z = 0` and `z = 2`, and the cells `(0, 1, 1)` and `(12, 1, 1) .. (31, 1, 1)`); air
above.  The first channel cell is queued for fluid evaluation.  The array index of `(x, y, z)`
is `1024 y + 32 z + x`. -/
def channelWorld : VoxelWorld :=
  { worldOfBlocks (fun i =>
      if i < 1057 then 3
      else if i = 1057 then 9
      else if i ≤ 1067 then 0
      else if i < 1120 then 3
      else 0) with
    fluidQueue := [(2, 1, 1)], fluidQueued := [(2, 1, 1)] }

/-! ## blocks.js: the texture lookup -/

/-- JavaScript truthiness of a texture name that may be absent: present and not empty. -/
def isTruthyName : Option String → Bool
  | some s => decide (s ≠ "")
  | none => false

/-- `getFaceTextureName(blockId, faceKey)`. -/
def getFaceTextureName (blockId : Int) (faceKey : String) : String :=
  let d := getBlockDef blockId
  let textures := d.textures
  if isTruthyName textures.all then textures.all.getD ""
  else if faceKey = "top" ∧ isTruthyName textures.top then textures.top.getD ""
  else if faceKey = "bottom" ∧ isTruthyName textures.bottom then textures.bottom.getD ""
  else
    match textures.side with
    | some s => s
    | none =>
      match textures.top with
      | some s => s
      | none =>
        match textures.bottom with
        | some s => s
        | none => "stone"

/-! ## The layout of the block ids -/

/-- The predicates of the six id families of blocks.js. -/
def blockFamilies : List (Int → Bool) :=
  [isWaterFlowId, isRedstoneDust, isRepeater, isComparator, isPiston, isPistonHead]

/-- The ids of `BLOCK_IDS` that stand for one block each: air, the simple blocks, the water
source and the redstone block. -/
def singleBlockIds : List Int :=
  [BLOCK.AIR, BLOCK.GRASS, BLOCK.DIRT, BLOCK.STONE, BLOCK.SAND, BLOCK.LOG, BLOCK.LEAVES,
   BLOCK.PLANKS, BLOCK.GLASS, BLOCK.WATER, BLOCK.COBBLE, BLOCK.WOODEN_CHAIR,
   BLOCK.REDSTONE_BLOCK]

/-! ## Predicates on the queues, and the drains with a record of the dequeued cells -/

/-- The queue `q'` and its membership set `s'` arise from `q` and `s` by appending cells that
were not in `s`, each once. -/
def QueueAppends (q s q' s' : List Cell) : Prop :=
  ∃ added : List Cell, q' = q ++ added ∧ s' = s ++ added ∧ added.Nodup ∧ ∀ c ∈ added, c ∉ s

/-- A queue without repetition whose membership set holds exactly the queued cells. -/
def QueueOK (q s : List Cell) : Prop :=
  q.Nodup ∧ s.Nodup ∧ ∀ c, c ∈ s ↔ c ∈ q

/-- Both queues of the world are `QueueOK`. -/
def QueueInv (w : VoxelWorld) : Prop :=
  QueueOK w.fluidQueue w.fluidQueued ∧ QueueOK w.redstoneQueue w.redstoneQueued

/-- From `w` to `w'` both queues only grow at the tail, and the same chunks are loaded. -/
structure QueueStep (w w' : VoxelWorld) : Prop where
  fluid : QueueAppends w.fluidQueue w.fluidQueued w'.fluidQueue w'.fluidQueued
  redstone : QueueAppends w.redstoneQueue w.redstoneQueued w'.redstoneQueue w'.redstoneQueued
  loaded : ∀ k, (w'.chunks k).isSome = (w.chunks k).isSome

/-- A `QueueStep` that leaves the edit overlay as it is. -/
structure EngineStep (w w' : VoxelWorld) : Prop where
  queues : QueueStep w w'
  edits : w'.editsByChunk = w.editsByChunk

/-- The world states reached from a world with empty queues by the enqueue operations, the
two drains, `setBlock` and `toggleComparatorMode`. -/
inductive QueueReachable (cfg : Config) : VoxelWorld → Prop
  | start (w : VoxelWorld) : w.fluidQueue = [] → w.fluidQueued = [] →
      w.redstoneQueue = [] → w.redstoneQueued = [] → QueueReachable cfg w
  | fluidUpdate (w : VoxelWorld) (x y z : Int) : QueueReachable cfg w →
      QueueReachable cfg (enqueueFluidUpdate cfg w x y z)
  | fluidNeighbors (w : VoxelWorld) (x y z : Int) : QueueReachable cfg w →
      QueueReachable cfg (enqueueFluidNeighbors cfg w x y z)
  | redstoneUpdate (w : VoxelWorld) (x y z : Int) : QueueReachable cfg w →
      QueueReachable cfg (enqueueRedstoneUpdate cfg w x y z)
  | redstoneNeighbors (w : VoxelWorld) (x y z : Int) : QueueReachable cfg w →
      QueueReachable cfg (enqueueRedstoneNeighbors cfg w x y z)
  | fluidDrain (w : VoxelWorld) (limit : Nat) : QueueReachable cfg w →
      QueueReachable cfg (processFluidUpdates cfg limit w)
  | redstoneDrain (w : VoxelWorld) (limit : Nat) : QueueReachable cfg w →
      QueueReachable cfg (processRedstoneUpdates cfg limit w)
  | write (w : VoxelWorld) (x y z id : Int) (opts : SetBlockOptions) : QueueReachable cfg w →
      QueueReachable cfg (setBlock cfg w x y z id opts).1
  | toggle (w : VoxelWorld) (x y z : Int) : QueueReachable cfg w →
      QueueReachable cfg (toggleComparatorMode cfg w x y z).1

/-- The loop body `fluidDrainStep` with a record of the cells it shifts out of the queue, each
with the flag of whether it was evaluated (`true`) or skipped (`false`). -/
def fluidDrainStepTraced (cfg : Config) (k : VoxelWorld → VoxelWorld × List (Cell × Bool))
    (w : VoxelWorld) : List Cell → VoxelWorld × List (Cell × Bool)
  | [] => (w, [])
  | node :: rest =>
    let w := { w with fluidQueue := rest, fluidQueued := w.fluidQueued.erase node }
    let cx := worldToChunkCoord cfg node.1
    let cz := worldToChunkCoord cfg node.2.2
    if !hasChunk w cx cz then
      let r := fluidDrainStepTraced cfg k w rest
      (r.1, (node, false) :: r.2)
    else
      let r := k (updateWaterAt cfg w node.1 node.2.1 node.2.2)
      (r.1, (node, true) :: r.2)

/-- `VoxelWorld.processFluidUpdates(limit)` with the record of the dequeued cells. -/
def processFluidUpdatesTraced (cfg : Config) : Nat → VoxelWorld → VoxelWorld × List (Cell × Bool)
  | 0, w => (w, [])
  | limit + 1, w =>
    fluidDrainStepTraced cfg (processFluidUpdatesTraced cfg limit) w w.fluidQueue

/-- The loop body `redstoneDrainStep` with a record of the cells it shifts out of the queue,
each with the flag of whether it was evaluated (`true`) or skipped (`false`). -/
def redstoneDrainStepTraced (cfg : Config) (k : VoxelWorld → VoxelWorld × List (Cell × Bool))
    (w : VoxelWorld) : List Cell → VoxelWorld × List (Cell × Bool)
  | [] => (w, [])
  | node :: rest =>
    let w := { w with redstoneQueue := rest, redstoneQueued := w.redstoneQueued.erase node }
    let cx := worldToChunkCoord cfg node.1
    let cz := worldToChunkCoord cfg node.2.2
    if !hasChunk w cx cz then
      let r := redstoneDrainStepTraced cfg k w rest
      (r.1, (node, false) :: r.2)
    else
      let r := k (evaluateRedstoneAt cfg w node.1 node.2.1 node.2.2)
      (r.1, (node, true) :: r.2)

/-- `VoxelWorld.processRedstoneUpdates(limit)` with the record of the dequeued cells. -/
def processRedstoneUpdatesTraced (cfg : Config) :
    Nat → VoxelWorld → VoxelWorld × List (Cell × Bool)
  | 0, w => (w, [])
  | limit + 1, w =>
    redstoneDrainStepTraced cfg (processRedstoneUpdatesTraced cfg limit) w w.redstoneQueue

/-- The front, left, right, upper and lower neighbour cells of `(x, y, z)` for a component
that faces `dir`. -/
def repeaterSideCells (x y z dir : Int) : List Cell :=
  [(x + (getHorizontalDirVector dir).dx, y, z + (getHorizontalDirVector dir).dz),
   (x + (getHorizontalDirVector (getLeftHorizontalDir dir)).dx, y,
     z + (getHorizontalDirVector (getLeftHorizontalDir dir)).dz),
   (x + (getHorizontalDirVector (getRightHorizontalDir dir)).dx, y,
     z + (getHorizontalDirVector (getRightHorizontalDir dir)).dz),
   (x, y + 1, z), (x, y - 1, z)]

/-- The entry of the edit overlay for the cell `(x, y, z)`: the id stored under the chunk key
and the local key of the cell, if any. -/
def overlayEntry (cfg : Config) (w : VoxelWorld) (x y z : Int) : Option Int :=
  match mapGet w.editsByChunk (worldToChunkCoord cfg x, worldToChunkCoord cfg z) with
  | some changes => mapGet changes (worldToLocalCoord cfg x, y, worldToLocalCoord cfg z)
  | none => none

/-- With `sampleConfig`: an unpowered repeater at `(5, 1, 5)` facing east and a redstone block
behind it at `(4, 1, 5)`; everything else is air.  The array index of `(x, y, z)` is
`256 y + 16 z + x`. -/
def repeaterWorld : VoxelWorld :=
  worldOfBlocks (fun i => if i = 341 then 38 else if i = 340 then 184 else 0)

/-- With `sampleConfig`: a comparator at `(5, 0, 5)`, in the lowest layer, facing north in
compare mode with output 0; everything else is air. -/
def floorComparatorWorld : VoxelWorld :=
  worldOfBlocks (fun i => if i = 85 then 44 else 0)

/-! ## world.js: `raycast`

Numbers are exact rationals; `Infinity` is `none`.  The vector operations are those of
`THREE.Vector3`, a library outside the repository, and its square root is a parameter. -/

/-- The components of a `THREE.Vector3`. -/
structure Vec3 where
  x : Rat
  y : Rat
  z : Rat
deriving DecidableEq

/-- `Vector3.lengthSq()`. -/
def Vec3.lengthSq (v : Vec3) : Rat := v.x * v.x + v.y * v.y + v.z * v.z

/-- `Vector3.normalize()`, that is `divideScalar(length() || 1)`; `divideScalar(s)` multiplies
by `1 / s`. -/
def Vec3.normalize (sqrt : Rat → Rat) (v : Vec3) : Vec3 :=
  let length := sqrt v.lengthSq
  let s := if length = 0 then 1 else length
  ⟨v.x * (1 / s), v.y * (1 / s), v.z * (1 / s)⟩

/-- `Vector3.addScaledVector(v, s)`. -/
def Vec3.addScaledVector (a v : Vec3) (s : Rat) : Vec3 :=
  ⟨a.x + v.x * s, a.y + v.y * s, a.z + v.z * s⟩

/-- `intBound(s, ds)`. -/
def intBound (s ds : Rat) : Option Rat :=
  if ds = 0 then none
  else
    let sFloor : Rat := ((⌊s⌋ : Int) : Rat)
    if ds > 0 then some ((sFloor + 1 - s) / ds)
    else some ((s - sFloor) / -ds)

/-- The comparison `a < b` of two numbers that may be `Infinity`. -/
def numLt : Option Rat → Option Rat → Bool
  | some a, some b => decide (a < b)
  | some _, none => true
  | none, _ => false

/-- The sum `a + b` of two numbers that may be `Infinity`. -/
def numAdd : Option Rat → Option Rat → Option Rat
  | some a, some b => some (a + b)
  | _, _ => none

/-- The comparison `dist <= maxDistance`. -/
def numLe : Option Rat → Rat → Bool
  | some a, b => decide (a ≤ b)
  | none, _ => false

/-- The local variables of the loop of `raycast`. -/
structure RayState where
  x : Int
  y : Int
  z : Int
  tMaxX : Option Rat
  tMaxY : Option Rat
  tMaxZ : Option Rat
  dist : Option Rat
  prevX : Int
  prevY : Int
  prevZ : Int

/-- The record `{hit: {x, y, z, id}, adjacent: {x, y, z}, distance}` returned by `raycast`. -/
structure RayHit where
  x : Int
  y : Int
  z : Int
  id : Int
  adjacentX : Int
  adjacentY : Int
  adjacentZ : Int
  distance : Option Rat
deriving DecidableEq

/-- The second half of the loop body of `raycast`: the current cell becomes the previous one
and the ray steps along the axis with the least `tMax`. -/
def raycastAdvance (stepX stepY stepZ : Int) (tDeltaX tDeltaY tDeltaZ : Option Rat)
    (s : RayState) : RayState :=
  let s := { s with prevX := s.x, prevY := s.y, prevZ := s.z }
  if numLt s.tMaxX s.tMaxY then
    if numLt s.tMaxX s.tMaxZ then
      { s with x := s.x + stepX, dist := s.tMaxX, tMaxX := numAdd s.tMaxX tDeltaX }
    else
      { s with z := s.z + stepZ, dist := s.tMaxZ, tMaxZ := numAdd s.tMaxZ tDeltaZ }
  else if numLt s.tMaxY s.tMaxZ then
    { s with y := s.y + stepY, dist := s.tMaxY, tMaxY := numAdd s.tMaxY tDeltaY }
  else
    { s with z := s.z + stepZ, dist := s.tMaxZ, tMaxZ := numAdd s.tMaxZ tDeltaZ }

/-- The loop `while (dist <= maxDistance)` of `raycast`; the first argument bounds the number
of iterations.  `none` is an exhausted bound, `some none` is `return null`. -/
def raycastLoop (cfg : Config) (w : VoxelWorld) (stepX stepY stepZ : Int)
    (tDeltaX tDeltaY tDeltaZ : Option Rat) (maxDistance : Rat) :
    Nat → RayState → Option (Option RayHit)
  | 0, _ => none
  | fuel + 1, s =>
    if !numLe s.dist maxDistance then some none
    else
      let id := getBlock cfg w s.x s.y s.z
      if id ≠ BLOCK.AIR then
        some (some ⟨s.x, s.y, s.z, id, s.prevX, s.prevY, s.prevZ, s.dist⟩)
      else
        raycastLoop cfg w stepX stepY stepZ tDeltaX tDeltaY tDeltaZ maxDistance fuel
          (raycastAdvance stepX stepY stepZ tDeltaX tDeltaY tDeltaZ s)

/-- `VoxelWorld.raycast(origin, direction, maxDistance)`, with a bound on the iterations of
its loop. -/
def raycast (sqrt : Rat → Rat) (cfg : Config) (w : VoxelWorld) (origin direction : Vec3)
    (maxDistance : Rat) (fuel : Nat) : Option (Option RayHit) :=
  let dir := direction
  if dir.lengthSq = 0 then some none
  else
    let dir := dir.normalize sqrt
    let originShifted := origin.addScaledVector dir (1 / 10000)
    let x : Int := ⌊originShifted.x⌋
    let y : Int := ⌊originShifted.y⌋
    let z : Int := ⌊originShifted.z⌋
    let stepX : Int := if dir.x > 0 then 1 else if dir.x < 0 then -1 else 0
    let stepY : Int := if dir.y > 0 then 1 else if dir.y < 0 then -1 else 0
    let stepZ : Int := if dir.z > 0 then 1 else if dir.z < 0 then -1 else 0
    let tDeltaX : Option Rat := if dir.x ≠ 0 then some |1 / dir.x| else none
    let tDeltaY : Option Rat := if dir.y ≠ 0 then some |1 / dir.y| else none
    let tDeltaZ : Option Rat := if dir.z ≠ 0 then some |1 / dir.z| else none
    let tMaxX := intBound originShifted.x dir.x
    let tMaxY := intBound originShifted.y dir.y
    let tMaxZ := intBound originShifted.z dir.z
    raycastLoop cfg w stepX stepY stepZ tDeltaX tDeltaY tDeltaZ maxDistance fuel
      ⟨x, y, z, tMaxX, tMaxY, tMaxZ, some 0, x, y, z⟩

/-- With `sampleConfig`: a stone block at `(0, 0, 0)`; everything else is air. -/
def stoneWorld : VoxelWorld := worldOfBlocks (fun i => if i = 0 then 3 else 0)

/-- With `sampleConfig`: flowing water of level 7 at `(6, 1, 5)` on a stone block at
`(6, 0, 5)`; everything else, the cell `(5, 1, 5)` included, is air. -/
def levelSevenWorld : VoxelWorld :=
  worldOfBlocks (fun i => if i = 342 then 19 else if i = 86 then 3 else 0)

/-- The strong signal that the neighbour at `offset` of the cell `(x, y, z)` gives to it. -/
def strongContribution (cfg : Config) (w : VoxelWorld) (x y z : Int)
    (offset : Int × Int × Int) : Int :=
  (getDirectSignalFromBlock
    (getBlock cfg w (x + offset.1) (y + offset.2.1) (z + offset.2.2))
    (x + offset.1) (y + offset.2.1) (z + offset.2.2) x y z).strong

/-- With `sampleConfig`: a stone block at `(0, 1, 0)`; everything else is air. -/
def tieWorld : VoxelWorld := worldOfBlocks (fun i => if i = 256 then 3 else 0)

/-- With `sampleConfig`: a stone block at `(5, 1, 5)` and behind it, at `(4, 1, 5)`, a powered
repeater that faces east, towards the stone; everything else is air. -/
def relayWorld : VoxelWorld :=
  worldOfBlocks (fun i => if i = 341 then 3 else if i = 340 then 39 else 0)

/-! ## noise.js: the lattice hash -/

/-- `value >>> 0`: the unsigned 32-bit value of a number. -/
def toUint32 (value : Int) : Int := value % 4294967296

/-- `Math.imul(a, b)`: the low 32 bits of the product, as a signed 32-bit integer. -/
def imul (a b : Int) : Int := toInt32 (toInt32 a * toInt32 b)

/-- The operator `a ^ b`: the bitwise exclusive or of the 32-bit values, as a signed 32-bit
integer. -/
def xor32 (a b : Int) : Int :=
  toInt32 (Int.ofNat (Nat.xor (toUint32 a).toNat (toUint32 b).toNat))

/-- The operator `a >>> n`: the unsigned 32-bit value shifted right by `n` bits. -/
def shr32 (a : Int) (n : Nat) : Int := Int.ofNat ((toUint32 a).toNat >>> n)

/-- The state of a `ValueNoise`: the seed. -/
structure ValueNoise where
  seed : Int

/-- The constructor of `ValueNoise`: `this.seed = seed >>> 0`. -/
def ValueNoise.create (seed : Int) : ValueNoise := ⟨toUint32 seed⟩

/-- The mixed value `h >>> 0` that `hash3` divides by 4294967295. -/
def ValueNoise.hashBits (n : ValueNoise) (x y z : Int) : Int :=
  let h := n.seed
  let h := xor32 h (imul x 374761393)
  let h := xor32 h (imul y 668265263)
  let h := xor32 h (imul z 2147483647)
  let h := imul (xor32 h (shr32 h 13)) 1274126177
  let h := xor32 h (shr32 h 16)
  toUint32 h

/-- `ValueNoise.hash3(x, y, z)`. -/
def ValueNoise.hash3 (n : ValueNoise) (x y z : Int) : Rat :=
  (n.hashBits x y z : Rat) / 4294967295

/-- `VoxelWorld.randomAt(x, z, salt)`, for the noise source of the world. -/
def randomAt (n : ValueNoise) (x z salt : Int) : Rat :=
  n.hash3 (x + salt * 17) (z - salt * 31) (salt * 53)

/-- The trunk height that `Chunk.placeTree` computes from its `seedValue`:
`4 + Math.floor(seedValue * 3)`; the trunk loop writes that many log blocks.  The product is
exact here; a value of `hash3` below 1 is at most `1 - 1 / 4294967295`, so that its triple
stays below 3 in the doubles of the runtime as well. -/
def trunkHeight (seedValue : Rat) : Int := 4 + Int.floor (seedValue * 3)

/-! ## world.js: chunk generation, the requests around the viewer, the persisted overlay -/

/-- One pass of the loop of `applyEditsToChunk` over the entries `[key, id]` of the chunk's
overlay, the key `"lx,y,lz"` being the triple: the chunk, the fluid seeds, the redstone
seeds. -/
def applyEditsStep (cfg : Config) (acc : VoxelChunk × List Cell × List Cell)
    (entry : Cell × Int) : VoxelChunk × List Cell × List Cell :=
  let lx := entry.1.1
  let y := entry.1.2.1
  let lz := entry.1.2.2
  let id := entry.2
  let originX := acc.1.cx * cfg.CHUNK_SIZE
  let originZ := acc.1.cz * cfg.CHUNK_SIZE
  let chunk := acc.1.set cfg lx y lz id
  let fluidSeeds :=
    if id = BLOCK.AIR ∨ isWater id then acc.2.1 ++ [(originX + lx, y, originZ + lz)]
    else acc.2.1
  let redstoneSeeds :=
    if isRedstoneDust id ∨ isRepeater id ∨ isComparator id ∨ isPiston id ∨
        id = BLOCK.REDSTONE_BLOCK ∨ id = BLOCK.AIR then
      acc.2.2 ++ [(originX + lx, y, originZ + lz)]
    else acc.2.2
  (chunk, fluidSeeds, redstoneSeeds)

/-- `VoxelWorld.applyEditsToChunk(chunk)`: the chunk with the overlay entries written, and
`{fluidSeeds, redstoneSeeds}`. -/
def applyEditsToChunk (cfg : Config) (w : VoxelWorld) (chunk : VoxelChunk) :
    VoxelChunk × List Cell × List Cell :=
  match mapGet w.editsByChunk (chunk.cx, chunk.cz) with
  | none => (chunk, [], [])
  | some changes => changes.foldl (applyEditsStep cfg) (chunk, [], [])

/-- `VoxelWorld.generateChunkNow(cx, cz)`: the new state and the returned chunk.  The block
array that `chunk.generate()` fills from the noise field is the parameter `generate`. -/
def generateChunkNow (cfg : Config) (generate : Int → Int → Int → Fin 256) (w : VoxelWorld)
    (cx cz : Int) : VoxelWorld × VoxelChunk :=
  match w.chunks (cx, cz) with
  | some chunk => (w, chunk)
  | none =>
    let chunk : VoxelChunk := ⟨cx, cz, generate cx cz⟩
    let r := applyEditsToChunk cfg w chunk
    let w := { w with chunks := fun k => if k = (cx, cz) then some r.1 else w.chunks k }
    let w := r.2.1.foldl (fun w seed => enqueueFluidNeighbors cfg w seed.1 seed.2.1 seed.2.2) w
    let w := r.2.2.foldl
      (fun w seed => enqueueRedstoneNeighbors cfg w seed.1 seed.2.1 seed.2.2) w
    let w := markChunkDirty w cx cz
    let w := markChunkDirty w (cx + 1) cz
    let w := markChunkDirty w (cx - 1) cz
    let w := markChunkDirty w cx (cz + 1)
    let w := markChunkDirty w cx (cz - 1)
    (w, r.1)

/-- `VoxelWorld.queueChunk(cx, cz)`. -/
def queueChunk (w : VoxelWorld) (cx cz : Int) : VoxelWorld :=
  if hasChunk w cx cz ∨ (cx, cz) ∈ w.pendingChunkSet then w
  else
    { w with pendingChunkSet := setAdd w.pendingChunkSet (cx, cz),
             pendingChunkGeneration := w.pendingChunkGeneration ++ [(cx, cz)] }

/-- The values `lo, lo + 1, ..., hi` of a loop `for (let d = lo; d <= hi; d += 1)`. -/
def intRange (lo hi : Int) : List Int :=
  (List.range (hi - lo + 1).toNat).map (fun (i : Nat) => lo + (i : Int))

/-- The offsets `(dx, dz)` in the order of the two nested loops of
`requestChunksAroundWorldPosition`, `dz` outside. -/
def viewOffsets (cfg : Config) : List (Int × Int) :=
  (intRange (-cfg.VIEW_DISTANCE) cfg.VIEW_DISTANCE).foldl
    (fun acc dz =>
      acc ++ (intRange (-cfg.VIEW_DISTANCE) cfg.VIEW_DISTANCE).map (fun dx => (dx, dz))) []

/-- The set `needed` that the nested loops of `requestChunksAroundWorldPosition` collect. -/
def neededChunks (cfg : Config) (centerX centerZ : Int) : List ChunkKey :=
  (viewOffsets cfg).foldl (fun s o => setAdd s (centerX + o.1, centerZ + o.2)) []

/-- The array `targets` of `requestChunksAroundWorldPosition`, entries `{cx, cz, d}`, after
`targets.sort((a, b) => a.d - b.d)`. -/
def chunkTargets (cfg : Config) (w : VoxelWorld) (centerX centerZ : Int) :
    List (Int × Int × Int) :=
  (((viewOffsets cfg).filter (fun o =>
      !hasChunk w (centerX + o.1) (centerZ + o.2) &&
        !decide ((centerX + o.1, centerZ + o.2) ∈ w.pendingChunkSet))).map
    (fun o => (centerX + o.1, centerZ + o.2, chunkDistance 0 0 o.1 o.2))).insertionSort
    (fun a b => a.2.2 ≤ b.2.2)

/-- The loop of `requestChunksAroundWorldPosition` over `this.chunks.entries()`. -/
def evictChunks (cfg : Config) (needed : List ChunkKey) (centerX centerZ : Int)
    (w : VoxelWorld) : VoxelWorld :=
  { w with chunks := fun key =>
      match w.chunks key with
      | none => none
      | some chunk =>
        if key ∈ needed then some chunk
        else if chunkDistance key.1 key.2 centerX centerZ > cfg.UNLOAD_DISTANCE then none
        else some chunk }

/-- The loop of `requestChunksAroundWorldPosition` over `pendingChunkGeneration`, from its
last entry to its first. -/
def prunePending (cfg : Config) (centerX centerZ : Int) (w : VoxelWorld) : VoxelWorld :=
  { w with
    pendingChunkSet :=
      (w.pendingChunkGeneration.reverse.filter (fun p =>
        decide (chunkDistance p.1 p.2 centerX centerZ > cfg.UNLOAD_DISTANCE + 1))).foldl
        (fun s p => s.erase p) w.pendingChunkSet,
    pendingChunkGeneration := w.pendingChunkGeneration.filter (fun p =>
      !decide (chunkDistance p.1 p.2 centerX centerZ > cfg.UNLOAD_DISTANCE + 1)) }

/-- `VoxelWorld.requestChunksAroundWorldPosition(x, z)`. -/
def requestChunksAroundWorldPosition (cfg : Config) (w : VoxelWorld) (x z : Int) : VoxelWorld :=
  let centerX := worldToChunkCoord cfg x
  let centerZ := worldToChunkCoord cfg z
  let w := { w with centerChunkX := centerX, centerChunkZ := centerZ }
  let needed := neededChunks cfg centerX centerZ
  let targets := chunkTargets cfg w centerX centerZ
  let w := targets.foldl (fun w target => queueChunk w target.1 target.2.1) w
  let w := evictChunks cfg needed centerX centerZ w
  prunePending cfg centerX centerZ w

/-- A JSON value in a field of a persisted entry, before `Number` is applied to it.  Numbers
are integers, as coordinates and block ids are throughout; `text` is a string, and `compound`
is an array or an object, given by the text that its conversion to a primitive yields
(`String(value)`: `""` for `[]`, `"5"` for `[5]`, `"1,2"` for `[1, 2]`, `"[object Object]"`
for an object). -/
inductive JsonValue where
  | number (n : Int)
  | null
  | bool (b : Bool)
  | text (s : String)
  | compound (s : String)

/-- `Number(value)` for a JSON value, `none` being NaN: a number is itself, `null` and `false`
are 0, `true` is 1, and a string, an array or an object is what the runtime's conversion of
its text to a number gives (`stringToNumber`, a parameter: 0 for the empty text, the number
for a numeric literal, NaN otherwise).  A value that converts to a number that is not an
integer is outside this model. -/
def JsonValue.toNumber (stringToNumber : String → Option Int) : JsonValue → Option Int
  | JsonValue.number n => some n
  | JsonValue.null => some 0
  | JsonValue.bool b => some (if b then 1 else 0)
  | JsonValue.text s => stringToNumber s
  | JsonValue.compound s => stringToNumber s

/-- An element of the list stored under a chunk key: an array of JSON values, or a value
that is not an array. -/
inductive PersistedEntry where
  | tuple (fields : List JsonValue)
  | notArray

/-- The value stored under a chunk key of the persisted blob: something that `for ... of`
iterates, or a value that is not iterable. -/
inductive PersistedValue where
  | entries (items : List PersistedEntry)
  | notIterable

/-- What `localStorage.getItem` and `JSON.parse` give `loadEdits`: nothing, a text that does
not parse, or a mapping from chunk keys to values. -/
inductive PersistedRaw where
  | absent
  | unparsable
  | parsed (blob : List (ChunkKey × PersistedValue))

/-- The guards of the loop of `loadEdits` over the entries of one chunk, and the
destructuring `[lx, y, lz, id] = entry.map(Number)`: `none` when a guard says `continue`
(the entry is not an array, its length is not 4, or one of the four numbers is NaN). -/
def entryFields (stringToNumber : String → Option Int) :
    PersistedEntry → Option (Int × Int × Int × Int)
  | PersistedEntry.notArray => none
  | PersistedEntry.tuple fields =>
    if fields.length ≠ 4 then none
    else
      match fields.map (JsonValue.toNumber stringToNumber) with
      | [some lx, some y, some lz, some id] => some (lx, y, lz, id)
      | _ => none

/-- The body of the loop of `loadEdits` over the entries of one chunk. -/
def loadEntry (stringToNumber : String → Option Int) (changes : List (Cell × Int))
    (entry : PersistedEntry) : List (Cell × Int) :=
  match entryFields stringToNumber entry with
  | none => changes
  | some (lx, y, lz, id) => mapSet changes (lx, y, lz) id

/-- The loop of `loadEdits` over the keys of the blob; `none` is a thrown exception. -/
def loadEditsLoop (stringToNumber : String → Option Int)
    (edits : List (ChunkKey × List (Cell × Int))) :
    List (ChunkKey × PersistedValue) → Option (List (ChunkKey × List (Cell × Int)))
  | [] => some edits
  | (key, value) :: rest =>
    match value with
    | PersistedValue.notIterable => none
    | PersistedValue.entries items =>
      loadEditsLoop stringToNumber
        (mapSet edits key (items.foldl (loadEntry stringToNumber) [])) rest

/-- `VoxelWorld.loadEdits()`: the `catch` clears the overlay. -/
def loadEdits (stringToNumber : String → Option Int) (w : VoxelWorld) (raw : PersistedRaw) :
    VoxelWorld :=
  match raw with
  | PersistedRaw.absent => w
  | PersistedRaw.unparsable => { w with editsByChunk := [] }
  | PersistedRaw.parsed blob =>
    match loadEditsLoop stringToNumber w.editsByChunk blob with
    | some edits => { w with editsByChunk := edits }
    | none => { w with editsByChunk := [] }

/-- With `sampleConfig`: the chunks `(0, 0)` and `(9, 0)` are loaded, both all air, and the
chunk `(8, 0)` waits for generation. -/
def farWorld : VoxelWorld :=
  { chunks := fun k => if k = (0, 0) ∨ k = (9, 0) then some ⟨k.1, k.2, fun _ => 0⟩ else none,
    pendingChunkGeneration := [(8, 0)], pendingChunkSet := [(8, 0)], dirtyChunks := [],
    fluidQueue := [], fluidQueued := [], redstoneQueue := [], redstoneQueued := [],
    editsByChunk := [], centerChunkX := 0, centerChunkZ := 0, saveTimer := false }

/-- With `sampleConfig`: no chunk is loaded and the overlay holds the entry
`(3, 7, 2) -> STONE` for the chunk `(1, 0)`. -/
def overlayWorld : VoxelWorld :=
  { chunks := fun _ => none,
    pendingChunkGeneration := [], pendingChunkSet := [], dirtyChunks := [],
    fluidQueue := [], fluidQueued := [], redstoneQueue := [], redstoneQueued := [],
    editsByChunk := [((1, 0), [((3, 7, 2), 3)])], centerChunkX := 0, centerChunkZ := 0,
    saveTimer := false }

/-! ## world.js: saving the overlay, and further example worlds -/

/-- `VoxelWorld.saveEditsNow()`: the object `out` that is handed to `JSON.stringify`, as
`JSON.parse` gives it back; a chunk with no entry is left out, and an entry `[lx, y, lz, id]`
of integers is an array of four numbers. -/
def saveEditsNow (w : VoxelWorld) : List (ChunkKey × PersistedValue) :=
  (w.editsByChunk.filter (fun p => !decide (p.2.length = 0))).map (fun p =>
    (p.1, PersistedValue.entries (p.2.map (fun e =>
      PersistedEntry.tuple [JsonValue.number e.1.1, JsonValue.number e.1.2.1,
        JsonValue.number e.1.2.2, JsonValue.number e.2]))))

/-- With `sampleConfig`: a retracted piston at `(5, 1, 5)` facing east and a redstone block
beside it at `(5, 1, 6)`; everything else is air.  The array index of `(x, 1, z)` is
`256 + 16 z + x`. -/
def poweredPistonWorld : VoxelWorld :=
  worldOfBlocks (fun i => if i = 341 then 174 else if i = 357 then 184 else 0)

/-- With `sampleConfig`: an extended piston at `(5, 1, 5)` facing east, its head at
`(6, 1, 5)` and a stone block, pushed earlier, at `(7, 1, 5)`; everything else is air. -/
def extendedPistonWorld : VoxelWorld :=
  worldOfBlocks (fun i => if i = 341 then 175 else if i = 342 then 181 else
    if i = 343 then 3 else 0)

/-- With `sampleConfig`: a retracted piston at `(14, 1, 5)` facing east and a stone block at
`(15, 1, 5)`, the last cell of the only loaded chunk; the cell `(16, 1, 5)` belongs to the
chunk `(1, 0)`, which is not loaded. -/
def borderPistonWorld : VoxelWorld :=
  worldOfBlocks (fun i => if i = 350 then 174 else if i = 351 then 3 else 0)

/-- With `sampleConfig`: dust of power 0 at `(5, 1, 5)` and a stone block at `(4, 1, 5)`;
everything else is air. -/
def quietDustWorld : VoxelWorld :=
  worldOfBlocks (fun i => if i = 341 then 20 else if i = 340 then 3 else 0)

/-- With `sampleConfig`: no chunk is loaded and the overlay holds two entries for the chunk
`(1, 0)` and one for the chunk `(-1, 2)`. -/
def savedWorld : VoxelWorld :=
  { chunks := fun _ => none,
    pendingChunkGeneration := [], pendingChunkSet := [], dirtyChunks := [],
    fluidQueue := [], fluidQueued := [], redstoneQueue := [], redstoneQueued := [],
    editsByChunk := [((1, 0), [((3, 7, 2), 3), ((0, 0, 15), 0)]), ((-1, 2), [((5, 1, 5), 20)])],
    centerChunkX := 0, centerChunkZ := 0, saveTimer := false }

/-- The runtime's conversion of a text to a number on the three texts that the examples use:
the empty text is 0, `"7"` is 7 and `"stone"` is NaN. -/
def sampleStringToNumber (s : String) : Option Int :=
  if s = "" then some 0 else if s = "7" then some 7 else none

/-- The list stored under the chunk `(0, 0)` in `sampleBlob`: a value that is not an array,
the tuple `[1, 2, 3, 4]` and the tuple `[1, "stone", 3, 9]`. -/
def sampleItems : List PersistedEntry :=
  [PersistedEntry.notArray,
    PersistedEntry.tuple [JsonValue.number 1, JsonValue.number 2, JsonValue.number 3,
      JsonValue.number 4],
    PersistedEntry.tuple [JsonValue.number 1, JsonValue.text "stone", JsonValue.number 3,
      JsonValue.number 9]]

/-- A persisted blob with two chunk keys: `sampleItems` under `(0, 0)`, and a list with the
one-element tuple `[1]` under `(1, 0)`. -/
def sampleBlob : List (ChunkKey × PersistedValue) :=
  [((0, 0), PersistedValue.entries sampleItems),
    ((1, 0), PersistedValue.entries [PersistedEntry.tuple [JsonValue.number 1]])]

/-! ## world.js: `raycast`, with the arithmetic of numbers as a parameter

The same function once more, now with every operation that `raycast`, `intBound` and the
`THREE.Vector3` methods perform on numbers taken from a record `NumberOps`.  Nothing is
assumed about the operations, so a statement proved for every `NumberOps` holds for the IEEE
doubles of the runtime, with their rounding, as it does for exact numbers.  Cell coordinates
are integers: `cell` reads `Math.floor(v)` as an integer, and the steps `x += stepX` are exact
(the coordinates of the origin are finite and far below `2^53`). -/

/-- The operations on numbers that `raycast` uses: the literals `0`, `1`, `0.0001` and
`Infinity`; `+`, `-`, `*`, `/`; unary `-`, `Math.abs`, `Math.sqrt`, `Math.floor`; the
comparisons `<`, `<=` and `===`; the truth value of a number, as `||` takes it; and
`Math.floor` read as a cell coordinate. -/
structure NumberOps (F : Type) where
  zero : F
  one : F
  nudge : F
  infinity : F
  add : F → F → F
  sub : F → F → F
  mul : F → F → F
  div : F → F → F
  neg : F → F
  abs : F → F
  sqrt : F → F
  floor : F → F
  lt : F → F → Bool
  le : F → F → Bool
  eq : F → F → Bool
  truthy : F → Bool
  cell : F → Int

/-- The components of a `THREE.Vector3`. -/
structure Vector3 (F : Type) where
  x : F
  y : F
  z : F

/-- `Vector3.lengthSq()`: `x * x + y * y + z * z`. -/
def Vector3.lengthSq {F : Type} (ops : NumberOps F) (v : Vector3 F) : F :=
  ops.add (ops.add (ops.mul v.x v.x) (ops.mul v.y v.y)) (ops.mul v.z v.z)

/-- `Vector3.normalize()`, that is `divideScalar(length() || 1)`, where `length()` is
`Math.sqrt(x * x + y * y + z * z)` and `divideScalar(s)` multiplies by `1 / s`. -/
def Vector3.normalize {F : Type} (ops : NumberOps F) (v : Vector3 F) : Vector3 F :=
  let length := ops.sqrt (v.lengthSq ops)
  let s := if ops.truthy length then length else ops.one
  ⟨ops.mul v.x (ops.div ops.one s), ops.mul v.y (ops.div ops.one s),
    ops.mul v.z (ops.div ops.one s)⟩

/-- `Vector3.addScaledVector(v, s)`. -/
def Vector3.addScaledVector {F : Type} (ops : NumberOps F) (a v : Vector3 F) (s : F) :
    Vector3 F :=
  ⟨ops.add a.x (ops.mul v.x s), ops.add a.y (ops.mul v.y s), ops.add a.z (ops.mul v.z s)⟩

/-- `intBound(s, ds)`; `ds > 0` is read as `0 < ds`. -/
def intBoundWith {F : Type} (ops : NumberOps F) (s ds : F) : F :=
  if ops.eq ds ops.zero then ops.infinity
  else
    let sFloor := ops.floor s
    if ops.lt ops.zero ds then ops.div (ops.sub (ops.add sFloor ops.one) s) ds
    else ops.div (ops.sub s sFloor) (ops.neg ds)

/-- The step of `raycast` along one axis: `d > 0 ? 1 : d < 0 ? -1 : 0`; `d > 0` is read as
`0 < d`. -/
def rayStep {F : Type} (ops : NumberOps F) (d : F) : Int :=
  if ops.lt ops.zero d then 1 else if ops.lt d ops.zero then -1 else 0

/-- The increment of `tMax` along one axis: `d !== 0 ? Math.abs(1 / d) : Infinity`. -/
def rayDelta {F : Type} (ops : NumberOps F) (d : F) : F :=
  if !ops.eq d ops.zero then ops.abs (ops.div ops.one d) else ops.infinity

/-- The local variables of the loop of `raycast`. -/
structure RayVars (F : Type) where
  x : Int
  y : Int
  z : Int
  tMaxX : F
  tMaxY : F
  tMaxZ : F
  dist : F
  prevX : Int
  prevY : Int
  prevZ : Int

/-- The record `{hit: {x, y, z, id}, adjacent: {x, y, z}, distance}` returned by `raycast`. -/
structure RayResult (F : Type) where
  x : Int
  y : Int
  z : Int
  id : Int
  adjacentX : Int
  adjacentY : Int
  adjacentZ : Int
  distance : F

/-- The second half of the loop body of `raycast`: the current cell becomes the previous one
and the ray steps along the axis that the comparisons of the `tMax` select. -/
def raycastAdvanceWith {F : Type} (ops : NumberOps F) (stepX stepY stepZ : Int)
    (tDeltaX tDeltaY tDeltaZ : F) (s : RayVars F) : RayVars F :=
  let s := { s with prevX := s.x, prevY := s.y, prevZ := s.z }
  if ops.lt s.tMaxX s.tMaxY then
    if ops.lt s.tMaxX s.tMaxZ then
      { s with x := s.x + stepX, dist := s.tMaxX, tMaxX := ops.add s.tMaxX tDeltaX }
    else
      { s with z := s.z + stepZ, dist := s.tMaxZ, tMaxZ := ops.add s.tMaxZ tDeltaZ }
  else if ops.lt s.tMaxY s.tMaxZ then
    { s with y := s.y + stepY, dist := s.tMaxY, tMaxY := ops.add s.tMaxY tDeltaY }
  else
    { s with z := s.z + stepZ, dist := s.tMaxZ, tMaxZ := ops.add s.tMaxZ tDeltaZ }

/-- The loop `while (dist <= maxDistance)` of `raycast`; the first argument bounds the number
of iterations.  `none` is an exhausted bound, `some none` is `return null`. -/
def raycastLoopWith {F : Type} (ops : NumberOps F) (cfg : Config) (w : VoxelWorld)
    (stepX stepY stepZ : Int) (tDeltaX tDeltaY tDeltaZ : F) (maxDistance : F) :
    Nat → RayVars F → Option (Option (RayResult F))
  | 0, _ => none
  | fuel + 1, s =>
    if !ops.le s.dist maxDistance then some none
    else
      let id := getBlock cfg w s.x s.y s.z
      if id ≠ BLOCK.AIR then
        some (some ⟨s.x, s.y, s.z, id, s.prevX, s.prevY, s.prevZ, s.dist⟩)
      else
        raycastLoopWith ops cfg w stepX stepY stepZ tDeltaX tDeltaY tDeltaZ maxDistance fuel
          (raycastAdvanceWith ops stepX stepY stepZ tDeltaX tDeltaY tDeltaZ s)

/-- The vector `dir` of `raycast` after `dir.normalize()`. -/
def rayDirection {F : Type} (ops : NumberOps F) (direction : Vector3 F) : Vector3 F :=
  direction.normalize ops

/-- The vector `originShifted` of `raycast`: the origin moved by `0.0001` along `dir`. -/
def rayOrigin {F : Type} (ops : NumberOps F) (origin direction : Vector3 F) : Vector3 F :=
  origin.addScaledVector ops (rayDirection ops direction) ops.nudge

/-- The cell in which the loop of `raycast` starts: the cell of `originShifted`. -/
def rayStart {F : Type} (ops : NumberOps F) (origin direction : Vector3 F) : Int × Int × Int :=
  (ops.cell (rayOrigin ops origin direction).x, ops.cell (rayOrigin ops origin direction).y,
    ops.cell (rayOrigin ops origin direction).z)

/-- `VoxelWorld.raycast(origin, direction, maxDistance)`, with a bound on the iterations of
its loop. -/
def raycastWith {F : Type} (ops : NumberOps F) (cfg : Config) (w : VoxelWorld)
    (origin direction : Vector3 F) (maxDistance : F) (fuel : Nat) :
    Option (Option (RayResult F)) :=
  if ops.eq (direction.lengthSq ops) ops.zero then some none
  else
    let dir := rayDirection ops direction
    let originShifted := rayOrigin ops origin direction
    let start := rayStart ops origin direction
    raycastLoopWith ops cfg w (rayStep ops dir.x) (rayStep ops dir.y) (rayStep ops dir.z)
      (rayDelta ops dir.x) (rayDelta ops dir.y) (rayDelta ops dir.z) maxDistance fuel
      ⟨start.1, start.2.1, start.2.2, intBoundWith ops originShifted.x dir.x,
        intBoundWith ops originShifted.y dir.y, intBoundWith ops originShifted.z dir.z,
        ops.zero, start.1, start.2.1, start.2.2⟩

/-- The component of a vector on the axis of the unit vector `e`. -/
def Vector3.along {F : Type} (v : Vector3 F) (e : Int × Int × Int) : F :=
  if e.1 ≠ 0 then v.x else if e.2.1 ≠ 0 then v.y else v.z

/-- The values that `tMax` takes on the axis of `e` in the course of the loop: `intBound` of
the shifted origin at first, and `tDelta` more after every step. -/
def rayBoundary {F : Type} (ops : NumberOps F) (origin direction : Vector3 F)
    (e : Int × Int × Int) : Nat → F
  | 0 => intBoundWith ops ((rayOrigin ops origin direction).along e)
      ((rayDirection ops direction).along e)
  | j + 1 => ops.add (rayBoundary ops origin direction e j)
      (rayDelta ops ((rayDirection ops direction).along e))

/-- What the loop of `raycast` keeps about the previous cell: before the first step the
current cell and the previous cell are the starting cell and `dist` is `0`; after a step the
previous cell and the starting cell hold air, and the current cell is the previous cell or
one step along one axis from it. -/
def rayTrack {F : Type} (ops : NumberOps F) (cfg : Config) (w : VoxelWorld)
    (start : Int × Int × Int) (s : RayVars F) : Prop :=
  (s.prevX = s.x ∧ s.prevY = s.y ∧ s.prevZ = s.z ∧
      s.x = start.1 ∧ s.y = start.2.1 ∧ s.z = start.2.2 ∧ s.dist = ops.zero) ∨
    (getBlock cfg w s.prevX s.prevY s.prevZ = BLOCK.AIR ∧
      getBlock cfg w start.1 start.2.1 start.2.2 = BLOCK.AIR ∧
      ((s.x = s.prevX ∧ s.y = s.prevY ∧ s.z = s.prevZ) ∨
        |s.x - s.prevX| + |s.y - s.prevY| + |s.z - s.prevZ| = 1))

/-! ## Exact numbers with the special values of the runtime

An arithmetic for the example runs: rational numbers, computed exactly, with `Infinity`,
`-Infinity` and `NaN`.  There is no rounding and no negative zero; the square root of a
rational is a parameter. -/

/-- A number of the exact arithmetic. -/
inductive ExactNumber where
  | finite (q : Rat)
  | posInfinity
  | negInfinity
  | notANumber
deriving DecidableEq

/-- Unary `-`. -/
def ExactNumber.neg : ExactNumber → ExactNumber
  | ExactNumber.finite q => ExactNumber.finite (-q)
  | ExactNumber.posInfinity => ExactNumber.negInfinity
  | ExactNumber.negInfinity => ExactNumber.posInfinity
  | ExactNumber.notANumber => ExactNumber.notANumber

/-- `Math.abs`. -/
def ExactNumber.abs : ExactNumber → ExactNumber
  | ExactNumber.finite q => ExactNumber.finite |q|
  | ExactNumber.posInfinity => ExactNumber.posInfinity
  | ExactNumber.negInfinity => ExactNumber.posInfinity
  | ExactNumber.notANumber => ExactNumber.notANumber

/-- The operator `+`. -/
def ExactNumber.add : ExactNumber → ExactNumber → ExactNumber
  | ExactNumber.finite a, ExactNumber.finite b => ExactNumber.finite (a + b)
  | ExactNumber.finite _, ExactNumber.posInfinity => ExactNumber.posInfinity
  | ExactNumber.finite _, ExactNumber.negInfinity => ExactNumber.negInfinity
  | ExactNumber.posInfinity, ExactNumber.finite _ => ExactNumber.posInfinity
  | ExactNumber.posInfinity, ExactNumber.posInfinity => ExactNumber.posInfinity
  | ExactNumber.negInfinity, ExactNumber.finite _ => ExactNumber.negInfinity
  | ExactNumber.negInfinity, ExactNumber.negInfinity => ExactNumber.negInfinity
  | _, _ => ExactNumber.notANumber

/-- The operator `-`. -/
def ExactNumber.sub (a b : ExactNumber) : ExactNumber := a.add b.neg

/-- The sign of a number that is not `NaN`: 1, 0 or -1. -/
def ExactNumber.sign : ExactNumber → Int
  | ExactNumber.finite q => if 0 < q then 1 else if q < 0 then -1 else 0
  | ExactNumber.posInfinity => 1
  | ExactNumber.negInfinity => -1
  | ExactNumber.notANumber => 0

/-- The infinity of the given sign; `NaN` for the sign 0. -/
def ExactNumber.ofSign (s : Int) : ExactNumber :=
  if 0 < s then ExactNumber.posInfinity
  else if s < 0 then ExactNumber.negInfinity else ExactNumber.notANumber

/-- The operator `*`. -/
def ExactNumber.mul : ExactNumber → ExactNumber → ExactNumber
  | ExactNumber.finite a, ExactNumber.finite b => ExactNumber.finite (a * b)
  | ExactNumber.notANumber, _ => ExactNumber.notANumber
  | _, ExactNumber.notANumber => ExactNumber.notANumber
  | a, b => ExactNumber.ofSign (a.sign * b.sign)

/-- The operator `/`; a zero divisor is taken as positive. -/
def ExactNumber.div (a b : ExactNumber) : ExactNumber :=
  match a, b with
  | ExactNumber.finite p, ExactNumber.finite q =>
    if q = 0 then ExactNumber.ofSign (ExactNumber.finite p).sign else ExactNumber.finite (p / q)
  | ExactNumber.notANumber, _ => ExactNumber.notANumber
  | _, ExactNumber.notANumber => ExactNumber.notANumber
  | ExactNumber.finite _, _ => ExactNumber.finite 0
  | _, ExactNumber.finite q => ExactNumber.ofSign (a.sign * (if q < 0 then -1 else 1))
  | _, _ => ExactNumber.notANumber

/-- `Math.sqrt`, for a square root `sqrtQ` of the rationals. -/
def ExactNumber.sqrt (sqrtQ : Rat → Rat) : ExactNumber → ExactNumber
  | ExactNumber.finite q => if q < 0 then ExactNumber.notANumber else ExactNumber.finite (sqrtQ q)
  | ExactNumber.posInfinity => ExactNumber.posInfinity
  | _ => ExactNumber.notANumber

/-- `Math.floor`. -/
def ExactNumber.floor : ExactNumber → ExactNumber
  | ExactNumber.finite q => ExactNumber.finite ((⌊q⌋ : Int) : Rat)
  | a => a

/-- The comparison `a < b`. -/
def ExactNumber.lt : ExactNumber → ExactNumber → Bool
  | ExactNumber.finite a, ExactNumber.finite b => decide (a < b)
  | ExactNumber.finite _, ExactNumber.posInfinity => true
  | ExactNumber.negInfinity, ExactNumber.finite _ => true
  | ExactNumber.negInfinity, ExactNumber.posInfinity => true
  | _, _ => false

/-- The comparison `a <= b`. -/
def ExactNumber.le : ExactNumber → ExactNumber → Bool
  | ExactNumber.finite a, ExactNumber.finite b => decide (a ≤ b)
  | ExactNumber.finite _, ExactNumber.posInfinity => true
  | ExactNumber.negInfinity, ExactNumber.finite _ => true
  | ExactNumber.negInfinity, ExactNumber.posInfinity => true
  | ExactNumber.posInfinity, ExactNumber.posInfinity => true
  | ExactNumber.negInfinity, ExactNumber.negInfinity => true
  | _, _ => false

/-- The comparison `a === b`. -/
def ExactNumber.eq : ExactNumber → ExactNumber → Bool
  | ExactNumber.finite a, ExactNumber.finite b => decide (a = b)
  | ExactNumber.posInfinity, ExactNumber.posInfinity => true
  | ExactNumber.negInfinity, ExactNumber.negInfinity => true
  | _, _ => false

/-- The truth value of a number: false for `0` and `NaN`. -/
def ExactNumber.truthy : ExactNumber → Bool
  | ExactNumber.finite q => decide (q ≠ 0)
  | ExactNumber.notANumber => false
  | _ => true

/-- `Math.floor` read as a cell coordinate; a number that is not finite names no cell, and 0
stands for it. -/
def ExactNumber.cell : ExactNumber → Int
  | ExactNumber.finite q => ⌊q⌋
  | _ => 0

/-- The exact arithmetic as a `NumberOps`, for a square root `sqrtQ` of the rationals. -/
def exactOps (sqrtQ : Rat → Rat) : NumberOps ExactNumber :=
  { zero := ExactNumber.finite 0, one := ExactNumber.finite 1,
    nudge := ExactNumber.finite (1 / 10000), infinity := ExactNumber.posInfinity,
    add := ExactNumber.add, sub := ExactNumber.sub, mul := ExactNumber.mul,
    div := ExactNumber.div, neg := ExactNumber.neg, abs := ExactNumber.abs,
    sqrt := ExactNumber.sqrt sqrtQ, floor := ExactNumber.floor, lt := ExactNumber.lt,
    le := ExactNumber.le, eq := ExactNumber.eq, truthy := ExactNumber.truthy,
    cell := ExactNumber.cell }

/-- With `sampleConfig`: a stone block at `(2, 0, 0)`; everything else is air. -/
def nudgeWorld : VoxelWorld := worldOfBlocks (fun i => if i = 2 then 3 else 0)

/-- The triple that is `t` on the axis of the unit vector `e` and `inf` on the two others. -/
def axisTriple {F : Type} (e : Int × Int × Int) (t inf : F) : F × F × F :=
  (if e.1 ≠ 0 then t else inf, if e.2.1 ≠ 0 then t else inf, if e.2.2 ≠ 0 then t else inf)

/-- The ray of the first example: from `(0.5, 0.5, 0.5)` along `(2, 2, 1)`. -/
def tieRayOrigin : Vector3 ExactNumber :=
  ⟨ExactNumber.finite (1 / 2), ExactNumber.finite (1 / 2), ExactNumber.finite (1 / 2)⟩

/-- The direction `(2, 2, 1)`. -/
def tieRayDirection : Vector3 ExactNumber :=
  ⟨ExactNumber.finite 2, ExactNumber.finite 2, ExactNumber.finite 1⟩

/-- The hit of the ray from `tieRayOrigin` along `tieRayDirection` in `tieWorld`: the stone
block at `(0, 1, 0)`, entered from `(0, 0, 0)` at the distance 0.7499. -/
def tieRayResult : RayResult ExactNumber :=
  ⟨0, 1, 0, 3, 0, 0, 0, ExactNumber.finite (7499 / 10000)⟩

/-- The origin `(0.5, 0.5, -5)` of the ray of the specification's example. -/
def exampleRayOrigin : Vector3 ExactNumber :=
  ⟨ExactNumber.finite (1 / 2), ExactNumber.finite (1 / 2), ExactNumber.finite (-5)⟩

/-- The direction `(0, 0, 1)` of the ray of the specification's example. -/
def exampleRayDirection : Vector3 ExactNumber :=
  ⟨ExactNumber.finite 0, ExactNumber.finite 0, ExactNumber.finite 1⟩

/-- The origin `(2.99995, 0.5, 0.5)`: a point of the cell `(2, 0, 0)`, less than 0.0001 from
the cell `(3, 0, 0)`. -/
def nudgeRayOrigin : Vector3 ExactNumber :=
  ⟨ExactNumber.finite (59999 / 20000), ExactNumber.finite (1 / 2), ExactNumber.finite (1 / 2)⟩

/-- The direction `(1, 0, 0)`. -/
def nudgeRayDirection : Vector3 ExactNumber :=
  ⟨ExactNumber.finite 1, ExactNumber.finite 0, ExactNumber.finite 0⟩

/-! ## Integer remainders -/

theorem tmod_neg_left (a b : Int) : Int.tmod (-a) b = -Int.tmod a b := by
  rw [Int.tmod_def, Int.tmod_def, Int.neg_tdiv]; ring

theorem tmod_bounds (a b : Int) (hb : 0 < b) :
    (0 ≤ a → Int.tmod a b = a % b) ∧ (a < 0 → Int.tmod a b = -((-a) % b)) := by
  constructor
  · intro ha; exact Int.tmod_eq_emod ha (le_of_lt hb)
  · intro ha
    have h := tmod_neg_left (-a) b
    rw [neg_neg] at h
    rw [h, Int.tmod_eq_emod (by omega) (le_of_lt hb)]

theorem local_eq_emod (a b : Int) (hb : 0 < b) :
    (if Int.tmod a b < 0 then Int.tmod a b + b else Int.tmod a b) = a % b := by
  have hm0 : 0 ≤ a % b := Int.emod_nonneg _ (by omega)
  have hmb : a % b < b := Int.emod_lt_of_pos _ hb
  have hn0 : 0 ≤ (-a) % b := Int.emod_nonneg _ (by omega)
  have hnb : (-a) % b < b := Int.emod_lt_of_pos _ hb
  have e1 := Int.emod_add_ediv a b
  have e2 := Int.emod_add_ediv (-a) b
  obtain ⟨h1, h2⟩ := tmod_bounds a b hb
  by_cases ha : 0 ≤ a
  · rw [h1 ha]; simp [not_lt.mpr hm0]
  · rw [h2 (by omega)]
    have key : (a % b = 0 ∧ (-a) % b = 0) ∨ (a % b + (-a) % b = b) := by
      have hdvd : b ∣ (a % b + (-a) % b) := by
        refine ⟨-(a / b) - (-a / b), ?_⟩
        have hr : b * (-(a / b) - (-a / b)) = -(b * (a / b)) - b * (-a / b) := by ring
        rw [hr]; omega
      obtain ⟨k, hk⟩ := hdvd
      have hk1 : k = 0 ∨ k = 1 := by
        have hk0 : 0 ≤ k := by
          by_contra hneg
          have : b * k < 0 := Int.mul_neg_of_pos_of_neg hb (by omega)
          omega
        have hlt : b * k < b * 2 := by omega
        have : k < 2 := lt_of_mul_lt_mul_left hlt (le_of_lt hb)
        omega
      rcases hk1 with rfl | rfl
      · left; omega
      · right; omega
    rcases key with ⟨k1, k2⟩ | k
    · simp [k1, k2]
    · split_ifs with hlt <;> omega

/-! ## Block codec: decoding an encoded id -/

theorem normalizeHorizontalDir_of_range (d : Int) (h0 : 0 ≤ d) (h4 : d < 4) :
    normalizeHorizontalDir d = d := by
  interval_cases d <;> rfl

theorem normalizeHorizontalDir_range (d : Int) :
    0 ≤ normalizeHorizontalDir d ∧ normalizeHorizontalDir d < 4 := by
  unfold normalizeHorizontalDir
  obtain ⟨h1, h2⟩ := tmod_bounds d 4 (by decide)
  have h3 : 0 ≤ Int.tmod d 4 + 4 := by
    by_cases hd : 0 ≤ d
    · rw [h1 hd]; omega
    · rw [h2 (by omega)]; omega
  rw [Int.tmod_eq_emod h3 (by decide)]
  omega

/-- C1. Codec round trip: for every facing `d` in 0..3, flag `b`, output or power `p` in
0..15 and level `l` in 0..7, each decoder applied to the encoded id gives back the encoded
fields, for the comparator, repeater, piston, piston head, dust and flowing water families. -/
theorem codec_round_trip (d p l : Int) (b : Bool)
    (hd : 0 ≤ d ∧ d < 4) (hp : 0 ≤ p ∧ p < 16) (hl : 0 ≤ l ∧ l < 8) :
    (getComparatorDir (makeComparatorId d b p) = d ∧
      isComparatorSubtract (makeComparatorId d b p) = b ∧
      getComparatorOutput (makeComparatorId d b p) = p) ∧
    (getRepeaterDir (makeRepeaterId d b) = d ∧ isRepeaterPowered (makeRepeaterId d b) = b) ∧
    (getPistonDir (makePistonId d b) = d ∧ isPistonExtended (makePistonId d b) = b) ∧
    getPistonHeadDir (makePistonHeadId d) = d ∧
    getDustPower (makeDustId p) = p ∧
    getWaterLevel (getFlowingWaterId l) = some l := by
  obtain ⟨hd0, hd4⟩ := hd
  obtain ⟨hp0, hp16⟩ := hp
  obtain ⟨hl0, hl8⟩ := hl
  have hn := normalizeHorizontalDir_of_range d hd0 hd4
  refine ⟨⟨?_, ?_, ?_⟩, ⟨?_, ?_⟩, ⟨?_, ?_⟩, ?_, ?_, ?_⟩
  · interval_cases d <;> cases b <;> interval_cases p <;> decide
  · interval_cases d <;> cases b <;> interval_cases p <;> decide
  · interval_cases d <;> cases b <;> interval_cases p <;> decide
  · interval_cases d <;> cases b <;> decide
  · interval_cases d <;> cases b <;> decide
  · interval_cases d <;> cases b <;> decide
  · interval_cases d <;> cases b <;> decide
  · interval_cases d <;> decide
  · interval_cases p <;> decide
  · interval_cases l <;> decide

theorem codec_round_trip_witness :
    (getComparatorDir (makeComparatorId 3 true 15) = 3 ∧
      isComparatorSubtract (makeComparatorId 3 true 15) = true ∧
      getComparatorOutput (makeComparatorId 3 true 15) = 15) ∧
    (getRepeaterDir (makeRepeaterId 3 true) = 3 ∧
      isRepeaterPowered (makeRepeaterId 3 true) = true) ∧
    (getPistonDir (makePistonId 3 true) = 3 ∧ isPistonExtended (makePistonId 3 true) = true) ∧
    getPistonHeadDir (makePistonHeadId 3) = 3 ∧
    getDustPower (makeDustId 15) = 15 ∧
    getWaterLevel (getFlowingWaterId 7) = some 7 :=
  codec_round_trip 3 15 7 true (by decide) (by decide) (by decide)

/-! ## World store: coordinates -/

theorem worldToChunkCoord_eq (cfg : Config) (h : 0 < cfg.CHUNK_SIZE) (v : Int) :
    worldToChunkCoord cfg v = v / cfg.CHUNK_SIZE := by
  unfold worldToChunkCoord
  exact Int.fdiv_eq_ediv v (le_of_lt h)

theorem worldToLocalCoord_eq (cfg : Config) (h : 0 < cfg.CHUNK_SIZE) (v : Int) :
    worldToLocalCoord cfg v = v % cfg.CHUNK_SIZE := by
  unfold worldToLocalCoord
  exact local_eq_emod v cfg.CHUNK_SIZE h

theorem worldToLocalCoord_range (cfg : Config) (h : 0 < cfg.CHUNK_SIZE) (v : Int) :
    0 ≤ worldToLocalCoord cfg v ∧ worldToLocalCoord cfg v < cfg.CHUNK_SIZE := by
  rw [worldToLocalCoord_eq cfg h]
  exact ⟨Int.emod_nonneg _ (by omega), Int.emod_lt_of_pos _ h⟩

theorem world_coord_split (cfg : Config) (h : 0 < cfg.CHUNK_SIZE) (v : Int) :
    worldToChunkCoord cfg v * cfg.CHUNK_SIZE + worldToLocalCoord cfg v = v := by
  rw [worldToChunkCoord_eq cfg h, worldToLocalCoord_eq cfg h]
  have := Int.emod_add_ediv v cfg.CHUNK_SIZE
  rw [mul_comm]; omega

theorem world_coord_inj (cfg : Config) (h : 0 < cfg.CHUNK_SIZE) (a b : Int)
    (hc : worldToChunkCoord cfg a = worldToChunkCoord cfg b)
    (hl : worldToLocalCoord cfg a = worldToLocalCoord cfg b) : a = b := by
  rw [← world_coord_split cfg h a, ← world_coord_split cfg h b, hc, hl]

theorem digit_inj (b a a' r r' : Int) (hb : 0 < b) (hr : 0 ≤ r ∧ r < b) (hr' : 0 ≤ r' ∧ r' < b)
    (h : a * b + r = a' * b + r') : a = a' ∧ r = r' := by
  have h1 : (a * b + r) % b = r := by
    rw [add_comm, mul_comm, Int.add_mul_emod_self_left]
    exact Int.emod_eq_of_lt hr.1 hr.2
  have h2 : (a' * b + r') % b = r' := by
    rw [add_comm, mul_comm, Int.add_mul_emod_self_left]
    exact Int.emod_eq_of_lt hr'.1 hr'.2
  have hrr : r = r' := by rw [← h1, ← h2, h]
  refine ⟨?_, hrr⟩
  subst hrr
  have h3 : a * b = a' * b := by omega
  exact Int.eq_of_mul_eq_mul_right (by omega) h3

theorem index_inj (cfg : Config) (h : 0 < cfg.CHUNK_SIZE) (lx y lz lx' y' lz' : Int)
    (hx : 0 ≤ lx ∧ lx < cfg.CHUNK_SIZE) (hz : 0 ≤ lz ∧ lz < cfg.CHUNK_SIZE)
    (hx' : 0 ≤ lx' ∧ lx' < cfg.CHUNK_SIZE) (hz' : 0 ≤ lz' ∧ lz' < cfg.CHUNK_SIZE)
    (hi : VoxelChunk.index cfg lx y lz = VoxelChunk.index cfg lx' y' lz') :
    lx = lx' ∧ y = y' ∧ lz = lz' := by
  unfold VoxelChunk.index at hi
  have e1 : y * cfg.CHUNK_SIZE * cfg.CHUNK_SIZE + lz * cfg.CHUNK_SIZE + lx
      = (y * cfg.CHUNK_SIZE + lz) * cfg.CHUNK_SIZE + lx := by ring
  have e2 : y' * cfg.CHUNK_SIZE * cfg.CHUNK_SIZE + lz' * cfg.CHUNK_SIZE + lx'
      = (y' * cfg.CHUNK_SIZE + lz') * cfg.CHUNK_SIZE + lx' := by ring
  rw [e1, e2] at hi
  obtain ⟨h1, h2⟩ := digit_inj _ _ _ _ _ h hx hx' hi
  obtain ⟨h3, h4⟩ := digit_inj _ _ _ _ _ h hz hz' h1
  exact ⟨h2, h3, h4⟩

theorem toUint8_val (id : Int) : ((toUint8 id).val : Int) = id % 256 := by
  unfold toUint8
  have h1 : 0 ≤ id % 256 := Int.emod_nonneg _ (by decide)
  simp only []
  omega

theorem toUint8_of_byte (id : Int) (h0 : 0 ≤ id) (h1 : id < 256) :
    ((toUint8 id).val : Int) = id := by
  rw [toUint8_val]; omega

/-! ## World store: reading -/

theorem chunk_get_range (cfg : Config) (c : VoxelChunk) (lx y lz : Int) :
    0 ≤ c.get cfg lx y lz ∧ c.get cfg lx y lz < 256 := by
  unfold VoxelChunk.get
  split
  · decide
  · constructor <;> omega

theorem getBlock_range (cfg : Config) (w : VoxelWorld) (x y z : Int) :
    0 ≤ getBlock cfg w x y z ∧ getBlock cfg w x y z < 256 := by
  unfold getBlock
  split
  · decide
  · simp only []
    split
    · decide
    · exact chunk_get_range _ _ _ _ _

theorem getBlock_congr (cfg : Config) (w1 w2 : VoxelWorld) (h : w1.chunks = w2.chunks)
    (x y z : Int) : getBlock cfg w1 x y z = getBlock cfg w2 x y z := by
  unfold getBlock getChunk
  rw [h]

theorem getBlock_of_not_loaded (cfg : Config) (w : VoxelWorld) (x y z : Int)
    (h : ¬ cellLoaded cfg w x y z) : getBlock cfg w x y z = BLOCK.AIR := by
  unfold getBlock
  split
  · rfl
  · rename_i hy
    simp only []
    split
    · rfl
    · rename_i chunk hc
      exfalso
      apply h
      refine ⟨by omega, by omega, ?_⟩
      unfold hasChunk
      unfold getChunk at hc
      rw [hc]; rfl

theorem cellLoaded_of_getBlock_ne (cfg : Config) (w : VoxelWorld) (x y z : Int)
    (h : getBlock cfg w x y z ≠ BLOCK.AIR) : cellLoaded cfg w x y z := by
  by_contra hn
  exact h (getBlock_of_not_loaded cfg w x y z hn)

theorem cellLoaded_congr (cfg : Config) (w1 w2 : VoxelWorld)
    (h : ∀ k, (w1.chunks k).isSome = (w2.chunks k).isSome) (x y z : Int) :
    cellLoaded cfg w1 x y z ↔ cellLoaded cfg w2 x y z := by
  unfold cellLoaded hasChunk
  rw [h]

/-! ## World store: which fields each operation touches -/

@[simp] theorem markChunkDirty_chunks (w : VoxelWorld) (cx cz : Int) :
    (markChunkDirty w cx cz).chunks = w.chunks := by
  unfold markChunkDirty; split <;> rfl

@[simp] theorem markChunkDirty_fluidQueue (w : VoxelWorld) (cx cz : Int) :
    (markChunkDirty w cx cz).fluidQueue = w.fluidQueue := by
  unfold markChunkDirty; split <;> rfl

@[simp] theorem markChunkDirty_fluidQueued (w : VoxelWorld) (cx cz : Int) :
    (markChunkDirty w cx cz).fluidQueued = w.fluidQueued := by
  unfold markChunkDirty; split <;> rfl

@[simp] theorem markChunkDirty_redstoneQueue (w : VoxelWorld) (cx cz : Int) :
    (markChunkDirty w cx cz).redstoneQueue = w.redstoneQueue := by
  unfold markChunkDirty; split <;> rfl

@[simp] theorem markChunkDirty_redstoneQueued (w : VoxelWorld) (cx cz : Int) :
    (markChunkDirty w cx cz).redstoneQueued = w.redstoneQueued := by
  unfold markChunkDirty; split <;> rfl

@[simp] theorem markChunkDirty_editsByChunk (w : VoxelWorld) (cx cz : Int) :
    (markChunkDirty w cx cz).editsByChunk = w.editsByChunk := by
  unfold markChunkDirty; split <;> rfl

@[simp] theorem recordEdit_chunks (w : VoxelWorld) (cx cz lx y lz id : Int) :
    (recordEdit w cx cz lx y lz id).chunks = w.chunks := rfl

@[simp] theorem enqueueFluidUpdate_chunks (cfg : Config) (w : VoxelWorld) (x y z : Int) :
    (enqueueFluidUpdate cfg w x y z).chunks = w.chunks := by
  simp only [enqueueFluidUpdate]; split_ifs <;> rfl

@[simp] theorem enqueueFluidUpdate_redstoneQueue (cfg : Config) (w : VoxelWorld) (x y z : Int) :
    (enqueueFluidUpdate cfg w x y z).redstoneQueue = w.redstoneQueue := by
  simp only [enqueueFluidUpdate]; split_ifs <;> rfl

@[simp] theorem enqueueFluidUpdate_redstoneQueued (cfg : Config) (w : VoxelWorld) (x y z : Int) :
    (enqueueFluidUpdate cfg w x y z).redstoneQueued = w.redstoneQueued := by
  simp only [enqueueFluidUpdate]; split_ifs <;> rfl

@[simp] theorem enqueueFluidUpdate_editsByChunk (cfg : Config) (w : VoxelWorld) (x y z : Int) :
    (enqueueFluidUpdate cfg w x y z).editsByChunk = w.editsByChunk := by
  simp only [enqueueFluidUpdate]; split_ifs <;> rfl

@[simp] theorem enqueueRedstoneUpdate_chunks (cfg : Config) (w : VoxelWorld) (x y z : Int) :
    (enqueueRedstoneUpdate cfg w x y z).chunks = w.chunks := by
  simp only [enqueueRedstoneUpdate]; split_ifs <;> rfl

@[simp] theorem enqueueRedstoneUpdate_fluidQueue (cfg : Config) (w : VoxelWorld) (x y z : Int) :
    (enqueueRedstoneUpdate cfg w x y z).fluidQueue = w.fluidQueue := by
  simp only [enqueueRedstoneUpdate]; split_ifs <;> rfl

@[simp] theorem enqueueRedstoneUpdate_fluidQueued (cfg : Config) (w : VoxelWorld) (x y z : Int) :
    (enqueueRedstoneUpdate cfg w x y z).fluidQueued = w.fluidQueued := by
  simp only [enqueueRedstoneUpdate]; split_ifs <;> rfl

@[simp] theorem enqueueRedstoneUpdate_editsByChunk (cfg : Config) (w : VoxelWorld) (x y z : Int) :
    (enqueueRedstoneUpdate cfg w x y z).editsByChunk = w.editsByChunk := by
  simp only [enqueueRedstoneUpdate]; split_ifs <;> rfl

@[simp] theorem enqueueFluidNeighbors_chunks (cfg : Config) (w : VoxelWorld) (x y z : Int) :
    (enqueueFluidNeighbors cfg w x y z).chunks = w.chunks := by
  simp [enqueueFluidNeighbors, List.foldl]

@[simp] theorem enqueueFluidNeighbors_redstoneQueue (cfg : Config) (w : VoxelWorld) (x y z : Int) :
    (enqueueFluidNeighbors cfg w x y z).redstoneQueue = w.redstoneQueue := by
  simp [enqueueFluidNeighbors, List.foldl]

@[simp] theorem enqueueFluidNeighbors_redstoneQueued (cfg : Config) (w : VoxelWorld) (x y z : Int) :
    (enqueueFluidNeighbors cfg w x y z).redstoneQueued = w.redstoneQueued := by
  simp [enqueueFluidNeighbors, List.foldl]

@[simp] theorem enqueueFluidNeighbors_editsByChunk (cfg : Config) (w : VoxelWorld) (x y z : Int) :
    (enqueueFluidNeighbors cfg w x y z).editsByChunk = w.editsByChunk := by
  simp [enqueueFluidNeighbors, List.foldl]

@[simp] theorem enqueueRedstoneNeighbors_chunks (cfg : Config) (w : VoxelWorld) (x y z : Int) :
    (enqueueRedstoneNeighbors cfg w x y z).chunks = w.chunks := by
  simp [enqueueRedstoneNeighbors, ALL_NEIGHBOR_OFFSETS, List.foldl]

@[simp] theorem enqueueRedstoneNeighbors_fluidQueue (cfg : Config) (w : VoxelWorld) (x y z : Int) :
    (enqueueRedstoneNeighbors cfg w x y z).fluidQueue = w.fluidQueue := by
  simp [enqueueRedstoneNeighbors, ALL_NEIGHBOR_OFFSETS, List.foldl]

@[simp] theorem enqueueRedstoneNeighbors_fluidQueued (cfg : Config) (w : VoxelWorld) (x y z : Int) :
    (enqueueRedstoneNeighbors cfg w x y z).fluidQueued = w.fluidQueued := by
  simp [enqueueRedstoneNeighbors, ALL_NEIGHBOR_OFFSETS, List.foldl]

@[simp] theorem enqueueRedstoneNeighbors_editsByChunk (cfg : Config) (w : VoxelWorld) (x y z : Int) :
    (enqueueRedstoneNeighbors cfg w x y z).editsByChunk = w.editsByChunk := by
  simp [enqueueRedstoneNeighbors, ALL_NEIGHBOR_OFFSETS, List.foldl]

@[simp] theorem getBlock_enqueueFluidNeighbors (cfg : Config) (w : VoxelWorld) (x y z a b c : Int) :
    getBlock cfg (enqueueFluidNeighbors cfg w x y z) a b c = getBlock cfg w a b c :=
  getBlock_congr _ _ _ (by simp) _ _ _

@[simp] theorem getBlock_enqueueRedstoneNeighbors (cfg : Config) (w : VoxelWorld)
    (x y z a b c : Int) :
    getBlock cfg (enqueueRedstoneNeighbors cfg w x y z) a b c = getBlock cfg w a b c :=
  getBlock_congr _ _ _ (by simp) _ _ _

/-! ## World store: `setBlock` -/

theorem ite_chunks (c : Prop) [Decidable c] (a b : VoxelWorld) (h : a.chunks = b.chunks) :
    (if c then a else b).chunks = b.chunks := by
  split <;> simp [h]

theorem ite_fluidQueue (c : Prop) [Decidable c] (a b : VoxelWorld) (h : a.fluidQueue = b.fluidQueue) :
    (if c then a else b).fluidQueue = b.fluidQueue := by
  split <;> simp [h]

theorem ite_fluidQueued (c : Prop) [Decidable c] (a b : VoxelWorld) (h : a.fluidQueued = b.fluidQueued) :
    (if c then a else b).fluidQueued = b.fluidQueued := by
  split <;> simp [h]

theorem ite_redstoneQueue (c : Prop) [Decidable c] (a b : VoxelWorld) (h : a.redstoneQueue = b.redstoneQueue) :
    (if c then a else b).redstoneQueue = b.redstoneQueue := by
  split <;> simp [h]

theorem ite_redstoneQueued (c : Prop) [Decidable c] (a b : VoxelWorld) (h : a.redstoneQueued = b.redstoneQueued) :
    (if c then a else b).redstoneQueued = b.redstoneQueued := by
  split <;> simp [h]

theorem ite_editsByChunk (c : Prop) [Decidable c] (a b : VoxelWorld) (h : a.editsByChunk = b.editsByChunk) :
    (if c then a else b).editsByChunk = b.editsByChunk := by
  split <;> simp [h]

theorem setBlock_unfold (cfg : Config) (w : VoxelWorld) (x y z id : Int) (opts : SetBlockOptions) :
    setBlock cfg w x y z id opts =
      if y < 0 ∨ y ≥ cfg.WORLD_HEIGHT then (w, false)
      else match getChunk w (worldToChunkCoord cfg x) (worldToChunkCoord cfg z) with
        | none => (w, false)
        | some chunk =>
          if chunk.get cfg (worldToLocalCoord cfg x) y (worldToLocalCoord cfg z) = id then
            (w, false)
          else (setBlockCommit cfg w chunk x y z id opts, true) := rfl

theorem setBlockCommit_chunks (cfg : Config) (w : VoxelWorld) (chunk : VoxelChunk)
    (x y z id : Int) (opts : SetBlockOptions) :
    (setBlockCommit cfg w chunk x y z id opts).chunks = fun k =>
        if k = (worldToChunkCoord cfg x, worldToChunkCoord cfg z) then
          some (chunk.set cfg (worldToLocalCoord cfg x) y (worldToLocalCoord cfg z) id)
        else w.chunks k := by
  unfold setBlockCommit
  simp only [ite_chunks, markChunkDirty_chunks, recordEdit_chunks,
    enqueueFluidNeighbors_chunks, enqueueRedstoneNeighbors_chunks]

theorem setBlockCommit_fluidQueue (cfg : Config) (w : VoxelWorld) (chunk : VoxelChunk)
    (x y z id : Int) :
    (setBlockCommit cfg w chunk x y z id internalWrite).fluidQueue = w.fluidQueue := by
  unfold setBlockCommit internalWrite
  simp only [ite_fluidQueue, markChunkDirty_fluidQueue, Bool.false_eq_true, if_false]

theorem setBlockCommit_fluidQueued (cfg : Config) (w : VoxelWorld) (chunk : VoxelChunk)
    (x y z id : Int) :
    (setBlockCommit cfg w chunk x y z id internalWrite).fluidQueued = w.fluidQueued := by
  unfold setBlockCommit internalWrite
  simp only [ite_fluidQueued, markChunkDirty_fluidQueued, Bool.false_eq_true, if_false]

theorem setBlockCommit_redstoneQueue (cfg : Config) (w : VoxelWorld) (chunk : VoxelChunk)
    (x y z id : Int) :
    (setBlockCommit cfg w chunk x y z id internalWrite).redstoneQueue = w.redstoneQueue := by
  unfold setBlockCommit internalWrite
  simp only [ite_redstoneQueue, markChunkDirty_redstoneQueue, Bool.false_eq_true, if_false]

theorem setBlockCommit_redstoneQueued (cfg : Config) (w : VoxelWorld) (chunk : VoxelChunk)
    (x y z id : Int) :
    (setBlockCommit cfg w chunk x y z id internalWrite).redstoneQueued = w.redstoneQueued := by
  unfold setBlockCommit internalWrite
  simp only [ite_redstoneQueued, markChunkDirty_redstoneQueued, Bool.false_eq_true, if_false]

theorem setBlockCommit_editsByChunk (cfg : Config) (w : VoxelWorld) (chunk : VoxelChunk)
    (x y z id : Int) :
    (setBlockCommit cfg w chunk x y z id internalWrite).editsByChunk = w.editsByChunk := by
  unfold setBlockCommit internalWrite
  simp only [ite_editsByChunk, markChunkDirty_editsByChunk, Bool.false_eq_true, if_false]

theorem cellLoaded_chunk (cfg : Config) (w : VoxelWorld) (x y z : Int)
    (h : cellLoaded cfg w x y z) :
    ∃ chunk, getChunk w (worldToChunkCoord cfg x) (worldToChunkCoord cfg z) = some chunk := by
  obtain ⟨_, _, h3⟩ := h
  unfold hasChunk at h3
  unfold getChunk
  exact Option.isSome_iff_exists.mp h3

theorem getBlock_of_chunk (cfg : Config) (w : VoxelWorld) (x y z : Int) (chunk : VoxelChunk)
    (hy0 : 0 ≤ y) (hy1 : y < cfg.WORLD_HEIGHT)
    (hc : getChunk w (worldToChunkCoord cfg x) (worldToChunkCoord cfg z) = some chunk) :
    getBlock cfg w x y z =
      chunk.get cfg (worldToLocalCoord cfg x) y (worldToLocalCoord cfg z) := by
  unfold getBlock
  rw [if_neg (by omega)]
  simp only [hc]

/-- A rejected write returns the world itself. -/
theorem setBlock_rejected (cfg : Config) (w : VoxelWorld) (x y z id : Int)
    (opts : SetBlockOptions)
    (h : ¬ cellLoaded cfg w x y z ∨ getBlock cfg w x y z = id) :
    setBlock cfg w x y z id opts = (w, false) := by
  rw [setBlock_unfold]
  by_cases hy : y < 0 ∨ y ≥ cfg.WORLD_HEIGHT
  · rw [if_pos hy]
  · rw [if_neg hy]
    cases hc : getChunk w (worldToChunkCoord cfg x) (worldToChunkCoord cfg z) with
    | none => rfl
    | some chunk =>
      simp only []
      have hg := getBlock_of_chunk cfg w x y z chunk (by omega) (by omega) hc
      rcases h with h | h
      · exfalso; apply h
        refine ⟨by omega, by omega, ?_⟩
        unfold hasChunk; unfold getChunk at hc; rw [hc]; rfl
      · rw [← hg, if_pos h]

/-- An accepted write is the commit of the write into the chunk that holds the cell. -/
theorem setBlock_accepted (cfg : Config) (w : VoxelWorld) (x y z id : Int)
    (opts : SetBlockOptions)
    (hl : cellLoaded cfg w x y z) (hne : getBlock cfg w x y z ≠ id) :
    ∃ chunk, getChunk w (worldToChunkCoord cfg x) (worldToChunkCoord cfg z) = some chunk ∧
      setBlock cfg w x y z id opts = (setBlockCommit cfg w chunk x y z id opts, true) := by
  obtain ⟨chunk, hc⟩ := cellLoaded_chunk cfg w x y z hl
  refine ⟨chunk, hc, ?_⟩
  have hg := getBlock_of_chunk cfg w x y z chunk hl.1 hl.2.1 hc
  rw [setBlock_unfold, if_neg (by have := hl.1; have := hl.2.1; omega)]
  simp only [hc]
  rw [if_neg (by rw [← hg]; exact hne)]

theorem chunk_get_set_same (cfg : Config) (c : VoxelChunk) (lx y lz id : Int)
    (hx : 0 ≤ lx ∧ lx < cfg.CHUNK_SIZE) (hz : 0 ≤ lz ∧ lz < cfg.CHUNK_SIZE)
    (hy : 0 ≤ y ∧ y < cfg.WORLD_HEIGHT) :
    (c.set cfg lx y lz id).get cfg lx y lz = id % 256 := by
  unfold VoxelChunk.get VoxelChunk.set
  rw [if_neg (by omega), if_neg (by omega)]
  simp only [if_true]
  exact toUint8_val id

theorem chunk_get_set_other (cfg : Config) (h : 0 < cfg.CHUNK_SIZE) (c : VoxelChunk)
    (lx y lz id lx' y' lz' : Int)
    (hx : 0 ≤ lx ∧ lx < cfg.CHUNK_SIZE) (hz : 0 ≤ lz ∧ lz < cfg.CHUNK_SIZE)
    (hne : ¬ (lx' = lx ∧ y' = y ∧ lz' = lz)) :
    (c.set cfg lx y lz id).get cfg lx' y' lz' = c.get cfg lx' y' lz' := by
  unfold VoxelChunk.get
  split
  · rfl
  · rename_i hr
    unfold VoxelChunk.set
    split
    · rfl
    · simp only []
      rw [if_neg]
      intro hi
      apply hne
      exact index_inj cfg h _ _ _ _ _ _ (by omega) (by omega) hx hz hi

/-- Reading the written cell after a write into a loaded cell. -/
theorem getBlock_setBlock_same (cfg : Config) (h : 0 < cfg.CHUNK_SIZE) (w : VoxelWorld)
    (x y z id : Int) (opts : SetBlockOptions) (hl : cellLoaded cfg w x y z) :
    getBlock cfg (setBlock cfg w x y z id opts).1 x y z = id % 256 := by
  by_cases hne : getBlock cfg w x y z = id
  · rw [setBlock_rejected cfg w x y z id opts (Or.inr hne)]
    have hr := getBlock_range cfg w x y z
    simp only []
    rw [hne] at hr ⊢
    omega
  · obtain ⟨chunk, hc, hs⟩ := setBlock_accepted cfg w x y z id opts hl hne
    rw [hs]
    simp only []
    have hc' : getChunk (setBlockCommit cfg w chunk x y z id opts)
        (worldToChunkCoord cfg x) (worldToChunkCoord cfg z) =
        some (chunk.set cfg (worldToLocalCoord cfg x) y (worldToLocalCoord cfg z) id) := by
      unfold getChunk
      rw [setBlockCommit_chunks]
      simp
    rw [getBlock_of_chunk cfg _ x y z _ hl.1 hl.2.1 hc']
    exact chunk_get_set_same cfg chunk _ _ _ _ (worldToLocalCoord_range cfg h x)
      (worldToLocalCoord_range cfg h z) ⟨hl.1, hl.2.1⟩

/-- Reading any other cell after a write. -/
theorem getBlock_setBlock_other (cfg : Config) (h : 0 < cfg.CHUNK_SIZE) (w : VoxelWorld)
    (x y z id : Int) (opts : SetBlockOptions) (x' y' z' : Int)
    (hne : ¬ (x' = x ∧ y' = y ∧ z' = z)) :
    getBlock cfg (setBlock cfg w x y z id opts).1 x' y' z' = getBlock cfg w x' y' z' := by
  by_cases hrej : ¬ cellLoaded cfg w x y z ∨ getBlock cfg w x y z = id
  · rw [setBlock_rejected cfg w x y z id opts hrej]
  · have hl : cellLoaded cfg w x y z := by
      by_contra hn; exact hrej (Or.inl hn)
    have hid : getBlock cfg w x y z ≠ id := fun e => hrej (Or.inr e)
    obtain ⟨chunk, hc, hs⟩ := setBlock_accepted cfg w x y z id opts hl hid
    rw [hs]
    simp only []
    unfold getBlock
    split
    · rfl
    · simp only [getChunk, setBlockCommit_chunks]
      by_cases hk : (worldToChunkCoord cfg x', worldToChunkCoord cfg z') =
          (worldToChunkCoord cfg x, worldToChunkCoord cfg z)
      · rw [if_pos hk]
        unfold getChunk at hc
        rw [hk, hc]
        simp only []
        apply chunk_get_set_other cfg h chunk _ _ _ _ _ _ _ (worldToLocalCoord_range cfg h x)
          (worldToLocalCoord_range cfg h z)
        rintro ⟨e1, e2, e3⟩
        apply hne
        have hk1 : worldToChunkCoord cfg x' = worldToChunkCoord cfg x := by
          have := congrArg Prod.fst hk; simpa using this
        have hk2 : worldToChunkCoord cfg z' = worldToChunkCoord cfg z := by
          have := congrArg Prod.snd hk; simpa using this
        exact ⟨world_coord_inj cfg h _ _ hk1 e1, e2, world_coord_inj cfg h _ _ hk2 e3⟩
      · rw [if_neg hk]

/-- A write neither loads nor unloads a chunk. -/
theorem setBlock_isSome (cfg : Config) (w : VoxelWorld) (x y z id : Int)
    (opts : SetBlockOptions) (k : ChunkKey) :
    (((setBlock cfg w x y z id opts).1.chunks k).isSome) = (w.chunks k).isSome := by
  by_cases hrej : ¬ cellLoaded cfg w x y z ∨ getBlock cfg w x y z = id
  · rw [setBlock_rejected cfg w x y z id opts hrej]
  · have hl : cellLoaded cfg w x y z := by
      by_contra hn; exact hrej (Or.inl hn)
    have hid : getBlock cfg w x y z ≠ id := fun e => hrej (Or.inr e)
    obtain ⟨chunk, hc, hs⟩ := setBlock_accepted cfg w x y z id opts hl hid
    rw [hs]
    simp only [setBlockCommit_chunks]
    by_cases hk : k = (worldToChunkCoord cfg x, worldToChunkCoord cfg z)
    · rw [if_pos hk, hk]
      unfold getChunk at hc
      rw [hc]; rfl
    · rw [if_neg hk]

theorem cellLoaded_setBlock (cfg : Config) (w : VoxelWorld) (x y z id : Int)
    (opts : SetBlockOptions) (a b c : Int) :
    cellLoaded cfg (setBlock cfg w x y z id opts).1 a b c ↔ cellLoaded cfg w a b c :=
  cellLoaded_congr cfg _ _ (setBlock_isSome cfg w x y z id opts) a b c

/-! ## Redstone signals: ranges -/

theorem getDustPower_range (id : Int) : 0 ≤ getDustPower id ∧ getDustPower id ≤ 15 := by
  unfold getDustPower isRedstoneDust
  split
  · decide
  · rename_i h
    simp only [BLOCK, Bool.not_eq_true', Bool.and_eq_false_iff, decide_eq_false_iff_not,
      not_or, Bool.not_eq_false, decide_eq_true_eq] at h
    simp only [BLOCK]
    omega

theorem getComparatorOutput_range (id : Int) :
    0 ≤ getComparatorOutput id ∧ getComparatorOutput id ≤ 15 := by
  unfold getComparatorOutput isComparator
  split
  · decide
  · rename_i h
    simp only [BLOCK, Bool.not_eq_true', Bool.and_eq_false_iff, decide_eq_false_iff_not,
      not_or, Bool.not_eq_false, decide_eq_true_eq] at h
    simp only [BLOCK]
    rw [Int.tmod_eq_emod (by omega) (by decide)]
    omega

theorem getDirectSignalFromBlock_range (sourceId sx sy sz tx ty tz : Int) :
    (0 ≤ (getDirectSignalFromBlock sourceId sx sy sz tx ty tz).weak ∧
      (getDirectSignalFromBlock sourceId sx sy sz tx ty tz).weak ≤ 15) ∧
    (0 ≤ (getDirectSignalFromBlock sourceId sx sy sz tx ty tz).strong ∧
      (getDirectSignalFromBlock sourceId sx sy sz tx ty tz).strong ≤ 15) := by
  have hd := getDustPower_range sourceId
  have hc := getComparatorOutput_range sourceId
  unfold getDirectSignalFromBlock
  simp only []
  split_ifs <;> simp <;> omega

theorem getSignalFromSourceToTarget_range (cfg : Config) (w : VoxelWorld)
    (sx sy sz tx ty tz : Int) :
    0 ≤ getSignalFromSourceToTarget cfg w sx sy sz tx ty tz ∧
      getSignalFromSourceToTarget cfg w sx sy sz tx ty tz ≤ 15 := by
  have hr := getDirectSignalFromBlock_range (getBlock cfg w sx sy sz) sx sy sz tx ty tz
  unfold getSignalFromSourceToTarget
  simp only []
  split_ifs <;> omega

theorem toInt32_of_small (v : Int) (h0 : -2147483648 ≤ v) (h1 : v < 2147483648) :
    toInt32 v = v := by
  unfold toInt32; omega

theorem clampPower_eq (v : Int) (h0 : -2147483648 ≤ v) (h1 : v < 2147483648) :
    clampPower v = min 15 (max 0 v) := by
  unfold clampPower
  rw [toInt32_of_small v h0 h1]
  omega

/-! ## Family ranges of the encoded ids -/

theorem makeDustId_range (p : Int) : 20 ≤ makeDustId p ∧ makeDustId p ≤ 35 := by
  unfold makeDustId; simp only [BLOCK]; omega

theorem makeComparatorId_range (d : Int) (s : Bool) (o : Int) :
    44 ≤ makeComparatorId d s o ∧ makeComparatorId d s o ≤ 171 := by
  have hn := normalizeHorizontalDir_range d
  unfold makeComparatorId
  simp only [BLOCK]
  cases s <;> simp <;> omega

theorem makeComparatorId_decode (d : Int) (s : Bool) (o : Int) (hd : 0 ≤ d ∧ d < 4)
    (ho : 0 ≤ o ∧ o ≤ 15) :
    isComparator (makeComparatorId d s o) = true ∧
    getComparatorDir (makeComparatorId d s o) = d ∧
    isComparatorSubtract (makeComparatorId d s o) = s ∧
    getComparatorOutput (makeComparatorId d s o) = o := by
  obtain ⟨hd0, hd4⟩ := hd
  obtain ⟨ho0, ho15⟩ := ho
  refine ⟨?_, ?_, ?_, ?_⟩ <;>
    interval_cases d <;> cases s <;> interval_cases o <;> decide

theorem getComparatorDir_range (id : Int) :
    0 ≤ getComparatorDir id ∧ getComparatorDir id < 4 := by
  unfold getComparatorDir isComparator
  split
  · decide
  · rename_i h
    simp only [BLOCK, Bool.not_eq_true', Bool.and_eq_false_iff, decide_eq_false_iff_not,
      not_or, Bool.not_eq_false, decide_eq_true_eq] at h
    simp only [BLOCK]
    rw [Int.fdiv_eq_ediv _ (by decide)]
    omega

/-! ## Fluid engine: basic facts -/

theorem isWater_iff (id : Int) : isWater id = true ↔ id = 9 ∨ (12 ≤ id ∧ id ≤ 19) := by
  unfold isWater isWaterFlowId
  simp only [BLOCK, Bool.or_eq_true, Bool.and_eq_true, decide_eq_true_eq, ge_iff_le]

theorem isWaterSource_iff (id : Int) : isWaterSource id = true ↔ id = 9 := by
  unfold isWaterSource
  simp only [BLOCK, decide_eq_true_eq]

theorem isFlowingWater_iff (id : Int) : isFlowingWater id = true ↔ 12 ≤ id ∧ id ≤ 19 := by
  unfold isFlowingWater isWaterFlowId
  simp only [BLOCK, Bool.and_eq_true, decide_eq_true_eq, ge_iff_le]

theorem support_not_air_nor_water (id : Int) (h : isFluidSupportBlock id = true) :
    id ≠ 0 ∧ isWater id = false := by
  constructor
  · rintro rfl
    exact absurd h (by decide)
  · cases hw : isWater id with
    | false => rfl
    | true =>
      exfalso
      rcases (isWater_iff id).mp hw with rfl | ⟨h1, h2⟩
      · exact absurd h (by decide)
      · interval_cases id <;> exact absurd h (by decide)

theorem waterNeighborStep_le (cfg : Config) (w : VoxelWorld) (x y z : Int) (m : Int)
    (o : Int × Int) :
    ∃ m', waterNeighborStep cfg w x y z (some m) o = some m' ∧ m' ≤ m := by
  unfold waterNeighborStep
  simp only []
  split
  · exact ⟨m, rfl, le_refl _⟩
  · split
    · exact ⟨m, rfl, le_refl _⟩
    · split
      · exact ⟨m, rfl, le_refl _⟩
      · exact ⟨_, rfl, min_le_left _ _⟩

theorem waterNeighborStep_source (cfg : Config) (w : VoxelWorld) (x y z : Int)
    (acc : Option Int) (o : Int × Int)
    (h : isWaterSource (getBlock cfg w (x + o.1) y (z + o.2)) = true) :
    ∃ m', waterNeighborStep cfg w x y z acc o = some m' ∧ m' ≤ 0 := by
  have h9 := (isWaterSource_iff _).mp h
  unfold waterNeighborStep
  simp only [h9]
  have e1 : isWater 9 = true := by decide
  have e2 : isWaterSource 9 = true := by decide
  have e3 : getWaterLevel 9 = some 0 := by decide
  simp only [e1, e2, e3, Bool.not_true, Bool.or_true, Bool.true_or, Bool.false_eq_true, if_false]
  cases acc with
  | none => exact ⟨0, rfl, le_refl _⟩
  | some m => exact ⟨_, rfl, min_le_right _ _⟩

theorem water_fold_le (cfg : Config) (w : VoxelWorld) (x y z : Int) (offs : List (Int × Int))
    (m : Int) :
    ∃ m', offs.foldl (waterNeighborStep cfg w x y z) (some m) = some m' ∧ m' ≤ m := by
  induction offs generalizing m with
  | nil => exact ⟨m, rfl, le_refl _⟩
  | cons o rest ih =>
    obtain ⟨m1, h1, hle1⟩ := waterNeighborStep_le cfg w x y z m o
    obtain ⟨m2, h2, hle2⟩ := ih m1
    refine ⟨m2, ?_, by omega⟩
    rw [List.foldl_cons, h1, h2]

theorem water_fold_source (cfg : Config) (w : VoxelWorld) (x y z : Int)
    (offs : List (Int × Int)) (acc : Option Int)
    (h : ∃ o ∈ offs, isWaterSource (getBlock cfg w (x + o.1) y (z + o.2)) = true) :
    ∃ m, offs.foldl (waterNeighborStep cfg w x y z) acc = some m ∧ m ≤ 0 := by
  induction offs generalizing acc with
  | nil =>
    obtain ⟨o, ho, _⟩ := h
    exact absurd ho (List.not_mem_nil o)
  | cons o rest ih =>
    rw [List.foldl_cons]
    by_cases hs : isWaterSource (getBlock cfg w (x + o.1) y (z + o.2)) = true
    · obtain ⟨m1, h1, hle1⟩ := waterNeighborStep_source cfg w x y z acc o hs
      obtain ⟨m2, h2, hle2⟩ := water_fold_le cfg w x y z rest m1
      exact ⟨m2, by rw [h1, h2], by omega⟩
    · apply ih
      obtain ⟨o', ho', hs'⟩ := h
      rcases List.mem_cons.mp ho' with rfl | hr
      · exact absurd hs' hs
      · exact ⟨o', hr, hs'⟩

/-! ## Pistons: the scanning loop -/

theorem movable_not_free (id : Int) (h : canPistonMoveBlock id = true) :
    ¬ (id = BLOCK.AIR ∨ isWater id = true) := by
  unfold canPistonMoveBlock at h
  intro hf
  rw [if_pos hf] at h
  exact Bool.noConfusion h

theorem descChain_length (x y z : Int) (front : DirVec) (ids : Nat → Int) (k : Nat) :
    (descChain x y z front ids k).length = k := by
  induction k with
  | zero => rfl
  | succ k ih => simp [descChain, ih]

theorem chain_length_of_reverse (chain : List ChainNode) (x y z : Int) (front : DirVec)
    (ids : Nat → Int) (s : Nat) (h : chain.reverse = descChain x y z front ids s) :
    chain.length = s := by
  rw [← List.length_reverse, h, descChain_length]

/-- The scan over `n` movable cells followed by a free cell leaves the loop with the chain of
these `n` cells and the free cell as destination. -/
theorem pistonScan_free (cfg : Config) (w : VoxelWorld) (x y z : Int) (front : DirVec) (n : Nat) :
    ∀ (s f : Nat) (chain : List ChainNode),
      chain.reverse = descChain x y z front
        (fun i => getBlock cfg w (x + (i : Int) * front.dx) y (z + (i : Int) * front.dz)) s →
      s + n ≤ 12 → n < f →
      (∀ i : Nat, s < i → i ≤ s + n → canPistonMoveBlock
        (getBlock cfg w (x + (i : Int) * front.dx) y (z + (i : Int) * front.dz)) = true) →
      (getBlock cfg w (x + ((s + n + 1 : Nat) : Int) * front.dx) y
          (z + ((s + n + 1 : Nat) : Int) * front.dz) = BLOCK.AIR ∨
        isWater (getBlock cfg w (x + ((s + n + 1 : Nat) : Int) * front.dx) y
          (z + ((s + n + 1 : Nat) : Int) * front.dz)) = true) →
      ∃ chain', chain'.reverse = descChain x y z front
          (fun i => getBlock cfg w (x + (i : Int) * front.dx) y (z + (i : Int) * front.dz))
          (s + n) ∧
        pistonScan cfg w front y f chain (x + ((s + 1 : Nat) : Int) * front.dx)
            (z + ((s + 1 : Nat) : Int) * front.dz) =
          some (chain', x + ((s + n + 1 : Nat) : Int) * front.dx,
            z + ((s + n + 1 : Nat) : Int) * front.dz) := by
  induction n with
  | zero =>
    intro s f chain hchain _ hf _ hfree
    obtain ⟨f', rfl⟩ : ∃ f', f = f' + 1 := ⟨f - 1, by omega⟩
    refine ⟨chain, hchain, ?_⟩
    simp only [Nat.add_zero] at hfree ⊢
    unfold pistonScan
    simp only []
    rw [if_pos hfree]
  | succ n ih =>
    intro s f chain hchain hlen hf hmov hfree
    obtain ⟨f', rfl⟩ : ∃ f', f = f' + 1 := ⟨f - 1, by omega⟩
    have hm := hmov (s + 1) (by omega) (by omega)
    have hnf := movable_not_free _ hm
    have hclen := chain_length_of_reverse chain x y z front _ s hchain
    have hchain1 : (chain ++ [ChainNode.mk (x + ((s + 1 : Nat) : Int) * front.dx) y
        (z + ((s + 1 : Nat) : Int) * front.dz)
        (getBlock cfg w (x + ((s + 1 : Nat) : Int) * front.dx) y
          (z + ((s + 1 : Nat) : Int) * front.dz))]).reverse =
        descChain x y z front
          (fun i => getBlock cfg w (x + (i : Int) * front.dx) y (z + (i : Int) * front.dz))
          (s + 1) := by
      rw [List.reverse_append, hchain]
      rfl
    obtain ⟨chain', hc', hscan⟩ := ih (s + 1) f' _ hchain1 (by omega) (by omega)
      (fun i h1 h2 => hmov i (by omega) (by omega))
      (by
        have e : s + 1 + n + 1 = s + (n + 1) + 1 := by omega
        rw [e]; exact hfree)
    have e1 : s + 1 + n = s + (n + 1) := by omega
    rw [e1] at hc'
    refine ⟨chain', hc', ?_⟩
    unfold pistonScan
    simp only []
    rw [if_neg hnf]
    simp only [hm, Bool.not_true, Bool.false_eq_true, if_false]
    rw [if_neg (by rw [List.length_append, hclen]; simp; omega)]
    have ex : x + ((s + 1 : Nat) : Int) * front.dx + front.dx
        = x + ((s + 1 + 1 : Nat) : Int) * front.dx := by push_cast; ring
    have ez : z + ((s + 1 : Nat) : Int) * front.dz + front.dz
        = z + ((s + 1 + 1 : Nat) : Int) * front.dz := by push_cast; ring
    rw [ex, ez, hscan]
    have e2 : s + 1 + n + 1 = s + (n + 1) + 1 := by omega
    rw [e2]

/-- The scan returns false when a block that cannot be moved (and is neither air nor water)
follows `n` movable cells, and when 13 movable cells follow each other. -/
theorem pistonScan_blocked (cfg : Config) (w : VoxelWorld) (y : Int) (front : DirVec) (n : Nat) :
    ∀ (f : Nat) (chain : List ChainNode) (cx cz : Int), n < f →
      (∀ i : Nat, i < n → canPistonMoveBlock
        (getBlock cfg w (cx + (i : Int) * front.dx) y (cz + (i : Int) * front.dz)) = true) →
      ¬ (getBlock cfg w (cx + (n : Int) * front.dx) y (cz + (n : Int) * front.dz) = BLOCK.AIR ∨
        isWater (getBlock cfg w (cx + (n : Int) * front.dx) y (cz + (n : Int) * front.dz))
          = true) →
      canPistonMoveBlock
        (getBlock cfg w (cx + (n : Int) * front.dx) y (cz + (n : Int) * front.dz)) = false →
      pistonScan cfg w front y f chain cx cz = none := by
  induction n with
  | zero =>
    intro f chain cx cz hf _ hnf hblk
    obtain ⟨f', rfl⟩ : ∃ f', f = f' + 1 := ⟨f - 1, by omega⟩
    simp only [Nat.cast_zero, zero_mul, add_zero] at hnf hblk
    unfold pistonScan
    simp only []
    rw [if_neg hnf]
    simp only [hblk, Bool.not_false, if_true]
  | succ n ih =>
    intro f chain cx cz hf hmov hnf hblk
    obtain ⟨f', rfl⟩ : ∃ f', f = f' + 1 := ⟨f - 1, by omega⟩
    have hm := hmov 0 (by omega)
    simp only [Nat.cast_zero, zero_mul, add_zero] at hm
    have hnf0 := movable_not_free _ hm
    have ex : ∀ i : Nat, cx + front.dx + (i : Int) * front.dx
        = cx + ((i + 1 : Nat) : Int) * front.dx := by intro i; push_cast; ring
    have ez : ∀ i : Nat, cz + front.dz + (i : Int) * front.dz
        = cz + ((i + 1 : Nat) : Int) * front.dz := by intro i; push_cast; ring
    have hrec := ih f' (chain ++ [⟨cx, y, cz, getBlock cfg w cx y cz⟩]) (cx + front.dx)
      (cz + front.dz) (by omega)
      (fun i hi => by rw [ex, ez]; exact hmov (i + 1) (by omega))
      (by rw [ex, ez]; exact hnf) (by rw [ex, ez]; exact hblk)
    unfold pistonScan
    simp only []
    rw [if_neg hnf0]
    simp only [hm, Bool.not_true, Bool.false_eq_true, if_false]
    split
    · rfl
    · exact hrec

theorem pistonScan_long (cfg : Config) (w : VoxelWorld) (y : Int) (front : DirVec) (f : Nat) :
    ∀ (chain : List ChainNode) (cx cz : Int), 1 ≤ f → chain.length + f = 13 →
      (∀ i : Nat, i < f → canPistonMoveBlock
        (getBlock cfg w (cx + (i : Int) * front.dx) y (cz + (i : Int) * front.dz)) = true) →
      pistonScan cfg w front y f chain cx cz = none := by
  induction f with
  | zero => intro _ _ _ h; omega
  | succ f ih =>
    intro chain cx cz _ hlen hmov
    have hm := hmov 0 (by omega)
    simp only [Nat.cast_zero, zero_mul, add_zero] at hm
    have hnf0 := movable_not_free _ hm
    have ex : ∀ i : Nat, cx + front.dx + (i : Int) * front.dx
        = cx + ((i + 1 : Nat) : Int) * front.dx := by intro i; push_cast; ring
    have ez : ∀ i : Nat, cz + front.dz + (i : Int) * front.dz
        = cz + ((i + 1 : Nat) : Int) * front.dz := by intro i; push_cast; ring
    unfold pistonScan
    simp only []
    rw [if_neg hnf0]
    simp only [hm, Bool.not_true, Bool.false_eq_true, if_false]
    split
    · rfl
    · rename_i hl
      rw [List.length_append] at hl
      simp only [List.length_singleton] at hl
      apply ih _ _ _ (by omega) (by rw [List.length_append]; simp; omega)
      intro i hi
      rw [ex, ez]
      exact hmov (i + 1) (by omega)

/-! ## Pistons: the shifting loop -/

theorem cellLoaded_of_chunks_eq (cfg : Config) (w1 w2 : VoxelWorld) (h : w1.chunks = w2.chunks)
    (a b c : Int) : cellLoaded cfg w1 a b c ↔ cellLoaded cfg w2 a b c :=
  cellLoaded_congr cfg w1 w2 (fun k => by rw [h]) a b c

theorem chain_cell_inj (front : DirVec) (hfront : front.dx ≠ 0 ∨ front.dz ≠ 0) (x z : Int)
    (i j : Nat) (h1 : x + (i : Int) * front.dx = x + (j : Int) * front.dx)
    (h2 : z + (i : Int) * front.dz = z + (j : Int) * front.dz) : i = j := by
  have key : ∀ d : Int, d ≠ 0 → (i : Int) * d = (j : Int) * d → i = j := by
    intro d hd he
    have := Int.eq_of_mul_eq_mul_right hd he
    exact_mod_cast this
  rcases hfront with hd | hd
  · exact key _ hd (by omega)
  · exact key _ hd (by omega)

/-- The effect of the loop body of the shifting loop on one node. -/
theorem getBlock_pistonShiftNode (cfg : Config) (hcs : 0 < cfg.CHUNK_SIZE) (front : DirVec)
    (hfront : front.dx ≠ 0 ∨ front.dz ≠ 0) (w : VoxelWorld) (node : ChainNode)
    (hid : 0 ≤ node.id ∧ node.id < 256)
    (hn : cellLoaded cfg w node.x node.y node.z)
    (ht : cellLoaded cfg w (node.x + front.dx) node.y (node.z + front.dz)) :
    getBlock cfg (pistonShiftNode cfg front w node) node.x node.y node.z = 0 ∧
    getBlock cfg (pistonShiftNode cfg front w node) (node.x + front.dx) node.y
      (node.z + front.dz) = node.id ∧
    (∀ a b c : Int, ¬ (a = node.x ∧ b = node.y ∧ c = node.z) →
      ¬ (a = node.x + front.dx ∧ b = node.y ∧ c = node.z + front.dz) →
      getBlock cfg (pistonShiftNode cfg front w node) a b c = getBlock cfg w a b c) ∧
    (∀ a b c : Int, cellLoaded cfg (pistonShiftNode cfg front w node) a b c ↔
      cellLoaded cfg w a b c) := by
  have hne : ¬ (node.x + front.dx = node.x ∧ node.y = node.y ∧ node.z + front.dz = node.z) := by
    rintro ⟨h1, _, h3⟩
    rcases hfront with h | h
    · apply h; omega
    · apply h; omega
  unfold pistonShiftNode
  simp only [getBlock_enqueueFluidNeighbors, getBlock_enqueueRedstoneNeighbors]
  refine ⟨?_, ?_, ?_, ?_⟩
  · rw [getBlock_setBlock_same cfg hcs _ _ _ _ _ _ ((cellLoaded_setBlock cfg w _ _ _ _ _ _ _ _).mpr hn)]
    decide
  · rw [getBlock_setBlock_other cfg hcs _ _ _ _ _ _ _ _ _ hne,
      getBlock_setBlock_same cfg hcs _ _ _ _ _ _ ht]
    omega
  · intro a b c h1 h2
    rw [getBlock_setBlock_other cfg hcs _ _ _ _ _ _ _ _ _ h1,
      getBlock_setBlock_other cfg hcs _ _ _ _ _ _ _ _ _ h2]
  · intro a b c
    rw [cellLoaded_of_chunks_eq cfg _ _ (enqueueFluidNeighbors_chunks _ _ _ _ _),
      cellLoaded_of_chunks_eq cfg _ _ (enqueueFluidNeighbors_chunks _ _ _ _ _),
      cellLoaded_of_chunks_eq cfg _ _ (enqueueRedstoneNeighbors_chunks _ _ _ _ _),
      cellLoaded_of_chunks_eq cfg _ _ (enqueueRedstoneNeighbors_chunks _ _ _ _ _),
      cellLoaded_setBlock, cellLoaded_setBlock]

/-- The shifting loop over the chain of the cells `1..k` in front of the piston: every block
of the chain ends one cell further, the first cell is emptied, nothing else changes. -/
theorem pistonShift_spec (cfg : Config) (hcs : 0 < cfg.CHUNK_SIZE) (x y z : Int) (front : DirVec)
    (hfront : front.dx ≠ 0 ∨ front.dz ≠ 0) (ids : Nat → Int)
    (hids : ∀ i, 0 ≤ ids i ∧ ids i < 256) (k : Nat) :
    ∀ w : VoxelWorld,
      (∀ i : Nat, 1 ≤ i → i ≤ k + 1 →
        cellLoaded cfg w (x + (i : Int) * front.dx) y (z + (i : Int) * front.dz)) →
      (∀ i : Nat, 1 ≤ i → i ≤ k →
        getBlock cfg w (x + (i : Int) * front.dx) y (z + (i : Int) * front.dz) = ids i) →
      (∀ i : Nat, 1 ≤ i → i ≤ k →
        getBlock cfg ((descChain x y z front ids k).foldl (pistonShiftNode cfg front) w)
          (x + ((i + 1 : Nat) : Int) * front.dx) y (z + ((i + 1 : Nat) : Int) * front.dz)
          = ids i) ∧
      (1 ≤ k →
        getBlock cfg ((descChain x y z front ids k).foldl (pistonShiftNode cfg front) w)
          (x + ((1 : Nat) : Int) * front.dx) y (z + ((1 : Nat) : Int) * front.dz) = 0) ∧
      (∀ a b c : Int,
        (∀ i : Nat, 1 ≤ i → i ≤ k + 1 →
          ¬ (a = x + (i : Int) * front.dx ∧ b = y ∧ c = z + (i : Int) * front.dz)) →
        getBlock cfg ((descChain x y z front ids k).foldl (pistonShiftNode cfg front) w) a b c
          = getBlock cfg w a b c) ∧
      (∀ a b c : Int,
        cellLoaded cfg ((descChain x y z front ids k).foldl (pistonShiftNode cfg front) w) a b c
          ↔ cellLoaded cfg w a b c) := by
  induction k with
  | zero =>
    intro w _ _
    refine ⟨fun i h1 h2 => by omega, fun h => by omega, fun a b c _ => rfl, fun a b c => Iff.rfl⟩
  | succ k ih =>
    intro w hload hget
    have ex : x + ((k + 1 : Nat) : Int) * front.dx + front.dx
        = x + ((k + 1 + 1 : Nat) : Int) * front.dx := by push_cast; ring
    have ez : z + ((k + 1 : Nat) : Int) * front.dz + front.dz
        = z + ((k + 1 + 1 : Nat) : Int) * front.dz := by push_cast; ring
    obtain ⟨n1, n2, n3, n4⟩ := getBlock_pistonShiftNode cfg hcs front hfront w
      ⟨x + ((k + 1 : Nat) : Int) * front.dx, y, z + ((k + 1 : Nat) : Int) * front.dz, ids (k + 1)⟩
      (hids (k + 1)) (hload (k + 1) (by omega) (by omega))
      (by
        simp only []
        rw [ex, ez]
        exact hload (k + 1 + 1) (by omega) (by omega))
    simp only [] at n1 n2 n3 n4
    rw [ex, ez] at n2 n3
    -- distinctness of the cells of the chain
    have hdist : ∀ i j : Nat, i ≠ j →
        ¬ (x + (i : Int) * front.dx = x + (j : Int) * front.dx ∧ y = y ∧
          z + (i : Int) * front.dz = z + (j : Int) * front.dz) := by
      rintro i j hij ⟨h1, _, h3⟩
      exact hij (chain_cell_inj front hfront x z i j h1 h3)
    obtain ⟨i1, i2, i3, i4⟩ := ih
      (pistonShiftNode cfg front w ⟨x + ((k + 1 : Nat) : Int) * front.dx, y,
        z + ((k + 1 : Nat) : Int) * front.dz, ids (k + 1)⟩)
      (fun i h1 h2 => (n4 _ _ _).mpr (hload i h1 (by omega)))
      (fun i h1 h2 => by
        rw [n3 _ _ _ (hdist i (k + 1) (by omega)) (hdist i (k + 1 + 1) (by omega))]
        exact hget i h1 (by omega))
    have hfold : (descChain x y z front ids (k + 1)).foldl (pistonShiftNode cfg front) w =
        (descChain x y z front ids k).foldl (pistonShiftNode cfg front)
          (pistonShiftNode cfg front w ⟨x + ((k + 1 : Nat) : Int) * front.dx, y,
            z + ((k + 1 : Nat) : Int) * front.dz, ids (k + 1)⟩) := rfl
    rw [hfold]
    refine ⟨?_, ?_, ?_, ?_⟩
    · intro i h1 h2
      by_cases hik : i ≤ k
      · exact i1 i h1 hik
      · have hi : i = k + 1 := by omega
        subst hi
        rw [i3 _ _ _ (fun j hj1 hj2 => hdist (k + 1 + 1) j (by omega))]
        exact n2
    · intro _
      by_cases hk : 1 ≤ k
      · exact i2 hk
      · have hk0 : k = 0 := by omega
        subst hk0
        exact n1
    · intro a b c hout
      rw [i3 a b c (fun i h1 h2 => hout i h1 (by omega))]
      exact n3 a b c (hout (k + 1) (by omega) (by omega)) (hout (k + 1 + 1) (by omega) (by omega))
    · intro a b c
      rw [i4, n4]

/-! ## The redstone queue under `enqueueRedstoneUpdate` and `enqueueRedstoneNeighbors` -/

theorem enqueueRedstoneUpdate_cases (cfg : Config) (w : VoxelWorld) (x y z : Int) :
    enqueueRedstoneUpdate cfg w x y z = w ∨
    ((x, y, z) ∉ w.redstoneQueued ∧ cellLoaded cfg w x y z ∧
      (enqueueRedstoneUpdate cfg w x y z).redstoneQueue = w.redstoneQueue ++ [(x, y, z)] ∧
      (enqueueRedstoneUpdate cfg w x y z).redstoneQueued = w.redstoneQueued ++ [(x, y, z)]) := by
  simp only [enqueueRedstoneUpdate]
  split_ifs with h1 h2 h3
  · left; rfl
  · left; rfl
  · left; rfl
  · right
    refine ⟨h3, ⟨by omega, by omega, ?_⟩, rfl, rfl⟩
    simpa using h2

theorem enqueueRedstoneUpdate_mem (cfg : Config) (w : VoxelWorld) (x y z : Int)
    (hl : cellLoaded cfg w x y z) (hq : ∀ c ∈ w.redstoneQueued, c ∈ w.redstoneQueue) :
    (x, y, z) ∈ (enqueueRedstoneUpdate cfg w x y z).redstoneQueue := by
  simp only [enqueueRedstoneUpdate]
  obtain ⟨h1, h2, h3⟩ := hl
  rw [if_neg (by omega)]
  simp only [h3, Bool.not_true, Bool.false_eq_true, if_false]
  split_ifs with h
  · exact hq _ h
  · simp

theorem enqueueRedstoneUpdate_mono (cfg : Config) (w : VoxelWorld) (x y z : Int) (c : Cell)
    (h : c ∈ w.redstoneQueue) : c ∈ (enqueueRedstoneUpdate cfg w x y z).redstoneQueue := by
  rcases enqueueRedstoneUpdate_cases cfg w x y z with h1 | ⟨_, _, h2, _⟩
  · rw [h1]; exact h
  · rw [h2]; exact List.mem_append_left _ h

theorem enqueueRedstoneUpdate_queueOK (cfg : Config) (w : VoxelWorld) (x y z : Int)
    (hn : w.redstoneQueued.Nodup) (hq : ∀ c ∈ w.redstoneQueued, c ∈ w.redstoneQueue) :
    (enqueueRedstoneUpdate cfg w x y z).redstoneQueued.Nodup ∧
    ∀ c ∈ (enqueueRedstoneUpdate cfg w x y z).redstoneQueued,
      c ∈ (enqueueRedstoneUpdate cfg w x y z).redstoneQueue := by
  rcases enqueueRedstoneUpdate_cases cfg w x y z with h1 | ⟨hnot, _, h2, h3⟩
  · rw [h1]; exact ⟨hn, hq⟩
  · rw [h2, h3]
    refine ⟨?_, ?_⟩
    · rw [List.nodup_append]
      refine ⟨hn, List.nodup_singleton _, ?_⟩
      intro a ha hb
      rw [List.mem_singleton] at hb
      subst hb
      exact hnot ha
    · intro c hc
      rcases List.mem_append.mp hc with h | h
      · exact List.mem_append_left _ (hq c h)
      · exact List.mem_append_right _ h

theorem enqueueRedstoneUpdate_new (cfg : Config) (w : VoxelWorld) (x y z : Int) (c : Cell)
    (h : c ∈ (enqueueRedstoneUpdate cfg w x y z).redstoneQueue) :
    c ∈ w.redstoneQueue ∨ c = (x, y, z) := by
  rcases enqueueRedstoneUpdate_cases cfg w x y z with h1 | ⟨_, _, h2, _⟩
  · rw [h1] at h; exact Or.inl h
  · rw [h2] at h
    rcases List.mem_append.mp h with h | h
    · exact Or.inl h
    · exact Or.inr (List.mem_singleton.mp h)

theorem enqueueRedstoneUpdate_length (cfg : Config) (w : VoxelWorld) (x y z : Int) :
    (enqueueRedstoneUpdate cfg w x y z).redstoneQueue.length ≤ w.redstoneQueue.length + 1 := by
  rcases enqueueRedstoneUpdate_cases cfg w x y z with h1 | ⟨_, _, h2, _⟩
  · rw [h1]; omega
  · rw [h2]; simp

theorem cellLoaded_enqueueRedstoneUpdate (cfg : Config) (w : VoxelWorld) (x y z a b c : Int) :
    cellLoaded cfg (enqueueRedstoneUpdate cfg w x y z) a b c ↔ cellLoaded cfg w a b c :=
  cellLoaded_of_chunks_eq cfg _ _ (enqueueRedstoneUpdate_chunks cfg w x y z) a b c

/-- What `enqueueRedstoneNeighbors` does to the queue: nothing is removed, at most seven cells
are appended, each of them the cell itself or one of its six neighbours, and the cell and
every neighbour that is in a loaded chunk and in the height range is queued afterwards. -/
theorem enqueueRedstoneNeighbors_spec (cfg : Config) (w : VoxelWorld) (x y z : Int)
    (hn : w.redstoneQueued.Nodup) (hq : ∀ c ∈ w.redstoneQueued, c ∈ w.redstoneQueue) :
    ((enqueueRedstoneNeighbors cfg w x y z).redstoneQueued.Nodup ∧
      ∀ c ∈ (enqueueRedstoneNeighbors cfg w x y z).redstoneQueued,
        c ∈ (enqueueRedstoneNeighbors cfg w x y z).redstoneQueue) ∧
    (∀ c ∈ w.redstoneQueue, c ∈ (enqueueRedstoneNeighbors cfg w x y z).redstoneQueue) ∧
    (∀ c ∈ (enqueueRedstoneNeighbors cfg w x y z).redstoneQueue,
      c ∈ w.redstoneQueue ∨ c = (x, y, z) ∨
        ∃ o ∈ ALL_NEIGHBOR_OFFSETS, c = (x + o.1, y + o.2.1, z + o.2.2)) ∧
    (enqueueRedstoneNeighbors cfg w x y z).redstoneQueue.length ≤ w.redstoneQueue.length + 7 ∧
    (cellLoaded cfg w x y z → (x, y, z) ∈ (enqueueRedstoneNeighbors cfg w x y z).redstoneQueue) ∧
    (∀ o ∈ ALL_NEIGHBOR_OFFSETS, cellLoaded cfg w (x + o.1) (y + o.2.1) (z + o.2.2) →
      (x + o.1, y + o.2.1, z + o.2.2) ∈ (enqueueRedstoneNeighbors cfg w x y z).redstoneQueue) := by
  -- a general statement on the loop over a list of offsets
  have loop : ∀ (L : List (Int × Int × Int)) (v : VoxelWorld),
      v.redstoneQueued.Nodup → (∀ c ∈ v.redstoneQueued, c ∈ v.redstoneQueue) →
      (∀ a b c, cellLoaded cfg v a b c ↔ cellLoaded cfg w a b c) →
      ((L.foldl (fun w offset =>
          enqueueRedstoneUpdate cfg w (x + offset.1) (y + offset.2.1) (z + offset.2.2))
          v).redstoneQueued.Nodup ∧
        ∀ c ∈ (L.foldl (fun w offset =>
          enqueueRedstoneUpdate cfg w (x + offset.1) (y + offset.2.1) (z + offset.2.2))
          v).redstoneQueued,
          c ∈ (L.foldl (fun w offset =>
          enqueueRedstoneUpdate cfg w (x + offset.1) (y + offset.2.1) (z + offset.2.2))
          v).redstoneQueue) ∧
      (∀ c ∈ v.redstoneQueue, c ∈ (L.foldl (fun w offset =>
          enqueueRedstoneUpdate cfg w (x + offset.1) (y + offset.2.1) (z + offset.2.2))
          v).redstoneQueue) ∧
      (∀ c ∈ (L.foldl (fun w offset =>
          enqueueRedstoneUpdate cfg w (x + offset.1) (y + offset.2.1) (z + offset.2.2))
          v).redstoneQueue,
        c ∈ v.redstoneQueue ∨ ∃ o ∈ L, c = (x + o.1, y + o.2.1, z + o.2.2)) ∧
      (L.foldl (fun w offset =>
          enqueueRedstoneUpdate cfg w (x + offset.1) (y + offset.2.1) (z + offset.2.2))
          v).redstoneQueue.length ≤ v.redstoneQueue.length + L.length ∧
      (∀ o ∈ L, cellLoaded cfg w (x + o.1) (y + o.2.1) (z + o.2.2) →
        (x + o.1, y + o.2.1, z + o.2.2) ∈ (L.foldl (fun w offset =>
          enqueueRedstoneUpdate cfg w (x + offset.1) (y + offset.2.1) (z + offset.2.2))
          v).redstoneQueue) := by
    intro L
    induction L with
    | nil =>
      intro v hvn hvq _
      refine ⟨⟨hvn, hvq⟩, fun c h => h, fun c h => Or.inl h, by simp, ?_⟩
      intro o ho
      exact absurd ho (List.not_mem_nil o)
    | cons o rest ih =>
      intro v hvn hvq hvl
      obtain ⟨un, uq⟩ := enqueueRedstoneUpdate_queueOK cfg v (x + o.1) (y + o.2.1) (z + o.2.2)
        hvn hvq
      obtain ⟨r1, r2, r3, r4, r5⟩ := ih
        (enqueueRedstoneUpdate cfg v (x + o.1) (y + o.2.1) (z + o.2.2)) un uq
        (fun a b c => (cellLoaded_enqueueRedstoneUpdate cfg v _ _ _ a b c).trans (hvl a b c))
      rw [List.foldl_cons]
      refine ⟨r1, ?_, ?_, ?_, ?_⟩
      · intro c hc
        exact r2 c (enqueueRedstoneUpdate_mono cfg v _ _ _ c hc)
      · intro c hc
        rcases r3 c hc with h | ⟨o', ho', he⟩
        · rcases enqueueRedstoneUpdate_new cfg v _ _ _ c h with h' | h'
          · exact Or.inl h'
          · exact Or.inr ⟨o, List.mem_cons_self _ _, h'⟩
        · exact Or.inr ⟨o', List.mem_cons_of_mem _ ho', he⟩
      · have := enqueueRedstoneUpdate_length cfg v (x + o.1) (y + o.2.1) (z + o.2.2)
        simp only [List.length_cons]
        omega
      · intro o' ho' hl
        rcases List.mem_cons.mp ho' with rfl | hr
        · apply r2
          exact enqueueRedstoneUpdate_mem cfg v _ _ _ ((hvl _ _ _).mpr hl) hvq
        · exact r5 o' hr hl
  obtain ⟨un, uq⟩ := enqueueRedstoneUpdate_queueOK cfg w x y z hn hq
  obtain ⟨r1, r2, r3, r4, r5⟩ := loop ALL_NEIGHBOR_OFFSETS (enqueueRedstoneUpdate cfg w x y z)
    un uq (fun a b c => cellLoaded_enqueueRedstoneUpdate cfg w _ _ _ a b c)
  have hlen := enqueueRedstoneUpdate_length cfg w x y z
  unfold enqueueRedstoneNeighbors
  refine ⟨r1, ?_, ?_, ?_, ?_, r5⟩
  · intro c hc
    exact r2 c (enqueueRedstoneUpdate_mono cfg w _ _ _ c hc)
  · intro c hc
    rcases r3 c hc with h | h
    · rcases enqueueRedstoneUpdate_new cfg w _ _ _ c h with h' | h'
      · exact Or.inl h'
      · exact Or.inr (Or.inl h')
    · exact Or.inr (Or.inr h)
  · have h6 : ALL_NEIGHBOR_OFFSETS.length = 6 := rfl
    omega
  · intro hl
    exact r2 _ (enqueueRedstoneUpdate_mem cfg w _ _ _ hl hq)

/-! ## Dust: signals that do not depend on dust powers -/

theorem direct_strong_dust (id sx sy sz tx ty tz : Int) (h : isRedstoneDust id = true) :
    (getDirectSignalFromBlock id sx sy sz tx ty tz).strong = 0 := by
  have hne : id ≠ BLOCK.REDSTONE_BLOCK := by
    unfold isRedstoneDust at h
    simp only [BLOCK, Bool.and_eq_true, decide_eq_true_eq, ge_iff_le] at h
    simp only [BLOCK]; omega
  unfold getDirectSignalFromBlock
  simp only [if_neg hne, h, if_true]
  split_ifs <;> rfl

theorem dust_not_air (id : Int) (h : isRedstoneDust id = true) : id ≠ BLOCK.AIR := by
  unfold isRedstoneDust at h
  simp only [BLOCK, Bool.and_eq_true, decide_eq_true_eq, ge_iff_le] at h
  simp only [BLOCK]; omega

theorem dust_not_opaque (id : Int) (h : isRedstoneDust id = true) : isOpaqueSolid id = false := by
  unfold isRedstoneDust at h
  simp only [BLOCK, Bool.and_eq_true, decide_eq_true_eq, ge_iff_le] at h
  obtain ⟨h1, h2⟩ := h
  interval_cases id <;> decide

/-- Two worlds whose grids differ only in cells that hold dust in both. -/
theorem strongLoop_congr (cfg : Config) (w w' : VoxelWorld)
    (heq : ∀ a b c : Int, getBlock cfg w' a b c = getBlock cfg w a b c ∨
      (isRedstoneDust (getBlock cfg w a b c) = true ∧
        isRedstoneDust (getBlock cfg w' a b c) = true))
    (x y z : Int) (L : List (Int × Int × Int)) :
    ∀ p : Int, getStrongPowerLoop cfg w' x y z L p = getStrongPowerLoop cfg w x y z L p := by
  induction L with
  | nil => intro p; rfl
  | cons o rest ih =>
    intro p
    unfold getStrongPowerLoop
    simp only []
    rcases heq (x + o.1) (y + o.2.1) (z + o.2.2) with h | ⟨h1, h2⟩
    · rw [h]
      split
      · exact ih p
      · split
        · rfl
        · exact ih _
    · rw [if_neg (dust_not_air _ h1), if_neg (dust_not_air _ h2),
        direct_strong_dust _ _ _ _ _ _ _ h1, direct_strong_dust _ _ _ _ _ _ _ h2]
      split
      · rfl
      · exact ih _

theorem signal_congr (cfg : Config) (w w' : VoxelWorld)
    (heq : ∀ a b c : Int, getBlock cfg w' a b c = getBlock cfg w a b c ∨
      (isRedstoneDust (getBlock cfg w a b c) = true ∧
        isRedstoneDust (getBlock cfg w' a b c) = true))
    (sx sy sz tx ty tz : Int) (hs : getBlock cfg w' sx sy sz = getBlock cfg w sx sy sz) :
    getSignalFromSourceToTarget cfg w' sx sy sz tx ty tz =
      getSignalFromSourceToTarget cfg w sx sy sz tx ty tz := by
  unfold getSignalFromSourceToTarget isHardPoweredBlock getStrongPowerAt
  simp only [hs, strongLoop_congr cfg w w' heq]

/-! ## Dust: the maximum over the six neighbours -/

theorem dustNeighborStep_eq (cfg : Config) (w : VoxelWorld) (x y z acc : Int)
    (o : Int × Int × Int) :
    dustNeighborStep cfg w x y z acc o = max acc (dustContribution cfg w x y z o) := by
  unfold dustNeighborStep dustContribution
  simp only []
  split <;> rfl

theorem foldl_max_eq (L : List (Int × Int × Int)) (g : Int × Int × Int → Int) (v : Int) :
    ∀ init : Int, init ≤ v → (∀ o ∈ L, g o ≤ v) → (init = v ∨ ∃ o ∈ L, g o = v) →
      L.foldl (fun acc o => max acc (g o)) init = v := by
  induction L with
  | nil =>
    intro init _ _ hach
    rcases hach with h | ⟨o, ho, _⟩
    · exact h
    · exact absurd ho (List.not_mem_nil o)
  | cons o rest ih =>
    intro init hinit hub hach
    rw [List.foldl_cons]
    have ho := hub o (List.mem_cons_self _ _)
    apply ih
    · omega
    · intro o' ho'
      exact hub o' (List.mem_cons_of_mem _ ho')
    · rcases hach with h | ⟨o', ho', he⟩
      · left; omega
      · rcases List.mem_cons.mp ho' with rfl | hr
        · left; omega
        · right; exact ⟨o', hr, he⟩

theorem dust_nextPower_eq (cfg : Config) (w : VoxelWorld) (x y z v : Int) (hv : 0 ≤ v)
    (hub : ∀ o ∈ ALL_NEIGHBOR_OFFSETS, dustContribution cfg w x y z o ≤ v)
    (hach : v = 0 ∨ ∃ o ∈ ALL_NEIGHBOR_OFFSETS, dustContribution cfg w x y z o = v) :
    ALL_NEIGHBOR_OFFSETS.foldl (dustNeighborStep cfg w x y z) 0 = v := by
  have e : dustNeighborStep cfg w x y z = fun acc o => max acc (dustContribution cfg w x y z o) := by
    funext acc o
    exact dustNeighborStep_eq cfg w x y z acc o
  rw [e]
  apply foldl_max_eq _ _ _ 0 hv hub
  rcases hach with h | h
  · left; exact h.symm
  · right; exact h

/-! ## Geometry of a line of cells -/

theorem line_neighbor (front : DirVec) (hu : isUnitDir front) (o : Int × Int × Int)
    (ho : o ∈ ALL_NEIGHBOR_OFFSETS) (x0 y0 z0 : Int) (k m : Nat)
    (h : x0 + ((k + 1 : Nat) : Int) * front.dx + o.1 = x0 + (m : Int) * front.dx ∧
      y0 + o.2.1 = y0 ∧
      z0 + ((k + 1 : Nat) : Int) * front.dz + o.2.2 = z0 + (m : Int) * front.dz) :
    m = k + 2 ∨ m = k := by
  obtain ⟨dx, dz⟩ := front
  simp only [isUnitDir] at hu
  simp only [ALL_NEIGHBOR_OFFSETS, List.mem_cons, List.mem_singleton, List.not_mem_nil,
    or_false] at ho
  obtain ⟨h1, h2, h3⟩ := h
  simp only [] at h1 h3
  push_cast at h1 h3
  rcases hu with ⟨rfl, rfl⟩ | ⟨rfl, rfl⟩ | ⟨rfl, rfl⟩ | ⟨rfl, rfl⟩ <;>
    rcases ho with rfl | rfl | rfl | rfl | rfl | rfl <;>
    simp only [mul_one, mul_zero, mul_neg] at h1 h2 h3 <;> omega

theorem line_back_offset (front : DirVec) (hu : isUnitDir front) :
    (-front.dx, (0 : Int), -front.dz) ∈ ALL_NEIGHBOR_OFFSETS := by
  obtain ⟨dx, dz⟩ := front
  simp only [isUnitDir] at hu
  rcases hu with ⟨rfl, rfl⟩ | ⟨rfl, rfl⟩ | ⟨rfl, rfl⟩ | ⟨rfl, rfl⟩ <;>
    simp [ALL_NEIGHBOR_OFFSETS]

theorem line_cell_inj (front : DirVec) (hu : isUnitDir front) (x0 z0 : Int) (k m : Nat)
    (h1 : x0 + (k : Int) * front.dx = x0 + (m : Int) * front.dx)
    (h3 : z0 + (k : Int) * front.dz = z0 + (m : Int) * front.dz) : k = m := by
  obtain ⟨dx, dz⟩ := front
  simp only [isUnitDir] at hu
  simp only [] at h1 h3
  rcases hu with ⟨rfl, rfl⟩ | ⟨rfl, rfl⟩ | ⟨rfl, rfl⟩ | ⟨rfl, rfl⟩ <;>
    simp only [mul_one, mul_zero, mul_neg] at h1 h3 <;> omega

theorem block_not_onLine (front : DirVec) (hu : isUnitDir front) (x0 y0 z0 : Int) (N : Nat) :
    ¬ onLine x0 y0 z0 front N x0 y0 z0 := by
  rintro ⟨k, _, h1, _, h3⟩
  have := line_cell_inj front hu x0 z0 0 (k + 1) (by simpa using h1) (by simpa using h3)
  omega

theorem onLine_cell (front : DirVec) (x0 y0 z0 : Int) (N k : Nat) (hk : k < N) :
    onLine x0 y0 z0 front N (x0 + ((k + 1 : Nat) : Int) * front.dx) y0
      (z0 + ((k + 1 : Nat) : Int) * front.dz) :=
  ⟨k, hk, rfl, rfl, rfl⟩

/-! ## Claims on the world store -/

/-- C2. `setBlock` success postcondition and frame: for a cell in a loaded chunk with
`0 <= y < WORLD_HEIGHT` and a block id in 0..255 different from the cell's current id,
`setBlock` returns true, a following `getBlock` of the cell returns the id, and `getBlock` of
every other coordinate returns what it returned before (whatever the option flags). -/
theorem setBlock_success_frame (cfg : Config) (hcs : 0 < cfg.CHUNK_SIZE) (w : VoxelWorld)
    (x y z id : Int) (opts : SetBlockOptions)
    (hl : cellLoaded cfg w x y z) (hid : 0 ≤ id ∧ id < 256)
    (hne : getBlock cfg w x y z ≠ id) :
    (setBlock cfg w x y z id opts).2 = true ∧
    getBlock cfg (setBlock cfg w x y z id opts).1 x y z = id ∧
    ∀ x' y' z' : Int, ¬ (x' = x ∧ y' = y ∧ z' = z) →
      getBlock cfg (setBlock cfg w x y z id opts).1 x' y' z' = getBlock cfg w x' y' z' := by
  refine ⟨?_, ?_, ?_⟩
  · obtain ⟨chunk, _, hs⟩ := setBlock_accepted cfg w x y z id opts hl hne
    rw [hs]
  · rw [getBlock_setBlock_same cfg hcs w x y z id opts hl]
    omega
  · intro x' y' z' hne'
    exact getBlock_setBlock_other cfg hcs w x y z id opts x' y' z' hne'

theorem setBlock_success_frame_witness :
    (setBlock sampleConfig airWorld 5 7 3 184 {}).2 = true ∧
    getBlock sampleConfig (setBlock sampleConfig airWorld 5 7 3 184 {}).1 5 7 3 = 184 ∧
    ∀ x' y' z' : Int, ¬ (x' = 5 ∧ y' = 7 ∧ z' = 3) →
      getBlock sampleConfig (setBlock sampleConfig airWorld 5 7 3 184 {}).1 x' y' z' =
        getBlock sampleConfig airWorld x' y' z' :=
  setBlock_success_frame sampleConfig (by decide) airWorld 5 7 3 184 {} (by decide)
    (by decide) (by decide)

/-- C3. `getBlock` is total: for every integer `(x, y, z)` it returns a block id (a byte
value), and it returns AIR whenever `y < 0`, `y >= WORLD_HEIGHT`, or the chunk containing
`(x, z)` is not loaded. -/
theorem getBlock_total (cfg : Config) (w : VoxelWorld) (x y z : Int) :
    (∃ id : Int, getBlock cfg w x y z = id ∧ 0 ≤ id ∧ id < 256) ∧
    ((y < 0 ∨ y ≥ cfg.WORLD_HEIGHT ∨
        hasChunk w (worldToChunkCoord cfg x) (worldToChunkCoord cfg z) = false) →
      getBlock cfg w x y z = BLOCK.AIR) := by
  refine ⟨⟨_, rfl, getBlock_range cfg w x y z⟩, ?_⟩
  intro h
  apply getBlock_of_not_loaded
  rintro ⟨h1, h2, h3⟩
  rcases h with h | h | h
  · omega
  · omega
  · rw [h3] at h; exact Bool.noConfusion h

theorem getBlock_total_witness :
    (∃ id : Int, getBlock sampleConfig airWorld 40 3 3 = id ∧ 0 ≤ id ∧ id < 256) ∧
    (((3 : Int) < 0 ∨ (3 : Int) ≥ sampleConfig.WORLD_HEIGHT ∨
        hasChunk airWorld (worldToChunkCoord sampleConfig 40) (worldToChunkCoord sampleConfig 3)
          = false) →
      getBlock sampleConfig airWorld 40 3 3 = BLOCK.AIR) :=
  getBlock_total sampleConfig airWorld 40 3 3

/-- C4. `setBlock` is a no-op on rejection: when the target chunk is not loaded, or `y` is
outside `0..WORLD_HEIGHT-1`, or the cell already holds `id`, `setBlock` returns false and the
world it leaves is the world it was given (block grid, dirty-chunk set, edit overlay and both
simulation queues included), whatever the option flags. -/
theorem setBlock_rejection_noop (cfg : Config) (w : VoxelWorld) (x y z id : Int)
    (opts : SetBlockOptions)
    (h : hasChunk w (worldToChunkCoord cfg x) (worldToChunkCoord cfg z) = false ∨
      y < 0 ∨ y ≥ cfg.WORLD_HEIGHT ∨ getBlock cfg w x y z = id) :
    (setBlock cfg w x y z id opts).2 = false ∧ (setBlock cfg w x y z id opts).1 = w := by
  have hr : setBlock cfg w x y z id opts = (w, false) := by
    apply setBlock_rejected
    rcases h with h | h | h | h
    · left; rintro ⟨_, _, h3⟩; rw [h3] at h; exact Bool.noConfusion h
    · left; rintro ⟨h1, _, _⟩; omega
    · left; rintro ⟨_, h2, _⟩; omega
    · right; exact h
  rw [hr]
  exact ⟨rfl, rfl⟩

theorem setBlock_rejection_noop_witness :
    (setBlock sampleConfig airWorld 40 3 3 3 {}).2 = false ∧
      (setBlock sampleConfig airWorld 40 3 3 3 {}).1 = airWorld :=
  setBlock_rejection_noop sampleConfig airWorld 40 3 3 3 {} (Or.inl (by decide))

/-! ## Claims on the comparator -/

theorem comparatorOutput_eq (s : Bool) (rear side : Int)
    (hr : 0 ≤ rear ∧ rear ≤ 15) (hs : 0 ≤ side ∧ side ≤ 15) :
    comparatorOutput s rear side =
      if s then min 15 (max 0 (rear - side)) else if rear ≥ side then rear else 0 := by
  unfold comparatorOutput
  cases s
  · simp only [Bool.false_eq_true, if_false]
    split
    · rw [clampPower_eq rear (by omega) (by omega)]; omega
    · rfl
  · simp only [if_true]
    rw [clampPower_eq (rear - side) (by omega) (by omega)]

/-- C10. Comparator output rule: for a comparator cell, with `rear` the signal from the cell
behind it and `side` the larger of the signals from its left and right cells,
`updateComparatorAt` leaves a comparator of the same facing and the same mode whose output is
`min(15, max(0, rear - side))` in subtract mode and (`rear` if `rear >= side`, else 0) in
compare mode. -/
theorem comparator_output_rule (cfg : Config) (hcs : 0 < cfg.CHUNK_SIZE) (w : VoxelWorld)
    (x y z : Int) (hcmp : isComparator (getBlock cfg w x y z) = true) :
    let id := getBlock cfg w x y z
    let dir := getComparatorDir id
    let back := getHorizontalDirVector (getOppositeHorizontalDir dir)
    let left := getHorizontalDirVector (getLeftHorizontalDir dir)
    let right := getHorizontalDirVector (getRightHorizontalDir dir)
    let rear := getSignalFromSourceToTarget cfg w (x + back.dx) y (z + back.dz) x y z
    let side := max (getSignalFromSourceToTarget cfg w (x + left.dx) y (z + left.dz) x y z)
      (getSignalFromSourceToTarget cfg w (x + right.dx) y (z + right.dz) x y z)
    let id' := getBlock cfg (updateComparatorAt cfg w x y z) x y z
    isComparator id' = true ∧
    getComparatorDir id' = dir ∧
    isComparatorSubtract id' = isComparatorSubtract id ∧
    getComparatorOutput id' =
      (if isComparatorSubtract id then min 15 (max 0 (rear - side))
       else if rear ≥ side then rear else 0) := by
  intro id dir back left right rear side id'
  have hrear : 0 ≤ rear ∧ rear ≤ 15 := getSignalFromSourceToTarget_range _ _ _ _ _ _ _ _
  have hside : 0 ≤ side ∧ side ≤ 15 := by
    have h1 := getSignalFromSourceToTarget_range cfg w (x + left.dx) y (z + left.dz) x y z
    have h2 := getSignalFromSourceToTarget_range cfg w (x + right.dx) y (z + right.dz) x y z
    simp only [side]
    omega
  have hout := comparatorOutput_eq (isComparatorSubtract id) rear side hrear hside
  have hout_range : 0 ≤ comparatorOutput (isComparatorSubtract id) rear side ∧
      comparatorOutput (isComparatorSubtract id) rear side ≤ 15 := by
    rw [hout]; split_ifs <;> omega
  have hdec := makeComparatorId_decode dir (isComparatorSubtract id)
    (comparatorOutput (isComparatorSubtract id) rear side) (getComparatorDir_range id) hout_range
  have hl : cellLoaded cfg w x y z := by
    apply cellLoaded_of_getBlock_ne
    intro h0
    have : isComparator (getBlock cfg w x y z) = false := by rw [h0]; decide
    rw [hcmp] at this
    exact Bool.noConfusion this
  have key : id' = makeComparatorId dir (isComparatorSubtract id)
      (comparatorOutput (isComparatorSubtract id) rear side) := by
    simp only [id', updateComparatorAt, getComponentInputSignal, add_zero, hcmp,
      Bool.not_true, Bool.false_eq_true, if_false]
    split
    · rename_i heq
      exact heq.symm
    · rw [getBlock_enqueueRedstoneNeighbors, getBlock_setBlock_same cfg hcs w x y z _ _ hl]
      have hr := makeComparatorId_range dir (isComparatorSubtract id)
        (comparatorOutput (isComparatorSubtract id) rear side)
      simp only [id, dir, rear, side, back, left, right] at hr ⊢
      omega
  rw [key]
  obtain ⟨h1, h2, h3, h4⟩ := hdec
  exact ⟨h1, h2, h3, by rw [h4, hout]⟩

theorem comparator_output_rule_witness :
    getComparatorOutput (getBlock sampleConfig
      (updateComparatorAt sampleConfig (comparatorWorld false) 5 1 5) 5 1 5) = 10 ∧
    getComparatorOutput (getBlock sampleConfig
      (updateComparatorAt sampleConfig (comparatorWorld true) 5 1 5) 5 1 5) = 6 :=
  ⟨(comparator_output_rule sampleConfig (by decide) (comparatorWorld false) 5 1 5
      (by decide)).2.2.2.trans (by decide),
   (comparator_output_rule sampleConfig (by decide) (comparatorWorld true) 5 1 5
      (by decide)).2.2.2.trans (by decide)⟩

/-! ## Claims on source regeneration -/

/-- C9. Source regeneration: for a cell that holds air or flowing water, rests on a solid
non-liquid block, and has at least two of its four horizontal neighbours holding water source
blocks, `updateWaterAt` turns the cell into a water source (`BLOCK.WATER`), not a flowing
level. -/
theorem source_regeneration (cfg : Config) (hcs : 0 < cfg.CHUNK_SIZE) (w : VoxelWorld)
    (x y z : Int)
    (hcur : getBlock cfg w x y z = BLOCK.AIR ∨ isFlowingWater (getBlock cfg w x y z) = true)
    (hfloor : isFluidSupportBlock (getBlock cfg w x (y - 1) z) = true)
    (hsrc : 2 ≤ (([(1, 0), (-1, 0), (0, 1), (0, -1)] : List (Int × Int)).filter
      (fun o => isWaterSource (getBlock cfg w (x + o.1) y (z + o.2)))).length) :
    getBlock cfg (updateWaterAt cfg w x y z) x y z = BLOCK.WATER := by
  -- the four neighbour tests of `shouldCreateWaterSource`
  have e1 : x + (-1) = x - 1 := by ring
  have e2 : z + (-1) = z - 1 := by ring
  simp only [List.filter, add_zero, e1, e2] at hsrc
  have hshould : shouldCreateWaterSource cfg w x y z = true := by
    unfold shouldCreateWaterSource
    simp only [hfloor, Bool.not_true, Bool.false_eq_true, if_false]
    cases h1 : isWaterSource (getBlock cfg w (x + 1) y z) <;>
    cases h2 : isWaterSource (getBlock cfg w (x - 1) y z) <;>
    cases h3 : isWaterSource (getBlock cfg w x y (z + 1)) <;>
    cases h4 : isWaterSource (getBlock cfg w x y (z - 1)) <;>
    simp [h1, h2, h3, h4] at hsrc ⊢
  -- some neighbour is a source
  have hex : ∃ o ∈ ([(1, 0), (-1, 0), (0, 1), (0, -1)] : List (Int × Int)),
      isWaterSource (getBlock cfg w (x + o.1) y (z + o.2)) = true := by
    by_contra hno
    simp only [List.mem_cons, List.mem_singleton, List.not_mem_nil, or_false, not_exists,
      not_and] at hno
    have n1 := hno (1, 0) (Or.inl rfl)
    have n2 := hno (-1, 0) (Or.inr (Or.inl rfl))
    have n3 := hno (0, 1) (Or.inr (Or.inr (Or.inl rfl)))
    have n4 := hno (0, -1) (Or.inr (Or.inr (Or.inr rfl)))
    simp only [add_zero, e1, e2] at n1 n2 n3 n4
    simp [n1, n2, n3, n4] at hsrc
  -- the cell is in a loaded chunk and in the height range
  have hl : cellLoaded cfg w x y z := by
    have hb : cellLoaded cfg w x (y - 1) z :=
      cellLoaded_of_getBlock_ne cfg w x (y - 1) z (support_not_air_nor_water _ hfloor).1
    obtain ⟨o, _, ho⟩ := hex
    have hn : cellLoaded cfg w (x + o.1) y (z + o.2) := by
      apply cellLoaded_of_getBlock_ne
      rw [(isWaterSource_iff _).mp ho]; decide
    exact ⟨hn.1, hn.2.1, hb.2.2⟩
  have hnw : getBlock cfg w x y z ≠ BLOCK.WATER := by
    rcases hcur with h | h
    · rw [h]; decide
    · have := (isFlowingWater_iff _).mp h
      simp only [BLOCK]; omega
  have hocc : canWaterOccupyCell (getBlock cfg w x y z) = true := by
    unfold canWaterOccupyCell
    rcases hcur with h | h
    · rw [h]; decide
    · rw [h]; simp
  have hdes : ∃ level, computeDesiredWaterLevel cfg w x y z = some level := by
    unfold computeDesiredWaterLevel
    simp only [hocc, Bool.not_true, Bool.false_eq_true, if_false]
    split
    · exact ⟨0, rfl⟩
    · obtain ⟨m, hm, hle⟩ := water_fold_source cfg w x y z _ none hex
      simp only [hm]
      rw [if_neg (by omega)]
      exact ⟨_, rfl⟩
  obtain ⟨level, hlevel⟩ := hdes
  unfold updateWaterAt
  simp only [hocc, hlevel, hshould, Bool.not_true, Bool.false_eq_true, if_false, if_true,
    if_neg hnw]
  rw [getBlock_enqueueFluidNeighbors, getBlock_setBlock_same cfg hcs w x y z _ _ hl]
  decide

/-! ## Claims on piston extension -/

theorem dirVector_nonzero (dir : Int) :
    (getHorizontalDirVector dir).dx ≠ 0 ∨ (getHorizontalDirVector dir).dz ≠ 0 := by
  unfold getHorizontalDirVector HORIZONTAL_DIR_LOOKUP
  split_ifs <;> simp

theorem makePistonHeadId_range (dir : Int) :
    180 ≤ makePistonHeadId dir ∧ makePistonHeadId dir ≤ 183 := by
  have := normalizeHorizontalDir_range dir
  unfold makePistonHeadId
  simp only [BLOCK]; omega

theorem makePistonId_range (dir : Int) (e : Bool) :
    172 ≤ makePistonId dir e ∧ makePistonId dir e ≤ 179 := by
  have := normalizeHorizontalDir_range dir
  unfold makePistonId
  simp only [BLOCK]
  cases e <;> simp <;> omega

theorem unmovable_blocks (id : Int)
    (h : isPistonHead id = true ∨ (isPiston id = true ∧ isPistonExtended id = true)) :
    ¬ (id = BLOCK.AIR ∨ isWater id = true) ∧ canPistonMoveBlock id = false := by
  have hrange : 172 ≤ id ∧ id ≤ 183 := by
    rcases h with h | ⟨h, _⟩
    · unfold isPistonHead at h
      simp only [BLOCK, Bool.and_eq_true, decide_eq_true_eq, ge_iff_le] at h
      omega
    · unfold isPiston at h
      simp only [BLOCK, Bool.and_eq_true, decide_eq_true_eq, ge_iff_le] at h
      omega
  have hnf : ¬ (id = BLOCK.AIR ∨ isWater id = true) := by
    rintro (h0 | hw)
    · simp only [BLOCK] at h0; omega
    · have := (isWater_iff id).mp hw; omega
  refine ⟨hnf, ?_⟩
  unfold canPistonMoveBlock
  rw [if_neg hnf]
  rcases h with h | ⟨h1, h2⟩
  · simp [h]
  · cases hh : isPistonHead id <;> simp [h1, h2]

/-- C5. Piston push within the limit: for `n <= 12`, if the `n` cells in front of a retracted
piston of facing `dir` hold movable blocks, the next cell is air or water and all these cells
are in loaded chunks, then `tryExtendPiston` returns true and afterwards every block of the run
sits exactly one cell further along the facing direction, the piston's front cell holds the
piston head of that facing, and the piston cell holds the extended piston.  The cell `i` steps
in front of the piston is `(x + i * front.dx, y, z + i * front.dz)`. -/
theorem piston_push_within_limit (cfg : Config) (hcs : 0 < cfg.CHUNK_SIZE) (w : VoxelWorld)
    (x y z dir : Int) (front : DirVec) (n : Nat)
    (hfront : getHorizontalDirVector dir = front) (hn : n ≤ 12)
    (hpiston : getBlock cfg w x y z = makePistonId dir false)
    (hmov : ∀ i : Nat, i < n → canPistonMoveBlock (getBlock cfg w
      (x + ((i + 1 : Nat) : Int) * front.dx) y (z + ((i + 1 : Nat) : Int) * front.dz)) = true)
    (hfree : getBlock cfg w (x + ((n + 1 : Nat) : Int) * front.dx) y
        (z + ((n + 1 : Nat) : Int) * front.dz) = BLOCK.AIR ∨
      isWater (getBlock cfg w (x + ((n + 1 : Nat) : Int) * front.dx) y
        (z + ((n + 1 : Nat) : Int) * front.dz)) = true)
    (hload : ∀ i : Nat, i < n + 1 → cellLoaded cfg w
      (x + ((i + 1 : Nat) : Int) * front.dx) y (z + ((i + 1 : Nat) : Int) * front.dz)) :
    (tryExtendPiston cfg w x y z dir).2 = true ∧
    (∀ i : Nat, i < n →
      getBlock cfg (tryExtendPiston cfg w x y z dir).1
          (x + ((i + 2 : Nat) : Int) * front.dx) y (z + ((i + 2 : Nat) : Int) * front.dz) =
        getBlock cfg w (x + ((i + 1 : Nat) : Int) * front.dx) y
          (z + ((i + 1 : Nat) : Int) * front.dz)) ∧
    getBlock cfg (tryExtendPiston cfg w x y z dir).1 (x + front.dx) y (z + front.dz) =
      makePistonHeadId dir ∧
    getBlock cfg (tryExtendPiston cfg w x y z dir).1 x y z = makePistonId dir true := by
  have hnz : front.dx ≠ 0 ∨ front.dz ≠ 0 := by rw [← hfront]; exact dirVector_nonzero dir
  have hpl : cellLoaded cfg w x y z := by
    apply cellLoaded_of_getBlock_ne
    rw [hpiston]
    have := makePistonId_range dir false
    simp only [BLOCK]; omega
  -- the scan
  obtain ⟨chain, hchain, hscan⟩ := pistonScan_free cfg w x y z front n 0 13 [] rfl (by omega)
    (by omega)
    (fun i h1 h2 => by
      obtain ⟨j, rfl⟩ : ∃ j, i = j + 1 := ⟨i - 1, by omega⟩
      exact hmov j (by omega))
    (by simp only [Nat.zero_add]; exact hfree)
  simp only [Nat.zero_add, Nat.cast_one, one_mul] at hscan hchain
  -- the shifting loop
  obtain ⟨s1, s2, s3, s4⟩ := pistonShift_spec cfg hcs x y z front hnz
    (fun i => getBlock cfg w (x + (i : Int) * front.dx) y (z + (i : Int) * front.dz))
    (fun i => getBlock_range _ _ _ _ _) n w
    (fun i h1 h2 => by
      obtain ⟨j, rfl⟩ : ∃ j, i = j + 1 := ⟨i - 1, by omega⟩
      exact hload j (by omega))
    (fun i _ _ => rfl)
  have hdest : ¬ (getBlock cfg w (x + ((n + 1 : Nat) : Int) * front.dx) y
        (z + ((n + 1 : Nat) : Int) * front.dz) ≠ BLOCK.AIR ∧
      (!isWater (getBlock cfg w (x + ((n + 1 : Nat) : Int) * front.dx) y
        (z + ((n + 1 : Nat) : Int) * front.dz))) = true) := by
    rintro ⟨h1, h2⟩
    rcases hfree with h | h
    · exact h1 h
    · rw [h] at h2; exact Bool.noConfusion h2
  have hres : tryExtendPiston cfg w x y z dir =
      (enqueueFluidNeighbors cfg (enqueueRedstoneNeighbors cfg (enqueueRedstoneNeighbors cfg
        (setBlock cfg (setBlock cfg
          ((descChain x y z front
            (fun i => getBlock cfg w (x + (i : Int) * front.dx) y (z + (i : Int) * front.dz))
            n).foldl (pistonShiftNode cfg front) w)
          (x + front.dx) y (z + front.dz) (makePistonHeadId dir) internalWrite).1
          x y z (makePistonId dir true) internalWrite).1
        x y z) (x + front.dx) y (z + front.dz)) (x + front.dx) y (z + front.dz), true) := by
    unfold tryExtendPiston
    simp only [hfront, hscan]
    rw [if_neg hdest, hchain]
  rw [hres]
  simp only [getBlock_enqueueFluidNeighbors, getBlock_enqueueRedstoneNeighbors]
  have h0 : ∀ j : Nat, 1 ≤ j →
      ¬ (x + (j : Int) * front.dx = x ∧ y = y ∧ z + (j : Int) * front.dz = z) := by
    rintro j hj ⟨h1, _, h3⟩
    have := chain_cell_inj front hnz x z j 0 (by simpa using h1) (by simpa using h3)
    omega
  have hdist : ∀ i j : Nat, i ≠ j →
      ¬ (x + (i : Int) * front.dx = x + (j : Int) * front.dx ∧ y = y ∧
        z + (i : Int) * front.dz = z + (j : Int) * front.dz) := by
    rintro i j hij ⟨h1, _, h3⟩
    exact hij (chain_cell_inj front hnz x z i j h1 h3)
  have e1x : x + front.dx = x + ((1 : Nat) : Int) * front.dx := by simp
  have e1z : z + front.dz = z + ((1 : Nat) : Int) * front.dz := by simp
  refine ⟨trivial, ?_, ?_, ?_⟩
  · intro i hi
    rw [getBlock_setBlock_other cfg hcs _ _ _ _ _ _ _ _ _ (h0 (i + 2) (by omega)),
      e1x, e1z, getBlock_setBlock_other cfg hcs _ _ _ _ _ _ _ _ _ (hdist (i + 2) 1 (by omega))]
    exact s1 (i + 1) (by omega) (by omega)
  · have hl1 := (s4 (x + front.dx) y (z + front.dz)).mpr
      (by rw [e1x, e1z]; exact hload 0 (by omega))
    rw [getBlock_setBlock_other cfg hcs _ _ _ _ _ _ _ _ _
        (by rw [e1x, e1z]; exact h0 1 (by omega)),
      getBlock_setBlock_same cfg hcs _ _ _ _ _ _ hl1]
    have := makePistonHeadId_range dir
    omega
  · have hl0 := (cellLoaded_setBlock cfg _ (x + front.dx) y (z + front.dz)
      (makePistonHeadId dir) internalWrite x y z).mpr ((s4 x y z).mpr hpl)
    rw [getBlock_setBlock_same cfg hcs _ _ _ _ _ _ hl0]
    have := makePistonId_range dir true
    omega

/-- C6. Piston extension failure is atomic: whenever `tryExtendPiston` returns false the world
it leaves is the world it was given (no block, neither simulation queue and no overlay entry
has changed); and it does return false when 13 movable blocks stand contiguously in front of
the piston, and when a piston head or an extended piston is met after a run of movable
blocks. -/
theorem piston_failure_atomic (cfg : Config) (w : VoxelWorld) (x y z dir : Int) (front : DirVec)
    (hfront : getHorizontalDirVector dir = front) :
    ((tryExtendPiston cfg w x y z dir).2 = false → (tryExtendPiston cfg w x y z dir).1 = w) ∧
    ((∀ i : Nat, i < 13 → canPistonMoveBlock (getBlock cfg w
        (x + ((i + 1 : Nat) : Int) * front.dx) y (z + ((i + 1 : Nat) : Int) * front.dz)) = true) →
      (tryExtendPiston cfg w x y z dir).2 = false) ∧
    (∀ n : Nat,
      (∀ i : Nat, i < n → canPistonMoveBlock (getBlock cfg w
        (x + ((i + 1 : Nat) : Int) * front.dx) y (z + ((i + 1 : Nat) : Int) * front.dz)) = true) →
      (isPistonHead (getBlock cfg w (x + ((n + 1 : Nat) : Int) * front.dx) y
          (z + ((n + 1 : Nat) : Int) * front.dz)) = true ∨
        (isPiston (getBlock cfg w (x + ((n + 1 : Nat) : Int) * front.dx) y
          (z + ((n + 1 : Nat) : Int) * front.dz)) = true ∧
         isPistonExtended (getBlock cfg w (x + ((n + 1 : Nat) : Int) * front.dx) y
          (z + ((n + 1 : Nat) : Int) * front.dz)) = true)) →
      (tryExtendPiston cfg w x y z dir).2 = false) := by
  have ex : ∀ i : Nat, x + front.dx + (i : Int) * front.dx
      = x + ((i + 1 : Nat) : Int) * front.dx := by intro i; push_cast; ring
  have ez : ∀ i : Nat, z + front.dz + (i : Int) * front.dz
      = z + ((i + 1 : Nat) : Int) * front.dz := by intro i; push_cast; ring
  have hlong : (∀ i : Nat, i < 13 → canPistonMoveBlock (getBlock cfg w
        (x + ((i + 1 : Nat) : Int) * front.dx) y (z + ((i + 1 : Nat) : Int) * front.dz)) = true) →
      (tryExtendPiston cfg w x y z dir).2 = false := by
    intro hmov
    have hs := pistonScan_long cfg w y front 13 [] (x + front.dx) (z + front.dz) (by omega) rfl
      (fun i hi => by rw [ex, ez]; exact hmov i hi)
    unfold tryExtendPiston
    simp only [hfront, hs]
  refine ⟨?_, hlong, ?_⟩
  · intro hfalse
    unfold tryExtendPiston at hfalse ⊢
    simp only [hfront] at hfalse ⊢
    cases hs : pistonScan cfg w front y 13 [] (x + front.dx) (z + front.dz) with
    | none => rfl
    | some r =>
      obtain ⟨chain, cx, cz⟩ := r
      simp only [hs] at hfalse ⊢
      split
      · rfl
      · rename_i hd
        rw [if_neg hd] at hfalse
        exact Bool.noConfusion hfalse
  · intro n hmov hblk
    by_cases hn : n < 13
    · obtain ⟨hnf, hcan⟩ := unmovable_blocks _ hblk
      have hs := pistonScan_blocked cfg w y front n 13 [] (x + front.dx) (z + front.dz) hn
        (fun i hi => by rw [ex, ez]; exact hmov i hi)
        (by rw [ex, ez]; exact hnf) (by rw [ex, ez]; exact hcan)
      unfold tryExtendPiston
      simp only [hfront, hs]
    · exact hlong (fun i hi => hmov i (by omega))

theorem piston_push_within_limit_witness :
    (tryExtendPiston sampleConfig (pistonWorld 12) 1 1 1 1).2 = true ∧
    (∀ i : Nat, i < 12 →
      getBlock sampleConfig (tryExtendPiston sampleConfig (pistonWorld 12) 1 1 1 1).1
          (1 + ((i + 2 : Nat) : Int) * (DirVec.mk 1 0).dx) 1
          (1 + ((i + 2 : Nat) : Int) * (DirVec.mk 1 0).dz) =
        getBlock sampleConfig (pistonWorld 12) (1 + ((i + 1 : Nat) : Int) * (DirVec.mk 1 0).dx) 1
          (1 + ((i + 1 : Nat) : Int) * (DirVec.mk 1 0).dz)) ∧
    getBlock sampleConfig (tryExtendPiston sampleConfig (pistonWorld 12) 1 1 1 1).1
      (1 + (DirVec.mk 1 0).dx) 1 (1 + (DirVec.mk 1 0).dz) = makePistonHeadId 1 ∧
    getBlock sampleConfig (tryExtendPiston sampleConfig (pistonWorld 12) 1 1 1 1).1 1 1 1 =
      makePistonId 1 true :=
  piston_push_within_limit sampleConfig (by decide) (pistonWorld 12) 1 1 1 1 ⟨1, 0⟩ 12
    (by decide) (by decide) (by decide) (by decide) (by decide) (by decide)

theorem piston_failure_atomic_witness :
    (tryExtendPiston sampleConfig (pistonWorld 13) 1 1 1 1).2 = false ∧
    (tryExtendPiston sampleConfig (pistonWorld 13) 1 1 1 1).1 = pistonWorld 13 :=
  ⟨(piston_failure_atomic sampleConfig (pistonWorld 13) 1 1 1 1 ⟨1, 0⟩ (by decide)).2.1
      (by decide),
   (piston_failure_atomic sampleConfig (pistonWorld 13) 1 1 1 1 ⟨1, 0⟩ (by decide)).1
      ((piston_failure_atomic sampleConfig (pistonWorld 13) 1 1 1 1 ⟨1, 0⟩ (by decide)).2.1
        (by decide))⟩

theorem source_regeneration_witness :
    getBlock sampleConfig (updateWaterAt sampleConfig poolWorld 5 1 5) 5 1 5 = BLOCK.WATER :=
  source_regeneration sampleConfig (by decide) poolWorld 5 1 5 (by decide) (by decide)
    (by decide)

/-! ## The dust line: one evaluation -/

theorem isRedstoneDust_makeDustId (p : Int) : isRedstoneDust (makeDustId p) = true := by
  have := makeDustId_range p
  unfold isRedstoneDust
  simp only [BLOCK, Bool.and_eq_true, decide_eq_true_eq, ge_iff_le]
  omega

theorem getDustPower_makeDustId (p : Int) (h0 : 0 ≤ p) (h1 : p ≤ 15) :
    getDustPower (makeDustId p) = p := by
  unfold getDustPower
  rw [isRedstoneDust_makeDustId]
  simp only [Bool.not_true, Bool.false_eq_true, if_false]
  unfold makeDustId
  simp only [BLOCK]
  omega

theorem makeDustId_inj (p q : Int) (hp : 0 ≤ p ∧ p ≤ 15) (hq : 0 ≤ q ∧ q ≤ 15)
    (h : makeDustId p = makeDustId q) : p = q := by
  unfold makeDustId at h
  simp only [BLOCK] at h
  omega

theorem nonEvaluable_not_dust (id : Int) (h : nonEvaluable id) : isRedstoneDust id = false :=
  h.1

theorem evaluate_nonEvaluable (cfg : Config) (w : VoxelWorld) (x y z : Int)
    (h : nonEvaluable (getBlock cfg w x y z)) : evaluateRedstoneAt cfg w x y z = w := by
  obtain ⟨h1, h2, h3, h4⟩ := h
  unfold evaluateRedstoneAt
  simp only [h1, h2, h3, h4, Bool.false_eq_true, if_false]

theorem inv_dustEq (cfg : Config) (w0 w : VoxelWorld) (x0 y0 z0 : Int) (front : DirVec)
    (N j : Nat) (hs : DustLineSetup cfg w0 x0 y0 z0 front N)
    (hi : DustLineInv cfg w0 x0 y0 z0 front N j w) (a b c : Int) :
    getBlock cfg w a b c = getBlock cfg w0 a b c ∨
      (isRedstoneDust (getBlock cfg w0 a b c) = true ∧
        isRedstoneDust (getBlock cfg w a b c) = true) := by
  by_cases hl : onLine x0 y0 z0 front N a b c
  · obtain ⟨k, hk, rfl, rfl, rfl⟩ := hl
    right
    rw [hs.dust k hk, hi.line k hk]
    exact ⟨isRedstoneDust_makeDustId _, isRedstoneDust_makeDustId _⟩
  · left; exact hi.frame a b c hl

theorem contribution_line (cfg : Config) (w0 w : VoxelWorld) (x0 y0 z0 : Int) (front : DirVec)
    (N j : Nat) (hi : DustLineInv cfg w0 x0 y0 z0 front N j w) (m : Nat) (hm : m < N)
    (x y z : Int) (o : Int × Int × Int)
    (h1 : x + o.1 = x0 + ((m + 1 : Nat) : Int) * front.dx) (h2 : y + o.2.1 = y0)
    (h3 : z + o.2.2 = z0 + ((m + 1 : Nat) : Int) * front.dz) :
    dustContribution cfg w x y z o = (if m < j then 15 - (m : Int) else 0) - 1 := by
  have hj := hi.jle
  unfold dustContribution
  rw [h1, h2, h3, hi.line m hm, isRedstoneDust_makeDustId]
  simp only [if_true]
  rw [getDustPower_makeDustId _ (by split_ifs <;> omega) (by split_ifs <;> omega)]

theorem contribution_block (cfg : Config) (w0 w : VoxelWorld) (x0 y0 z0 : Int) (front : DirVec)
    (N j : Nat) (hs : DustLineSetup cfg w0 x0 y0 z0 front N)
    (hi : DustLineInv cfg w0 x0 y0 z0 front N j w)
    (x y z : Int) (o : Int × Int × Int)
    (h1 : x + o.1 = x0) (h2 : y + o.2.1 = y0) (h3 : z + o.2.2 = z0) :
    dustContribution cfg w x y z o = 15 := by
  have hb : getBlock cfg w x0 y0 z0 = 184 := by
    rw [hi.frame _ _ _ (block_not_onLine front hs.unit x0 y0 z0 N), hs.block]
  unfold dustContribution getSignalFromSourceToTarget
  rw [h1, h2, h3, hb]
  have e1 : isRedstoneDust 184 = false := by decide
  have e2 : getDirectSignalFromBlock 184 x0 y0 z0 x y z = ⟨15, 15⟩ := by
    unfold getDirectSignalFromBlock
    simp only [BLOCK, if_true]
  simp only [e1, e2, Bool.false_eq_true, if_false, BLOCK]
  rw [if_neg (by decide : ¬ ((184 : Int) = 0))]
  split_ifs <;> simp

theorem contribution_quiet (cfg : Config) (w0 w : VoxelWorld) (x0 y0 z0 : Int) (front : DirVec)
    (N j : Nat) (hs : DustLineSetup cfg w0 x0 y0 z0 front N)
    (hi : DustLineInv cfg w0 x0 y0 z0 front N j w) (k : Nat) (hk : k < N)
    (o : Int × Int × Int) (ho : o ∈ ALL_NEIGHBOR_OFFSETS)
    (hl : ¬ onLine x0 y0 z0 front N (x0 + ((k + 1 : Nat) : Int) * front.dx + o.1) (y0 + o.2.1)
      (z0 + ((k + 1 : Nat) : Int) * front.dz + o.2.2))
    (hb : ¬ (x0 + ((k + 1 : Nat) : Int) * front.dx + o.1 = x0 ∧ y0 + o.2.1 = y0 ∧
      z0 + ((k + 1 : Nat) : Int) * front.dz + o.2.2 = z0)) :
    dustContribution cfg w (x0 + ((k + 1 : Nat) : Int) * front.dx) y0
      (z0 + ((k + 1 : Nat) : Int) * front.dz) o = 0 := by
  obtain ⟨hne, hsig⟩ := hs.quiet k hk o ho hl hb
  have hf := hi.frame _ _ _ hl
  unfold dustContribution
  rw [hf, nonEvaluable_not_dust _ hne]
  simp only [Bool.false_eq_true, if_false]
  rw [signal_congr cfg w0 w (inv_dustEq cfg w0 w x0 y0 z0 front N j hs hi) _ _ _ _ _ _ hf]
  exact hsig

/-- The power that `updateDustAt` computes for cell `k` of the line when the first `j` cells
are powered. -/
theorem dust_next (cfg : Config) (w0 w : VoxelWorld) (x0 y0 z0 : Int) (front : DirVec)
    (N j : Nat) (hs : DustLineSetup cfg w0 x0 y0 z0 front N)
    (hi : DustLineInv cfg w0 x0 y0 z0 front N j w) (k : Nat) (hk : k < N) :
    ALL_NEIGHBOR_OFFSETS.foldl (dustNeighborStep cfg w (x0 + ((k + 1 : Nat) : Int) * front.dx) y0
      (z0 + ((k + 1 : Nat) : Int) * front.dz)) 0 =
      (if k ≤ j ∧ k < 15 then 15 - (k : Int) else 0) := by
  have hj := hi.jle
  apply dust_nextPower_eq
  · split_ifs <;> omega
  · intro o ho
    by_cases hl : onLine x0 y0 z0 front N (x0 + ((k + 1 : Nat) : Int) * front.dx + o.1)
        (y0 + o.2.1) (z0 + ((k + 1 : Nat) : Int) * front.dz + o.2.2)
    · obtain ⟨m, hm, e1, e2, e3⟩ := hl
      have hg := line_neighbor front hs.unit o ho x0 y0 z0 k (m + 1) ⟨e1, e2, e3⟩
      rw [contribution_line cfg w0 w x0 y0 z0 front N j hi m hm _ _ _ o e1 e2 e3]
      split_ifs <;> omega
    · by_cases hb : x0 + ((k + 1 : Nat) : Int) * front.dx + o.1 = x0 ∧ y0 + o.2.1 = y0 ∧
          z0 + ((k + 1 : Nat) : Int) * front.dz + o.2.2 = z0
      · have hg := line_neighbor front hs.unit o ho x0 y0 z0 k 0
          ⟨by simpa using hb.1, hb.2.1, by simpa using hb.2.2⟩
        rw [contribution_block cfg w0 w x0 y0 z0 front N j hs hi _ _ _ o hb.1 hb.2.1 hb.2.2]
        split_ifs <;> omega
      · rw [contribution_quiet cfg w0 w x0 y0 z0 front N j hs hi k hk o ho hl hb]
        split_ifs <;> omega
  · by_cases hT : k ≤ j ∧ k < 15
    · right
      refine ⟨(-front.dx, 0, -front.dz), line_back_offset front hs.unit, ?_⟩
      rw [if_pos hT]
      by_cases hk0 : k = 0
      · subst hk0
        rw [contribution_block cfg w0 w x0 y0 z0 front N j hs hi _ _ _ _
          (by push_cast; ring) (by simp) (by push_cast; ring)]
        simp
      · obtain ⟨m, rfl⟩ : ∃ m, k = m + 1 := ⟨k - 1, by omega⟩
        rw [contribution_line cfg w0 w x0 y0 z0 front N j hi m (by omega) _ _ _ _
          (by push_cast; ring) (by simp) (by push_cast; ring)]
        rw [if_pos (by omega)]
        push_cast; ring
    · left
      rw [if_neg hT]

theorem cell_loaded_of_line (cfg : Config) (w0 w : VoxelWorld) (x0 y0 z0 : Int) (front : DirVec)
    (N j : Nat) (hi : DustLineInv cfg w0 x0 y0 z0 front N j w) (k : Nat) (hk : k < N) :
    cellLoaded cfg w (x0 + ((k + 1 : Nat) : Int) * front.dx) y0
      (z0 + ((k + 1 : Nat) : Int) * front.dz) := by
  apply cellLoaded_of_getBlock_ne
  rw [hi.line k hk]
  have := makeDustId_range (if k < j then 15 - (k : Int) else 0)
  simp only [BLOCK]; omega

/-- The evaluation of cell `k` of the line: it is written, with power `15 - k`, exactly when
it is the first unpowered cell and fewer than 15 cells are powered. -/
theorem updateDustAt_line (cfg : Config) (w0 w : VoxelWorld) (x0 y0 z0 : Int) (front : DirVec)
    (N j : Nat) (hs : DustLineSetup cfg w0 x0 y0 z0 front N)
    (hi : DustLineInv cfg w0 x0 y0 z0 front N j w) (k : Nat) (hk : k < N) :
    evaluateRedstoneAt cfg w (x0 + ((k + 1 : Nat) : Int) * front.dx) y0
        (z0 + ((k + 1 : Nat) : Int) * front.dz) =
      if k = j ∧ j < 15 then
        enqueueRedstoneNeighbors cfg
          (setBlock cfg w (x0 + ((k + 1 : Nat) : Int) * front.dx) y0
            (z0 + ((k + 1 : Nat) : Int) * front.dz) (makeDustId (15 - (k : Int)))
            internalWrite).1
          (x0 + ((k + 1 : Nat) : Int) * front.dx) y0 (z0 + ((k + 1 : Nat) : Int) * front.dz)
      else w := by
  have hj := hi.jle
  have hline := hi.line k hk
  have hnext := dust_next cfg w0 w x0 y0 z0 front N j hs hi k hk
  have hdust : isRedstoneDust (getBlock cfg w (x0 + ((k + 1 : Nat) : Int) * front.dx) y0
      (z0 + ((k + 1 : Nat) : Int) * front.dz)) = true := by
    rw [hline]; exact isRedstoneDust_makeDustId _
  unfold evaluateRedstoneAt
  simp only [hdust, if_true]
  unfold updateDustAt
  simp only [hdust, Bool.not_true, Bool.false_eq_true, if_false, hnext]
  have hclamp : clampPower (if k ≤ j ∧ k < 15 then 15 - (k : Int) else 0) =
      (if k ≤ j ∧ k < 15 then 15 - (k : Int) else 0) := by
    rw [clampPower_eq _ (by split_ifs <;> omega) (by split_ifs <;> omega)]
    split_ifs <;> omega
  rw [hclamp, hline]
  by_cases hc : k = j ∧ j < 15
  · have hT : (if k ≤ j ∧ k < 15 then 15 - (k : Int) else 0) = 15 - (k : Int) :=
      if_pos (by omega)
    rw [if_pos hc, hT, if_neg]
    intro he
    have := makeDustId_inj _ _ (by omega) (by split_ifs <;> omega) he
    rw [if_neg (by omega)] at this
    omega
  · rw [if_neg hc, if_pos]
    congr 1
    split_ifs <;> omega

/-! ## The dust line: the drain of the redstone queue -/

theorem setBlock_internal_redstoneQueue (cfg : Config) (w : VoxelWorld) (x y z id : Int) :
    (setBlock cfg w x y z id internalWrite).1.redstoneQueue = w.redstoneQueue := by
  rw [setBlock_unfold]
  split
  · rfl
  · split
    · rfl
    · split
      · rfl
      · exact setBlockCommit_redstoneQueue cfg w _ x y z id

theorem setBlock_internal_redstoneQueued (cfg : Config) (w : VoxelWorld) (x y z id : Int) :
    (setBlock cfg w x y z id internalWrite).1.redstoneQueued = w.redstoneQueued := by
  rw [setBlock_unfold]
  split
  · rfl
  · split
    · rfl
    · split
      · rfl
      · exact setBlockCommit_redstoneQueued cfg w _ x y z id

theorem line_front_offset (front : DirVec) (hu : isUnitDir front) :
    (front.dx, (0 : Int), front.dz) ∈ ALL_NEIGHBOR_OFFSETS := by
  obtain ⟨dx, dz⟩ := front
  simp only [isUnitDir] at hu
  rcases hu with ⟨rfl, rfl⟩ | ⟨rfl, rfl⟩ | ⟨rfl, rfl⟩ | ⟨rfl, rfl⟩ <;>
    simp [ALL_NEIGHBOR_OFFSETS]

/-- One evaluation of a queued cell keeps the state of the drain and does not increase the
measure `7 * (15 - j) + length of the queue`. -/
theorem dust_step (cfg : Config) (w0 w : VoxelWorld) (x0 y0 z0 : Int) (front : DirVec)
    (N j : Nat) (hs : DustLineSetup cfg w0 x0 y0 z0 front N)
    (hi : DustLineInv cfg w0 x0 y0 z0 front N j w) (a b c : Int)
    (hnode : onLine x0 y0 z0 front N a b c ∨ nonEvaluable (getBlock cfg w0 a b c))
    (hpend : j < N → j < 15 →
      (x0 + ((j + 1 : Nat) : Int) * front.dx, y0, z0 + ((j + 1 : Nat) : Int) * front.dz) ∈
        (a, b, c) :: w.redstoneQueue) :
    ∃ j', DustLineInv cfg w0 x0 y0 z0 front N j' (evaluateRedstoneAt cfg w a b c) ∧
      (j' < N → j' < 15 →
        (x0 + ((j' + 1 : Nat) : Int) * front.dx, y0, z0 + ((j' + 1 : Nat) : Int) * front.dz) ∈
          (evaluateRedstoneAt cfg w a b c).redstoneQueue) ∧
      7 * (15 - j') + (evaluateRedstoneAt cfg w a b c).redstoneQueue.length ≤
        7 * (15 - j) + w.redstoneQueue.length := by
  have hj := hi.jle
  -- the evaluation that changes nothing
  have same : evaluateRedstoneAt cfg w a b c = w →
      (j < N → j < 15 → ¬ (a = x0 + ((j + 1 : Nat) : Int) * front.dx ∧ b = y0 ∧
        c = z0 + ((j + 1 : Nat) : Int) * front.dz)) →
      ∃ j', DustLineInv cfg w0 x0 y0 z0 front N j' (evaluateRedstoneAt cfg w a b c) ∧
      (j' < N → j' < 15 →
        (x0 + ((j' + 1 : Nat) : Int) * front.dx, y0, z0 + ((j' + 1 : Nat) : Int) * front.dz) ∈
          (evaluateRedstoneAt cfg w a b c).redstoneQueue) ∧
      7 * (15 - j') + (evaluateRedstoneAt cfg w a b c).redstoneQueue.length ≤
        7 * (15 - j) + w.redstoneQueue.length := by
    intro he hne
    rw [he]
    refine ⟨j, hi, ?_, le_refl _⟩
    intro h1 h2
    rcases List.mem_cons.mp (hpend h1 h2) with h | h
    · exfalso
      apply hne h1 h2
      have e1 := congrArg Prod.fst h
      have e2 := congrArg (fun p => p.2.1) h
      have e3 := congrArg (fun p => p.2.2) h
      simp only [] at e1 e2 e3
      exact ⟨e1.symm, e2.symm, e3.symm⟩
    · exact h
  by_cases hl : onLine x0 y0 z0 front N a b c
  · obtain ⟨k, hk, ha, hb, hc'⟩ := hl
    have hb' := hb.symm
    subst ha hb' hc'
    have hev := updateDustAt_line cfg w0 w x0 y0 z0 front N j hs hi k hk
    by_cases hc : k = j ∧ j < 15
    · -- the first unpowered cell is powered
      obtain ⟨rfl, hj15⟩ := hc
      rw [if_pos ⟨rfl, hj15⟩] at hev
      rw [hev]
      have hlk := cell_loaded_of_line cfg w0 w x0 y0 z0 front N k hi k hk
      obtain ⟨⟨q1, q2⟩, q3, q4, q5, q6, q7⟩ := enqueueRedstoneNeighbors_spec cfg
        (setBlock cfg w (x0 + ((k + 1 : Nat) : Int) * front.dx) y0
          (z0 + ((k + 1 : Nat) : Int) * front.dz) (makeDustId (15 - (k : Int))) internalWrite).1
        (x0 + ((k + 1 : Nat) : Int) * front.dx) y0 (z0 + ((k + 1 : Nat) : Int) * front.dz)
        (by rw [setBlock_internal_redstoneQueued]; exact hi.nodup)
        (by rw [setBlock_internal_redstoneQueued, setBlock_internal_redstoneQueue]
            exact hi.queued)
      rw [setBlock_internal_redstoneQueue] at q3 q4 q5
      refine ⟨k + 1, ⟨?_, ?_, ?_, by omega, q1, q2, ?_⟩, ?_, by omega⟩
      · intro key
        rw [enqueueRedstoneNeighbors_chunks, setBlock_isSome]
        exact hi.loaded key
      · intro a b c hnl
        rw [getBlock_enqueueRedstoneNeighbors, getBlock_setBlock_other cfg hs.chunkSize]
        · exact hi.frame a b c hnl
        · rintro ⟨h1, h2, h3⟩
          apply hnl
          rw [h1, h2, h3]
          exact onLine_cell front x0 y0 z0 N k hk
      · intro m hm
        rw [getBlock_enqueueRedstoneNeighbors]
        by_cases hmk : m = k
        · subst hmk
          rw [getBlock_setBlock_same cfg hs.chunkSize _ _ _ _ _ _ hlk, if_pos (by omega)]
          have := makeDustId_range (15 - (m : Int))
          omega
        · rw [getBlock_setBlock_other cfg hs.chunkSize, hi.line m hm]
          · congr 1
            split_ifs <;> omega
          · rintro ⟨h1, _, h3⟩
            exact hmk (by
              have := line_cell_inj front hs.unit x0 z0 (m + 1) (k + 1) h1 h3
              omega)
      · intro e he
        rcases q4 e he with h | h | ⟨o, ho, h⟩
        · exact hi.entries e h
        · left; rw [h]; exact onLine_cell front x0 y0 z0 N k hk
        · rw [h]
          simp only []
          by_cases hol : onLine x0 y0 z0 front N (x0 + ((k + 1 : Nat) : Int) * front.dx + o.1)
              (y0 + o.2.1) (z0 + ((k + 1 : Nat) : Int) * front.dz + o.2.2)
          · left; exact hol
          · right
            by_cases hb : x0 + ((k + 1 : Nat) : Int) * front.dx + o.1 = x0 ∧ y0 + o.2.1 = y0 ∧
                z0 + ((k + 1 : Nat) : Int) * front.dz + o.2.2 = z0
            · rw [hb.1, hb.2.1, hb.2.2, hs.block]
              decide
            · exact (hs.quiet k hk o ho hol hb).1
      · intro h1 h2
        have hl1 : cellLoaded cfg w (x0 + ((k + 1 + 1 : Nat) : Int) * front.dx) y0
            (z0 + ((k + 1 + 1 : Nat) : Int) * front.dz) :=
          cell_loaded_of_line cfg w0 w x0 y0 z0 front N k hi (k + 1) h1
        have := q7 (front.dx, 0, front.dz) (line_front_offset front hs.unit)
          (by
            rw [cellLoaded_setBlock]
            simp only [add_zero]
            have ex : x0 + ((k + 1 : Nat) : Int) * front.dx + front.dx
                = x0 + ((k + 1 + 1 : Nat) : Int) * front.dx := by push_cast; ring
            have ez : z0 + ((k + 1 : Nat) : Int) * front.dz + front.dz
                = z0 + ((k + 1 + 1 : Nat) : Int) * front.dz := by push_cast; ring
            rw [ex, ez]; exact hl1)
        simp only [add_zero] at this
        have ex : x0 + ((k + 1 : Nat) : Int) * front.dx + front.dx
            = x0 + ((k + 1 + 1 : Nat) : Int) * front.dx := by push_cast; ring
        have ez : z0 + ((k + 1 : Nat) : Int) * front.dz + front.dz
            = z0 + ((k + 1 + 1 : Nat) : Int) * front.dz := by push_cast; ring
        rw [ex, ez] at this
        exact this
    · rw [if_neg hc] at hev
      apply same hev
      rintro h1 h2 ⟨e1, _, e3⟩
      have := line_cell_inj front hs.unit x0 z0 (k + 1) (j + 1) e1 e3
      omega
  · have hne : nonEvaluable (getBlock cfg w a b c) := by
      rw [hi.frame a b c hl]
      rcases hnode with h | h
      · exact absurd h hl
      · exact h
    apply same (evaluate_nonEvaluable cfg w a b c hne)
    rintro h1 h2 ⟨ha, hb, hc'⟩
    have hb' := hb.symm
    subst ha hb' hc'
    exact hl (onLine_cell front x0 y0 z0 N j h1)

/-- Shifting a cell out of the queue keeps the state of the drain. -/
theorem dust_pop (cfg : Config) (w0 w : VoxelWorld) (x0 y0 z0 : Int) (front : DirVec)
    (N j : Nat) (hi : DustLineInv cfg w0 x0 y0 z0 front N j w) (node : Cell) (rest : List Cell)
    (hq : w.redstoneQueue = node :: rest) :
    DustLineInv cfg w0 x0 y0 z0 front N j
      { w with redstoneQueue := rest, redstoneQueued := w.redstoneQueued.erase node } := by
  refine ⟨hi.loaded, ?_, ?_, hi.jle, hi.nodup.erase node, ?_, ?_⟩
  · intro a b c h
    rw [← hi.frame a b c h]
    exact getBlock_congr cfg _ _ rfl a b c
  · intro k hk
    rw [← hi.line k hk]
    exact getBlock_congr cfg _ _ rfl _ _ _
  · intro e he
    simp only [] at he ⊢
    have h1 := (hi.nodup.mem_erase_iff).mp he
    have h2 := hi.queued e h1.2
    rw [hq] at h2
    rcases List.mem_cons.mp h2 with h | h
    · exact absurd h h1.1
    · exact h
  · intro e he
    simp only [] at he
    apply hi.entries e
    rw [hq]
    exact List.mem_cons_of_mem _ he

/-- The drain of the redstone queue keeps the state of the drain, and empties the queue when
the limit is at least `7 * (15 - j)` plus the length of the queue. -/
theorem dust_drain (cfg : Config) (w0 : VoxelWorld) (x0 y0 z0 : Int) (front : DirVec) (N : Nat)
    (hs : DustLineSetup cfg w0 x0 y0 z0 front N) :
    ∀ (limit : Nat) (w : VoxelWorld) (j : Nat),
      DustLineInv cfg w0 x0 y0 z0 front N j w →
      (j < N → j < 15 →
        (x0 + ((j + 1 : Nat) : Int) * front.dx, y0, z0 + ((j + 1 : Nat) : Int) * front.dz) ∈
          w.redstoneQueue) →
      ∃ j', DustLineInv cfg w0 x0 y0 z0 front N j' (processRedstoneUpdates cfg limit w) ∧
        (j' < N → j' < 15 →
          (x0 + ((j' + 1 : Nat) : Int) * front.dx, y0, z0 + ((j' + 1 : Nat) : Int) * front.dz) ∈
            (processRedstoneUpdates cfg limit w).redstoneQueue) ∧
        (7 * (15 - j) + w.redstoneQueue.length ≤ limit →
          (processRedstoneUpdates cfg limit w).redstoneQueue = []) := by
  intro limit
  induction limit with
  | zero =>
    intro w j hi hp
    refine ⟨j, hi, hp, ?_⟩
    intro h
    show w.redstoneQueue = []
    exact List.length_eq_zero.mp (by omega)
  | succ limit ih =>
    intro w j hi hp
    have inner : ∀ (q : List Cell) (w : VoxelWorld), w.redstoneQueue = q →
        DustLineInv cfg w0 x0 y0 z0 front N j w →
        (j < N → j < 15 →
          (x0 + ((j + 1 : Nat) : Int) * front.dx, y0, z0 + ((j + 1 : Nat) : Int) * front.dz) ∈
            w.redstoneQueue) →
        ∃ j', DustLineInv cfg w0 x0 y0 z0 front N j'
            (redstoneDrainStep cfg (processRedstoneUpdates cfg limit) w q) ∧
          (j' < N → j' < 15 →
            (x0 + ((j' + 1 : Nat) : Int) * front.dx, y0,
              z0 + ((j' + 1 : Nat) : Int) * front.dz) ∈
              (redstoneDrainStep cfg (processRedstoneUpdates cfg limit) w q).redstoneQueue) ∧
          (7 * (15 - j) + q.length ≤ limit + 1 →
            (redstoneDrainStep cfg (processRedstoneUpdates cfg limit) w q).redstoneQueue
              = []) := by
      intro q
      induction q with
      | nil =>
        intro w hq hi hp
        exact ⟨j, hi, hp, fun _ => hq⟩
      | cons node rest ihq =>
        intro w hq hi hp
        have hi1 := dust_pop cfg w0 w x0 y0 z0 front N j hi node rest hq
        unfold redstoneDrainStep
        simp only []
        split
        · -- the chunk of the cell is not loaded: the cell is skipped
          rename_i hstale
          obtain ⟨j', r1, r2, r3⟩ := ihq _ rfl hi1 (by
            intro h1 h2
            have hm := hp h1 h2
            rw [hq] at hm
            rcases List.mem_cons.mp hm with h | h
            · exfalso
              have hl := cell_loaded_of_line cfg w0 w x0 y0 z0 front N j hi j h1
              have h3 := hl.2.2
              rw [← h] at hstale
              simp only [hasChunk] at hstale h3
              rw [h3] at hstale
              exact absurd hstale (by decide)
            · exact h)
          refine ⟨j', r1, r2, ?_⟩
          intro hm
          apply r3
          simp only [List.length_cons] at hm
          omega
        · -- the cell is evaluated
          obtain ⟨j1, s1, s2, s3⟩ := dust_step cfg w0 _ x0 y0 z0 front N j hs hi1
            node.1 node.2.1 node.2.2
            (hi.entries node (by rw [hq]; exact List.mem_cons_self _ _))
            (by
              intro h1 h2
              have hm := hp h1 h2
              rw [hq] at hm
              exact hm)
          obtain ⟨j2, t1, t2, t3⟩ := ih _ j1 s1 s2
          refine ⟨j2, t1, t2, ?_⟩
          intro hm
          apply t3
          simp only [List.length_cons] at hm
          simp only [] at s3
          omega
    obtain ⟨j', r1, r2, r3⟩ := inner w.redstoneQueue w rfl hi hp
    exact ⟨j', r1, r2, r3⟩

/-! ## Claim on dust decay -/

/-- C7. Dust decay: for a straight horizontal line of `N` dust cells, all of power 0, with a
redstone block next to its first cell and nothing around the line that acts or signals
(`DustLineSetup`), and a redstone queue that holds the first dust cell (`DustLineQueue`): some
limit drains the redstone queue to empty, and whenever the queue has been drained to empty the
`k`-th dust cell (`k = 1` next to the block) holds dust of power `max(0, 16 - k)`: 15, 14,
13, ..., 0 at the cell 15 steps beyond the first dust cell and 0 in every later cell. -/
theorem dust_decay (cfg : Config) (w : VoxelWorld) (x0 y0 z0 : Int) (front : DirVec) (N : Nat)
    (hs : DustLineSetup cfg w x0 y0 z0 front N)
    (hq : DustLineQueue cfg w x0 y0 z0 front N) :
    (∃ limit : Nat, (processRedstoneUpdates cfg limit w).redstoneQueue = []) ∧
    ∀ limit : Nat, (processRedstoneUpdates cfg limit w).redstoneQueue = [] →
      ∀ k : Nat, 1 ≤ k → k ≤ N →
        isRedstoneDust (getBlock cfg (processRedstoneUpdates cfg limit w)
          (x0 + (k : Int) * front.dx) y0 (z0 + (k : Int) * front.dz)) = true ∧
        getDustPower (getBlock cfg (processRedstoneUpdates cfg limit w)
          (x0 + (k : Int) * front.dx) y0 (z0 + (k : Int) * front.dz)) = max 0 (16 - (k : Int)) := by
  have hi0 : DustLineInv cfg w x0 y0 z0 front N 0 w :=
    ⟨fun _ => rfl, fun _ _ _ _ => rfl,
      fun k hk => by rw [hs.dust k hk, if_neg (by omega)],
      ⟨by omega, by omega⟩, hq.nodup, hq.queued, hq.entries⟩
  have hp0 : 0 < N → 0 < 15 →
      (x0 + ((0 + 1 : Nat) : Int) * front.dx, y0, z0 + ((0 + 1 : Nat) : Int) * front.dz) ∈
        w.redstoneQueue := by
    intro h _
    have := hq.first h
    simpa using this
  constructor
  · obtain ⟨j', _, _, r3⟩ := dust_drain cfg w x0 y0 z0 front N hs
      (7 * (15 - 0) + w.redstoneQueue.length) w 0 hi0 hp0
    exact ⟨_, r3 (le_refl _)⟩
  · intro limit hempty k hk1 hkN
    obtain ⟨j', r1, r2, _⟩ := dust_drain cfg w x0 y0 z0 front N hs limit w 0 hi0 hp0
    have hj := r1.jle
    have hdone : ¬ (j' < N ∧ j' < 15) := by
      rintro ⟨h1, h2⟩
      have := r2 h1 h2
      rw [hempty] at this
      exact absurd this (List.not_mem_nil _)
    obtain ⟨m, rfl⟩ : ∃ m, k = m + 1 := ⟨k - 1, by omega⟩
    have hline := r1.line m (by omega)
    rw [hline]
    refine ⟨isRedstoneDust_makeDustId _, ?_⟩
    rw [getDustPower_makeDustId _ (by split_ifs <;> omega) (by split_ifs <;> omega)]
    push_cast
    split_ifs <;> omega

set_option maxRecDepth 100000 in
theorem dust_decay_witness :
    (∃ limit : Nat, (processRedstoneUpdates lineConfig limit dustLineWorld).redstoneQueue = []) ∧
    ∀ limit : Nat, (processRedstoneUpdates lineConfig limit dustLineWorld).redstoneQueue = [] →
      ∀ k : Nat, 1 ≤ k → k ≤ 20 →
        isRedstoneDust (getBlock lineConfig (processRedstoneUpdates lineConfig limit dustLineWorld)
          (1 + (k : Int) * (DirVec.mk 1 0).dx) 1 (1 + (k : Int) * (DirVec.mk 1 0).dz)) = true ∧
        getDustPower (getBlock lineConfig (processRedstoneUpdates lineConfig limit dustLineWorld)
          (1 + (k : Int) * (DirVec.mk 1 0).dx) 1 (1 + (k : Int) * (DirVec.mk 1 0).dz)) =
          max 0 (16 - (k : Int)) :=
  dust_decay lineConfig dustLineWorld 1 1 1 ⟨1, 0⟩ 20
    ⟨by decide, by decide, by decide, by decide, by decide⟩
    ⟨by decide, by decide, by decide, by decide⟩

/-! ## The fluid queue under `enqueueFluidUpdate` and `enqueueFluidNeighbors` -/

theorem enqueueFluidUpdate_cases (cfg : Config) (w : VoxelWorld) (x y z : Int) :
    enqueueFluidUpdate cfg w x y z = w ∨
    ((x, y, z) ∉ w.fluidQueued ∧ cellLoaded cfg w x y z ∧
      (enqueueFluidUpdate cfg w x y z).fluidQueue = w.fluidQueue ++ [(x, y, z)] ∧
      (enqueueFluidUpdate cfg w x y z).fluidQueued = w.fluidQueued ++ [(x, y, z)]) := by
  simp only [enqueueFluidUpdate]
  split_ifs with h1 h2 h3
  · left; rfl
  · left; rfl
  · left; rfl
  · right
    refine ⟨h3, ⟨by omega, by omega, ?_⟩, rfl, rfl⟩
    simpa using h2

theorem enqueueFluidUpdate_mem (cfg : Config) (w : VoxelWorld) (x y z : Int)
    (hl : cellLoaded cfg w x y z) (hq : ∀ c ∈ w.fluidQueued, c ∈ w.fluidQueue) :
    (x, y, z) ∈ (enqueueFluidUpdate cfg w x y z).fluidQueue := by
  simp only [enqueueFluidUpdate]
  obtain ⟨h1, h2, h3⟩ := hl
  rw [if_neg (by omega)]
  simp only [h3, Bool.not_true, Bool.false_eq_true, if_false]
  split_ifs with h
  · exact hq _ h
  · simp

theorem enqueueFluidUpdate_mono (cfg : Config) (w : VoxelWorld) (x y z : Int) (c : Cell)
    (h : c ∈ w.fluidQueue) : c ∈ (enqueueFluidUpdate cfg w x y z).fluidQueue := by
  rcases enqueueFluidUpdate_cases cfg w x y z with h1 | ⟨_, _, h2, _⟩
  · rw [h1]; exact h
  · rw [h2]; exact List.mem_append_left _ h

theorem enqueueFluidUpdate_queueOK (cfg : Config) (w : VoxelWorld) (x y z : Int)
    (hn : w.fluidQueued.Nodup) (hq : ∀ c ∈ w.fluidQueued, c ∈ w.fluidQueue) :
    (enqueueFluidUpdate cfg w x y z).fluidQueued.Nodup ∧
    ∀ c ∈ (enqueueFluidUpdate cfg w x y z).fluidQueued,
      c ∈ (enqueueFluidUpdate cfg w x y z).fluidQueue := by
  rcases enqueueFluidUpdate_cases cfg w x y z with h1 | ⟨hnot, _, h2, h3⟩
  · rw [h1]; exact ⟨hn, hq⟩
  · rw [h2, h3]
    refine ⟨?_, ?_⟩
    · rw [List.nodup_append]
      refine ⟨hn, List.nodup_singleton _, ?_⟩
      intro a ha hb
      rw [List.mem_singleton] at hb
      subst hb
      exact hnot ha
    · intro c hc
      rcases List.mem_append.mp hc with h | h
      · exact List.mem_append_left _ (hq c h)
      · exact List.mem_append_right _ h

theorem enqueueFluidUpdate_new (cfg : Config) (w : VoxelWorld) (x y z : Int) (c : Cell)
    (h : c ∈ (enqueueFluidUpdate cfg w x y z).fluidQueue) :
    c ∈ w.fluidQueue ∨ c = (x, y, z) := by
  rcases enqueueFluidUpdate_cases cfg w x y z with h1 | ⟨_, _, h2, _⟩
  · rw [h1] at h; exact Or.inl h
  · rw [h2] at h
    rcases List.mem_append.mp h with h | h
    · exact Or.inl h
    · exact Or.inr (List.mem_singleton.mp h)

theorem enqueueFluidUpdate_length (cfg : Config) (w : VoxelWorld) (x y z : Int) :
    (enqueueFluidUpdate cfg w x y z).fluidQueue.length ≤ w.fluidQueue.length + 1 := by
  rcases enqueueFluidUpdate_cases cfg w x y z with h1 | ⟨_, _, h2, _⟩
  · rw [h1]; omega
  · rw [h2]; simp

theorem cellLoaded_enqueueFluidUpdate (cfg : Config) (w : VoxelWorld) (x y z a b c : Int) :
    cellLoaded cfg (enqueueFluidUpdate cfg w x y z) a b c ↔ cellLoaded cfg w a b c :=
  cellLoaded_of_chunks_eq cfg _ _ (enqueueFluidUpdate_chunks cfg w x y z) a b c

/-- The three nested loops of `enqueueFluidNeighbors` as one loop over `fluidLoopOffsets`. -/
theorem enqueueFluidNeighbors_flat (cfg : Config) (w : VoxelWorld) (x y z : Int) :
    enqueueFluidNeighbors cfg w x y z =
      fluidLoopOffsets.foldl (fun w d =>
        if |d.1| + |d.2.1| + |d.2.2| > 2 then w
        else enqueueFluidUpdate cfg w (x + d.1) (y + d.2.1) (z + d.2.2)) w := by
  simp only [enqueueFluidNeighbors, fluidLoopOffsets, List.foldl_cons, List.foldl_nil]

/-- What `enqueueFluidNeighbors` does to the queue: nothing is removed, at most 27 cells are
appended, each of them at an offset of `fluidLoopOffsets` with at most two non-zero
components, and every such cell that is in a loaded chunk and in the height range is queued
afterwards. -/
theorem enqueueFluidNeighbors_spec (cfg : Config) (w : VoxelWorld) (x y z : Int)
    (hn : w.fluidQueued.Nodup) (hq : ∀ c ∈ w.fluidQueued, c ∈ w.fluidQueue) :
    ((enqueueFluidNeighbors cfg w x y z).fluidQueued.Nodup ∧
      ∀ c ∈ (enqueueFluidNeighbors cfg w x y z).fluidQueued,
        c ∈ (enqueueFluidNeighbors cfg w x y z).fluidQueue) ∧
    (∀ c ∈ w.fluidQueue, c ∈ (enqueueFluidNeighbors cfg w x y z).fluidQueue) ∧
    (∀ c ∈ (enqueueFluidNeighbors cfg w x y z).fluidQueue,
      c ∈ w.fluidQueue ∨
        ∃ d ∈ fluidLoopOffsets, |d.1| + |d.2.1| + |d.2.2| ≤ 2 ∧
          c = (x + d.1, y + d.2.1, z + d.2.2)) ∧
    (enqueueFluidNeighbors cfg w x y z).fluidQueue.length ≤ w.fluidQueue.length + 27 ∧
    (∀ d ∈ fluidLoopOffsets, |d.1| + |d.2.1| + |d.2.2| ≤ 2 →
      cellLoaded cfg w (x + d.1) (y + d.2.1) (z + d.2.2) →
      (x + d.1, y + d.2.1, z + d.2.2) ∈ (enqueueFluidNeighbors cfg w x y z).fluidQueue) := by
  have loop : ∀ (L : List (Int × Int × Int)) (v : VoxelWorld),
      v.fluidQueued.Nodup → (∀ c ∈ v.fluidQueued, c ∈ v.fluidQueue) →
      (∀ a b c, cellLoaded cfg v a b c ↔ cellLoaded cfg w a b c) →
      ((L.foldl (fun w d =>
          if |d.1| + |d.2.1| + |d.2.2| > 2 then w
          else enqueueFluidUpdate cfg w (x + d.1) (y + d.2.1) (z + d.2.2)) v).fluidQueued.Nodup ∧
        ∀ c ∈ (L.foldl (fun w d =>
          if |d.1| + |d.2.1| + |d.2.2| > 2 then w
          else enqueueFluidUpdate cfg w (x + d.1) (y + d.2.1) (z + d.2.2)) v).fluidQueued,
          c ∈ (L.foldl (fun w d =>
          if |d.1| + |d.2.1| + |d.2.2| > 2 then w
          else enqueueFluidUpdate cfg w (x + d.1) (y + d.2.1) (z + d.2.2)) v).fluidQueue) ∧
      (∀ c ∈ v.fluidQueue, c ∈ (L.foldl (fun w d =>
          if |d.1| + |d.2.1| + |d.2.2| > 2 then w
          else enqueueFluidUpdate cfg w (x + d.1) (y + d.2.1) (z + d.2.2)) v).fluidQueue) ∧
      (∀ c ∈ (L.foldl (fun w d =>
          if |d.1| + |d.2.1| + |d.2.2| > 2 then w
          else enqueueFluidUpdate cfg w (x + d.1) (y + d.2.1) (z + d.2.2)) v).fluidQueue,
        c ∈ v.fluidQueue ∨ ∃ d ∈ L, |d.1| + |d.2.1| + |d.2.2| ≤ 2 ∧
          c = (x + d.1, y + d.2.1, z + d.2.2)) ∧
      (L.foldl (fun w d =>
          if |d.1| + |d.2.1| + |d.2.2| > 2 then w
          else enqueueFluidUpdate cfg w (x + d.1) (y + d.2.1) (z + d.2.2)) v).fluidQueue.length
        ≤ v.fluidQueue.length + L.length ∧
      (∀ d ∈ L, |d.1| + |d.2.1| + |d.2.2| ≤ 2 →
        cellLoaded cfg w (x + d.1) (y + d.2.1) (z + d.2.2) →
        (x + d.1, y + d.2.1, z + d.2.2) ∈ (L.foldl (fun w d =>
          if |d.1| + |d.2.1| + |d.2.2| > 2 then w
          else enqueueFluidUpdate cfg w (x + d.1) (y + d.2.1) (z + d.2.2)) v).fluidQueue) := by
    intro L
    induction L with
    | nil =>
      intro v hvn hvq _
      refine ⟨⟨hvn, hvq⟩, fun c h => h, fun c h => Or.inl h, by simp, ?_⟩
      intro d hd
      exact absurd hd (List.not_mem_nil d)
    | cons d rest ih =>
      intro v hvn hvq hvl
      rw [List.foldl_cons]
      by_cases hskip : |d.1| + |d.2.1| + |d.2.2| > 2
      · rw [if_pos hskip]
        obtain ⟨r1, r2, r3, r4, r5⟩ := ih v hvn hvq hvl
        refine ⟨r1, r2, ?_, ?_, ?_⟩
        · intro c hc
          rcases r3 c hc with h | ⟨d', hd', he⟩
          · exact Or.inl h
          · exact Or.inr ⟨d', List.mem_cons_of_mem _ hd', he⟩
        · simp only [List.length_cons]; omega
        · intro d' hd' hle hl
          rcases List.mem_cons.mp hd' with rfl | hr
          · omega
          · exact r5 d' hr hle hl
      · rw [if_neg hskip]
        obtain ⟨un, uq⟩ := enqueueFluidUpdate_queueOK cfg v (x + d.1) (y + d.2.1) (z + d.2.2)
          hvn hvq
        obtain ⟨r1, r2, r3, r4, r5⟩ := ih
          (enqueueFluidUpdate cfg v (x + d.1) (y + d.2.1) (z + d.2.2)) un uq
          (fun a b c => (cellLoaded_enqueueFluidUpdate cfg v _ _ _ a b c).trans (hvl a b c))
        refine ⟨r1, ?_, ?_, ?_, ?_⟩
        · intro c hc
          exact r2 c (enqueueFluidUpdate_mono cfg v _ _ _ c hc)
        · intro c hc
          rcases r3 c hc with h | ⟨d', hd', he⟩
          · rcases enqueueFluidUpdate_new cfg v _ _ _ c h with h' | h'
            · exact Or.inl h'
            · exact Or.inr ⟨d, List.mem_cons_self _ _, by omega, h'⟩
          · exact Or.inr ⟨d', List.mem_cons_of_mem _ hd', he⟩
        · have := enqueueFluidUpdate_length cfg v (x + d.1) (y + d.2.1) (z + d.2.2)
          simp only [List.length_cons]
          omega
        · intro d' hd' hle hl
          rcases List.mem_cons.mp hd' with rfl | hr
          · apply r2
            exact enqueueFluidUpdate_mem cfg v _ _ _ ((hvl _ _ _).mpr hl) hvq
          · exact r5 d' hr hle hl
  obtain ⟨r1, r2, r3, r4, r5⟩ := loop fluidLoopOffsets w hn hq (fun a b c => Iff.rfl)
  rw [enqueueFluidNeighbors_flat]
  have h27 : fluidLoopOffsets.length = 27 := rfl
  exact ⟨r1, r2, r3, by omega, r5⟩

/-! ## The water channel: the minimum over the four neighbours -/

theorem waterNeighborStep_eq (cfg : Config) (w : VoxelWorld) (x y z : Int) (acc : Option Int)
    (o : Int × Int) :
    waterNeighborStep cfg w x y z acc o =
      match waterContribution cfg w x y z o with
      | none => acc
      | some l =>
        match acc with
        | none => some l
        | some m => some (min m l) := by
  unfold waterNeighborStep waterContribution
  simp only []
  split_ifs with h1 h2
  · rfl
  · rfl
  · cases getWaterLevel (getBlock cfg w (x + o.1) y (z + o.2)) <;> rfl

theorem water_fold_none (cfg : Config) (w : VoxelWorld) (x y z : Int) (L : List (Int × Int))
    (acc : Option Int) (h : ∀ o ∈ L, waterContribution cfg w x y z o = none) :
    L.foldl (waterNeighborStep cfg w x y z) acc = acc := by
  induction L generalizing acc with
  | nil => rfl
  | cons o rest ih =>
    rw [List.foldl_cons, waterNeighborStep_eq, h o (List.mem_cons_self _ _)]
    exact ih acc (fun o' ho' => h o' (List.mem_cons_of_mem _ ho'))

theorem water_fold_min (cfg : Config) (w : VoxelWorld) (x y z v : Int) (L : List (Int × Int)) :
    ∀ acc : Option Int, (∀ a, acc = some a → v ≤ a) →
      (∀ o ∈ L, ∀ l, waterContribution cfg w x y z o = some l → v ≤ l) →
      (acc = some v ∨ ∃ o ∈ L, waterContribution cfg w x y z o = some v) →
      L.foldl (waterNeighborStep cfg w x y z) acc = some v := by
  induction L with
  | nil =>
    intro acc _ _ hach
    rcases hach with h | ⟨o, ho, _⟩
    · exact h
    · exact absurd ho (List.not_mem_nil o)
  | cons o rest ih =>
    intro acc hacc hub hach
    rw [List.foldl_cons, waterNeighborStep_eq]
    cases hc : waterContribution cfg w x y z o with
    | none =>
      simp only []
      apply ih acc hacc (fun o' ho' => hub o' (List.mem_cons_of_mem _ ho'))
      rcases hach with h | ⟨o', ho', he⟩
      · exact Or.inl h
      · rcases List.mem_cons.mp ho' with rfl | hr
        · rw [hc] at he; exact Option.noConfusion he
        · exact Or.inr ⟨o', hr, he⟩
    | some l =>
      have hl := hub o (List.mem_cons_self _ _) l hc
      cases acc with
      | none =>
        simp only []
        apply ih (some l) (fun a ha => by cases ha; exact hl)
          (fun o' ho' => hub o' (List.mem_cons_of_mem _ ho'))
        rcases hach with h | ⟨o', ho', he⟩
        · exact Option.noConfusion h
        · rcases List.mem_cons.mp ho' with rfl | hr
          · rw [hc] at he; exact Or.inl he
          · exact Or.inr ⟨o', hr, he⟩
      | some m =>
        simp only []
        have hm := hacc m rfl
        apply ih (some (min m l)) (fun a ha => by cases ha; omega)
          (fun o' ho' => hub o' (List.mem_cons_of_mem _ ho'))
        rcases hach with h | ⟨o', ho', he⟩
        · left
          cases h
          congr 1
          omega
        · rcases List.mem_cons.mp ho' with rfl | hr
          · left
            rw [hc] at he
            cases he
            congr 1
            omega
          · exact Or.inr ⟨o', hr, he⟩

/-! ## Flowing water ids -/

theorem getFlowingWaterId_eq (l : Int) (h1 : 1 ≤ l) (h7 : l ≤ 7) :
    getFlowingWaterId l = 12 + l := by
  interval_cases l <;> rfl

theorem flowing_facts (l : Int) (h1 : 1 ≤ l) (h7 : l ≤ 7) :
    isWater (getFlowingWaterId l) = true ∧
    isWaterSource (getFlowingWaterId l) = false ∧
    getWaterLevel (getFlowingWaterId l) = some l ∧
    canWaterOccupyCell (getFlowingWaterId l) = true ∧
    isFlowingWater (getFlowingWaterId l) = true := by
  interval_cases l <;> decide

theorem horizontal_offset_mem (o : Int × Int) (ho : o ∈ waterNeighborOffsets) :
    (o.1, (0 : Int), o.2) ∈ ALL_NEIGHBOR_OFFSETS := by
  simp only [waterNeighborOffsets, List.mem_cons, List.mem_singleton, List.not_mem_nil,
    or_false] at ho
  rcases ho with rfl | rfl | rfl | rfl <;> simp [ALL_NEIGHBOR_OFFSETS]

theorem line_back_offset2 (front : DirVec) (hu : isUnitDir front) :
    (-front.dx, -front.dz) ∈ waterNeighborOffsets := by
  obtain ⟨dx, dz⟩ := front
  simp only [isUnitDir] at hu
  rcases hu with ⟨rfl, rfl⟩ | ⟨rfl, rfl⟩ | ⟨rfl, rfl⟩ | ⟨rfl, rfl⟩ <;>
    simp [waterNeighborOffsets]

theorem not_onLine_of_height (x0 y0 z0 : Int) (front : DirVec) (M : Nat) (a b c : Int)
    (h : b ≠ y0) : ¬ onLine x0 y0 z0 front M a b c := by
  rintro ⟨k, _, _, hb, _⟩
  exact h hb

/-! ## The water channel: the contributions of the neighbours of a channel cell -/

theorem channel_contribution_line (cfg : Config) (w0 w : VoxelWorld) (x0 y0 z0 : Int)
    (front : DirVec) (M j : Nat) (hs : WaterChannelSetup cfg w0 x0 y0 z0 front M)
    (hi : WaterChannelInv cfg w0 x0 y0 z0 front M j w) (m' : Nat) (hm' : m' < M)
    (x z : Int) (o : Int × Int)
    (h1 : x + o.1 = x0 + ((m' + 1 : Nat) : Int) * front.dx)
    (h3 : z + o.2 = z0 + ((m' + 1 : Nat) : Int) * front.dz) :
    waterContribution cfg w x y0 z o = if m' < j then some ((m' : Int) + 1) else none := by
  have hj := hi.jle
  unfold waterContribution
  rw [h1, h3, hi.line m' hm']
  by_cases hlt : m' < j
  · obtain ⟨f1, f2, f3, f4, f5⟩ := flowing_facts ((m' : Int) + 1) (by omega) (by omega)
    have hfloor : isFluidSupportBlock (getBlock cfg w (x0 + ((m' + 1 : Nat) : Int) * front.dx)
        (y0 - 1) (z0 + ((m' + 1 : Nat) : Int) * front.dz)) = true := by
      rw [hi.frame _ _ _ (not_onLine_of_height x0 y0 z0 front M _ _ _ (by omega))]
      exact hs.floor m' hm'
    simp only [if_pos hlt, f1, f3, hfloor, Bool.not_true, Bool.true_or, Bool.false_eq_true,
      if_false]
  · simp only [if_neg hlt]
    rfl

theorem channel_contribution_source (cfg : Config) (w0 w : VoxelWorld) (x0 y0 z0 : Int)
    (front : DirVec) (M j : Nat) (hs : WaterChannelSetup cfg w0 x0 y0 z0 front M)
    (hi : WaterChannelInv cfg w0 x0 y0 z0 front M j w)
    (x z : Int) (o : Int × Int) (h1 : x + o.1 = x0) (h3 : z + o.2 = z0) :
    waterContribution cfg w x y0 z o = some 0 := by
  have hb : getBlock cfg w x0 y0 z0 = 9 := by
    rw [hi.frame _ _ _ (block_not_onLine front hs.unit x0 y0 z0 M), hs.source]
  unfold waterContribution
  rw [h1, h3, hb]
  have e1 : isWater 9 = true := by decide
  have e2 : isWaterSource 9 = true := by decide
  have e3 : getWaterLevel 9 = some 0 := by decide
  simp only [e1, e2, e3, Bool.not_true, Bool.or_true, Bool.true_or, Bool.false_eq_true, if_false]

theorem channel_contribution_wall (cfg : Config) (w0 w : VoxelWorld) (x0 y0 z0 : Int)
    (front : DirVec) (M j : Nat) (hs : WaterChannelSetup cfg w0 x0 y0 z0 front M)
    (hi : WaterChannelInv cfg w0 x0 y0 z0 front M j w) (m : Nat) (hm : m < M)
    (o : Int × Int) (ho : o ∈ waterNeighborOffsets)
    (hl : ¬ onLine x0 y0 z0 front M (x0 + ((m + 1 : Nat) : Int) * front.dx + o.1) y0
      (z0 + ((m + 1 : Nat) : Int) * front.dz + o.2))
    (hb : ¬ (x0 + ((m + 1 : Nat) : Int) * front.dx + o.1 = x0 ∧
      z0 + ((m + 1 : Nat) : Int) * front.dz + o.2 = z0)) :
    waterContribution cfg w (x0 + ((m + 1 : Nat) : Int) * front.dx) y0
      (z0 + ((m + 1 : Nat) : Int) * front.dz) o = none := by
  unfold waterContribution
  rw [hi.frame _ _ _ hl, hs.walls m hm o ho hl hb]
  rfl

/-- The classification of the horizontal neighbours of channel cell `m`. -/
theorem channel_neighbor_cases (cfg : Config) (w0 w : VoxelWorld) (x0 y0 z0 : Int)
    (front : DirVec) (M j : Nat) (hs : WaterChannelSetup cfg w0 x0 y0 z0 front M)
    (hi : WaterChannelInv cfg w0 x0 y0 z0 front M j w) (m : Nat) (hm : m < M)
    (o : Int × Int) (ho : o ∈ waterNeighborOffsets) :
    (∃ m' : Nat, m' < M ∧ (m' = m + 1 ∨ m' + 1 = m) ∧
      getBlock cfg w (x0 + ((m + 1 : Nat) : Int) * front.dx + o.1) y0
        (z0 + ((m + 1 : Nat) : Int) * front.dz + o.2) =
        (if m' < j then getFlowingWaterId ((m' : Int) + 1) else BLOCK.AIR) ∧
      waterContribution cfg w (x0 + ((m + 1 : Nat) : Int) * front.dx) y0
        (z0 + ((m + 1 : Nat) : Int) * front.dz) o =
        if m' < j then some ((m' : Int) + 1) else none) ∨
    (m = 0 ∧ (x0 + ((m + 1 : Nat) : Int) * front.dx + o.1 = x0 ∧
        z0 + ((m + 1 : Nat) : Int) * front.dz + o.2 = z0) ∧
      waterContribution cfg w (x0 + ((m + 1 : Nat) : Int) * front.dx) y0
        (z0 + ((m + 1 : Nat) : Int) * front.dz) o = some 0) ∨
    (isWater (getBlock cfg w (x0 + ((m + 1 : Nat) : Int) * front.dx + o.1) y0
        (z0 + ((m + 1 : Nat) : Int) * front.dz + o.2)) = false ∧
      waterContribution cfg w (x0 + ((m + 1 : Nat) : Int) * front.dx) y0
        (z0 + ((m + 1 : Nat) : Int) * front.dz) o = none) := by
  have ho3 := horizontal_offset_mem o ho
  by_cases hl : onLine x0 y0 z0 front M (x0 + ((m + 1 : Nat) : Int) * front.dx + o.1) y0
      (z0 + ((m + 1 : Nat) : Int) * front.dz + o.2)
  · left
    obtain ⟨m', hm', e1, _, e3⟩ := hl
    have hg := line_neighbor front hs.unit (o.1, 0, o.2) ho3 x0 y0 z0 m (m' + 1)
      ⟨e1, by simp, e3⟩
    refine ⟨m', hm', by omega, ?_, ?_⟩
    · rw [e1, e3]; exact hi.line m' hm'
    · exact channel_contribution_line cfg w0 w x0 y0 z0 front M j hs hi m' hm' _ _ o e1 e3
  · by_cases hb : x0 + ((m + 1 : Nat) : Int) * front.dx + o.1 = x0 ∧
        z0 + ((m + 1 : Nat) : Int) * front.dz + o.2 = z0
    · right; left
      have hg := line_neighbor front hs.unit (o.1, 0, o.2) ho3 x0 y0 z0 m 0
        ⟨by simpa using hb.1, by simp, by simpa using hb.2⟩
      exact ⟨by omega, hb,
        channel_contribution_source cfg w0 w x0 y0 z0 front M j hs hi _ _ o hb.1 hb.2⟩
    · right; right
      refine ⟨?_, channel_contribution_wall cfg w0 w x0 y0 z0 front M j hs hi m hm o ho hl hb⟩
      rw [hi.frame _ _ _ hl]
      exact hs.walls m hm o ho hl hb

/-! ## The water channel: one evaluation -/

theorem channel_cell_above (cfg : Config) (w0 w : VoxelWorld) (x0 y0 z0 : Int)
    (front : DirVec) (M j : Nat) (hs : WaterChannelSetup cfg w0 x0 y0 z0 front M)
    (hi : WaterChannelInv cfg w0 x0 y0 z0 front M j w) (m : Nat) (hm : m < M) :
    isWater (getBlock cfg w (x0 + ((m + 1 : Nat) : Int) * front.dx) (y0 + 1)
      (z0 + ((m + 1 : Nat) : Int) * front.dz)) = false := by
  rw [hi.frame _ _ _ (not_onLine_of_height x0 y0 z0 front M _ _ _ (by omega))]
  exact hs.above m hm

theorem channel_cell_occupiable (cfg : Config) (w0 w : VoxelWorld) (x0 y0 z0 : Int)
    (front : DirVec) (M j : Nat)
    (hi : WaterChannelInv cfg w0 x0 y0 z0 front M j w) (m : Nat) (hm : m < M) :
    canWaterOccupyCell (getBlock cfg w (x0 + ((m + 1 : Nat) : Int) * front.dx) y0
      (z0 + ((m + 1 : Nat) : Int) * front.dz)) = true ∧
    getBlock cfg w (x0 + ((m + 1 : Nat) : Int) * front.dx) y0
      (z0 + ((m + 1 : Nat) : Int) * front.dz) ≠ BLOCK.WATER := by
  have hj := hi.jle
  rw [hi.line m hm]
  by_cases hlt : m < j
  · rw [if_pos hlt]
    obtain ⟨_, _, _, f4, _⟩ := flowing_facts ((m : Int) + 1) (by omega) (by omega)
    refine ⟨f4, ?_⟩
    rw [getFlowingWaterId_eq _ (by omega) (by omega)]
    simp only [BLOCK]; omega
  · rw [if_neg hlt]
    exact ⟨by decide, by decide⟩

/-- The level that `computeDesiredWaterLevel` gives channel cell `m` when the first `j` cells
hold water. -/
theorem channel_desired (cfg : Config) (w0 w : VoxelWorld) (x0 y0 z0 : Int)
    (front : DirVec) (M j : Nat) (hs : WaterChannelSetup cfg w0 x0 y0 z0 front M)
    (hi : WaterChannelInv cfg w0 x0 y0 z0 front M j w) (m : Nat) (hm : m < M) :
    computeDesiredWaterLevel cfg w (x0 + ((m + 1 : Nat) : Int) * front.dx) y0
      (z0 + ((m + 1 : Nat) : Int) * front.dz) =
      if m ≤ j ∧ m < 7 then some ((m : Int) + 1) else none := by
  have hj := hi.jle
  have hfold : waterNeighborOffsets.foldl (waterNeighborStep cfg w
      (x0 + ((m + 1 : Nat) : Int) * front.dx) y0 (z0 + ((m + 1 : Nat) : Int) * front.dz)) none =
      if m ≤ j then some (m : Int) else none := by
    by_cases hmj : m ≤ j
    · rw [if_pos hmj]
      apply water_fold_min
      · intro a ha; exact Option.noConfusion ha
      · intro o ho l hl
        rcases channel_neighbor_cases cfg w0 w x0 y0 z0 front M j hs hi m hm o ho with
          ⟨m', _, hm2, _, hc⟩ | ⟨hm0, _, hc⟩ | ⟨_, hc⟩
        · rw [hc] at hl
          split_ifs at hl with h
          · cases hl; omega
        · rw [hc] at hl; cases hl; omega
        · rw [hc] at hl; exact Option.noConfusion hl
      · right
        refine ⟨(-front.dx, -front.dz), line_back_offset2 front hs.unit, ?_⟩
        by_cases hm0 : m = 0
        · subst hm0
          rw [channel_contribution_source cfg w0 w x0 y0 z0 front M j hs hi _ _ _
            (by push_cast; ring) (by push_cast; ring)]
          simp
        · obtain ⟨m', rfl⟩ : ∃ m', m = m' + 1 := ⟨m - 1, by omega⟩
          rw [channel_contribution_line cfg w0 w x0 y0 z0 front M j hs hi m' (by omega) _ _ _
            (by push_cast; ring) (by push_cast; ring)]
          rw [if_pos (by omega)]
          push_cast; rfl
    · rw [if_neg hmj]
      apply water_fold_none
      intro o ho
      rcases channel_neighbor_cases cfg w0 w x0 y0 z0 front M j hs hi m hm o ho with
        ⟨m', _, hm2, _, hc⟩ | ⟨hm0, _, hc⟩ | ⟨_, hc⟩
      · rw [hc, if_neg (by omega)]
      · omega
      · exact hc
  unfold computeDesiredWaterLevel
  simp only [(channel_cell_occupiable cfg w0 w x0 y0 z0 front M j hi m hm).1,
    channel_cell_above cfg w0 w x0 y0 z0 front M j hs hi m hm,
    Bool.not_true, Bool.false_eq_true, if_false]
  have hlist : ([(1, 0), (-1, 0), (0, 1), (0, -1)] : List (Int × Int)) = waterNeighborOffsets :=
    rfl
  rw [hlist, hfold]
  by_cases hmj : m ≤ j
  · simp only [if_pos hmj]
    by_cases h7 : m < 7
    · rw [if_neg (by omega), if_pos ⟨hmj, h7⟩]
    · rw [if_pos (by omega), if_neg (by omega)]
  · simp only [if_neg hmj]
    rw [if_neg (by omega)]

/-- A channel cell never becomes a source: at most one of its neighbours is one. -/
theorem channel_no_source (cfg : Config) (w0 w : VoxelWorld) (x0 y0 z0 : Int)
    (front : DirVec) (M j : Nat) (hs : WaterChannelSetup cfg w0 x0 y0 z0 front M)
    (hi : WaterChannelInv cfg w0 x0 y0 z0 front M j w) (m : Nat) (hm : m < M) :
    shouldCreateWaterSource cfg w (x0 + ((m + 1 : Nat) : Int) * front.dx) y0
      (z0 + ((m + 1 : Nat) : Int) * front.dz) = false := by
  have hj := hi.jle
  have key : ∀ o ∈ waterNeighborOffsets,
      isWaterSource (getBlock cfg w (x0 + ((m + 1 : Nat) : Int) * front.dx + o.1) y0
        (z0 + ((m + 1 : Nat) : Int) * front.dz + o.2)) = true →
      x0 + ((m + 1 : Nat) : Int) * front.dx + o.1 = x0 ∧
        z0 + ((m + 1 : Nat) : Int) * front.dz + o.2 = z0 := by
    intro o ho hsrc
    have h9 := (isWaterSource_iff _).mp hsrc
    rcases channel_neighbor_cases cfg w0 w x0 y0 z0 front M j hs hi m hm o ho with
      ⟨m', _, _, hg, _⟩ | ⟨_, hb, _⟩ | ⟨hw, _⟩
    · exfalso
      rw [hg] at h9
      split_ifs at h9 with h
      · rw [getFlowingWaterId_eq _ (by omega) (by omega)] at h9; omega
      · simp only [BLOCK] at h9; omega
    · exact hb
    · exfalso
      rw [h9] at hw
      exact absurd hw (by decide)
  have k1 := key (1, 0) (by simp [waterNeighborOffsets])
  have k2 := key (-1, 0) (by simp [waterNeighborOffsets])
  have k3 := key (0, 1) (by simp [waterNeighborOffsets])
  have k4 := key (0, -1) (by simp [waterNeighborOffsets])
  simp only [add_zero] at k1 k2 k3 k4
  have e1 : ∀ v : Int, v + (-1) = v - 1 := fun v => by ring
  simp only [e1] at k2 k4
  unfold shouldCreateWaterSource
  split
  · rfl
  · simp only []
    cases h1 : isWaterSource (getBlock cfg w (x0 + ((m + 1 : Nat) : Int) * front.dx + 1) y0
        (z0 + ((m + 1 : Nat) : Int) * front.dz)) <;>
    cases h2 : isWaterSource (getBlock cfg w (x0 + ((m + 1 : Nat) : Int) * front.dx - 1) y0
        (z0 + ((m + 1 : Nat) : Int) * front.dz)) <;>
    cases h3 : isWaterSource (getBlock cfg w (x0 + ((m + 1 : Nat) : Int) * front.dx) y0
        (z0 + ((m + 1 : Nat) : Int) * front.dz + 1)) <;>
    cases h4 : isWaterSource (getBlock cfg w (x0 + ((m + 1 : Nat) : Int) * front.dx) y0
        (z0 + ((m + 1 : Nat) : Int) * front.dz - 1)) <;>
    simp only [Bool.false_eq_true, if_false, if_true, decide_eq_false_iff_not, not_le] <;>
    first
      | omega
      | (exfalso
         have a1 := k1
         have a2 := k2
         have a3 := k3
         have a4 := k4
         simp only [h1, h2, h3, h4, true_implies, Bool.false_eq_true, false_implies] at a1 a2 a3 a4
         omega)

theorem channel_cell_loaded (cfg : Config) (w0 w : VoxelWorld) (x0 y0 z0 : Int)
    (front : DirVec) (M j : Nat) (hs : WaterChannelSetup cfg w0 x0 y0 z0 front M)
    (hi : WaterChannelInv cfg w0 x0 y0 z0 front M j w) (m : Nat) (hm : m < M) :
    cellLoaded cfg w (x0 + ((m + 1 : Nat) : Int) * front.dx) y0
      (z0 + ((m + 1 : Nat) : Int) * front.dz) := by
  have hsrc : cellLoaded cfg w0 x0 y0 z0 := by
    apply cellLoaded_of_getBlock_ne
    rw [hs.source]; decide
  have hfl : cellLoaded cfg w0 (x0 + ((m + 1 : Nat) : Int) * front.dx) (y0 - 1)
      (z0 + ((m + 1 : Nat) : Int) * front.dz) :=
    cellLoaded_of_getBlock_ne cfg w0 _ _ _ (support_not_air_nor_water _ (hs.floor m hm)).1
  apply (cellLoaded_congr cfg w w0 hi.loaded _ _ _).mpr
  exact ⟨hsrc.1, hsrc.2.1, hfl.2.2⟩

/-- The evaluation of channel cell `m`: it is written, with the flowing level `m + 1`,
exactly when it is the first dry cell and fewer than 7 cells hold water. -/
theorem updateWaterAt_channel (cfg : Config) (w0 w : VoxelWorld) (x0 y0 z0 : Int)
    (front : DirVec) (M j : Nat) (hs : WaterChannelSetup cfg w0 x0 y0 z0 front M)
    (hi : WaterChannelInv cfg w0 x0 y0 z0 front M j w) (m : Nat) (hm : m < M) :
    updateWaterAt cfg w (x0 + ((m + 1 : Nat) : Int) * front.dx) y0
        (z0 + ((m + 1 : Nat) : Int) * front.dz) =
      if m = j ∧ j < 7 then
        enqueueFluidNeighbors cfg
          (setBlock cfg w (x0 + ((m + 1 : Nat) : Int) * front.dx) y0
            (z0 + ((m + 1 : Nat) : Int) * front.dz) (getFlowingWaterId ((m : Int) + 1))
            internalWrite).1
          (x0 + ((m + 1 : Nat) : Int) * front.dx) y0 (z0 + ((m + 1 : Nat) : Int) * front.dz)
      else w := by
  have hj := hi.jle
  obtain ⟨hocc, hnw⟩ := channel_cell_occupiable cfg w0 w x0 y0 z0 front M j hi m hm
  unfold updateWaterAt
  simp only [if_neg hnw, hocc, Bool.not_true, Bool.false_eq_true, if_false,
    channel_desired cfg w0 w x0 y0 z0 front M j hs hi m hm,
    channel_no_source cfg w0 w x0 y0 z0 front M j hs hi m hm]
  rw [hi.line m hm]
  by_cases hc : m = j ∧ j < 7
  · rw [if_pos hc, if_pos (by omega : m ≤ j ∧ m < 7)]
    dsimp only
    rw [if_neg (by omega : ¬ m < j), if_neg]
    rw [getFlowingWaterId_eq _ (by omega) (by omega)]
    omega
  · rw [if_neg hc]
    by_cases hlt : m < j
    · rw [if_pos (by omega : m ≤ j ∧ m < 7), if_pos hlt]
      dsimp only
      rw [if_pos rfl]
    · rw [if_neg (by omega : ¬ (m ≤ j ∧ m < 7)), if_neg hlt]
      dsimp only
      rw [if_pos rfl]

/-- The evaluation of an inert cell off the channel changes nothing. -/
theorem updateWaterAt_inert (cfg : Config) (w0 w : VoxelWorld) (x0 y0 z0 : Int)
    (front : DirVec) (M j : Nat)
    (hi : WaterChannelInv cfg w0 x0 y0 z0 front M j w) (a b c : Int)
    (hl : ¬ onLine x0 y0 z0 front M a b c)
    (hinert : waterInert cfg w0 x0 y0 z0 front M a b c) :
    updateWaterAt cfg w a b c = w := by
  have hf := hi.frame a b c hl
  unfold updateWaterAt
  rcases hinert with h | h | ⟨h0, ha1, ha2, hn⟩
  · simp only [hf, h, if_true]
  · simp only [hf, h, Bool.not_false, if_true, ite_self]
  · have hdes : computeDesiredWaterLevel cfg w a b c = none := by
      unfold computeDesiredWaterLevel
      have hce : canWaterOccupyCell (getBlock cfg w a b c) = true := by
        rw [hf, h0]; decide
      have hab : isWater (getBlock cfg w a (b + 1) c) = false := by
        rw [hi.frame _ _ _ ha1]; exact ha2
      simp only [hce, hab, Bool.not_true, Bool.false_eq_true, if_false]
      have hlist : ([(1, 0), (-1, 0), (0, 1), (0, -1)] : List (Int × Int)) =
          waterNeighborOffsets := rfl
      rw [hlist, water_fold_none]
      intro o ho
      obtain ⟨hn1, hn2⟩ := hn o ho
      unfold waterContribution
      rw [hi.frame _ _ _ hn1, hn2]
      rfl
    have hce : canWaterOccupyCell (getBlock cfg w a b c) = true := by
      rw [hf, h0]; decide
    have hnw : getBlock cfg w a b c ≠ BLOCK.WATER := by
      rw [hf, h0]; decide
    simp only [if_neg hnw, hce, hdes, Bool.not_true, Bool.false_eq_true, if_false]
    rw [if_pos (by rw [hf, h0])]

/-! ## The water channel: the drain of the fluid queue -/

theorem setBlock_internal_fluidQueue (cfg : Config) (w : VoxelWorld) (x y z id : Int) :
    (setBlock cfg w x y z id internalWrite).1.fluidQueue = w.fluidQueue := by
  rw [setBlock_unfold]
  split
  · rfl
  · split
    · rfl
    · split
      · rfl
      · exact setBlockCommit_fluidQueue cfg w _ x y z id

theorem setBlock_internal_fluidQueued (cfg : Config) (w : VoxelWorld) (x y z id : Int) :
    (setBlock cfg w x y z id internalWrite).1.fluidQueued = w.fluidQueued := by
  rw [setBlock_unfold]
  split
  · rfl
  · split
    · rfl
    · split
      · rfl
      · exact setBlockCommit_fluidQueued cfg w _ x y z id

theorem channel_front_offset (front : DirVec) (hu : isUnitDir front) :
    (front.dx, (0 : Int), front.dz) ∈ fluidLoopOffsets ∧
      |front.dx| + |(0 : Int)| + |front.dz| ≤ 2 := by
  obtain ⟨dx, dz⟩ := front
  simp only [isUnitDir] at hu
  rcases hu with ⟨rfl, rfl⟩ | ⟨rfl, rfl⟩ | ⟨rfl, rfl⟩ | ⟨rfl, rfl⟩ <;>
    exact ⟨by simp [fluidLoopOffsets], by decide⟩

/-- One evaluation of a queued cell keeps the state of the drain and does not increase the
measure `27 * (7 - j) + length of the queue`. -/
theorem water_step (cfg : Config) (w0 w : VoxelWorld) (x0 y0 z0 : Int) (front : DirVec)
    (M j : Nat) (hs : WaterChannelSetup cfg w0 x0 y0 z0 front M)
    (hi : WaterChannelInv cfg w0 x0 y0 z0 front M j w) (a b c : Int)
    (hnode : onLine x0 y0 z0 front M a b c ∨ waterInert cfg w0 x0 y0 z0 front M a b c)
    (hpend : j < M → j < 7 →
      (x0 + ((j + 1 : Nat) : Int) * front.dx, y0, z0 + ((j + 1 : Nat) : Int) * front.dz) ∈
        (a, b, c) :: w.fluidQueue) :
    ∃ j', WaterChannelInv cfg w0 x0 y0 z0 front M j' (updateWaterAt cfg w a b c) ∧
      (j' < M → j' < 7 →
        (x0 + ((j' + 1 : Nat) : Int) * front.dx, y0, z0 + ((j' + 1 : Nat) : Int) * front.dz) ∈
          (updateWaterAt cfg w a b c).fluidQueue) ∧
      27 * (7 - j') + (updateWaterAt cfg w a b c).fluidQueue.length ≤
        27 * (7 - j) + w.fluidQueue.length := by
  have hj := hi.jle
  -- the evaluation that changes nothing
  have same : updateWaterAt cfg w a b c = w →
      (j < M → j < 7 → ¬ (a = x0 + ((j + 1 : Nat) : Int) * front.dx ∧ b = y0 ∧
        c = z0 + ((j + 1 : Nat) : Int) * front.dz)) →
      ∃ j', WaterChannelInv cfg w0 x0 y0 z0 front M j' (updateWaterAt cfg w a b c) ∧
      (j' < M → j' < 7 →
        (x0 + ((j' + 1 : Nat) : Int) * front.dx, y0, z0 + ((j' + 1 : Nat) : Int) * front.dz) ∈
          (updateWaterAt cfg w a b c).fluidQueue) ∧
      27 * (7 - j') + (updateWaterAt cfg w a b c).fluidQueue.length ≤
        27 * (7 - j) + w.fluidQueue.length := by
    intro he hne
    rw [he]
    refine ⟨j, hi, ?_, le_refl _⟩
    intro h1 h2
    rcases List.mem_cons.mp (hpend h1 h2) with h | h
    · exfalso
      apply hne h1 h2
      have e1 := congrArg Prod.fst h
      have e2 := congrArg (fun p => p.2.1) h
      have e3 := congrArg (fun p => p.2.2) h
      simp only [] at e1 e2 e3
      exact ⟨e1.symm, e2.symm, e3.symm⟩
    · exact h
  by_cases hl : onLine x0 y0 z0 front M a b c
  · obtain ⟨k, hk, ha, hb, hc'⟩ := hl
    have hb' := hb.symm
    subst ha hb' hc'
    have hev := updateWaterAt_channel cfg w0 w x0 y0 z0 front M j hs hi k hk
    by_cases hc : k = j ∧ j < 7
    · -- the first dry cell is filled
      obtain ⟨rfl, hj7⟩ := hc
      rw [if_pos ⟨rfl, hj7⟩] at hev
      rw [hev]
      have hlk := channel_cell_loaded cfg w0 w x0 y0 z0 front M k hs hi k hk
      obtain ⟨⟨q1, q2⟩, q3, q4, q5, q7⟩ := enqueueFluidNeighbors_spec cfg
        (setBlock cfg w (x0 + ((k + 1 : Nat) : Int) * front.dx) y0
          (z0 + ((k + 1 : Nat) : Int) * front.dz) (getFlowingWaterId ((k : Int) + 1))
          internalWrite).1
        (x0 + ((k + 1 : Nat) : Int) * front.dx) y0 (z0 + ((k + 1 : Nat) : Int) * front.dz)
        (by rw [setBlock_internal_fluidQueued]; exact hi.nodup)
        (by rw [setBlock_internal_fluidQueued, setBlock_internal_fluidQueue]
            exact hi.queued)
      rw [setBlock_internal_fluidQueue] at q3 q4 q5
      refine ⟨k + 1, ⟨?_, ?_, ?_, by omega, q1, q2, ?_⟩, ?_, by omega⟩
      · intro key
        rw [enqueueFluidNeighbors_chunks, setBlock_isSome]
        exact hi.loaded key
      · intro a b c hnl
        rw [getBlock_enqueueFluidNeighbors, getBlock_setBlock_other cfg hs.chunkSize]
        · exact hi.frame a b c hnl
        · rintro ⟨h1, h2, h3⟩
          apply hnl
          rw [h1, h2, h3]
          exact onLine_cell front x0 y0 z0 M k hk
      · intro m hm
        rw [getBlock_enqueueFluidNeighbors]
        by_cases hmk : m = k
        · subst hmk
          rw [getBlock_setBlock_same cfg hs.chunkSize _ _ _ _ _ _ hlk, if_pos (by omega)]
          rw [getFlowingWaterId_eq _ (by omega) (by omega)]
          omega
        · rw [getBlock_setBlock_other cfg hs.chunkSize, hi.line m hm]
          · by_cases hmlt : m < k
            · rw [if_pos hmlt, if_pos (by omega)]
            · rw [if_neg hmlt, if_neg (by omega)]
          · rintro ⟨h1, _, h3⟩
            exact hmk (by
              have := line_cell_inj front hs.unit x0 z0 (m + 1) (k + 1) h1 h3
              omega)
      · intro e he
        rcases q4 e he with h | ⟨d, hd, hd2, h⟩
        · exact hi.entries e h
        · rw [h]
          exact hs.halo k hk d hd hd2
      · intro h1 h2
        have hl1 : cellLoaded cfg w (x0 + ((k + 1 + 1 : Nat) : Int) * front.dx) y0
            (z0 + ((k + 1 + 1 : Nat) : Int) * front.dz) :=
          channel_cell_loaded cfg w0 w x0 y0 z0 front M k hs hi (k + 1) h1
        have ex : x0 + ((k + 1 : Nat) : Int) * front.dx + front.dx
            = x0 + ((k + 1 + 1 : Nat) : Int) * front.dx := by push_cast; ring
        have ez : z0 + ((k + 1 : Nat) : Int) * front.dz + front.dz
            = z0 + ((k + 1 + 1 : Nat) : Int) * front.dz := by push_cast; ring
        have := q7 (front.dx, 0, front.dz) (channel_front_offset front hs.unit).1
          (channel_front_offset front hs.unit).2
          (by
            rw [cellLoaded_setBlock]
            simp only [add_zero]
            rw [ex, ez]; exact hl1)
        simp only [add_zero] at this
        rw [ex, ez] at this
        exact this
    · rw [if_neg hc] at hev
      apply same hev
      rintro h1 h2 ⟨e1, _, e3⟩
      have := line_cell_inj front hs.unit x0 z0 (k + 1) (j + 1) e1 e3
      omega
  · have hin : waterInert cfg w0 x0 y0 z0 front M a b c := by
      rcases hnode with h | h
      · exact absurd h hl
      · exact h
    apply same (updateWaterAt_inert cfg w0 w x0 y0 z0 front M j hi a b c hl hin)
    rintro h1 h2 ⟨ha, hb, hc'⟩
    have hb' := hb.symm
    subst ha hb' hc'
    exact hl (onLine_cell front x0 y0 z0 M j h1)

/-- Shifting a cell out of the fluid queue keeps the state of the drain. -/
theorem water_pop (cfg : Config) (w0 w : VoxelWorld) (x0 y0 z0 : Int) (front : DirVec)
    (M j : Nat) (hi : WaterChannelInv cfg w0 x0 y0 z0 front M j w) (node : Cell)
    (rest : List Cell) (hq : w.fluidQueue = node :: rest) :
    WaterChannelInv cfg w0 x0 y0 z0 front M j
      { w with fluidQueue := rest, fluidQueued := w.fluidQueued.erase node } := by
  refine ⟨hi.loaded, ?_, ?_, hi.jle, hi.nodup.erase node, ?_, ?_⟩
  · intro a b c h
    rw [← hi.frame a b c h]
    exact getBlock_congr cfg _ _ rfl a b c
  · intro k hk
    rw [← hi.line k hk]
    exact getBlock_congr cfg _ _ rfl _ _ _
  · intro e he
    simp only [] at he ⊢
    have h1 := (hi.nodup.mem_erase_iff).mp he
    have h2 := hi.queued e h1.2
    rw [hq] at h2
    rcases List.mem_cons.mp h2 with h | h
    · exact absurd h h1.1
    · exact h
  · intro e he
    simp only [] at he
    apply hi.entries e
    rw [hq]
    exact List.mem_cons_of_mem _ he

/-- The drain of the fluid queue keeps the state of the drain, and empties the queue when the
limit is at least `27 * (7 - j)` plus the length of the queue. -/
theorem water_drain (cfg : Config) (w0 : VoxelWorld) (x0 y0 z0 : Int) (front : DirVec) (M : Nat)
    (hs : WaterChannelSetup cfg w0 x0 y0 z0 front M) :
    ∀ (limit : Nat) (w : VoxelWorld) (j : Nat),
      WaterChannelInv cfg w0 x0 y0 z0 front M j w →
      (j < M → j < 7 →
        (x0 + ((j + 1 : Nat) : Int) * front.dx, y0, z0 + ((j + 1 : Nat) : Int) * front.dz) ∈
          w.fluidQueue) →
      ∃ j', WaterChannelInv cfg w0 x0 y0 z0 front M j' (processFluidUpdates cfg limit w) ∧
        (j' < M → j' < 7 →
          (x0 + ((j' + 1 : Nat) : Int) * front.dx, y0, z0 + ((j' + 1 : Nat) : Int) * front.dz) ∈
            (processFluidUpdates cfg limit w).fluidQueue) ∧
        (27 * (7 - j) + w.fluidQueue.length ≤ limit →
          (processFluidUpdates cfg limit w).fluidQueue = []) := by
  intro limit
  induction limit with
  | zero =>
    intro w j hi hp
    refine ⟨j, hi, hp, ?_⟩
    intro h
    show w.fluidQueue = []
    exact List.length_eq_zero.mp (by omega)
  | succ limit ih =>
    intro w j hi hp
    have inner : ∀ (q : List Cell) (w : VoxelWorld), w.fluidQueue = q →
        WaterChannelInv cfg w0 x0 y0 z0 front M j w →
        (j < M → j < 7 →
          (x0 + ((j + 1 : Nat) : Int) * front.dx, y0, z0 + ((j + 1 : Nat) : Int) * front.dz) ∈
            w.fluidQueue) →
        ∃ j', WaterChannelInv cfg w0 x0 y0 z0 front M j'
            (fluidDrainStep cfg (processFluidUpdates cfg limit) w q) ∧
          (j' < M → j' < 7 →
            (x0 + ((j' + 1 : Nat) : Int) * front.dx, y0,
              z0 + ((j' + 1 : Nat) : Int) * front.dz) ∈
              (fluidDrainStep cfg (processFluidUpdates cfg limit) w q).fluidQueue) ∧
          (27 * (7 - j) + q.length ≤ limit + 1 →
            (fluidDrainStep cfg (processFluidUpdates cfg limit) w q).fluidQueue = []) := by
      intro q
      induction q with
      | nil =>
        intro w hq hi hp
        exact ⟨j, hi, hp, fun _ => hq⟩
      | cons node rest ihq =>
        intro w hq hi hp
        have hi1 := water_pop cfg w0 w x0 y0 z0 front M j hi node rest hq
        unfold fluidDrainStep
        simp only []
        split
        · -- the chunk of the cell is not loaded: the cell is skipped
          rename_i hstale
          obtain ⟨j', r1, r2, r3⟩ := ihq _ rfl hi1 (by
            intro h1 h2
            have hm := hp h1 h2
            rw [hq] at hm
            rcases List.mem_cons.mp hm with h | h
            · exfalso
              have hl := channel_cell_loaded cfg w0 w x0 y0 z0 front M j hs hi j h1
              have h3 := hl.2.2
              rw [← h] at hstale
              simp only [hasChunk] at hstale h3
              rw [h3] at hstale
              exact absurd hstale (by decide)
            · exact h)
          refine ⟨j', r1, r2, ?_⟩
          intro hm
          apply r3
          simp only [List.length_cons] at hm
          omega
        · -- the cell is evaluated
          obtain ⟨j1, s1, s2, s3⟩ := water_step cfg w0 _ x0 y0 z0 front M j hs hi1
            node.1 node.2.1 node.2.2
            (hi.entries node (by rw [hq]; exact List.mem_cons_self _ _))
            (by
              intro h1 h2
              have hm := hp h1 h2
              rw [hq] at hm
              exact hm)
          obtain ⟨j2, t1, t2, t3⟩ := ih _ j1 s1 s2
          refine ⟨j2, t1, t2, ?_⟩
          intro hm
          apply t3
          simp only [List.length_cons] at hm
          simp only [] at s3
          omega
    obtain ⟨j', r1, r2, r3⟩ := inner w.fluidQueue w rfl hi hp
    exact ⟨j', r1, r2, r3⟩

/-! ## Claim on water settling -/

/-- C8. Water settling: for a horizontal channel of `M` air cells with a water source at one
end, a supporting floor, no water above or beside it and only inert cells around it
(`WaterChannelSetup`), and a fluid queue that holds the first channel cell
(`WaterChannelQueue`): some limit drains the fluid queue to empty, and whenever the queue has
been drained to empty the channel cell at distance `d` from the source holds flowing water of
level `d` for `1 ≤ d ≤ 7` and air for `d ≥ 8`. -/
theorem water_settling (cfg : Config) (w : VoxelWorld) (x0 y0 z0 : Int) (front : DirVec)
    (M : Nat) (hs : WaterChannelSetup cfg w x0 y0 z0 front M)
    (hq : WaterChannelQueue cfg w x0 y0 z0 front M) :
    (∃ limit : Nat, (processFluidUpdates cfg limit w).fluidQueue = []) ∧
    ∀ limit : Nat, (processFluidUpdates cfg limit w).fluidQueue = [] →
      ∀ d : Nat, 1 ≤ d → d ≤ M →
        (d ≤ 7 →
          isFlowingWater (getBlock cfg (processFluidUpdates cfg limit w)
            (x0 + (d : Int) * front.dx) y0 (z0 + (d : Int) * front.dz)) = true ∧
          getWaterLevel (getBlock cfg (processFluidUpdates cfg limit w)
            (x0 + (d : Int) * front.dx) y0 (z0 + (d : Int) * front.dz)) = some (d : Int)) ∧
        (8 ≤ d →
          getBlock cfg (processFluidUpdates cfg limit w)
            (x0 + (d : Int) * front.dx) y0 (z0 + (d : Int) * front.dz) = BLOCK.AIR) := by
  have hi0 : WaterChannelInv cfg w x0 y0 z0 front M 0 w :=
    ⟨fun _ => rfl, fun _ _ _ _ => rfl,
      fun m hm => by rw [hs.air m hm, if_neg (by omega)],
      ⟨by omega, by omega⟩, hq.nodup, hq.queued, hq.entries⟩
  have hp0 : 0 < M → 0 < 7 →
      (x0 + ((0 + 1 : Nat) : Int) * front.dx, y0, z0 + ((0 + 1 : Nat) : Int) * front.dz) ∈
        w.fluidQueue := by
    intro h _
    have := hq.first h
    simpa using this
  constructor
  · obtain ⟨j', _, _, r3⟩ := water_drain cfg w x0 y0 z0 front M hs
      (27 * (7 - 0) + w.fluidQueue.length) w 0 hi0 hp0
    exact ⟨_, r3 (le_refl _)⟩
  · intro limit hempty d hd1 hdM
    obtain ⟨j', r1, r2, _⟩ := water_drain cfg w x0 y0 z0 front M hs limit w 0 hi0 hp0
    have hj := r1.jle
    have hdone : ¬ (j' < M ∧ j' < 7) := by
      rintro ⟨h1, h2⟩
      have := r2 h1 h2
      rw [hempty] at this
      exact absurd this (List.not_mem_nil _)
    obtain ⟨m, rfl⟩ : ∃ m, d = m + 1 := ⟨d - 1, by omega⟩
    have hline := r1.line m (by omega)
    rw [hline]
    constructor
    · intro h7
      rw [if_pos (by omega)]
      obtain ⟨_, _, f3, _, f5⟩ := flowing_facts ((m : Int) + 1) (by omega) (by omega)
      refine ⟨f5, ?_⟩
      push_cast
      exact f3
    · intro h8
      rw [if_neg (by omega)]

set_option maxRecDepth 100000 in
theorem water_settling_witness :
    (∃ limit : Nat, (processFluidUpdates lineConfig limit channelWorld).fluidQueue = []) ∧
    ∀ limit : Nat, (processFluidUpdates lineConfig limit channelWorld).fluidQueue = [] →
      ∀ d : Nat, 1 ≤ d → d ≤ 10 →
        (d ≤ 7 →
          isFlowingWater (getBlock lineConfig (processFluidUpdates lineConfig limit channelWorld)
            (1 + (d : Int) * (DirVec.mk 1 0).dx) 1 (1 + (d : Int) * (DirVec.mk 1 0).dz)) = true ∧
          getWaterLevel (getBlock lineConfig (processFluidUpdates lineConfig limit channelWorld)
            (1 + (d : Int) * (DirVec.mk 1 0).dx) 1 (1 + (d : Int) * (DirVec.mk 1 0).dz)) =
            some (d : Int)) ∧
        (8 ≤ d →
          getBlock lineConfig (processFluidUpdates lineConfig limit channelWorld)
            (1 + (d : Int) * (DirVec.mk 1 0).dx) 1 (1 + (d : Int) * (DirVec.mk 1 0).dz) =
            BLOCK.AIR) :=
  water_settling lineConfig channelWorld 1 1 1 ⟨1, 0⟩ 10
    ⟨by decide, by decide, by decide, by decide, by decide, by decide, by decide, by decide⟩
    ⟨by decide, by decide, by decide, by decide⟩

/-! ## The id codec: ranges -/

theorem normalizeHorizontalDir_eq_emod (d : Int) : normalizeHorizontalDir d = d % 4 := by
  unfold normalizeHorizontalDir
  obtain ⟨h1, h2⟩ := tmod_bounds d 4 (by decide)
  by_cases hd : 0 ≤ d
  · have h3 := h1 hd
    rw [Int.tmod_eq_emod (by omega) (by decide)]
    rw [Int.tmod_eq_emod hd (by decide)] at h3 ⊢
    omega
  · have h3 := h2 (by omega)
    rw [Int.tmod_eq_emod (by omega) (by decide)]
    have h4 : Int.tmod d 4 = -Int.tmod (-d) 4 := by
      rw [← tmod_neg_left]; simp
    rw [Int.tmod_eq_emod (by omega : 0 ≤ -d) (by decide)] at h4
    omega

theorem family_ranges (id : Int) :
    (isWaterFlowId id = true ↔ 12 ≤ id ∧ id < 12 + 8) ∧
    (isRedstoneDust id = true ↔ 20 ≤ id ∧ id < 20 + 16) ∧
    (isRepeater id = true ↔ 36 ≤ id ∧ id < 36 + 8) ∧
    (isComparator id = true ↔ 44 ≤ id ∧ id < 44 + 128) ∧
    (isPiston id = true ↔ 172 ≤ id ∧ id < 172 + 8) ∧
    (isPistonHead id = true ↔ 180 ≤ id ∧ id < 180 + 4) := by
  simp only [isWaterFlowId, isRedstoneDust, isRepeater, isComparator, isPiston, isPistonHead,
    BLOCK, Bool.and_eq_true, decide_eq_true_eq]
  omega

/-! ## Claims on the id codec: inverse, layout, clamping -/

/-- C17. Encode is the inverse of decode on the id range of each family: dust, repeater,
comparator, piston, piston head and flowing water. -/
theorem encode_decode_inverse (id : Int) :
    (isRedstoneDust id = true → makeDustId (getDustPower id) = id) ∧
    (isRepeater id = true →
      makeRepeaterId (getRepeaterDir id) (isRepeaterPowered id) = id) ∧
    (isComparator id = true →
      makeComparatorId (getComparatorDir id) (isComparatorSubtract id)
        (getComparatorOutput id) = id) ∧
    (isPiston id = true → makePistonId (getPistonDir id) (isPistonExtended id) = id) ∧
    (isPistonHead id = true → makePistonHeadId (getPistonHeadDir id) = id) ∧
    (isFlowingWater id = true →
      ∃ l, getWaterLevel id = some l ∧ getFlowingWaterId l = id) := by
  obtain ⟨r1, r2, r3, r4, r5, r6⟩ := family_ranges id
  refine ⟨?_, ?_, ?_, ?_, ?_, ?_⟩
  · intro h
    obtain ⟨h1, h2⟩ := r2.mp h
    interval_cases id <;> decide
  · intro h
    obtain ⟨h1, h2⟩ := r3.mp h
    interval_cases id <;> decide
  · intro h
    obtain ⟨h1, h2⟩ := r4.mp h
    interval_cases id <;> decide
  · intro h
    obtain ⟨h1, h2⟩ := r5.mp h
    interval_cases id <;> decide
  · intro h
    obtain ⟨h1, h2⟩ := r6.mp h
    interval_cases id <;> decide
  · intro h
    obtain ⟨h1, h2⟩ := r1.mp h
    interval_cases id <;> exact ⟨_, rfl, by decide⟩

theorem encode_decode_inverse_witness :
    makeDustId (getDustPower 27) = 27 ∧
    makeRepeaterId (getRepeaterDir 41) (isRepeaterPowered 41) = 41 ∧
    makeComparatorId (getComparatorDir 171) (isComparatorSubtract 171)
      (getComparatorOutput 171) = 171 ∧
    makePistonId (getPistonDir 175) (isPistonExtended 175) = 175 ∧
    makePistonHeadId (getPistonHeadDir 182) = 182 ∧
    (∃ l, getWaterLevel 12 = some l ∧ getFlowingWaterId l = 12) :=
  ⟨(encode_decode_inverse 27).1 (by decide),
   (encode_decode_inverse 41).2.1 (by decide),
   (encode_decode_inverse 171).2.2.1 (by decide),
   (encode_decode_inverse 175).2.2.2.1 (by decide),
   (encode_decode_inverse 182).2.2.2.2.1 (by decide),
   (encode_decode_inverse 12).2.2.2.2.2 (by decide)⟩

/-- C18. Block-id layout: each family predicate holds exactly on an integer interval, of 8 ids
for flowing water, 16 for dust, 8 for the repeater, 128 for the comparator, 8 for the piston
body and 4 for the piston head; at most one family predicate holds for an id; none holds for
the id of a single block; every id of a family lies in `0..184` and is stored in a one-byte
cell without truncation. -/
theorem block_id_layout (id : Int) :
    ((isWaterFlowId id = true ↔ BLOCK.WATER_FLOW_0 ≤ id ∧ id < BLOCK.WATER_FLOW_0 + 8) ∧
      (isRedstoneDust id = true ↔ BLOCK.REDSTONE_DUST_0 ≤ id ∧ id < BLOCK.REDSTONE_DUST_0 + 16) ∧
      (isRepeater id = true ↔ BLOCK.REPEATER_START ≤ id ∧ id < BLOCK.REPEATER_START + 8) ∧
      (isComparator id = true ↔
        BLOCK.COMPARATOR_START ≤ id ∧ id < BLOCK.COMPARATOR_START + 128) ∧
      (isPiston id = true ↔ BLOCK.PISTON_START ≤ id ∧ id < BLOCK.PISTON_START + 8) ∧
      (isPistonHead id = true ↔
        BLOCK.PISTON_HEAD_START ≤ id ∧ id < BLOCK.PISTON_HEAD_START + 4)) ∧
    (blockFamilies.filter (fun f => f id)).length ≤ 1 ∧
    (id ∈ singleBlockIds → ∀ f ∈ blockFamilies, f id = false) ∧
    (∀ f ∈ blockFamilies, f id = true →
      0 ≤ id ∧ id ≤ 184 ∧ (((toUint8 id).val : Nat) : Int) = id) := by
  obtain ⟨r1, r2, r3, r4, r5, r6⟩ := family_ranges id
  have key : ∀ f ∈ blockFamilies, f id = true → 12 ≤ id ∧ id ≤ 183 := by
    intro f hf h
    simp only [blockFamilies, List.mem_cons, List.mem_singleton, List.not_mem_nil,
      or_false] at hf
    rcases hf with rfl | rfl | rfl | rfl | rfl | rfl
    · have := r1.mp h; omega
    · have := r2.mp h; omega
    · have := r3.mp h; omega
    · have := r4.mp h; omega
    · have := r5.mp h; omega
    · have := r6.mp h; omega
  refine ⟨⟨r1, r2, r3, r4, r5, r6⟩, ?_, ?_, ?_⟩
  · by_cases hr : 12 ≤ id ∧ id ≤ 183
    · obtain ⟨h1, h2⟩ := hr
      interval_cases id <;> decide
    · have hnil : blockFamilies.filter (fun f => f id) = [] := by
        rw [List.filter_eq_nil_iff]
        intro f hf h
        exact hr (key f hf h)
      rw [hnil]
      exact Nat.zero_le _
  · intro hs f hf
    cases h : f id
    · rfl
    · exfalso
      have hk := key f hf h
      simp only [singleBlockIds, BLOCK, List.mem_cons, List.mem_singleton, List.not_mem_nil,
        or_false] at hs
      omega
  · intro f hf h
    have hk := key f hf h
    refine ⟨by omega, by omega, ?_⟩
    rw [toUint8_val]
    omega

theorem block_id_layout_witness :
    (∀ f ∈ blockFamilies, f 9 = false) ∧
    (0 ≤ (100 : Int) ∧ (100 : Int) ≤ 184 ∧ (((toUint8 100).val : Nat) : Int) = 100) :=
  ⟨(block_id_layout 9).2.2.1 (by decide),
   (block_id_layout 100).2.2.2 isComparator (by simp [blockFamilies]) (by decide)⟩

/-- C19. Encoders are total and clamp: `makeDustId`, `getFlowingWaterId` and
`makeComparatorId` give for every integer field what they give for the field clamped to its
range (the facing taken modulo 4), and every encoder returns an id of its own family. -/
theorem encoders_clamp (p l d o : Int) (s b : Bool) :
    (makeDustId p = makeDustId (min 15 (max 0 p)) ∧ isRedstoneDust (makeDustId p) = true) ∧
    (getFlowingWaterId l = getFlowingWaterId (min 7 (max 0 l)) ∧
      isFlowingWater (getFlowingWaterId l) = true) ∧
    (makeComparatorId d s o = makeComparatorId (d % 4) s (min 15 (max 0 o)) ∧
      isComparator (makeComparatorId d s o) = true) ∧
    isRepeater (makeRepeaterId d b) = true ∧
    isPiston (makePistonId d b) = true ∧
    isPistonHead (makePistonHeadId d) = true := by
  have hn := normalizeHorizontalDir_eq_emod d
  have hnn : normalizeHorizontalDir (d % 4) = d % 4 := by
    rw [normalizeHorizontalDir_eq_emod]; omega
  have hr : 0 ≤ d % 4 ∧ d % 4 < 4 := by omega
  refine ⟨⟨?_, ?_⟩, ⟨?_, ?_⟩, ⟨?_, ?_⟩, ?_, ?_, ?_⟩
  · simp only [makeDustId]
    congr 1
    omega
  · simp only [makeDustId, isRedstoneDust, BLOCK, Bool.and_eq_true, decide_eq_true_eq]
    omega
  · simp only [getFlowingWaterId]
    congr 1
    omega
  · have h1 : 0 ≤ max 0 (min 7 l) ∧ max 0 (min 7 l) ≤ 7 := by omega
    simp only [getFlowingWaterId]
    generalize max 0 (min 7 l) = c at h1
    obtain ⟨h0, h7⟩ := h1
    interval_cases c <;> decide
  · simp only [makeComparatorId, hn, hnn]
    have : max 0 (min 15 (min 15 (max 0 o))) = max 0 (min 15 o) := by omega
    rw [this]
  · simp only [makeComparatorId, hn, isComparator, BLOCK, Bool.and_eq_true, decide_eq_true_eq]
    cases s <;> simp only [if_true, if_false, Bool.false_eq_true] <;> omega
  · simp only [makeRepeaterId, hn, isRepeater, BLOCK, Bool.and_eq_true, decide_eq_true_eq]
    cases b <;> simp only [if_true, if_false, Bool.false_eq_true] <;> omega
  · simp only [makePistonId, hn, isPiston, BLOCK, Bool.and_eq_true, decide_eq_true_eq]
    cases b <;> simp only [if_true, if_false, Bool.false_eq_true] <;> omega
  · simp only [makePistonHeadId, hn, isPistonHead, BLOCK, Bool.and_eq_true, decide_eq_true_eq]
    omega

/-- C20, as stated, fails: id 185 has no descriptor, and its texture name is `"air"`, not
`"stone"`. -/
theorem texture_default_counterexample :
    BLOCK_DEFS 185 = none ∧ getFaceTextureName 185 "top" = "air" ∧
      getFaceTextureName 185 "top" ≠ "stone" := by
  decide

/-- C20, amended. For every block id without a registered descriptor and every face key,
`getFaceTextureName` returns `"air"`, the texture of the air descriptor that `getBlockDef`
falls back to. -/
theorem texture_default_air (id : Int) (face : String) (h : BLOCK_DEFS id = none) :
    getFaceTextureName id face = "air" := by
  have hd : getBlockDef id = airDef := by
    unfold getBlockDef
    rw [h]
  unfold getFaceTextureName
  simp only [hd]
  rfl

theorem texture_default_air_witness :
    BLOCK_DEFS 200 = none ∧ getFaceTextureName 200 "side" = "air" :=
  ⟨by decide, texture_default_air 200 "side" (by decide)⟩

/-! ## The queues under the engine: every step only appends -/

theorem queueAppends_refl (q s : List Cell) : QueueAppends q s q s :=
  ⟨[], by simp, by simp, List.nodup_nil, fun _ h => absurd h (List.not_mem_nil _)⟩

theorem queueAppends_trans {q s q1 s1 q2 s2 : List Cell}
    (h1 : QueueAppends q s q1 s1) (h2 : QueueAppends q1 s1 q2 s2) : QueueAppends q s q2 s2 := by
  obtain ⟨a1, e1, e2, n1, d1⟩ := h1
  obtain ⟨a2, e3, e4, n2, d2⟩ := h2
  subst e1 e2 e3 e4
  refine ⟨a1 ++ a2, by simp, by simp, ?_, ?_⟩
  · rw [List.nodup_append]
    refine ⟨n1, n2, ?_⟩
    intro c hc1 hc2
    exact d2 c hc2 (List.mem_append_right _ hc1)
  · intro c hc
    rcases List.mem_append.mp hc with h | h
    · exact d1 c h
    · intro hs
      exact d2 c h (List.mem_append_left _ hs)

theorem queueAppends_single (q s : List Cell) (c : Cell) (h : c ∉ s) :
    QueueAppends q s (q ++ [c]) (s ++ [c]) :=
  ⟨[c], rfl, rfl, List.nodup_singleton c, fun d hd => by
    rw [List.mem_singleton] at hd; subst hd; exact h⟩

theorem queueAppends_ok {q s q' s' : List Cell} (h : QueueAppends q s q' s')
    (hok : QueueOK q s) : QueueOK q' s' := by
  obtain ⟨a, e1, e2, n, d⟩ := h
  obtain ⟨k1, k2, k3⟩ := hok
  subst e1 e2
  refine ⟨?_, ?_, ?_⟩
  · rw [List.nodup_append]
    exact ⟨k1, n, fun c hc1 hc2 => d c hc2 ((k3 c).mpr hc1)⟩
  · rw [List.nodup_append]
    exact ⟨k2, n, fun c hc1 hc2 => d c hc2 hc1⟩
  · intro c
    simp only [List.mem_append, k3 c]

theorem queueAppends_prefix {q s q' s' : List Cell} (h : QueueAppends q s q' s') :
    ∃ added, q' = q ++ added := by
  obtain ⟨a, e1, _⟩ := h
  exact ⟨a, e1⟩

theorem queueStep_refl (w : VoxelWorld) : QueueStep w w :=
  ⟨queueAppends_refl _ _, queueAppends_refl _ _, fun _ => rfl⟩

theorem queueStep_trans {w w1 w2 : VoxelWorld} (h1 : QueueStep w w1) (h2 : QueueStep w1 w2) :
    QueueStep w w2 :=
  ⟨queueAppends_trans h1.fluid h2.fluid, queueAppends_trans h1.redstone h2.redstone,
    fun k => (h2.loaded k).trans (h1.loaded k)⟩

theorem queueStep_inv {w w' : VoxelWorld} (h : QueueStep w w') (hi : QueueInv w) :
    QueueInv w' :=
  ⟨queueAppends_ok h.fluid hi.1, queueAppends_ok h.redstone hi.2⟩

theorem engineStep_refl (w : VoxelWorld) : EngineStep w w := ⟨queueStep_refl w, rfl⟩

theorem engineStep_trans {w w1 w2 : VoxelWorld} (h1 : EngineStep w w1) (h2 : EngineStep w1 w2) :
    EngineStep w w2 :=
  ⟨queueStep_trans h1.queues h2.queues, h2.edits.trans h1.edits⟩

/-- A step that leaves the four queue fields and the overlay as they are and keeps the set of
loaded chunks. -/
theorem engineStep_of_fields (w w' : VoxelWorld)
    (h1 : w'.fluidQueue = w.fluidQueue) (h2 : w'.fluidQueued = w.fluidQueued)
    (h3 : w'.redstoneQueue = w.redstoneQueue) (h4 : w'.redstoneQueued = w.redstoneQueued)
    (h5 : w'.editsByChunk = w.editsByChunk)
    (h6 : ∀ k, (w'.chunks k).isSome = (w.chunks k).isSome) : EngineStep w w' := by
  refine ⟨⟨?_, ?_, h6⟩, h5⟩
  · rw [h1, h2]; exact queueAppends_refl _ _
  · rw [h3, h4]; exact queueAppends_refl _ _

theorem engineStep_foldl {α : Type} (f : VoxelWorld → α → VoxelWorld)
    (hf : ∀ w a, EngineStep w (f w a)) (L : List α) :
    ∀ w, EngineStep w (L.foldl f w) := by
  induction L with
  | nil => intro w; exact engineStep_refl w
  | cons a rest ih =>
    intro w
    exact engineStep_trans (hf w a) (ih (f w a))

theorem enqueueFluidUpdate_step (cfg : Config) (w : VoxelWorld) (x y z : Int) :
    EngineStep w (enqueueFluidUpdate cfg w x y z) := by
  rcases enqueueFluidUpdate_cases cfg w x y z with h | ⟨hn, _, h2, h3⟩
  · rw [h]; exact engineStep_refl w
  · refine ⟨⟨?_, ?_, ?_⟩, by simp⟩
    · rw [h2, h3]; exact queueAppends_single _ _ _ hn
    · simp only [enqueueFluidUpdate_redstoneQueue, enqueueFluidUpdate_redstoneQueued]
      exact queueAppends_refl _ _
    · intro k; rw [enqueueFluidUpdate_chunks]

theorem enqueueRedstoneUpdate_step (cfg : Config) (w : VoxelWorld) (x y z : Int) :
    EngineStep w (enqueueRedstoneUpdate cfg w x y z) := by
  rcases enqueueRedstoneUpdate_cases cfg w x y z with h | ⟨hn, _, h2, h3⟩
  · rw [h]; exact engineStep_refl w
  · refine ⟨⟨?_, ?_, ?_⟩, by simp⟩
    · simp only [enqueueRedstoneUpdate_fluidQueue, enqueueRedstoneUpdate_fluidQueued]
      exact queueAppends_refl _ _
    · rw [h2, h3]; exact queueAppends_single _ _ _ hn
    · intro k; rw [enqueueRedstoneUpdate_chunks]

theorem enqueueFluidNeighbors_step (cfg : Config) (w : VoxelWorld) (x y z : Int) :
    EngineStep w (enqueueFluidNeighbors cfg w x y z) := by
  rw [enqueueFluidNeighbors_flat]
  apply engineStep_foldl
  intro v d
  split
  · exact engineStep_refl v
  · exact enqueueFluidUpdate_step cfg v _ _ _

theorem enqueueRedstoneNeighbors_step (cfg : Config) (w : VoxelWorld) (x y z : Int) :
    EngineStep w (enqueueRedstoneNeighbors cfg w x y z) := by
  unfold enqueueRedstoneNeighbors
  exact engineStep_trans (enqueueRedstoneUpdate_step cfg w x y z)
    (engineStep_foldl _ (fun v o => enqueueRedstoneUpdate_step cfg v _ _ _) _ _)

/-! ## The queues under `setBlock` and under one evaluation -/

/-- The stages of `setBlockCommit`: the write with the dirty marks, then the optional overlay
record, then the optional seeding of the fluid and of the redstone queue. -/
theorem setBlockCommit_stages (cfg : Config) (w : VoxelWorld) (chunk : VoxelChunk)
    (x y z id : Int) (opts : SetBlockOptions) :
    setBlockCommit cfg w chunk x y z id opts =
      (fun w3 => if opts.updateRedstone then enqueueRedstoneNeighbors cfg w3 x y z else w3)
        ((fun w2 => if opts.updateFluids then enqueueFluidNeighbors cfg w2 x y z else w2)
          ((fun w1 => if opts.saveEdit then
              recordEdit w1 (worldToChunkCoord cfg x) (worldToChunkCoord cfg z)
                (worldToLocalCoord cfg x) y (worldToLocalCoord cfg z) id else w1)
            (setBlockCommit cfg w chunk x y z id internalWrite))) := by
  obtain ⟨a, b, c⟩ := opts
  cases a <;> cases b <;> cases c <;> rfl

theorem setBlockCommit_internal_step (cfg : Config) (w : VoxelWorld) (chunk : VoxelChunk)
    (x y z id : Int)
    (hc : getChunk w (worldToChunkCoord cfg x) (worldToChunkCoord cfg z) = some chunk) :
    EngineStep w (setBlockCommit cfg w chunk x y z id internalWrite) := by
  apply engineStep_of_fields
  · exact setBlockCommit_fluidQueue cfg w chunk x y z id
  · exact setBlockCommit_fluidQueued cfg w chunk x y z id
  · exact setBlockCommit_redstoneQueue cfg w chunk x y z id
  · exact setBlockCommit_redstoneQueued cfg w chunk x y z id
  · exact setBlockCommit_editsByChunk cfg w chunk x y z id
  · intro k
    simp only [setBlockCommit_chunks]
    by_cases hk : k = (worldToChunkCoord cfg x, worldToChunkCoord cfg z)
    · rw [if_pos hk, hk]
      unfold getChunk at hc
      rw [hc]
      rfl
    · rw [if_neg hk]

theorem recordEdit_queueStep (w : VoxelWorld) (cx cz lx y lz id : Int) :
    QueueStep w (recordEdit w cx cz lx y lz id) :=
  ⟨queueAppends_refl _ _, queueAppends_refl _ _, fun _ => rfl⟩

/-- Every `setBlock` only appends to the queues. -/
theorem setBlock_queueStep (cfg : Config) (w : VoxelWorld) (x y z id : Int)
    (opts : SetBlockOptions) : QueueStep w (setBlock cfg w x y z id opts).1 := by
  by_cases hrej : ¬ cellLoaded cfg w x y z ∨ getBlock cfg w x y z = id
  · rw [setBlock_rejected cfg w x y z id opts hrej]
    exact queueStep_refl w
  · have hl : cellLoaded cfg w x y z := by
      by_contra hn; exact hrej (Or.inl hn)
    have hid : getBlock cfg w x y z ≠ id := fun e => hrej (Or.inr e)
    obtain ⟨chunk, hc, hs⟩ := setBlock_accepted cfg w x y z id opts hl hid
    rw [hs, setBlockCommit_stages]
    have s1 := (setBlockCommit_internal_step cfg w chunk x y z id hc).queues
    have t2 : ∀ v : VoxelWorld, QueueStep v (if opts.saveEdit then
        recordEdit v (worldToChunkCoord cfg x) (worldToChunkCoord cfg z)
          (worldToLocalCoord cfg x) y (worldToLocalCoord cfg z) id else v) := by
      intro v
      split
      · exact recordEdit_queueStep _ _ _ _ _ _ _
      · exact queueStep_refl _
    have t3 : ∀ v : VoxelWorld, QueueStep v
        (if opts.updateFluids then enqueueFluidNeighbors cfg v x y z else v) := by
      intro v
      split
      · exact (enqueueFluidNeighbors_step cfg _ x y z).queues
      · exact queueStep_refl _
    have t4 : ∀ v : VoxelWorld, QueueStep v
        (if opts.updateRedstone then enqueueRedstoneNeighbors cfg v x y z else v) := by
      intro v
      split
      · exact (enqueueRedstoneNeighbors_step cfg _ x y z).queues
      · exact queueStep_refl _
    exact queueStep_trans (queueStep_trans (queueStep_trans s1 (t2 _)) (t3 _)) (t4 _)

/-- A `setBlock` with `saveEdit: false` only appends to the queues and leaves the overlay. -/
theorem setBlock_engineStep (cfg : Config) (w : VoxelWorld) (x y z id : Int)
    (opts : SetBlockOptions) (hsave : opts.saveEdit = false) :
    EngineStep w (setBlock cfg w x y z id opts).1 := by
  refine ⟨setBlock_queueStep cfg w x y z id opts, ?_⟩
  by_cases hrej : ¬ cellLoaded cfg w x y z ∨ getBlock cfg w x y z = id
  · rw [setBlock_rejected cfg w x y z id opts hrej]
  · have hl : cellLoaded cfg w x y z := by
      by_contra hn; exact hrej (Or.inl hn)
    have hid : getBlock cfg w x y z ≠ id := fun e => hrej (Or.inr e)
    obtain ⟨chunk, hc, hs⟩ := setBlock_accepted cfg w x y z id opts hl hid
    rw [hs, setBlockCommit_stages]
    simp only [hsave, Bool.false_eq_true, if_false]
    have e1 := setBlockCommit_editsByChunk cfg w chunk x y z id
    split <;> split <;>
      simp only [enqueueRedstoneNeighbors_editsByChunk, enqueueFluidNeighbors_editsByChunk, e1]

theorem engineStep_ite (w a b : VoxelWorld) (c : Prop) [Decidable c]
    (ha : EngineStep w a) (hb : EngineStep w b) : EngineStep w (if c then a else b) := by
  split
  · exact ha
  · exact hb

theorem write_then_fluid_step (cfg : Config) (w : VoxelWorld) (x y z id : Int) :
    EngineStep w (enqueueFluidNeighbors cfg (setBlock cfg w x y z id internalWrite).1 x y z) :=
  engineStep_trans (setBlock_engineStep cfg w x y z id internalWrite rfl)
    (enqueueFluidNeighbors_step cfg _ x y z)

theorem write_then_redstone_step (cfg : Config) (w : VoxelWorld) (x y z id : Int) :
    EngineStep w
      (enqueueRedstoneNeighbors cfg (setBlock cfg w x y z id internalWrite).1 x y z) :=
  engineStep_trans (setBlock_engineStep cfg w x y z id internalWrite rfl)
    (enqueueRedstoneNeighbors_step cfg _ x y z)

theorem updateWaterAt_step (cfg : Config) (w : VoxelWorld) (x y z : Int) :
    EngineStep w (updateWaterAt cfg w x y z) := by
  unfold updateWaterAt
  simp only []
  apply engineStep_ite _ _ _ _ (engineStep_refl w)
  apply engineStep_ite _ _ _ _ (engineStep_refl w)
  apply engineStep_ite _ _ _ _ (engineStep_refl w)
  exact write_then_fluid_step cfg w x y z _

theorem updateDustAt_step (cfg : Config) (w : VoxelWorld) (x y z : Int) :
    EngineStep w (updateDustAt cfg w x y z) := by
  unfold updateDustAt
  simp only []
  apply engineStep_ite _ _ _ _ (engineStep_refl w)
  apply engineStep_ite _ _ _ _ (engineStep_refl w)
  exact write_then_redstone_step cfg w x y z _

theorem updateRepeaterAt_step (cfg : Config) (w : VoxelWorld) (x y z : Int) :
    EngineStep w (updateRepeaterAt cfg w x y z) := by
  unfold updateRepeaterAt
  simp only []
  apply engineStep_ite _ _ _ _ (engineStep_refl w)
  apply engineStep_ite _ _ _ _ (engineStep_refl w)
  exact write_then_redstone_step cfg w x y z _

theorem updateComparatorAt_step (cfg : Config) (w : VoxelWorld) (x y z : Int) :
    EngineStep w (updateComparatorAt cfg w x y z) := by
  unfold updateComparatorAt
  simp only []
  apply engineStep_ite _ _ _ _ (engineStep_refl w)
  apply engineStep_ite _ _ _ _ (engineStep_refl w)
  exact write_then_redstone_step cfg w x y z _

theorem pistonShiftNode_step (cfg : Config) (front : DirVec) (w : VoxelWorld)
    (node : ChainNode) : EngineStep w (pistonShiftNode cfg front w node) := by
  unfold pistonShiftNode
  simp only []
  refine engineStep_trans ?_ (enqueueFluidNeighbors_step cfg _ _ _ _)
  refine engineStep_trans ?_ (enqueueFluidNeighbors_step cfg _ _ _ _)
  refine engineStep_trans ?_ (enqueueRedstoneNeighbors_step cfg _ _ _ _)
  refine engineStep_trans ?_ (enqueueRedstoneNeighbors_step cfg _ _ _ _)
  refine engineStep_trans ?_ (setBlock_engineStep cfg _ _ _ _ _ internalWrite rfl)
  exact setBlock_engineStep cfg _ _ _ _ _ internalWrite rfl

theorem tryExtendPiston_step (cfg : Config) (w : VoxelWorld) (x y z dir : Int) :
    EngineStep w (tryExtendPiston cfg w x y z dir).1 := by
  unfold tryExtendPiston
  simp only []
  split
  · exact engineStep_refl w
  · split
    · exact engineStep_refl w
    · simp only []
      refine engineStep_trans ?_ (enqueueFluidNeighbors_step cfg _ _ _ _)
      refine engineStep_trans ?_ (enqueueRedstoneNeighbors_step cfg _ _ _ _)
      refine engineStep_trans ?_ (enqueueRedstoneNeighbors_step cfg _ _ _ _)
      refine engineStep_trans ?_ (setBlock_engineStep cfg _ _ _ _ _ internalWrite rfl)
      refine engineStep_trans ?_ (setBlock_engineStep cfg _ _ _ _ _ internalWrite rfl)
      exact engineStep_foldl _ (pistonShiftNode_step cfg _) _ w

theorem tryRetractPiston_step (cfg : Config) (w : VoxelWorld) (x y z dir : Int) :
    EngineStep w (tryRetractPiston cfg w x y z dir).1 := by
  unfold tryRetractPiston
  simp only []
  refine engineStep_trans ?_ (enqueueRedstoneNeighbors_step cfg _ _ _ _)
  refine engineStep_trans ?_ (setBlock_engineStep cfg _ _ _ _ _ internalWrite rfl)
  apply engineStep_ite _ _ _ _ _ (engineStep_refl w)
  refine engineStep_trans ?_ (enqueueFluidNeighbors_step cfg _ _ _ _)
  refine engineStep_trans ?_ (enqueueRedstoneNeighbors_step cfg _ _ _ _)
  exact setBlock_engineStep cfg _ _ _ _ _ internalWrite rfl

theorem updatePistonAt_step (cfg : Config) (w : VoxelWorld) (x y z : Int) :
    EngineStep w (updatePistonAt cfg w x y z) := by
  unfold updatePistonAt
  simp only []
  apply engineStep_ite _ _ _ _ (engineStep_refl w)
  apply engineStep_ite _ _ _ _ (tryExtendPiston_step cfg w x y z _)
  exact engineStep_ite _ _ _ _ (tryRetractPiston_step cfg w x y z _) (engineStep_refl w)

theorem evaluateRedstoneAt_step (cfg : Config) (w : VoxelWorld) (x y z : Int) :
    EngineStep w (evaluateRedstoneAt cfg w x y z) := by
  unfold evaluateRedstoneAt
  simp only []
  apply engineStep_ite _ _ _ _ (updateDustAt_step cfg w x y z)
  apply engineStep_ite _ _ _ _ (updateRepeaterAt_step cfg w x y z)
  apply engineStep_ite _ _ _ _ (updateComparatorAt_step cfg w x y z)
  exact engineStep_ite _ _ _ _ (updatePistonAt_step cfg w x y z) (engineStep_refl w)

theorem toggleComparatorMode_queueStep (cfg : Config) (w : VoxelWorld) (x y z : Int) :
    QueueStep w (toggleComparatorMode cfg w x y z).1 := by
  unfold toggleComparatorMode
  simp only []
  split
  · exact queueStep_refl w
  · split
    · exact queueStep_trans (setBlock_queueStep cfg w x y z _ _)
        (enqueueRedstoneNeighbors_step cfg _ x y z).queues
    · exact setBlock_queueStep cfg w x y z _ _

/-! ## The two drains -/

theorem queueOK_pop (node : Cell) (rest s : List Cell) (h : QueueOK (node :: rest) s) :
    QueueOK rest (s.erase node) := by
  obtain ⟨h1, h2, h3⟩ := h
  have hn := List.nodup_cons.mp h1
  refine ⟨hn.2, h2.erase node, ?_⟩
  intro c
  rw [h2.mem_erase_iff, h3 c, List.mem_cons]
  constructor
  · rintro ⟨hne, h | h⟩
    · exact absurd h hne
    · exact h
  · intro h
    refine ⟨?_, Or.inr h⟩
    rintro rfl
    exact hn.1 h

theorem hasChunk_of_loaded (w w' : VoxelWorld)
    (h : ∀ k, (w'.chunks k).isSome = (w.chunks k).isSome) (cx cz : Int) :
    hasChunk w' cx cz = hasChunk w cx cz := by
  unfold hasChunk
  exact h _

/-- What a drain keeps: the consistency of the queues, the edit overlay and the set of loaded
chunks. -/
theorem processFluidUpdates_keeps (cfg : Config) :
    ∀ (limit : Nat) (w : VoxelWorld),
      (QueueInv w → QueueInv (processFluidUpdates cfg limit w)) ∧
      (processFluidUpdates cfg limit w).editsByChunk = w.editsByChunk ∧
      (∀ k, ((processFluidUpdates cfg limit w).chunks k).isSome = (w.chunks k).isSome) := by
  intro limit
  induction limit with
  | zero => intro w; exact ⟨fun h => h, rfl, fun _ => rfl⟩
  | succ limit ih =>
    intro w
    have inner : ∀ (q : List Cell) (w : VoxelWorld), w.fluidQueue = q →
        (QueueInv w → QueueInv (fluidDrainStep cfg (processFluidUpdates cfg limit) w q)) ∧
        (fluidDrainStep cfg (processFluidUpdates cfg limit) w q).editsByChunk
          = w.editsByChunk ∧
        (∀ k, ((fluidDrainStep cfg (processFluidUpdates cfg limit) w q).chunks k).isSome
          = (w.chunks k).isSome) := by
      intro q
      induction q with
      | nil => intro w _; exact ⟨fun h => h, rfl, fun _ => rfl⟩
      | cons node rest ihq =>
        intro w hq
        have hpop : QueueInv w → QueueInv
            { w with fluidQueue := rest, fluidQueued := w.fluidQueued.erase node } := by
          intro hi
          refine ⟨?_, hi.2⟩
          have h1 := hi.1
          rw [hq] at h1
          exact queueOK_pop node rest _ h1
        unfold fluidDrainStep
        simp only []
        split
        · obtain ⟨r1, r2, r3⟩ := ihq
            { w with fluidQueue := rest, fluidQueued := w.fluidQueued.erase node } rfl
          exact ⟨fun hi => r1 (hpop hi), r2, r3⟩
        · have hs := updateWaterAt_step cfg
            { w with fluidQueue := rest, fluidQueued := w.fluidQueued.erase node }
            node.1 node.2.1 node.2.2
          obtain ⟨r1, r2, r3⟩ := ih (updateWaterAt cfg
            { w with fluidQueue := rest, fluidQueued := w.fluidQueued.erase node }
            node.1 node.2.1 node.2.2)
          refine ⟨fun hi => r1 (queueStep_inv hs.queues (hpop hi)), ?_, ?_⟩
          · rw [r2, hs.edits]
          · intro k
            rw [r3, hs.queues.loaded]
    exact inner w.fluidQueue w rfl

theorem processRedstoneUpdates_keeps (cfg : Config) :
    ∀ (limit : Nat) (w : VoxelWorld),
      (QueueInv w → QueueInv (processRedstoneUpdates cfg limit w)) ∧
      (processRedstoneUpdates cfg limit w).editsByChunk = w.editsByChunk ∧
      (∀ k, ((processRedstoneUpdates cfg limit w).chunks k).isSome = (w.chunks k).isSome) := by
  intro limit
  induction limit with
  | zero => intro w; exact ⟨fun h => h, rfl, fun _ => rfl⟩
  | succ limit ih =>
    intro w
    have inner : ∀ (q : List Cell) (w : VoxelWorld), w.redstoneQueue = q →
        (QueueInv w → QueueInv (redstoneDrainStep cfg (processRedstoneUpdates cfg limit) w q)) ∧
        (redstoneDrainStep cfg (processRedstoneUpdates cfg limit) w q).editsByChunk
          = w.editsByChunk ∧
        (∀ k, ((redstoneDrainStep cfg (processRedstoneUpdates cfg limit) w q).chunks k).isSome
          = (w.chunks k).isSome) := by
      intro q
      induction q with
      | nil => intro w _; exact ⟨fun h => h, rfl, fun _ => rfl⟩
      | cons node rest ihq =>
        intro w hq
        have hpop : QueueInv w → QueueInv
            { w with redstoneQueue := rest, redstoneQueued := w.redstoneQueued.erase node } := by
          intro hi
          refine ⟨hi.1, ?_⟩
          have h1 := hi.2
          rw [hq] at h1
          exact queueOK_pop node rest _ h1
        unfold redstoneDrainStep
        simp only []
        split
        · obtain ⟨r1, r2, r3⟩ := ihq
            { w with redstoneQueue := rest, redstoneQueued := w.redstoneQueued.erase node } rfl
          exact ⟨fun hi => r1 (hpop hi), r2, r3⟩
        · have hs := evaluateRedstoneAt_step cfg
            { w with redstoneQueue := rest, redstoneQueued := w.redstoneQueued.erase node }
            node.1 node.2.1 node.2.2
          obtain ⟨r1, r2, r3⟩ := ih (evaluateRedstoneAt cfg
            { w with redstoneQueue := rest, redstoneQueued := w.redstoneQueued.erase node }
            node.1 node.2.1 node.2.2)
          refine ⟨fun hi => r1 (queueStep_inv hs.queues (hpop hi)), ?_, ?_⟩
          · rw [r2, hs.edits]
          · intro k
            rw [r3, hs.queues.loaded]
    exact inner w.redstoneQueue w rfl

/-- The record of the fluid drain: the state is that of `processFluidUpdates`; at most `limit`
cells are evaluated; the dequeued cells followed by the cells left in the queue are the
initial queue followed by the cells enqueued during the drain; a dequeued cell is evaluated
exactly when its chunk is loaded; and the drain stops only at the limit or on an empty
queue. -/
theorem fluid_trace_spec (cfg : Config) :
    ∀ (limit : Nat) (w : VoxelWorld),
      (processFluidUpdatesTraced cfg limit w).1 = processFluidUpdates cfg limit w ∧
      ((processFluidUpdatesTraced cfg limit w).2.filter (fun e => e.2)).length ≤ limit ∧
      (∃ added, (processFluidUpdatesTraced cfg limit w).2.map (fun e => e.1) ++
          (processFluidUpdates cfg limit w).fluidQueue = w.fluidQueue ++ added) ∧
      (∀ e ∈ (processFluidUpdatesTraced cfg limit w).2,
        e.2 = hasChunk w (worldToChunkCoord cfg e.1.1) (worldToChunkCoord cfg e.1.2.2)) ∧
      (((processFluidUpdatesTraced cfg limit w).2.filter (fun e => e.2)).length = limit ∨
        (processFluidUpdates cfg limit w).fluidQueue = []) := by
  intro limit
  induction limit with
  | zero =>
    intro w
    exact ⟨rfl, Nat.le_refl _, ⟨[], by simp [processFluidUpdatesTraced, processFluidUpdates]⟩,
      fun e he => absurd he (List.not_mem_nil _), Or.inl rfl⟩
  | succ limit ih =>
    intro w
    have inner : ∀ (q : List Cell) (w : VoxelWorld), w.fluidQueue = q →
        (fluidDrainStepTraced cfg (processFluidUpdatesTraced cfg limit) w q).1 =
          fluidDrainStep cfg (processFluidUpdates cfg limit) w q ∧
        ((fluidDrainStepTraced cfg (processFluidUpdatesTraced cfg limit) w q).2.filter
          (fun e => e.2)).length ≤ limit + 1 ∧
        (∃ added, (fluidDrainStepTraced cfg (processFluidUpdatesTraced cfg limit) w q).2.map
            (fun e => e.1) ++
            (fluidDrainStep cfg (processFluidUpdates cfg limit) w q).fluidQueue = q ++ added) ∧
        (∀ e ∈ (fluidDrainStepTraced cfg (processFluidUpdatesTraced cfg limit) w q).2,
          e.2 = hasChunk w (worldToChunkCoord cfg e.1.1) (worldToChunkCoord cfg e.1.2.2)) ∧
        (((fluidDrainStepTraced cfg (processFluidUpdatesTraced cfg limit) w q).2.filter
            (fun e => e.2)).length = limit + 1 ∨
          (fluidDrainStep cfg (processFluidUpdates cfg limit) w q).fluidQueue = []) := by
      intro q
      induction q with
      | nil =>
        intro w hq
        exact ⟨rfl, Nat.zero_le _, ⟨[], by simp [fluidDrainStepTraced, fluidDrainStep, hq]⟩,
          fun e he => absurd he (List.not_mem_nil _), Or.inr hq⟩
      | cons node rest ihq =>
        intro w hq
        unfold fluidDrainStepTraced fluidDrainStep
        simp only []
        split
        · rename_i hstale
          obtain ⟨r1, r2, ⟨added, r3⟩, r4, r5⟩ := ihq
            { w with fluidQueue := rest, fluidQueued := w.fluidQueued.erase node } rfl
          refine ⟨r1, ?_, ⟨added, ?_⟩, ?_, ?_⟩
          · simp only [List.filter_cons, Bool.false_eq_true, if_false]
            omega
          · simp only [List.map_cons, List.cons_append, r3]
          · intro e he
            rcases List.mem_cons.mp he with h | h
            · rw [h]
              change (!hasChunk w (worldToChunkCoord cfg node.1)
                (worldToChunkCoord cfg node.2.2)) = true at hstale
              change false = hasChunk w (worldToChunkCoord cfg node.1)
                (worldToChunkCoord cfg node.2.2)
              cases hb : hasChunk w (worldToChunkCoord cfg node.1)
                  (worldToChunkCoord cfg node.2.2)
              · rfl
              · rw [hb] at hstale
                exact absurd hstale (by decide)
            · exact r4 e h
          · rcases r5 with h | h
            · left
              simp only [List.filter_cons, Bool.false_eq_true, if_false]
              exact h
            · exact Or.inr h
        · rename_i hload
          have hs := updateWaterAt_step cfg
            { w with fluidQueue := rest, fluidQueued := w.fluidQueued.erase node }
            node.1 node.2.1 node.2.2
          obtain ⟨a1, ha1⟩ := queueAppends_prefix hs.queues.fluid
          obtain ⟨r1, r2, ⟨added, r3⟩, r4, r5⟩ := ih (updateWaterAt cfg
            { w with fluidQueue := rest, fluidQueued := w.fluidQueued.erase node }
            node.1 node.2.1 node.2.2)
          refine ⟨r1, ?_, ⟨a1 ++ added, ?_⟩, ?_, ?_⟩
          · simp only [List.filter_cons, if_true, List.length_cons]
            omega
          · simp only [List.map_cons, List.cons_append, r3, ha1, List.append_assoc]
          · intro e he
            rcases List.mem_cons.mp he with h | h
            · rw [h]
              change ¬ (!hasChunk w (worldToChunkCoord cfg node.1)
                (worldToChunkCoord cfg node.2.2)) = true at hload
              change true = hasChunk w (worldToChunkCoord cfg node.1)
                (worldToChunkCoord cfg node.2.2)
              cases hb : hasChunk w (worldToChunkCoord cfg node.1)
                  (worldToChunkCoord cfg node.2.2)
              · rw [hb] at hload
                exact absurd rfl hload
              · rfl
            · rw [r4 e h]
              exact hasChunk_of_loaded _ _ hs.queues.loaded _ _
          · rcases r5 with h | h
            · left
              simp only [List.filter_cons, if_true, List.length_cons, h]
            · exact Or.inr h
    exact inner w.fluidQueue w rfl

/-- The record of the redstone drain: the state is that of `processRedstoneUpdates`; at most `limit`
cells are evaluated; the dequeued cells followed by the cells left in the queue are the
initial queue followed by the cells enqueued during the drain; a dequeued cell is evaluated
exactly when its chunk is loaded; and the drain stops only at the limit or on an empty
queue. -/
theorem redstone_trace_spec (cfg : Config) :
    ∀ (limit : Nat) (w : VoxelWorld),
      (processRedstoneUpdatesTraced cfg limit w).1 = processRedstoneUpdates cfg limit w ∧
      ((processRedstoneUpdatesTraced cfg limit w).2.filter (fun e => e.2)).length ≤ limit ∧
      (∃ added, (processRedstoneUpdatesTraced cfg limit w).2.map (fun e => e.1) ++
          (processRedstoneUpdates cfg limit w).redstoneQueue = w.redstoneQueue ++ added) ∧
      (∀ e ∈ (processRedstoneUpdatesTraced cfg limit w).2,
        e.2 = hasChunk w (worldToChunkCoord cfg e.1.1) (worldToChunkCoord cfg e.1.2.2)) ∧
      (((processRedstoneUpdatesTraced cfg limit w).2.filter (fun e => e.2)).length = limit ∨
        (processRedstoneUpdates cfg limit w).redstoneQueue = []) := by
  intro limit
  induction limit with
  | zero =>
    intro w
    exact ⟨rfl, Nat.le_refl _, ⟨[], by simp [processRedstoneUpdatesTraced, processRedstoneUpdates]⟩,
      fun e he => absurd he (List.not_mem_nil _), Or.inl rfl⟩
  | succ limit ih =>
    intro w
    have inner : ∀ (q : List Cell) (w : VoxelWorld), w.redstoneQueue = q →
        (redstoneDrainStepTraced cfg (processRedstoneUpdatesTraced cfg limit) w q).1 =
          redstoneDrainStep cfg (processRedstoneUpdates cfg limit) w q ∧
        ((redstoneDrainStepTraced cfg (processRedstoneUpdatesTraced cfg limit) w q).2.filter
          (fun e => e.2)).length ≤ limit + 1 ∧
        (∃ added, (redstoneDrainStepTraced cfg (processRedstoneUpdatesTraced cfg limit) w q).2.map
            (fun e => e.1) ++
            (redstoneDrainStep cfg (processRedstoneUpdates cfg limit) w q).redstoneQueue = q ++ added) ∧
        (∀ e ∈ (redstoneDrainStepTraced cfg (processRedstoneUpdatesTraced cfg limit) w q).2,
          e.2 = hasChunk w (worldToChunkCoord cfg e.1.1) (worldToChunkCoord cfg e.1.2.2)) ∧
        (((redstoneDrainStepTraced cfg (processRedstoneUpdatesTraced cfg limit) w q).2.filter
            (fun e => e.2)).length = limit + 1 ∨
          (redstoneDrainStep cfg (processRedstoneUpdates cfg limit) w q).redstoneQueue = []) := by
      intro q
      induction q with
      | nil =>
        intro w hq
        exact ⟨rfl, Nat.zero_le _, ⟨[], by simp [redstoneDrainStepTraced, redstoneDrainStep, hq]⟩,
          fun e he => absurd he (List.not_mem_nil _), Or.inr hq⟩
      | cons node rest ihq =>
        intro w hq
        unfold redstoneDrainStepTraced redstoneDrainStep
        simp only []
        split
        · rename_i hstale
          obtain ⟨r1, r2, ⟨added, r3⟩, r4, r5⟩ := ihq
            { w with redstoneQueue := rest, redstoneQueued := w.redstoneQueued.erase node } rfl
          refine ⟨r1, ?_, ⟨added, ?_⟩, ?_, ?_⟩
          · simp only [List.filter_cons, Bool.false_eq_true, if_false]
            omega
          · simp only [List.map_cons, List.cons_append, r3]
          · intro e he
            rcases List.mem_cons.mp he with h | h
            · rw [h]
              change (!hasChunk w (worldToChunkCoord cfg node.1)
                (worldToChunkCoord cfg node.2.2)) = true at hstale
              change false = hasChunk w (worldToChunkCoord cfg node.1)
                (worldToChunkCoord cfg node.2.2)
              cases hb : hasChunk w (worldToChunkCoord cfg node.1)
                  (worldToChunkCoord cfg node.2.2)
              · rfl
              · rw [hb] at hstale
                exact absurd hstale (by decide)
            · exact r4 e h
          · rcases r5 with h | h
            · left
              simp only [List.filter_cons, Bool.false_eq_true, if_false]
              exact h
            · exact Or.inr h
        · rename_i hload
          have hs := evaluateRedstoneAt_step cfg
            { w with redstoneQueue := rest, redstoneQueued := w.redstoneQueued.erase node }
            node.1 node.2.1 node.2.2
          obtain ⟨a1, ha1⟩ := queueAppends_prefix hs.queues.redstone
          obtain ⟨r1, r2, ⟨added, r3⟩, r4, r5⟩ := ih (evaluateRedstoneAt cfg
            { w with redstoneQueue := rest, redstoneQueued := w.redstoneQueued.erase node }
            node.1 node.2.1 node.2.2)
          refine ⟨r1, ?_, ⟨a1 ++ added, ?_⟩, ?_, ?_⟩
          · simp only [List.filter_cons, if_true, List.length_cons]
            omega
          · simp only [List.map_cons, List.cons_append, r3, ha1, List.append_assoc]
          · intro e he
            rcases List.mem_cons.mp he with h | h
            · rw [h]
              change ¬ (!hasChunk w (worldToChunkCoord cfg node.1)
                (worldToChunkCoord cfg node.2.2)) = true at hload
              change true = hasChunk w (worldToChunkCoord cfg node.1)
                (worldToChunkCoord cfg node.2.2)
              cases hb : hasChunk w (worldToChunkCoord cfg node.1)
                  (worldToChunkCoord cfg node.2.2)
              · rw [hb] at hload
                exact absurd rfl hload
              · rfl
            · rw [r4 e h]
              exact hasChunk_of_loaded _ _ hs.queues.loaded _ _
          · rcases r5 with h | h
            · left
              simp only [List.filter_cons, if_true, List.length_cons, h]
            · exact Or.inr h
    exact inner w.redstoneQueue w rfl

/-! ## Enqueueing twice, and the overlay record -/

theorem enqueueFluidUpdate_fix (cfg : Config) (w : VoxelWorld) (x y z : Int) :
    enqueueFluidUpdate cfg w x y z = w ↔
      (¬ cellLoaded cfg w x y z ∨ (x, y, z) ∈ w.fluidQueued) := by
  constructor
  · intro h
    by_contra hc
    push_neg at hc
    obtain ⟨⟨h1, h2, h3⟩, h4⟩ := hc
    have hq := congrArg (fun v => v.fluidQueue.length) h
    simp only [enqueueFluidUpdate] at hq
    rw [if_neg (by omega)] at hq
    simp only [h3, Bool.not_true, Bool.false_eq_true, if_false, if_neg h4,
      List.length_append, List.length_singleton] at hq
    omega
  · intro h
    simp only [enqueueFluidUpdate]
    split_ifs with h1 h2 h3
    · rfl
    · rfl
    · rfl
    · exfalso
      rcases h with h | h
      · apply h
        refine ⟨by omega, by omega, ?_⟩
        simpa using h2
      · exact h3 h

theorem enqueueRedstoneUpdate_fix (cfg : Config) (w : VoxelWorld) (x y z : Int) :
    enqueueRedstoneUpdate cfg w x y z = w ↔
      (¬ cellLoaded cfg w x y z ∨ (x, y, z) ∈ w.redstoneQueued) := by
  constructor
  · intro h
    by_contra hc
    push_neg at hc
    obtain ⟨⟨h1, h2, h3⟩, h4⟩ := hc
    have hq := congrArg (fun v => v.redstoneQueue.length) h
    simp only [enqueueRedstoneUpdate] at hq
    rw [if_neg (by omega)] at hq
    simp only [h3, Bool.not_true, Bool.false_eq_true, if_false, if_neg h4,
      List.length_append, List.length_singleton] at hq
    omega
  · intro h
    simp only [enqueueRedstoneUpdate]
    split_ifs with h1 h2 h3
    · rfl
    · rfl
    · rfl
    · exfalso
      rcases h with h | h
      · apply h
        refine ⟨by omega, by omega, ?_⟩
        simpa using h2
      · exact h3 h

theorem enqueueFluidUpdate_again (cfg : Config) (w : VoxelWorld) (x y z : Int) :
    enqueueFluidUpdate cfg (enqueueFluidUpdate cfg w x y z) x y z =
      enqueueFluidUpdate cfg w x y z := by
  rw [enqueueFluidUpdate_fix]
  rcases enqueueFluidUpdate_cases cfg w x y z with h | ⟨_, _, _, h3⟩
  · rw [h]; exact (enqueueFluidUpdate_fix cfg w x y z).mp h
  · right; rw [h3]; simp

theorem enqueueFluidUpdate_stable (cfg : Config) (w : VoxelWorld) (x y z a b c : Int)
    (h : enqueueFluidUpdate cfg w x y z = w) :
    enqueueFluidUpdate cfg (enqueueFluidUpdate cfg w a b c) x y z =
      enqueueFluidUpdate cfg w a b c := by
  rw [enqueueFluidUpdate_fix] at h ⊢
  rcases h with h | h
  · left; rw [cellLoaded_enqueueFluidUpdate]; exact h
  · right
    rcases enqueueFluidUpdate_cases cfg w a b c with h1 | ⟨_, _, _, h3⟩
    · rw [h1]; exact h
    · rw [h3]; exact List.mem_append_left _ h

theorem enqueueRedstoneUpdate_again (cfg : Config) (w : VoxelWorld) (x y z : Int) :
    enqueueRedstoneUpdate cfg (enqueueRedstoneUpdate cfg w x y z) x y z =
      enqueueRedstoneUpdate cfg w x y z := by
  rw [enqueueRedstoneUpdate_fix]
  rcases enqueueRedstoneUpdate_cases cfg w x y z with h | ⟨_, _, _, h3⟩
  · rw [h]; exact (enqueueRedstoneUpdate_fix cfg w x y z).mp h
  · right; rw [h3]; simp

theorem enqueueRedstoneUpdate_stable (cfg : Config) (w : VoxelWorld) (x y z a b c : Int)
    (h : enqueueRedstoneUpdate cfg w x y z = w) :
    enqueueRedstoneUpdate cfg (enqueueRedstoneUpdate cfg w a b c) x y z =
      enqueueRedstoneUpdate cfg w a b c := by
  rw [enqueueRedstoneUpdate_fix] at h ⊢
  rcases h with h | h
  · left; rw [cellLoaded_enqueueRedstoneUpdate]; exact h
  · right
    rcases enqueueRedstoneUpdate_cases cfg w a b c with h1 | ⟨_, _, _, h3⟩
    · rw [h1]; exact h
    · rw [h3]; exact List.mem_append_left _ h

/-- A loop whose steps are idempotent, and stay without effect once they are, has no effect
when it is run a second time. -/
theorem foldl_twice {α : Type} (g : VoxelWorld → α → VoxelWorld)
    (h1 : ∀ w a, g (g w a) a = g w a)
    (h2 : ∀ w a b, g w a = w → g (g w b) a = g w b) (L : List α) (w : VoxelWorld) :
    L.foldl g (L.foldl g w) = L.foldl g w := by
  have stable : ∀ (M : List α) (v : VoxelWorld) (a : α), g v a = v →
      g (M.foldl g v) a = M.foldl g v := by
    intro M
    induction M with
    | nil => intro v a h; exact h
    | cons b rest ih => intro v a h; exact ih (g v b) a (h2 v a b h)
  have done : ∀ (M : List α) (v : VoxelWorld), ∀ a ∈ M, g (M.foldl g v) a = M.foldl g v := by
    intro M
    induction M with
    | nil => intro v a ha; exact absurd ha (List.not_mem_nil _)
    | cons b rest ih =>
      intro v a ha
      rcases List.mem_cons.mp ha with h | h
      · subst h
        exact stable rest (g v a) a (h1 v a)
      · exact ih (g v b) a h
  have fix : ∀ (M : List α) (v : VoxelWorld), (∀ a ∈ M, g v a = v) → M.foldl g v = v := by
    intro M
    induction M with
    | nil => intro v _; rfl
    | cons b rest ih =>
      intro v h
      simp only [List.foldl_cons]
      rw [h b (List.mem_cons_self _ _)]
      exact ih v (fun a ha => h a (List.mem_cons_of_mem _ ha))
  exact fix L _ (done L w)

theorem enqueueFluidNeighbors_twice (cfg : Config) (w : VoxelWorld) (x y z : Int) :
    enqueueFluidNeighbors cfg (enqueueFluidNeighbors cfg w x y z) x y z =
      enqueueFluidNeighbors cfg w x y z := by
  rw [enqueueFluidNeighbors_flat, enqueueFluidNeighbors_flat]
  apply foldl_twice
  · intro v d
    by_cases hd : |d.1| + |d.2.1| + |d.2.2| > 2
    · simp only [if_pos hd]
    · simp only [if_neg hd]
      exact enqueueFluidUpdate_again cfg v _ _ _
  · intro v d e h
    by_cases hd : |d.1| + |d.2.1| + |d.2.2| > 2
    · simp only [if_pos hd]
    · simp only [if_neg hd] at h ⊢
      by_cases he : |e.1| + |e.2.1| + |e.2.2| > 2
      · simp only [if_pos he]
        exact h
      · simp only [if_neg he]
        exact enqueueFluidUpdate_stable cfg v _ _ _ _ _ _ h

theorem enqueueRedstoneNeighbors_cells (cfg : Config) (w : VoxelWorld) (x y z : Int) :
    enqueueRedstoneNeighbors cfg w x y z =
      ((x, y, z) :: ALL_NEIGHBOR_OFFSETS.map
        (fun o => (x + o.1, y + o.2.1, z + o.2.2))).foldl
        (fun v (c : Cell) => enqueueRedstoneUpdate cfg v c.1 c.2.1 c.2.2) w := by
  unfold enqueueRedstoneNeighbors
  rw [List.foldl_cons, List.foldl_map]

theorem enqueueRedstoneNeighbors_twice (cfg : Config) (w : VoxelWorld) (x y z : Int) :
    enqueueRedstoneNeighbors cfg (enqueueRedstoneNeighbors cfg w x y z) x y z =
      enqueueRedstoneNeighbors cfg w x y z := by
  rw [enqueueRedstoneNeighbors_cells, enqueueRedstoneNeighbors_cells]
  apply foldl_twice
  · intro v c
    exact enqueueRedstoneUpdate_again cfg v _ _ _
  · intro v c e h
    exact enqueueRedstoneUpdate_stable cfg v _ _ _ _ _ _ h

theorem queueReachable_inv (cfg : Config) (w : VoxelWorld) (h : QueueReachable cfg w) :
    QueueInv w := by
  induction h with
  | start w h1 h2 h3 h4 =>
    refine ⟨⟨?_, ?_, ?_⟩, ⟨?_, ?_, ?_⟩⟩
    · rw [h1]; exact List.nodup_nil
    · rw [h2]; exact List.nodup_nil
    · intro c; rw [h1, h2]
    · rw [h3]; exact List.nodup_nil
    · rw [h4]; exact List.nodup_nil
    · intro c; rw [h3, h4]
  | fluidUpdate w x y z _ ih =>
    exact queueStep_inv (enqueueFluidUpdate_step cfg w x y z).queues ih
  | fluidNeighbors w x y z _ ih =>
    exact queueStep_inv (enqueueFluidNeighbors_step cfg w x y z).queues ih
  | redstoneUpdate w x y z _ ih =>
    exact queueStep_inv (enqueueRedstoneUpdate_step cfg w x y z).queues ih
  | redstoneNeighbors w x y z _ ih =>
    exact queueStep_inv (enqueueRedstoneNeighbors_step cfg w x y z).queues ih
  | fluidDrain w limit _ ih => exact (processFluidUpdates_keeps cfg limit w).1 ih
  | redstoneDrain w limit _ ih => exact (processRedstoneUpdates_keeps cfg limit w).1 ih
  | write w x y z id opts _ ih => exact queueStep_inv (setBlock_queueStep cfg w x y z id opts) ih
  | toggle w x y z _ ih => exact queueStep_inv (toggleComparatorMode_queueStep cfg w x y z) ih

theorem mapGet_mapSet_same {κ ν : Type} [DecidableEq κ] (m : List (κ × ν)) (k : κ) (v : ν) :
    mapGet (mapSet m k v) k = some v := by
  induction m with
  | nil => simp [mapSet, mapGet]
  | cons p rest ih =>
    obtain ⟨k1, v1⟩ := p
    by_cases h : k1 = k
    · simp [mapSet, mapGet, h]
    · simp [mapSet, mapGet, h, ih]

theorem overlayEntry_recordEdit (cfg : Config) (w : VoxelWorld) (x y z id : Int) :
    overlayEntry cfg (recordEdit w (worldToChunkCoord cfg x) (worldToChunkCoord cfg z)
      (worldToLocalCoord cfg x) y (worldToLocalCoord cfg z) id) x y z = some id := by
  unfold overlayEntry recordEdit scheduleSaveEdits
  simp only [mapGet_mapSet_same]

theorem overlayEntry_congr (cfg : Config) (w w' : VoxelWorld)
    (h : w'.editsByChunk = w.editsByChunk) (x y z : Int) :
    overlayEntry cfg w' x y z = overlayEntry cfg w x y z := by
  unfold overlayEntry
  rw [h]

/-- An accepted `setBlock` with `saveEdit: true` records the id in the overlay. -/
theorem setBlock_records (cfg : Config) (w : VoxelWorld) (x y z id : Int)
    (opts : SetBlockOptions) (hsave : opts.saveEdit = true)
    (hl : cellLoaded cfg w x y z) (hne : getBlock cfg w x y z ≠ id) :
    overlayEntry cfg (setBlock cfg w x y z id opts).1 x y z = some id := by
  obtain ⟨chunk, hc, hs⟩ := setBlock_accepted cfg w x y z id opts hl hne
  rw [hs, setBlockCommit_stages]
  simp only [hsave, if_true]
  have e : ∀ v : VoxelWorld,
      (if opts.updateRedstone = true then enqueueRedstoneNeighbors cfg
          (if opts.updateFluids = true then enqueueFluidNeighbors cfg v x y z else v) x y z
        else (if opts.updateFluids = true then enqueueFluidNeighbors cfg v x y z
          else v)).editsByChunk = v.editsByChunk := by
    intro v
    split <;> split <;>
      simp only [enqueueRedstoneNeighbors_editsByChunk, enqueueFluidNeighbors_editsByChunk]
  rw [overlayEntry_congr cfg _ _ (e _)]
  exact overlayEntry_recordEdit cfg _ x y z id

/-! ## Claims on the queues and on the overlay -/

/-- C14. Idempotent enqueue: in every state reached by enqueue and drain operations (and by
`setBlock` and `toggleComparatorMode`), a second `enqueueFluidNeighbors(x, y, z)`, respectively
`enqueueRedstoneNeighbors(x, y, z)`, right after the first leaves the world as the first call
left it; no cell occurs twice in the fluid queue or in the redstone queue; and the membership
set of each queue holds exactly the queued cells. -/
theorem enqueue_idempotent (cfg : Config) (w : VoxelWorld) (h : QueueReachable cfg w)
    (x y z : Int) :
    enqueueFluidNeighbors cfg (enqueueFluidNeighbors cfg w x y z) x y z =
      enqueueFluidNeighbors cfg w x y z ∧
    enqueueRedstoneNeighbors cfg (enqueueRedstoneNeighbors cfg w x y z) x y z =
      enqueueRedstoneNeighbors cfg w x y z ∧
    (w.fluidQueue.Nodup ∧ ∀ c, c ∈ w.fluidQueued ↔ c ∈ w.fluidQueue) ∧
    (w.redstoneQueue.Nodup ∧ ∀ c, c ∈ w.redstoneQueued ↔ c ∈ w.redstoneQueue) ∧
    ((enqueueFluidNeighbors cfg w x y z).fluidQueue.Nodup ∧
      ∀ c, c ∈ (enqueueFluidNeighbors cfg w x y z).fluidQueued ↔
        c ∈ (enqueueFluidNeighbors cfg w x y z).fluidQueue) ∧
    ((enqueueRedstoneNeighbors cfg w x y z).redstoneQueue.Nodup ∧
      ∀ c, c ∈ (enqueueRedstoneNeighbors cfg w x y z).redstoneQueued ↔
        c ∈ (enqueueRedstoneNeighbors cfg w x y z).redstoneQueue) := by
  have hi := queueReachable_inv cfg w h
  have hf := queueStep_inv (enqueueFluidNeighbors_step cfg w x y z).queues hi
  have hr := queueStep_inv (enqueueRedstoneNeighbors_step cfg w x y z).queues hi
  exact ⟨enqueueFluidNeighbors_twice cfg w x y z, enqueueRedstoneNeighbors_twice cfg w x y z,
    ⟨hi.1.1, hi.1.2.2⟩, ⟨hi.2.1, hi.2.2.2⟩, ⟨hf.1.1, hf.1.2.2⟩, ⟨hr.2.1, hr.2.2.2⟩⟩

theorem enqueue_idempotent_witness :
    enqueueFluidNeighbors sampleConfig
        (enqueueFluidNeighbors sampleConfig
          (processFluidUpdates sampleConfig 2
            (enqueueFluidNeighbors sampleConfig poolWorld 5 1 5)) 6 1 5) 6 1 5 =
      enqueueFluidNeighbors sampleConfig
        (processFluidUpdates sampleConfig 2
          (enqueueFluidNeighbors sampleConfig poolWorld 5 1 5)) 6 1 5 ∧
    (processFluidUpdates sampleConfig 2
      (enqueueFluidNeighbors sampleConfig poolWorld 5 1 5)).fluidQueue.Nodup :=
  ⟨(enqueue_idempotent sampleConfig _
      (QueueReachable.fluidDrain _ 2
        (QueueReachable.fluidNeighbors poolWorld 5 1 5
          (QueueReachable.start poolWorld rfl rfl rfl rfl))) 6 1 5).1,
   (enqueue_idempotent sampleConfig _
      (QueueReachable.fluidDrain _ 2
        (QueueReachable.fluidNeighbors poolWorld 5 1 5
          (QueueReachable.start poolWorld rfl rfl rfl rfl))) 6 1 5).2.2.1.1⟩

/-- C15. Bounded FIFO drain: `processFluidUpdates(limit)` and `processRedstoneUpdates(limit)`
are total; in the record of the cells they shift out of the queue, at most `limit` cells are
evaluated; the dequeued cells, in the order of dequeuing, followed by the cells left in the
queue are the initial queue followed by the cells enqueued during the drain; a dequeued cell
is evaluated when its chunk is loaded and dropped without evaluation when it is not; and the
drain stops only when `limit` cells have been evaluated or the queue is empty, so that dropped
cells do not count. -/
theorem bounded_fifo_drain (cfg : Config) (limit : Nat) (w : VoxelWorld) :
    ((processFluidUpdatesTraced cfg limit w).1 = processFluidUpdates cfg limit w ∧
      ((processFluidUpdatesTraced cfg limit w).2.filter (fun e => e.2)).length ≤ limit ∧
      (∃ added, (processFluidUpdatesTraced cfg limit w).2.map (fun e => e.1) ++
          (processFluidUpdates cfg limit w).fluidQueue = w.fluidQueue ++ added) ∧
      (∀ e ∈ (processFluidUpdatesTraced cfg limit w).2,
        e.2 = hasChunk w (worldToChunkCoord cfg e.1.1) (worldToChunkCoord cfg e.1.2.2)) ∧
      (((processFluidUpdatesTraced cfg limit w).2.filter (fun e => e.2)).length = limit ∨
        (processFluidUpdates cfg limit w).fluidQueue = [])) ∧
    ((processRedstoneUpdatesTraced cfg limit w).1 = processRedstoneUpdates cfg limit w ∧
      ((processRedstoneUpdatesTraced cfg limit w).2.filter (fun e => e.2)).length ≤ limit ∧
      (∃ added, (processRedstoneUpdatesTraced cfg limit w).2.map (fun e => e.1) ++
          (processRedstoneUpdates cfg limit w).redstoneQueue = w.redstoneQueue ++ added) ∧
      (∀ e ∈ (processRedstoneUpdatesTraced cfg limit w).2,
        e.2 = hasChunk w (worldToChunkCoord cfg e.1.1) (worldToChunkCoord cfg e.1.2.2)) ∧
      (((processRedstoneUpdatesTraced cfg limit w).2.filter (fun e => e.2)).length = limit ∨
        (processRedstoneUpdates cfg limit w).redstoneQueue = [])) :=
  ⟨fluid_trace_spec cfg limit w, redstone_trace_spec cfg limit w⟩

/-- C16. Simulation writes never persist: the two drains, one evaluation of a fluid or
redstone cell, a piston extension or retraction, the enqueue operations and every `setBlock`
with `saveEdit: false` leave the edit overlay `editsByChunk` as it is; an accepted `setBlock`
with `saveEdit: true` records the written id, and so does `toggleComparatorMode` on a
comparator. -/
theorem simulation_writes_not_persisted (cfg : Config) (w : VoxelWorld) :
    (∀ limit : Nat, (processFluidUpdates cfg limit w).editsByChunk = w.editsByChunk ∧
      (processRedstoneUpdates cfg limit w).editsByChunk = w.editsByChunk) ∧
    (∀ x y z : Int, (updateWaterAt cfg w x y z).editsByChunk = w.editsByChunk ∧
      (evaluateRedstoneAt cfg w x y z).editsByChunk = w.editsByChunk ∧
      (enqueueFluidNeighbors cfg w x y z).editsByChunk = w.editsByChunk ∧
      (enqueueRedstoneNeighbors cfg w x y z).editsByChunk = w.editsByChunk) ∧
    (∀ x y z dir : Int, (tryExtendPiston cfg w x y z dir).1.editsByChunk = w.editsByChunk ∧
      (tryRetractPiston cfg w x y z dir).1.editsByChunk = w.editsByChunk) ∧
    (∀ (x y z id : Int) (opts : SetBlockOptions), opts.saveEdit = false →
      (setBlock cfg w x y z id opts).1.editsByChunk = w.editsByChunk) ∧
    (∀ (x y z id : Int) (opts : SetBlockOptions), opts.saveEdit = true →
      (setBlock cfg w x y z id opts).2 = true →
      overlayEntry cfg (setBlock cfg w x y z id opts).1 x y z = some id) ∧
    (∀ x y z : Int, (toggleComparatorMode cfg w x y z).2 = true →
      overlayEntry cfg (toggleComparatorMode cfg w x y z).1 x y z =
        some (makeComparatorId (getComparatorDir (getBlock cfg w x y z))
          (!isComparatorSubtract (getBlock cfg w x y z))
          (getComparatorOutput (getBlock cfg w x y z)))) := by
  have accepted : ∀ (x y z id : Int) (opts : SetBlockOptions),
      (setBlock cfg w x y z id opts).2 = true →
      cellLoaded cfg w x y z ∧ getBlock cfg w x y z ≠ id := by
    intro x y z id opts h
    by_contra hc
    have hrej : ¬ cellLoaded cfg w x y z ∨ getBlock cfg w x y z = id := by
      by_cases hl : cellLoaded cfg w x y z
      · right
        by_contra hne
        exact hc ⟨hl, hne⟩
      · exact Or.inl hl
    rw [setBlock_rejected cfg w x y z id opts hrej] at h
    exact Bool.noConfusion h
  refine ⟨?_, ?_, ?_, ?_, ?_, ?_⟩
  · intro limit
    exact ⟨(processFluidUpdates_keeps cfg limit w).2.1,
      (processRedstoneUpdates_keeps cfg limit w).2.1⟩
  · intro x y z
    exact ⟨(updateWaterAt_step cfg w x y z).edits, (evaluateRedstoneAt_step cfg w x y z).edits,
      (enqueueFluidNeighbors_step cfg w x y z).edits,
      (enqueueRedstoneNeighbors_step cfg w x y z).edits⟩
  · intro x y z dir
    exact ⟨(tryExtendPiston_step cfg w x y z dir).edits,
      (tryRetractPiston_step cfg w x y z dir).edits⟩
  · intro x y z id opts hsave
    exact (setBlock_engineStep cfg w x y z id opts hsave).edits
  · intro x y z id opts hsave hres
    obtain ⟨hl, hne⟩ := accepted x y z id opts hres
    exact setBlock_records cfg w x y z id opts hsave hl hne
  · intro x y z hres
    unfold toggleComparatorMode at hres ⊢
    simp only [] at hres ⊢
    split at hres
    · exact Bool.noConfusion hres
    · rename_i hcmp
      rw [if_neg hcmp]
      split at hres
      · rename_i hchg
        rw [if_pos hchg]
        simp only []
        rw [overlayEntry_congr cfg _ _ (enqueueRedstoneNeighbors_step cfg _ x y z).edits]
        obtain ⟨hl, hne⟩ := accepted x y z _ _ hchg
        exact setBlock_records cfg w x y z _ _ rfl hl hne
      · exact Bool.noConfusion hres

theorem simulation_writes_not_persisted_witness :
    (processRedstoneUpdates lineConfig 40 dustLineWorld).editsByChunk = [] ∧
    overlayEntry sampleConfig (setBlock sampleConfig airWorld 5 7 3 184 {}).1 5 7 3 =
      some 184 :=
  ⟨((simulation_writes_not_persisted lineConfig dustLineWorld).1 40).2,
   (simulation_writes_not_persisted sampleConfig airWorld).2.2.2.2.1 5 7 3 184 {} rfl
     (by decide)⟩

theorem bounded_fifo_drain_witness :
    ((processFluidUpdatesTraced lineConfig 3 channelWorld).2.filter
        (fun e => e.2)).length ≤ 3 ∧
    ((processRedstoneUpdatesTraced lineConfig 3 dustLineWorld).2.filter
        (fun e => e.2)).length ≤ 3 :=
  ⟨(bounded_fifo_drain lineConfig 3 channelWorld).1.2.1,
   (bounded_fifo_drain lineConfig 3 dustLineWorld).2.2.1⟩

/-! ## The repeater and the comparator toggle -/

theorem strongLoop_local (cfg : Config) (w w' : VoxelWorld) (x y z : Int)
    (L : List (Int × Int × Int))
    (h : ∀ o ∈ L, getBlock cfg w' (x + o.1) (y + o.2.1) (z + o.2.2) =
      getBlock cfg w (x + o.1) (y + o.2.1) (z + o.2.2)) :
    ∀ p : Int, getStrongPowerLoop cfg w' x y z L p = getStrongPowerLoop cfg w x y z L p := by
  induction L with
  | nil => intro p; rfl
  | cons o rest ih =>
    intro p
    have ih' := ih (fun o' ho' => h o' (List.mem_cons_of_mem _ ho'))
    unfold getStrongPowerLoop
    simp only []
    rw [h o (List.mem_cons_self _ _)]
    split
    · exact ih' p
    · split
      · rfl
      · exact ih' _

/-- The signal from a source cell depends on the source cell and its six neighbours only. -/
theorem signal_local (cfg : Config) (w w' : VoxelWorld) (sx sy sz tx ty tz : Int)
    (hs : getBlock cfg w' sx sy sz = getBlock cfg w sx sy sz)
    (hn : ∀ o ∈ ALL_NEIGHBOR_OFFSETS,
      getBlock cfg w' (sx + o.1) (sy + o.2.1) (sz + o.2.2) =
        getBlock cfg w (sx + o.1) (sy + o.2.1) (sz + o.2.2)) :
    getSignalFromSourceToTarget cfg w' sx sy sz tx ty tz =
      getSignalFromSourceToTarget cfg w sx sy sz tx ty tz := by
  unfold getSignalFromSourceToTarget isHardPoweredBlock getStrongPowerAt
  simp only [hs, strongLoop_local cfg w w' sx sy sz ALL_NEIGHBOR_OFFSETS hn]

theorem side_cells_table (x y z : Int) :
    repeaterSideCells x y z 0 = [(x + 0, y, z + -1), (x + -1, y, z + 0), (x + 1, y, z + 0),
      (x, y + 1, z), (x, y - 1, z)] ∧
    repeaterSideCells x y z 1 = [(x + 1, y, z + 0), (x + 0, y, z + -1), (x + 0, y, z + 1),
      (x, y + 1, z), (x, y - 1, z)] ∧
    repeaterSideCells x y z 2 = [(x + 0, y, z + 1), (x + 1, y, z + 0), (x + -1, y, z + 0),
      (x, y + 1, z), (x, y - 1, z)] ∧
    repeaterSideCells x y z 3 = [(x + -1, y, z + 0), (x + 0, y, z + 1), (x + 0, y, z + -1),
      (x, y + 1, z), (x, y - 1, z)] :=
  ⟨rfl, rfl, rfl, rfl⟩

theorem back_vector_table :
    getHorizontalDirVector (getOppositeHorizontalDir 0) = ⟨0, 1⟩ ∧
    getHorizontalDirVector (getOppositeHorizontalDir 1) = ⟨-1, 0⟩ ∧
    getHorizontalDirVector (getOppositeHorizontalDir 2) = ⟨0, -1⟩ ∧
    getHorizontalDirVector (getOppositeHorizontalDir 3) = ⟨1, 0⟩ := by
  decide

/-- The rear input of a component facing `dir` is the same in two worlds that differ only in
the front, left, right, upper and lower neighbour cells of the component. -/
theorem rear_input_congr (cfg : Config) (w1 w2 : VoxelWorld) (x y z dir : Int)
    (hd : 0 ≤ dir ∧ dir < 4)
    (hagree : ∀ a b c : Int, (a, b, c) ∉ repeaterSideCells x y z dir →
      getBlock cfg w2 a b c = getBlock cfg w1 a b c) :
    getComponentInputSignal cfg w2 x y z
        (getHorizontalDirVector (getOppositeHorizontalDir dir)).dx 0
        (getHorizontalDirVector (getOppositeHorizontalDir dir)).dz =
      getComponentInputSignal cfg w1 x y z
        (getHorizontalDirVector (getOppositeHorizontalDir dir)).dx 0
        (getHorizontalDirVector (getOppositeHorizontalDir dir)).dz := by
  obtain ⟨t0, t1, t2, t3⟩ := side_cells_table x y z
  obtain ⟨b0, b1, b2, b3⟩ := back_vector_table
  obtain ⟨h0, h4⟩ := hd
  unfold getComponentInputSignal
  simp only []
  interval_cases dir
  · rw [t0] at hagree
    rw [b0]
    apply signal_local
    · apply hagree
      simp only [List.mem_cons, List.mem_singleton, Prod.mk.injEq, List.not_mem_nil, or_false]
      omega
    · intro o ho
      apply hagree
      simp only [ALL_NEIGHBOR_OFFSETS, List.mem_cons, List.mem_singleton, List.not_mem_nil,
        or_false] at ho
      rcases ho with rfl | rfl | rfl | rfl | rfl | rfl <;>
        simp only [List.mem_cons, List.mem_singleton, Prod.mk.injEq, List.not_mem_nil,
          or_false] <;> omega
  · rw [t1] at hagree
    rw [b1]
    apply signal_local
    · apply hagree
      simp only [List.mem_cons, List.mem_singleton, Prod.mk.injEq, List.not_mem_nil, or_false]
      omega
    · intro o ho
      apply hagree
      simp only [ALL_NEIGHBOR_OFFSETS, List.mem_cons, List.mem_singleton, List.not_mem_nil,
        or_false] at ho
      rcases ho with rfl | rfl | rfl | rfl | rfl | rfl <;>
        simp only [List.mem_cons, List.mem_singleton, Prod.mk.injEq, List.not_mem_nil,
          or_false] <;> omega
  · rw [t2] at hagree
    rw [b2]
    apply signal_local
    · apply hagree
      simp only [List.mem_cons, List.mem_singleton, Prod.mk.injEq, List.not_mem_nil, or_false]
      omega
    · intro o ho
      apply hagree
      simp only [ALL_NEIGHBOR_OFFSETS, List.mem_cons, List.mem_singleton, List.not_mem_nil,
        or_false] at ho
      rcases ho with rfl | rfl | rfl | rfl | rfl | rfl <;>
        simp only [List.mem_cons, List.mem_singleton, Prod.mk.injEq, List.not_mem_nil,
          or_false] <;> omega
  · rw [t3] at hagree
    rw [b3]
    apply signal_local
    · apply hagree
      simp only [List.mem_cons, List.mem_singleton, Prod.mk.injEq, List.not_mem_nil, or_false]
      omega
    · intro o ho
      apply hagree
      simp only [ALL_NEIGHBOR_OFFSETS, List.mem_cons, List.mem_singleton, List.not_mem_nil,
        or_false] at ho
      rcases ho with rfl | rfl | rfl | rfl | rfl | rfl <;>
        simp only [List.mem_cons, List.mem_singleton, Prod.mk.injEq, List.not_mem_nil,
          or_false] <;> omega

theorem repeater_self_not_side (x y z dir : Int) (hd : 0 ≤ dir ∧ dir < 4) :
    (x, y, z) ∉ repeaterSideCells x y z dir := by
  obtain ⟨t0, t1, t2, t3⟩ := side_cells_table x y z
  obtain ⟨h0, h4⟩ := hd
  interval_cases dir
  · rw [t0]
    simp only [List.mem_cons, List.mem_singleton, Prod.mk.injEq, List.not_mem_nil, or_false]
    omega
  · rw [t1]
    simp only [List.mem_cons, List.mem_singleton, Prod.mk.injEq, List.not_mem_nil, or_false]
    omega
  · rw [t2]
    simp only [List.mem_cons, List.mem_singleton, Prod.mk.injEq, List.not_mem_nil, or_false]
    omega
  · rw [t3]
    simp only [List.mem_cons, List.mem_singleton, Prod.mk.injEq, List.not_mem_nil, or_false]
    omega

theorem repeater_decode (id : Int) (h : isRepeater id = true) :
    (0 ≤ getRepeaterDir id ∧ getRepeaterDir id < 4) ∧
    ∀ b : Bool, isRepeater (makeRepeaterId (getRepeaterDir id) b) = true ∧
      isRepeaterPowered (makeRepeaterId (getRepeaterDir id) b) = b ∧
      getRepeaterDir (makeRepeaterId (getRepeaterDir id) b) = getRepeaterDir id ∧
      36 ≤ makeRepeaterId (getRepeaterDir id) b ∧ makeRepeaterId (getRepeaterDir id) b ≤ 43 := by
  obtain ⟨h1, h2⟩ := (family_ranges id).2.2.1.mp h
  interval_cases id <;> exact ⟨by decide, fun b => by cases b <;> decide⟩

/-- The cell of a repeater after `updateRepeaterAt`: the repeater with the same facing,
powered exactly when the rear input is positive. -/
theorem updateRepeaterAt_result (cfg : Config) (hc : 0 < cfg.CHUNK_SIZE) (w : VoxelWorld)
    (x y z : Int) (hrep : isRepeater (getBlock cfg w x y z) = true) :
    getBlock cfg (updateRepeaterAt cfg w x y z) x y z =
      makeRepeaterId (getRepeaterDir (getBlock cfg w x y z))
        (decide (getComponentInputSignal cfg w x y z
          (getHorizontalDirVector
            (getOppositeHorizontalDir (getRepeaterDir (getBlock cfg w x y z)))).dx 0
          (getHorizontalDirVector
            (getOppositeHorizontalDir (getRepeaterDir (getBlock cfg w x y z)))).dz > 0)) := by
  have hl : cellLoaded cfg w x y z := by
    apply cellLoaded_of_getBlock_ne
    intro h0
    rw [h0] at hrep
    exact absurd hrep (by decide)
  obtain ⟨_, hdec⟩ := repeater_decode _ hrep
  unfold updateRepeaterAt
  simp only [hrep, Bool.not_true, Bool.false_eq_true, if_false]
  split
  · rename_i heq
    exact heq.symm
  · rw [getBlock_enqueueRedstoneNeighbors, getBlock_setBlock_same cfg hc _ _ _ _ _ _ hl]
    obtain ⟨_, _, _, r1, r2⟩ := hdec (decide (getComponentInputSignal cfg w x y z
      (getHorizontalDirVector
        (getOppositeHorizontalDir (getRepeaterDir (getBlock cfg w x y z)))).dx 0
      (getHorizontalDirVector
        (getOppositeHorizontalDir (getRepeaterDir (getBlock cfg w x y z)))).dz > 0))
    omega

/-! ## Claims on the repeater and on the comparator toggle -/

/-- C11. Repeater directionality: for two worlds that hold the same blocks everywhere except
on the front, left, right, upper and lower neighbour cells of a repeater, `updateRepeaterAt`
leaves the same block in the repeater's cell in both; that block is a repeater with the
facing it had, powered exactly when the signal arriving from the rear cell is greater
than 0. -/
theorem repeater_directionality (cfg : Config) (hc : 0 < cfg.CHUNK_SIZE) (w1 w2 : VoxelWorld)
    (x y z : Int) (hrep : isRepeater (getBlock cfg w1 x y z) = true)
    (hagree : ∀ a b c : Int,
      (a, b, c) ∉ repeaterSideCells x y z (getRepeaterDir (getBlock cfg w1 x y z)) →
      getBlock cfg w2 a b c = getBlock cfg w1 a b c) :
    getBlock cfg (updateRepeaterAt cfg w2 x y z) x y z =
      getBlock cfg (updateRepeaterAt cfg w1 x y z) x y z ∧
    isRepeater (getBlock cfg (updateRepeaterAt cfg w1 x y z) x y z) = true ∧
    (isRepeaterPowered (getBlock cfg (updateRepeaterAt cfg w1 x y z) x y z) = true ↔
      getComponentInputSignal cfg w1 x y z
        (getHorizontalDirVector
          (getOppositeHorizontalDir (getRepeaterDir (getBlock cfg w1 x y z)))).dx 0
        (getHorizontalDirVector
          (getOppositeHorizontalDir (getRepeaterDir (getBlock cfg w1 x y z)))).dz > 0) ∧
    getRepeaterDir (getBlock cfg (updateRepeaterAt cfg w1 x y z) x y z) =
      getRepeaterDir (getBlock cfg w1 x y z) := by
  obtain ⟨hdir, hdec⟩ := repeater_decode _ hrep
  have hself : getBlock cfg w2 x y z = getBlock cfg w1 x y z :=
    hagree x y z (repeater_self_not_side x y z _ hdir)
  have hrep2 : isRepeater (getBlock cfg w2 x y z) = true := by rw [hself]; exact hrep
  have hin := rear_input_congr cfg w1 w2 x y z _ hdir hagree
  have r1 := updateRepeaterAt_result cfg hc w1 x y z hrep
  have r2 := updateRepeaterAt_result cfg hc w2 x y z hrep2
  rw [hself, hin] at r2
  obtain ⟨d1, d2, d3, _⟩ := hdec (decide (getComponentInputSignal cfg w1 x y z
    (getHorizontalDirVector
      (getOppositeHorizontalDir (getRepeaterDir (getBlock cfg w1 x y z)))).dx 0
    (getHorizontalDirVector
      (getOppositeHorizontalDir (getRepeaterDir (getBlock cfg w1 x y z)))).dz > 0))
  refine ⟨by rw [r1, r2], ?_, ?_, ?_⟩
  · rw [r1]; exact d1
  · rw [r1, d2]
    exact decide_eq_true_iff
  · rw [r1]; exact d3

theorem repeater_directionality_witness :
    getBlock sampleConfig (updateRepeaterAt sampleConfig
        (setBlock sampleConfig repeaterWorld 6 1 5 184 internalWrite).1 5 1 5) 5 1 5 =
      getBlock sampleConfig (updateRepeaterAt sampleConfig repeaterWorld 5 1 5) 5 1 5 ∧
    isRepeater (getBlock sampleConfig (updateRepeaterAt sampleConfig repeaterWorld 5 1 5)
      5 1 5) = true ∧
    (isRepeaterPowered (getBlock sampleConfig (updateRepeaterAt sampleConfig repeaterWorld 5 1 5)
        5 1 5) = true ↔
      getComponentInputSignal sampleConfig repeaterWorld 5 1 5
        (getHorizontalDirVector (getOppositeHorizontalDir
          (getRepeaterDir (getBlock sampleConfig repeaterWorld 5 1 5)))).dx 0
        (getHorizontalDirVector (getOppositeHorizontalDir
          (getRepeaterDir (getBlock sampleConfig repeaterWorld 5 1 5)))).dz > 0) ∧
    getRepeaterDir (getBlock sampleConfig (updateRepeaterAt sampleConfig repeaterWorld 5 1 5)
      5 1 5) = getRepeaterDir (getBlock sampleConfig repeaterWorld 5 1 5) :=
  repeater_directionality sampleConfig (by decide) repeaterWorld
    (setBlock sampleConfig repeaterWorld 6 1 5 184 internalWrite).1 5 1 5 (by decide)
    (fun a b c hn =>
      getBlock_setBlock_other sampleConfig (by decide) repeaterWorld 6 1 5 184 internalWrite
        a b c (fun h => hn (by
          obtain ⟨h1, h2, h3⟩ := h
          subst h1 h2 h3
          decide)))

theorem comparator_toggle_decode (id : Int) (h : isComparator id = true) :
    makeComparatorId (getComparatorDir id) (!isComparatorSubtract id)
        (getComparatorOutput id) ≠ id ∧
    isComparator (makeComparatorId (getComparatorDir id) (!isComparatorSubtract id)
        (getComparatorOutput id)) = true ∧
    isComparatorSubtract (makeComparatorId (getComparatorDir id) (!isComparatorSubtract id)
        (getComparatorOutput id)) = (!isComparatorSubtract id) ∧
    getComparatorDir (makeComparatorId (getComparatorDir id) (!isComparatorSubtract id)
        (getComparatorOutput id)) = getComparatorDir id ∧
    getComparatorOutput (makeComparatorId (getComparatorDir id) (!isComparatorSubtract id)
        (getComparatorOutput id)) = getComparatorOutput id ∧
    0 ≤ makeComparatorId (getComparatorDir id) (!isComparatorSubtract id)
        (getComparatorOutput id) ∧
    makeComparatorId (getComparatorDir id) (!isComparatorSubtract id)
        (getComparatorOutput id) < 256 := by
  obtain ⟨h1, h2⟩ := (family_ranges id).2.2.2.1.mp h
  interval_cases id <;> decide

theorem setBlock_saved_redstoneQueue (cfg : Config) (w : VoxelWorld) (x y z id : Int) :
    (setBlock cfg w x y z id ⟨true, false, false⟩).1.redstoneQueue = w.redstoneQueue ∧
    (setBlock cfg w x y z id ⟨true, false, false⟩).1.redstoneQueued = w.redstoneQueued := by
  by_cases hrej : ¬ cellLoaded cfg w x y z ∨ getBlock cfg w x y z = id
  · rw [setBlock_rejected cfg w x y z id _ hrej]
    exact ⟨rfl, rfl⟩
  · have hl : cellLoaded cfg w x y z := by
      by_contra hn; exact hrej (Or.inl hn)
    have hid : getBlock cfg w x y z ≠ id := fun e => hrej (Or.inr e)
    obtain ⟨chunk, hc, hs⟩ := setBlock_accepted cfg w x y z id ⟨true, false, false⟩ hl hid
    rw [hs, setBlockCommit_stages]
    simp only [Bool.false_eq_true, if_false, if_true]
    have e1 : ∀ (v : VoxelWorld) (cx cz lx ly lz i : Int),
        (recordEdit v cx cz lx ly lz i).redstoneQueue = v.redstoneQueue := fun _ _ _ _ _ _ _ => rfl
    have e2 : ∀ (v : VoxelWorld) (cx cz lx ly lz i : Int),
        (recordEdit v cx cz lx ly lz i).redstoneQueued = v.redstoneQueued :=
      fun _ _ _ _ _ _ _ => rfl
    rw [e1, e2]
    exact ⟨setBlockCommit_redstoneQueue cfg w chunk x y z id,
      setBlockCommit_redstoneQueued cfg w chunk x y z id⟩

/-- C12, as stated, fails: for the comparator at `(5, 0, 5)` in the lowest layer of a loaded
chunk the toggle returns true, and the lower neighbour `(5, -1, 5)` is not in the redstone
queue afterwards. -/
theorem toggle_enqueue_counterexample :
    isComparator (getBlock sampleConfig floorComparatorWorld 5 0 5) = true ∧
    (toggleComparatorMode sampleConfig floorComparatorWorld 5 0 5).2 = true ∧
    (5, -1, 5) ∉ (toggleComparatorMode sampleConfig floorComparatorWorld 5 0 5).1.redstoneQueue := by
  decide

/-- C12, amended. `toggleComparatorMode` changes only the mode: on a comparator it returns
true, the cell then holds a comparator of the opposite mode with the same facing and the same
output level, that id is recorded in the edit overlay, and, in a state whose redstone
membership set is consistent with the queue, the cell and those of its six neighbours that lie
in the height range in a loaded chunk are in the redstone queue; on a cell that is not a
comparator it returns false and changes nothing. -/
theorem toggle_comparator_mode (cfg : Config) (hc : 0 < cfg.CHUNK_SIZE) (w : VoxelWorld)
    (x y z : Int) :
    (isComparator (getBlock cfg w x y z) = true →
      (toggleComparatorMode cfg w x y z).2 = true ∧
      isComparator (getBlock cfg (toggleComparatorMode cfg w x y z).1 x y z) = true ∧
      isComparatorSubtract (getBlock cfg (toggleComparatorMode cfg w x y z).1 x y z) =
        (!isComparatorSubtract (getBlock cfg w x y z)) ∧
      getComparatorDir (getBlock cfg (toggleComparatorMode cfg w x y z).1 x y z) =
        getComparatorDir (getBlock cfg w x y z) ∧
      getComparatorOutput (getBlock cfg (toggleComparatorMode cfg w x y z).1 x y z) =
        getComparatorOutput (getBlock cfg w x y z) ∧
      overlayEntry cfg (toggleComparatorMode cfg w x y z).1 x y z =
        some (getBlock cfg (toggleComparatorMode cfg w x y z).1 x y z) ∧
      (w.redstoneQueued.Nodup → (∀ c ∈ w.redstoneQueued, c ∈ w.redstoneQueue) →
        (x, y, z) ∈ (toggleComparatorMode cfg w x y z).1.redstoneQueue ∧
        ∀ o ∈ ALL_NEIGHBOR_OFFSETS, cellLoaded cfg w (x + o.1) (y + o.2.1) (z + o.2.2) →
          (x + o.1, y + o.2.1, z + o.2.2) ∈
            (toggleComparatorMode cfg w x y z).1.redstoneQueue)) ∧
    (isComparator (getBlock cfg w x y z) = false →
      toggleComparatorMode cfg w x y z = (w, false)) := by
  constructor
  · intro hcmp
    have hl : cellLoaded cfg w x y z := by
      apply cellLoaded_of_getBlock_ne
      intro h0
      rw [h0] at hcmp
      exact absurd hcmp (by decide)
    obtain ⟨d0, d1, d2, d3, d4, d5, d6⟩ := comparator_toggle_decode _ hcmp
    obtain ⟨chunk, hch, hs⟩ := setBlock_accepted cfg w x y z _ ⟨true, false, false⟩ hl
      (fun e => d0 e.symm)
    have hres : (setBlock cfg w x y z
        (makeComparatorId (getComparatorDir (getBlock cfg w x y z))
          (!isComparatorSubtract (getBlock cfg w x y z))
          (getComparatorOutput (getBlock cfg w x y z))) ⟨true, false, false⟩).2 = true := by
      rw [hs]
    have htog : toggleComparatorMode cfg w x y z =
        (enqueueRedstoneNeighbors cfg (setBlock cfg w x y z
          (makeComparatorId (getComparatorDir (getBlock cfg w x y z))
            (!isComparatorSubtract (getBlock cfg w x y z))
            (getComparatorOutput (getBlock cfg w x y z))) ⟨true, false, false⟩).1 x y z,
          true) := by
      unfold toggleComparatorMode
      simp only [hcmp, Bool.not_true, Bool.false_eq_true, if_false]
      rw [if_pos hres]
    have hget : getBlock cfg (toggleComparatorMode cfg w x y z).1 x y z =
        makeComparatorId (getComparatorDir (getBlock cfg w x y z))
          (!isComparatorSubtract (getBlock cfg w x y z))
          (getComparatorOutput (getBlock cfg w x y z)) := by
      rw [htog]
      simp only []
      rw [getBlock_enqueueRedstoneNeighbors, getBlock_setBlock_same cfg hc _ _ _ _ _ _ hl]
      omega
    refine ⟨by rw [htog], ?_, ?_, ?_, ?_, ?_, ?_⟩
    · rw [hget]; exact d1
    · rw [hget]; exact d2
    · rw [hget]; exact d3
    · rw [hget]; exact d4
    · rw [hget, htog]
      simp only []
      rw [overlayEntry_congr cfg _ _ (enqueueRedstoneNeighbors_step cfg _ x y z).edits]
      exact setBlock_records cfg w x y z _ _ rfl hl (fun e => d0 e.symm)
    · intro hn hq
      obtain ⟨q1, q2⟩ := setBlock_saved_redstoneQueue cfg w x y z
        (makeComparatorId (getComparatorDir (getBlock cfg w x y z))
          (!isComparatorSubtract (getBlock cfg w x y z))
          (getComparatorOutput (getBlock cfg w x y z)))
      obtain ⟨_, _, _, _, s5, s6⟩ := enqueueRedstoneNeighbors_spec cfg
        (setBlock cfg w x y z
          (makeComparatorId (getComparatorDir (getBlock cfg w x y z))
            (!isComparatorSubtract (getBlock cfg w x y z))
            (getComparatorOutput (getBlock cfg w x y z))) ⟨true, false, false⟩).1 x y z
        (by rw [q2]; exact hn) (by rw [q1, q2]; exact hq)
      rw [htog]
      refine ⟨s5 ((cellLoaded_setBlock cfg w x y z _ _ x y z).mpr hl), ?_⟩
      intro o ho hlo
      exact s6 o ho ((cellLoaded_setBlock cfg w x y z _ _ _ _ _).mpr hlo)
  · intro hcmp
    unfold toggleComparatorMode
    simp only [hcmp, Bool.not_false, if_true]

theorem toggle_comparator_mode_witness :
    (toggleComparatorMode sampleConfig (comparatorWorld false) 5 1 5).2 = true ∧
    isComparatorSubtract (getBlock sampleConfig
      (toggleComparatorMode sampleConfig (comparatorWorld false) 5 1 5).1 5 1 5) =
      (!isComparatorSubtract (getBlock sampleConfig (comparatorWorld false) 5 1 5)) ∧
    toggleComparatorMode sampleConfig airWorld 5 1 5 = (airWorld, false) :=
  ⟨((toggle_comparator_mode sampleConfig (by decide) (comparatorWorld false) 5 1 5).1
      (by decide)).1,
   ((toggle_comparator_mode sampleConfig (by decide) (comparatorWorld false) 5 1 5).1
      (by decide)).2.2.1,
   (toggle_comparator_mode sampleConfig (by decide) airWorld 5 1 5).2 (by decide)⟩

/-! ## The ray along an axis -/

/-- One step of a ray along the unit vector `e`: only the axis of `e` has a `tMax` below
`Infinity`, and the ray steps along it. -/
theorem raycastAdvanceWith_axis {F : Type} (ops : NumberOps F) (e : Int × Int × Int)
    (he : e ∈ ALL_NEIGHBOR_OFFSETS) (hinf : ∀ v : F, ops.lt ops.infinity v = false)
    (dX dY dZ : F) (st : RayVars F) (t : F) (hlt : ops.lt t ops.infinity = true)
    (h1 : st.tMaxX = (axisTriple e t ops.infinity).1)
    (h2 : st.tMaxY = (axisTriple e t ops.infinity).2.1)
    (h3 : st.tMaxZ = (axisTriple e t ops.infinity).2.2) :
    raycastAdvanceWith ops e.1 e.2.1 e.2.2 dX dY dZ st =
      ⟨st.x + e.1, st.y + e.2.1, st.z + e.2.2,
        (axisTriple e (ops.add t ((Vector3.mk dX dY dZ).along e)) ops.infinity).1,
        (axisTriple e (ops.add t ((Vector3.mk dX dY dZ).along e)) ops.infinity).2.1,
        (axisTriple e (ops.add t ((Vector3.mk dX dY dZ).along e)) ops.infinity).2.2,
        t, st.x, st.y, st.z⟩ := by
  obtain ⟨x, y, z, tx, ty, tz, dist, px, py, pz⟩ := st
  simp only [] at h1 h2 h3
  subst h1 h2 h3
  simp only [ALL_NEIGHBOR_OFFSETS, List.mem_cons, List.mem_singleton, List.not_mem_nil,
    or_false] at he
  rcases he with rfl | rfl | rfl | rfl | rfl | rfl <;>
    simp [raycastAdvanceWith, axisTriple, Vector3.along, hinf, hlt]

/-- The loop of `raycast` for a ray along the unit vector `e` that meets `j` air cells and
then a cell that is not air, all entered within the range; `T` are the values of `tMax` on
the axis of `e`. -/
theorem raycastLoopWith_axis {F : Type} (ops : NumberOps F) (cfg : Config) (w : VoxelWorld)
    (e : Int × Int × Int) (he : e ∈ ALL_NEIGHBOR_OFFSETS)
    (hinf : ∀ v : F, ops.lt ops.infinity v = false) (dX dY dZ maxDistance : F) (T : Nat → F)
    (hT : ∀ n, T (n + 1) = ops.add (T n) ((Vector3.mk dX dY dZ).along e)) :
    ∀ (j fuel n : Nat) (st : RayVars F), j < fuel →
      st.tMaxX = (axisTriple e (T n) ops.infinity).1 →
      st.tMaxY = (axisTriple e (T n) ops.infinity).2.1 →
      st.tMaxZ = (axisTriple e (T n) ops.infinity).2.2 →
      ops.le st.dist maxDistance = true →
      (∀ i : Nat, i < j →
        ops.lt (T (n + i)) ops.infinity = true ∧ ops.le (T (n + i)) maxDistance = true) →
      (∀ i : Nat, i < j → getBlock cfg w (st.x + (i : Int) * e.1) (st.y + (i : Int) * e.2.1)
        (st.z + (i : Int) * e.2.2) = BLOCK.AIR) →
      getBlock cfg w (st.x + (j : Int) * e.1) (st.y + (j : Int) * e.2.1)
        (st.z + (j : Int) * e.2.2) ≠ BLOCK.AIR →
      raycastLoopWith ops cfg w e.1 e.2.1 e.2.2 dX dY dZ maxDistance fuel st =
        some (some ⟨st.x + (j : Int) * e.1, st.y + (j : Int) * e.2.1, st.z + (j : Int) * e.2.2,
          getBlock cfg w (st.x + (j : Int) * e.1) (st.y + (j : Int) * e.2.1)
            (st.z + (j : Int) * e.2.2),
          if j = 0 then st.prevX else st.x + ((j : Int) - 1) * e.1,
          if j = 0 then st.prevY else st.y + ((j : Int) - 1) * e.2.1,
          if j = 0 then st.prevZ else st.z + ((j : Int) - 1) * e.2.2,
          if j = 0 then st.dist else T (n + j - 1)⟩) := by
  intro j
  induction j with
  | zero =>
    intro fuel n st hf _ _ _ hle _ _ hhit
    obtain ⟨f, rfl⟩ : ∃ f, fuel = f + 1 := ⟨fuel - 1, by omega⟩
    simp only [Nat.cast_zero, zero_mul, add_zero] at hhit ⊢
    unfold raycastLoopWith
    simp only [hle, Bool.not_true, Bool.false_eq_true, if_false, if_pos hhit, if_true]
  | succ j ih =>
    intro fuel n st hf h1 h2 h3 hle hrange hair hhit
    obtain ⟨f, rfl⟩ : ∃ f, fuel = f + 1 := ⟨fuel - 1, by omega⟩
    have h0 := hair 0 (by omega)
    simp only [Nat.cast_zero, zero_mul, add_zero] at h0
    have hr0 := hrange 0 (by omega)
    simp only [add_zero] at hr0
    unfold raycastLoopWith
    simp only [hle, Bool.not_true, Bool.false_eq_true, if_false]
    rw [if_neg (by simpa using h0)]
    rw [raycastAdvanceWith_axis ops e he hinf dX dY dZ st (T n) hr0.1 h1 h2 h3, ← hT n]
    have key := ih f (n + 1) ⟨st.x + e.1, st.y + e.2.1, st.z + e.2.2,
      (axisTriple e (T (n + 1)) ops.infinity).1, (axisTriple e (T (n + 1)) ops.infinity).2.1,
      (axisTriple e (T (n + 1)) ops.infinity).2.2, T n, st.x, st.y, st.z⟩
      (by omega) rfl rfl rfl hr0.2
      (by
        intro i hi
        have := hrange (i + 1) (by omega)
        have e1 : n + 1 + i = n + (i + 1) := by omega
        rw [e1]
        exact this)
      (by
        intro i hi
        have := hair (i + 1) (by omega)
        simp only []
        push_cast at this
        have ex : st.x + e.1 + (i : Int) * e.1 = st.x + ((i : Int) + 1) * e.1 := by ring
        have ey : st.y + e.2.1 + (i : Int) * e.2.1 = st.y + ((i : Int) + 1) * e.2.1 := by ring
        have ez : st.z + e.2.2 + (i : Int) * e.2.2 = st.z + ((i : Int) + 1) * e.2.2 := by ring
        rw [ex, ey, ez]
        exact this)
      (by
        simp only []
        push_cast at hhit
        have ex : st.x + e.1 + (j : Int) * e.1 = st.x + ((j : Int) + 1) * e.1 := by ring
        have ey : st.y + e.2.1 + (j : Int) * e.2.1 = st.y + ((j : Int) + 1) * e.2.1 := by ring
        have ez : st.z + e.2.2 + (j : Int) * e.2.2 = st.z + ((j : Int) + 1) * e.2.2 := by ring
        rw [ex, ey, ez]
        exact hhit)
    rw [key]
    simp only []
    have ex : st.x + e.1 + (j : Int) * e.1 = st.x + ((j + 1 : Nat) : Int) * e.1 := by
      push_cast; ring
    have ey : st.y + e.2.1 + (j : Int) * e.2.1 = st.y + ((j + 1 : Nat) : Int) * e.2.1 := by
      push_cast; ring
    have ez : st.z + e.2.2 + (j : Int) * e.2.2 = st.z + ((j + 1 : Nat) : Int) * e.2.2 := by
      push_cast; ring
    rw [ex, ey, ez]
    simp only [Nat.succ_ne_zero, if_false, Option.some.injEq, RayResult.mk.injEq, true_and]
    by_cases hj : j = 0
    · subst hj
      simp
    · simp only [if_neg hj]
      push_cast
      have en : n + 1 + j - 1 = n + (j + 1) - 1 := by omega
      rw [en]
      refine ⟨by ring, by ring, by ring, rfl⟩

/-- The component of the increments on the axis of `e` is the increment of the component. -/
theorem rayDelta_along {F : Type} (ops : NumberOps F) (v : Vector3 F) (e : Int × Int × Int) :
    (Vector3.mk (rayDelta ops v.x) (rayDelta ops v.y) (rayDelta ops v.z)).along e =
      rayDelta ops (v.along e) := by
  unfold Vector3.along
  split
  · rfl
  · split <;> rfl

theorem intBoundWith_zero {F : Type} (ops : NumberOps F) (s ds : F)
    (h : ops.eq ds ops.zero = true) : intBoundWith ops s ds = ops.infinity := by
  unfold intBoundWith
  rw [if_pos h]

/-- An axis-aligned ray, in every arithmetic in which `Infinity` is below nothing: when the
normalised direction steps along the unit vector `e` only, the `k`-th cell after the starting
cell is the first that is not air, and the boundaries up to it are below `Infinity` and
within the range, `raycast` returns it as the hit, the cell before it (the hit cell itself
for `k = 0`) as the adjacent cell, and the boundary crossed last (0 for `k = 0`) as the
distance. -/
theorem raycastWith_axis {F : Type} (ops : NumberOps F) (cfg : Config) (w : VoxelWorld)
    (origin direction : Vector3 F) (e : Int × Int × Int) (maxDistance : F) (k fuel : Nat)
    (he : e ∈ ALL_NEIGHBOR_OFFSETS) (hinf : ∀ v : F, ops.lt ops.infinity v = false)
    (hlen : ops.eq (direction.lengthSq ops) ops.zero = false)
    (hstep : (rayStep ops (rayDirection ops direction).x,
      rayStep ops (rayDirection ops direction).y,
      rayStep ops (rayDirection ops direction).z) = e)
    (hx : e.1 = 0 → ops.eq (rayDirection ops direction).x ops.zero = true)
    (hy : e.2.1 = 0 → ops.eq (rayDirection ops direction).y ops.zero = true)
    (hz : e.2.2 = 0 → ops.eq (rayDirection ops direction).z ops.zero = true)
    (hzero : ops.le ops.zero maxDistance = true)
    (hrange : ∀ i : Nat, i < k →
      ops.lt (rayBoundary ops origin direction e i) ops.infinity = true ∧
      ops.le (rayBoundary ops origin direction e i) maxDistance = true)
    (hair : ∀ i : Nat, i < k →
      getBlock cfg w ((rayStart ops origin direction).1 + (i : Int) * e.1)
        ((rayStart ops origin direction).2.1 + (i : Int) * e.2.1)
        ((rayStart ops origin direction).2.2 + (i : Int) * e.2.2) = BLOCK.AIR)
    (hhit : getBlock cfg w ((rayStart ops origin direction).1 + (k : Int) * e.1)
        ((rayStart ops origin direction).2.1 + (k : Int) * e.2.1)
        ((rayStart ops origin direction).2.2 + (k : Int) * e.2.2) ≠ BLOCK.AIR)
    (hf : k < fuel) :
    raycastWith ops cfg w origin direction maxDistance fuel =
      some (some ⟨(rayStart ops origin direction).1 + (k : Int) * e.1,
        (rayStart ops origin direction).2.1 + (k : Int) * e.2.1,
        (rayStart ops origin direction).2.2 + (k : Int) * e.2.2,
        getBlock cfg w ((rayStart ops origin direction).1 + (k : Int) * e.1)
          ((rayStart ops origin direction).2.1 + (k : Int) * e.2.1)
          ((rayStart ops origin direction).2.2 + (k : Int) * e.2.2),
        if k = 0 then (rayStart ops origin direction).1
          else (rayStart ops origin direction).1 + ((k : Int) - 1) * e.1,
        if k = 0 then (rayStart ops origin direction).2.1
          else (rayStart ops origin direction).2.1 + ((k : Int) - 1) * e.2.1,
        if k = 0 then (rayStart ops origin direction).2.2
          else (rayStart ops origin direction).2.2 + ((k : Int) - 1) * e.2.2,
        if k = 0 then ops.zero else rayBoundary ops origin direction e (k - 1)⟩) := by
  have hs1 : rayStep ops (rayDirection ops direction).x = e.1 := by rw [← hstep]
  have hs2 : rayStep ops (rayDirection ops direction).y = e.2.1 := by rw [← hstep]
  have hs3 : rayStep ops (rayDirection ops direction).z = e.2.2 := by rw [← hstep]
  have t1 : intBoundWith ops (rayOrigin ops origin direction).x (rayDirection ops direction).x =
      (axisTriple e (rayBoundary ops origin direction e 0) ops.infinity).1 := by
    unfold axisTriple rayBoundary Vector3.along
    simp only []
    by_cases h : e.1 ≠ 0
    · rw [if_pos h, if_pos h, if_pos h]
    · rw [if_neg h]
      exact intBoundWith_zero ops _ _ (hx (not_not.mp h))
  have t2 : intBoundWith ops (rayOrigin ops origin direction).y (rayDirection ops direction).y =
      (axisTriple e (rayBoundary ops origin direction e 0) ops.infinity).2.1 := by
    simp only [ALL_NEIGHBOR_OFFSETS, List.mem_cons, List.mem_singleton, List.not_mem_nil,
      or_false] at he
    rcases he with rfl | rfl | rfl | rfl | rfl | rfl <;>
      simp [axisTriple, rayBoundary, Vector3.along] <;>
      exact intBoundWith_zero ops _ _ (hy rfl)
  have t3 : intBoundWith ops (rayOrigin ops origin direction).z (rayDirection ops direction).z =
      (axisTriple e (rayBoundary ops origin direction e 0) ops.infinity).2.2 := by
    simp only [ALL_NEIGHBOR_OFFSETS, List.mem_cons, List.mem_singleton, List.not_mem_nil,
      or_false] at he
    rcases he with rfl | rfl | rfl | rfl | rfl | rfl <;>
      simp [axisTriple, rayBoundary, Vector3.along] <;>
      exact intBoundWith_zero ops _ _ (hz rfl)
  unfold raycastWith
  rw [hlen]
  simp only [Bool.false_eq_true, if_false]
  rw [hs1, hs2, hs3]
  have key := raycastLoopWith_axis ops cfg w e he hinf
    (rayDelta ops (rayDirection ops direction).x) (rayDelta ops (rayDirection ops direction).y)
    (rayDelta ops (rayDirection ops direction).z) maxDistance
    (rayBoundary ops origin direction e)
    (by
      intro n
      rw [rayDelta_along]
      rfl)
    k fuel 0
    ⟨(rayStart ops origin direction).1, (rayStart ops origin direction).2.1,
      (rayStart ops origin direction).2.2,
      intBoundWith ops (rayOrigin ops origin direction).x (rayDirection ops direction).x,
      intBoundWith ops (rayOrigin ops origin direction).y (rayDirection ops direction).y,
      intBoundWith ops (rayOrigin ops origin direction).z (rayDirection ops direction).z,
      ops.zero, (rayStart ops origin direction).1, (rayStart ops origin direction).2.1,
      (rayStart ops origin direction).2.2⟩
    hf t1 t2 t3 hzero
    (by
      intro i hi
      rw [Nat.zero_add]
      exact hrange i hi)
    hair hhit
  rw [key]
  simp only [Nat.zero_add]

/-! ## Claim on the raycast -/

theorem exactOps_infinity (sqrtQ : Rat → Rat) (v : ExactNumber) :
    (exactOps sqrtQ).lt (exactOps sqrtQ).infinity v = false := by
  cases v <;> rfl

theorem example_ray_direction (sqrtQ : Rat → Rat) (h : sqrtQ 1 = 1) :
    (exactOps sqrtQ).eq (exampleRayDirection.lengthSq (exactOps sqrtQ)) (exactOps sqrtQ).zero =
      false ∧
    rayDirection (exactOps sqrtQ) exampleRayDirection =
      ⟨ExactNumber.finite 0, ExactNumber.finite 0, ExactNumber.finite 1⟩ := by
  have hl : exampleRayDirection.lengthSq (exactOps sqrtQ) = ExactNumber.finite 1 := by
    norm_num [exampleRayDirection, Vector3.lengthSq, exactOps, ExactNumber.add, ExactNumber.mul]
  refine ⟨?_, ?_⟩
  · rw [hl]
    norm_num [exactOps, ExactNumber.eq]
  · unfold rayDirection Vector3.normalize
    rw [hl]
    norm_num [exampleRayDirection, exactOps, ExactNumber.sqrt, h, ExactNumber.truthy,
      ExactNumber.div, ExactNumber.mul]

theorem example_ray_origin (sqrtQ : Rat → Rat) (h : sqrtQ 1 = 1) :
    rayOrigin (exactOps sqrtQ) exampleRayOrigin exampleRayDirection =
      ⟨ExactNumber.finite (1 / 2), ExactNumber.finite (1 / 2),
        ExactNumber.finite (-49999 / 10000)⟩ := by
  unfold rayOrigin
  rw [(example_ray_direction sqrtQ h).2]
  norm_num [exampleRayOrigin, Vector3.addScaledVector, exactOps, ExactNumber.add,
    ExactNumber.mul]

theorem example_ray_start (sqrtQ : Rat → Rat) (h : sqrtQ 1 = 1) :
    rayStart (exactOps sqrtQ) exampleRayOrigin exampleRayDirection = (0, 0, -5) := by
  have f1 : ⌊(1 / 2 : Rat)⌋ = 0 := by
    rw [Int.floor_eq_iff]; norm_num
  have f2 : ⌊(-49999 / 10000 : Rat)⌋ = -5 := by
    rw [Int.floor_eq_iff]; norm_num
  unfold rayStart
  rw [example_ray_origin sqrtQ h]
  simp only [exactOps, ExactNumber.cell, f1, f2]

theorem example_ray_boundary (sqrtQ : Rat → Rat) (h : sqrtQ 1 = 1) (i : Nat) :
    rayBoundary (exactOps sqrtQ) exampleRayOrigin exampleRayDirection (0, 0, 1) i =
      ExactNumber.finite (9999 / 10000 + (i : Rat)) := by
  have f2 : ⌊(-49999 / 10000 : Rat)⌋ = -5 := by
    rw [Int.floor_eq_iff]; norm_num
  induction i with
  | zero =>
    unfold rayBoundary
    rw [example_ray_origin sqrtQ h, (example_ray_direction sqrtQ h).2]
    norm_num [Vector3.along, intBoundWith, exactOps, ExactNumber.eq, ExactNumber.lt,
      ExactNumber.floor, ExactNumber.add, ExactNumber.sub, ExactNumber.neg, ExactNumber.div, f2]
  | succ i ih =>
    unfold rayBoundary
    rw [ih, (example_ray_direction sqrtQ h).2]
    norm_num [Vector3.along, rayDelta, exactOps, ExactNumber.eq, ExactNumber.abs,
      ExactNumber.add, ExactNumber.div]
    ring

/-- The ray of the specification's example, in exact arithmetic. -/
theorem example_ray_run (sqrtQ : Rat → Rat) (cfg : Config) (w : VoxelWorld)
    (maxDistance : ExactNumber) (fuel : Nat) (h : sqrtQ 1 = 1)
    (hstone : getBlock cfg w 0 0 0 = BLOCK.STONE)
    (hair : ∀ k : Int, -5 ≤ k → k < 0 → getBlock cfg w 0 0 k = BLOCK.AIR)
    (hmax : ExactNumber.le (ExactNumber.finite 5) maxDistance = true) (hf : 5 < fuel) :
    raycastWith (exactOps sqrtQ) cfg w exampleRayOrigin exampleRayDirection maxDistance fuel =
      some (some ⟨0, 0, 0, BLOCK.STONE, 0, 0, -1, ExactNumber.finite (49999 / 10000)⟩) := by
  have hle : ∀ q : Rat, q ≤ 5 → ExactNumber.le (ExactNumber.finite q) maxDistance = true := by
    intro q hq
    cases maxDistance with
    | finite m =>
      simp only [ExactNumber.le, decide_eq_true_eq] at hmax ⊢
      linarith
    | posInfinity => rfl
    | negInfinity => simp [ExactNumber.le] at hmax
    | notANumber => simp [ExactNumber.le] at hmax
  have hd := example_ray_direction sqrtQ h
  have hs := example_ray_start sqrtQ h
  have key := raycastWith_axis (exactOps sqrtQ) cfg w exampleRayOrigin exampleRayDirection
    (0, 0, 1) maxDistance 5 fuel (by decide) (exactOps_infinity sqrtQ) hd.1
    (by rw [hd.2]; norm_num [rayStep, exactOps, ExactNumber.lt])
    (by intro _; rw [hd.2]; norm_num [exactOps, ExactNumber.eq])
    (by intro _; rw [hd.2]; norm_num [exactOps, ExactNumber.eq])
    (by intro h0; exact absurd h0 (by decide))
    (hle 0 (by norm_num))
    (by
      intro i hi
      rw [example_ray_boundary sqrtQ h i]
      refine ⟨rfl, hle _ ?_⟩
      have : (i : Rat) ≤ 4 := by exact_mod_cast Nat.le_of_lt_succ hi
      linarith)
    (by
      intro i hi
      rw [hs]
      have := hair (-5 + (i : Int)) (by omega) (by omega)
      simpa using this)
    (by
      rw [hs]
      simp only [Nat.cast_ofNat]
      norm_num
      rw [hstone]
      decide)
    hf
  rw [key, hs, example_ray_boundary sqrtQ h]
  simp only [Nat.cast_ofNat]
  norm_num
  exact hstone

/-- The ray from `(2.99995, 0.5, 0.5)` along `(1, 0, 0)` in `nudgeWorld`, in exact
arithmetic: it starts in the cell `(3, 0, 0)` and leaves the range in air. -/
theorem nudge_ray_run (sqrtQ : Rat → Rat) (h : sqrtQ 1 = 1) :
    rayStart (exactOps sqrtQ) nudgeRayOrigin nudgeRayDirection = (3, 0, 0) ∧
    raycastWith (exactOps sqrtQ) sampleConfig nudgeWorld nudgeRayOrigin nudgeRayDirection
      (ExactNumber.finite 2) 4 = some none := by
  have f1 : ⌊(59999 / 20000 + 1 / 10000 : Rat)⌋ = 3 := by
    rw [Int.floor_eq_iff]; norm_num
  have f2 : ⌊(1 / 2 : Rat)⌋ = 0 := by
    rw [Int.floor_eq_iff]; norm_num
  have g3 : getBlock sampleConfig nudgeWorld 3 0 0 = 0 := by decide
  have g4 : getBlock sampleConfig nudgeWorld 4 0 0 = 0 := by decide
  have g5 : getBlock sampleConfig nudgeWorld 5 0 0 = 0 := by decide
  have hl : nudgeRayDirection.lengthSq (exactOps sqrtQ) = ExactNumber.finite 1 := by
    norm_num [nudgeRayDirection, Vector3.lengthSq, exactOps, ExactNumber.add, ExactNumber.mul]
  have hd : rayDirection (exactOps sqrtQ) nudgeRayDirection =
      ⟨ExactNumber.finite 1, ExactNumber.finite 0, ExactNumber.finite 0⟩ := by
    unfold rayDirection Vector3.normalize
    rw [hl]
    norm_num [nudgeRayDirection, exactOps, ExactNumber.sqrt, h, ExactNumber.truthy,
      ExactNumber.div, ExactNumber.mul]
  have ho : rayOrigin (exactOps sqrtQ) nudgeRayOrigin nudgeRayDirection =
      ⟨ExactNumber.finite (59999 / 20000 + 1 / 10000), ExactNumber.finite (1 / 2),
        ExactNumber.finite (1 / 2)⟩ := by
    unfold rayOrigin
    rw [hd]
    norm_num [nudgeRayOrigin, Vector3.addScaledVector, exactOps, ExactNumber.add,
      ExactNumber.mul]
  have hs : rayStart (exactOps sqrtQ) nudgeRayOrigin nudgeRayDirection = (3, 0, 0) := by
    unfold rayStart
    rw [ho]
    simp only [exactOps, ExactNumber.cell, f1, f2]
  refine ⟨hs, ?_⟩
  unfold raycastWith
  rw [hl, hs, ho, hd]
  norm_num [exactOps, ExactNumber.eq, raycastLoopWith, raycastAdvanceWith, intBoundWith,
    rayStep, rayDelta, ExactNumber.le, ExactNumber.lt, ExactNumber.add, ExactNumber.sub,
    ExactNumber.mul, ExactNumber.div, ExactNumber.neg, ExactNumber.abs, ExactNumber.floor,
    f1, f2, g3, g4, g5, BLOCK]

theorem rat_sqrt_one : Rat.sqrt 1 = 1 := by
  have h : Rat.sqrt (1 * 1) = |1| := Rat.sqrt_eq 1
  have e1 : (1 : Rat) * 1 = 1 := by norm_num
  have e2 : |(1 : Rat)| = 1 := abs_of_pos (by norm_num)
  rw [e1, e2] at h
  exact h

/-- C13, as stated, fails in its general part: the ray from `(2.99995, 0.5, 0.5)` along
`(1, 0, 0)` starts in the cell `(2, 0, 0)`, which holds stone, so that this cell is the first
cell on the ray that is not air; but `raycast` moves the origin by 0.0001 along the ray
before it takes the first cell, starts in the cell `(3, 0, 0)` and returns `null`. -/
theorem raycast_exactness_counterexample :
    (ExactNumber.cell nudgeRayOrigin.x, ExactNumber.cell nudgeRayOrigin.y,
      ExactNumber.cell nudgeRayOrigin.z) = (2, 0, 0) ∧
    getBlock sampleConfig nudgeWorld 2 0 0 = BLOCK.STONE ∧
    rayStart (exactOps Rat.sqrt) nudgeRayOrigin nudgeRayDirection = (3, 0, 0) ∧
    raycastWith (exactOps Rat.sqrt) sampleConfig nudgeWorld nudgeRayOrigin nudgeRayDirection
      (ExactNumber.finite 2) 4 = some none := by
  have f1 : ⌊(59999 / 20000 : Rat)⌋ = 2 := by
    rw [Int.floor_eq_iff]; norm_num
  have f2 : ⌊(1 / 2 : Rat)⌋ = 0 := by
    rw [Int.floor_eq_iff]; norm_num
  refine ⟨?_, by decide, (nudge_ray_run Rat.sqrt rat_sqrt_one).1,
    (nudge_ray_run Rat.sqrt rat_sqrt_one).2⟩
  simp only [nudgeRayOrigin, ExactNumber.cell, f1, f2]

/-- C13, amended. Raycast exactness.  In exact arithmetic: when cell `(0, 0, 0)` holds stone
and the cells `(0, 0, -5) .. (0, 0, -1)` hold air, `raycast` from `(0.5, 0.5, -5)` along
`(0, 0, 1)` with `maxDistance >= 5` returns the hit cell `(0, 0, 0)` with id STONE and the
adjacent cell `(0, 0, -1)`, at the distance 4.9999.  And for every arithmetic of numbers in
which `Infinity` is below nothing (the doubles of the runtime among them), for an
axis-aligned ray (the normalised direction steps along one unit vector `e` and is `=== 0` on
the two other axes): the cells are counted along `e` from the starting cell, which is the cell
of the origin moved by 0.0001 along the ray and not always the cell of the origin; when the
`k`-th cell after the starting cell is the first of them that is not air, and the boundaries
crossed on the way to it are below `Infinity` and within `maxDistance`, then that cell is the
hit, the cell before it is the adjacent cell (for `k = 0` the hit cell itself), and the
distance is the boundary crossed last (0 for `k = 0`).  Every bound on the iterations above
the number of cells stepped gives this result. -/
theorem raycast_exactness :
    (∀ (sqrtQ : Rat → Rat) (cfg : Config) (w : VoxelWorld) (maxDistance : ExactNumber)
      (fuel : Nat), sqrtQ 1 = 1 → getBlock cfg w 0 0 0 = BLOCK.STONE →
      (∀ k : Int, -5 ≤ k → k < 0 → getBlock cfg w 0 0 k = BLOCK.AIR) →
      ExactNumber.le (ExactNumber.finite 5) maxDistance = true → 5 < fuel →
      raycastWith (exactOps sqrtQ) cfg w
          ⟨ExactNumber.finite (1 / 2), ExactNumber.finite (1 / 2), ExactNumber.finite (-5)⟩
          ⟨ExactNumber.finite 0, ExactNumber.finite 0, ExactNumber.finite 1⟩
          maxDistance fuel =
        some (some ⟨0, 0, 0, BLOCK.STONE, 0, 0, -1, ExactNumber.finite (49999 / 10000)⟩)) ∧
    (∀ (F : Type) (ops : NumberOps F) (cfg : Config) (w : VoxelWorld)
      (origin direction : Vector3 F) (e : Int × Int × Int) (maxDistance : F) (k fuel : Nat),
      e ∈ ALL_NEIGHBOR_OFFSETS → (∀ v : F, ops.lt ops.infinity v = false) →
      ops.eq (direction.lengthSq ops) ops.zero = false →
      (rayStep ops (rayDirection ops direction).x, rayStep ops (rayDirection ops direction).y,
        rayStep ops (rayDirection ops direction).z) = e →
      (e.1 = 0 → ops.eq (rayDirection ops direction).x ops.zero = true) →
      (e.2.1 = 0 → ops.eq (rayDirection ops direction).y ops.zero = true) →
      (e.2.2 = 0 → ops.eq (rayDirection ops direction).z ops.zero = true) →
      ops.le ops.zero maxDistance = true →
      (∀ i : Nat, i < k →
        ops.lt (rayBoundary ops origin direction e i) ops.infinity = true ∧
        ops.le (rayBoundary ops origin direction e i) maxDistance = true) →
      (∀ i : Nat, i < k →
        getBlock cfg w ((rayStart ops origin direction).1 + (i : Int) * e.1)
          ((rayStart ops origin direction).2.1 + (i : Int) * e.2.1)
          ((rayStart ops origin direction).2.2 + (i : Int) * e.2.2) = BLOCK.AIR) →
      getBlock cfg w ((rayStart ops origin direction).1 + (k : Int) * e.1)
          ((rayStart ops origin direction).2.1 + (k : Int) * e.2.1)
          ((rayStart ops origin direction).2.2 + (k : Int) * e.2.2) ≠ BLOCK.AIR →
      k < fuel →
      raycastWith ops cfg w origin direction maxDistance fuel =
        some (some ⟨(rayStart ops origin direction).1 + (k : Int) * e.1,
          (rayStart ops origin direction).2.1 + (k : Int) * e.2.1,
          (rayStart ops origin direction).2.2 + (k : Int) * e.2.2,
          getBlock cfg w ((rayStart ops origin direction).1 + (k : Int) * e.1)
            ((rayStart ops origin direction).2.1 + (k : Int) * e.2.1)
            ((rayStart ops origin direction).2.2 + (k : Int) * e.2.2),
          if k = 0 then (rayStart ops origin direction).1
            else (rayStart ops origin direction).1 + ((k : Int) - 1) * e.1,
          if k = 0 then (rayStart ops origin direction).2.1
            else (rayStart ops origin direction).2.1 + ((k : Int) - 1) * e.2.1,
          if k = 0 then (rayStart ops origin direction).2.2
            else (rayStart ops origin direction).2.2 + ((k : Int) - 1) * e.2.2,
          if k = 0 then ops.zero else rayBoundary ops origin direction e (k - 1)⟩)) := by
  constructor
  · intro sqrtQ cfg w maxDistance fuel h hstone hair hmax hf
    exact example_ray_run sqrtQ cfg w maxDistance fuel h hstone hair hmax hf
  · intro F ops cfg w origin direction e maxDistance k fuel he hinf hlen hstep hx hy hz hzero
      hrange hair hhit hf
    exact raycastWith_axis ops cfg w origin direction e maxDistance k fuel he hinf hlen hstep
      hx hy hz hzero hrange hair hhit hf

theorem raycast_exactness_witness :
    raycastWith (exactOps Rat.sqrt) sampleConfig stoneWorld
        ⟨ExactNumber.finite (1 / 2), ExactNumber.finite (1 / 2), ExactNumber.finite (-5)⟩
        ⟨ExactNumber.finite 0, ExactNumber.finite 0, ExactNumber.finite 1⟩
        ExactNumber.posInfinity 6 =
      some (some ⟨0, 0, 0, BLOCK.STONE, 0, 0, -1, ExactNumber.finite (49999 / 10000)⟩) ∧
    raycastWith (exactOps Rat.sqrt) sampleConfig stoneWorld exampleRayOrigin
        exampleRayDirection (ExactNumber.finite 5) 6 =
      some (some ⟨0, 0, 0, 3, 0, 0, -1, ExactNumber.finite (49999 / 10000)⟩) :=
  ⟨raycast_exactness.1 Rat.sqrt sampleConfig stoneWorld ExactNumber.posInfinity 6 rat_sqrt_one
      (by decide) (by intro k h1 h2; interval_cases k <;> decide) rfl (by decide),
    (raycast_exactness.2 ExactNumber (exactOps Rat.sqrt) sampleConfig stoneWorld
      exampleRayOrigin exampleRayDirection (0, 0, 1) (ExactNumber.finite 5) 5 6 (by decide)
      (exactOps_infinity Rat.sqrt) (example_ray_direction Rat.sqrt rat_sqrt_one).1
      (by
        rw [(example_ray_direction Rat.sqrt rat_sqrt_one).2]
        norm_num [rayStep, exactOps, ExactNumber.lt])
      (by
        intro _
        rw [(example_ray_direction Rat.sqrt rat_sqrt_one).2]
        norm_num [exactOps, ExactNumber.eq])
      (by
        intro _
        rw [(example_ray_direction Rat.sqrt rat_sqrt_one).2]
        norm_num [exactOps, ExactNumber.eq])
      (by intro h0; exact absurd h0 (by decide))
      (by norm_num [exactOps, ExactNumber.le])
      (by
        intro i hi
        rw [example_ray_boundary Rat.sqrt rat_sqrt_one i]
        interval_cases i <;> norm_num [exactOps, ExactNumber.lt, ExactNumber.le])
      (by
        intro i hi
        rw [example_ray_start Rat.sqrt rat_sqrt_one]
        interval_cases i <;> decide)
      (by
        rw [example_ray_start Rat.sqrt rat_sqrt_one]
        decide)
      (by decide)).trans
      (by
        rw [example_ray_start Rat.sqrt rat_sqrt_one,
          example_ray_boundary Rat.sqrt rat_sqrt_one]
        have g : getBlock sampleConfig stoneWorld 0 0 0 = 3 := by decide
        norm_num [g])⟩

/-! ## Claim on the facing rotations -/

/-- C21. Facing rotation laws: for every integer `d` the opposite, left and right facings lie
in `0..3`; `opposite(opposite(d)) = left(right(d)) = right(left(d)) = d mod 4`;
`right(right(d)) = opposite(d)`; four right turns give `d mod 4`; and the unit vector of
`opposite(d)` is the negation of the unit vector of `d`. -/
theorem facing_rotation_laws (d : Int) :
    ((0 ≤ getOppositeHorizontalDir d ∧ getOppositeHorizontalDir d ≤ 3) ∧
      (0 ≤ getLeftHorizontalDir d ∧ getLeftHorizontalDir d ≤ 3) ∧
      (0 ≤ getRightHorizontalDir d ∧ getRightHorizontalDir d ≤ 3)) ∧
    (getOppositeHorizontalDir (getOppositeHorizontalDir d) = d % 4 ∧
      getLeftHorizontalDir (getRightHorizontalDir d) = d % 4 ∧
      getRightHorizontalDir (getLeftHorizontalDir d) = d % 4) ∧
    getRightHorizontalDir (getRightHorizontalDir d) = getOppositeHorizontalDir d ∧
    getRightHorizontalDir (getRightHorizontalDir
      (getRightHorizontalDir (getRightHorizontalDir d))) = d % 4 ∧
    ((getHorizontalDirVector (getOppositeHorizontalDir d)).dx =
        -(getHorizontalDirVector d).dx ∧
      (getHorizontalDirVector (getOppositeHorizontalDir d)).dz =
        -(getHorizontalDirVector d).dz) := by
  have hv : ∀ k : Int, 0 ≤ k → k < 4 →
      (getHorizontalDirVector (getOppositeHorizontalDir k)).dx = -(getHorizontalDirVector k).dx ∧
      (getHorizontalDirVector (getOppositeHorizontalDir k)).dz =
        -(getHorizontalDirVector k).dz := by
    intro k h0 h4
    interval_cases k <;> decide
  have hmod : getHorizontalDirVector d = getHorizontalDirVector (d % 4) := by
    unfold getHorizontalDirVector
    rw [normalizeHorizontalDir_eq_emod, normalizeHorizontalDir_eq_emod]
    congr 1
    omega
  have hopp : getOppositeHorizontalDir d = getOppositeHorizontalDir (d % 4) := by
    unfold getOppositeHorizontalDir
    rw [normalizeHorizontalDir_eq_emod, normalizeHorizontalDir_eq_emod]
    omega
  refine ⟨?_, ?_, ?_, ?_, ?_⟩
  · simp only [getOppositeHorizontalDir, getLeftHorizontalDir, getRightHorizontalDir,
      normalizeHorizontalDir_eq_emod]
    omega
  · simp only [getOppositeHorizontalDir, getLeftHorizontalDir, getRightHorizontalDir,
      normalizeHorizontalDir_eq_emod]
    omega
  · simp only [getOppositeHorizontalDir, getRightHorizontalDir, normalizeHorizontalDir_eq_emod]
    omega
  · simp only [getRightHorizontalDir, normalizeHorizontalDir_eq_emod]
    omega
  · rw [hmod, hopp]
    exact hv (d % 4) (by omega) (by omega)

/-! ## Claims on the flow level, the dust signal, the fluid neighbourhood, ties of the ray and
the power relay -/

theorem getWaterLevel_range (id l : Int) (h : getWaterLevel id = some l) : 0 ≤ l ∧ l ≤ 7 := by
  unfold getWaterLevel at h
  split at h
  · cases h
    decide
  · split at h
    · rename_i hf
      unfold isWaterFlowId at hf
      simp only [BLOCK, Bool.and_eq_true, decide_eq_true_eq, ge_iff_le] at hf
      cases h
      simp only [BLOCK]
      omega
    · exact Option.noConfusion h

theorem waterContribution_range (cfg : Config) (w : VoxelWorld) (x y z : Int) (o : Int × Int)
    (l : Int) (h : waterContribution cfg w x y z o = some l) : 0 ≤ l ∧ l ≤ 7 := by
  unfold waterContribution at h
  split at h
  · exact Option.noConfusion h
  · split at h
    · exact Option.noConfusion h
    · exact getWaterLevel_range _ l h

/-- C25, as stated, fails: the air cell `(5, 1, 5)` has no water above and one contributing
neighbour, of level 7, and `computeDesiredWaterLevel` returns `none`, not `min(7, 7 + 1)`. -/
theorem flow_level_counterexample :
    canWaterOccupyCell (getBlock sampleConfig levelSevenWorld 5 1 5) = true ∧
    isWater (getBlock sampleConfig levelSevenWorld 5 2 5) = false ∧
    waterContribution sampleConfig levelSevenWorld 5 1 5 (1, 0) = some 7 ∧
    computeDesiredWaterLevel sampleConfig levelSevenWorld 5 1 5 = none := by
  decide

/-- C25, amended. For a cell that holds air or flowing water and has no water directly above:
when `m` is the least level among the contributing (donor-supported) horizontal water
neighbours, `computeDesiredWaterLevel` returns `m + 1` if `m + 1 <= 7` and `none` if `m = 7`;
and it returns `none` when there is no contributing neighbour. -/
theorem flow_level_rule (cfg : Config) (w : VoxelWorld) (x y z : Int)
    (hocc : canWaterOccupyCell (getBlock cfg w x y z) = true)
    (habove : isWater (getBlock cfg w x (y + 1) z) = false) :
    (∀ m : Int, (∃ o ∈ waterNeighborOffsets, waterContribution cfg w x y z o = some m) →
      (∀ o ∈ waterNeighborOffsets, ∀ l, waterContribution cfg w x y z o = some l → m ≤ l) →
      (0 ≤ m ∧ m ≤ 7) ∧
      computeDesiredWaterLevel cfg w x y z = (if m + 1 > 7 then none else some (m + 1))) ∧
    ((∀ o ∈ waterNeighborOffsets, waterContribution cfg w x y z o = none) →
      computeDesiredWaterLevel cfg w x y z = none) := by
  have hlist : ([(1, 0), (-1, 0), (0, 1), (0, -1)] : List (Int × Int)) = waterNeighborOffsets :=
    rfl
  constructor
  · intro m hex hmin
    obtain ⟨o, ho, hc⟩ := hex
    refine ⟨waterContribution_range cfg w x y z o m hc, ?_⟩
    have hfold := water_fold_min cfg w x y z m waterNeighborOffsets none
      (fun a ha => Option.noConfusion ha) hmin (Or.inr ⟨o, ho, hc⟩)
    unfold computeDesiredWaterLevel
    simp only [hocc, habove, Bool.not_true, Bool.false_eq_true, if_false]
    rw [hlist, hfold]
  · intro hnone
    have hfold := water_fold_none cfg w x y z waterNeighborOffsets none hnone
    unfold computeDesiredWaterLevel
    simp only [hocc, habove, Bool.not_true, Bool.false_eq_true, if_false]
    rw [hlist, hfold]

theorem flow_level_rule_witness :
    ((0 : Int) ≤ 7 ∧ (7 : Int) ≤ 7) ∧
    computeDesiredWaterLevel sampleConfig levelSevenWorld 5 1 5 =
      (if (7 : Int) + 1 > 7 then none else some (7 + 1)) :=
  (flow_level_rule sampleConfig levelSevenWorld 5 1 5 (by decide) (by decide)).1 7
    ⟨(1, 0), by decide, by decide⟩ (by decide)

/-- C26, as stated, fails: dust of power 15 gives the cell directly above it, at Manhattan
distance 1, the signal `weak = 0`. -/
theorem dust_signal_counterexample :
    isRedstoneDust 35 = true ∧ getDustPower 35 = 15 ∧
    |(0 : Int) - 0| + |(1 : Int) - 0| + |(0 : Int) - 0| = 1 ∧
    getDirectSignalFromBlock 35 0 0 0 0 1 0 = ⟨0, 0⟩ := by
  decide

/-- C26, amended. Dust direct signal: for every dust id with power `p > 0`,
`getDirectSignalFromBlock` returns `weak = p`, `strong = 0` for a target at Manhattan distance
1 that is horizontally adjacent to the dust or directly below it, and `weak = 0`,
`strong = 0` for every other target, the cell directly above included. -/
theorem dust_direct_signal (id sx sy sz tx ty tz : Int) (hd : isRedstoneDust id = true)
    (hp : getDustPower id > 0) :
    getDirectSignalFromBlock id sx sy sz tx ty tz =
      (if |tx - sx| + |ty - sy| + |tz - sz| = 1 ∧ (ty - sy = 0 ∨ ty - sy = -1)
        then ⟨getDustPower id, 0⟩ else ⟨0, 0⟩) := by
  have hne : id ≠ BLOCK.REDSTONE_BLOCK := by
    unfold isRedstoneDust at hd
    simp only [BLOCK, Bool.and_eq_true, decide_eq_true_eq, ge_iff_le] at hd
    simp only [BLOCK]; omega
  unfold getDirectSignalFromBlock
  simp only [if_neg hne, hd, if_true, if_neg (not_le.mpr hp)]
  by_cases h1 : |tx - sx| + |ty - sy| + |tz - sz| = 1
  · by_cases h2 : ty - sy = 0 ∨ ty - sy = -1
    · rw [if_neg (by simpa using h1), if_pos h2, if_pos ⟨h1, h2⟩]
    · rw [if_neg (by simpa using h1), if_neg h2, if_neg (fun h => h2 h.2)]
  · rw [if_pos (by simpa using h1), if_neg (fun h => h1 h.1)]

theorem dust_direct_signal_witness :
    getDirectSignalFromBlock 27 3 4 5 3 3 5 =
      (if |(3 : Int) - 3| + |(3 : Int) - 4| + |(5 : Int) - 5| = 1 ∧
          ((3 : Int) - 4 = 0 ∨ (3 : Int) - 4 = -1)
        then ⟨getDustPower 27, 0⟩ else ⟨0, 0⟩) :=
  dust_direct_signal 27 3 4 5 3 3 5 (by decide) (by decide)

/-! ## The fluid neighbourhood -/

/-- The loop of `enqueueFluidNeighbors` over a list of distinct offsets, on cells that are
loaded and not yet queued: the cells of the offsets with at most two non-zero components are
appended in order. -/
theorem fluid_loop_appends (cfg : Config) (x y z : Int) (L : List (Int × Int × Int))
    (hnd : L.Nodup) :
    ∀ v : VoxelWorld,
      (∀ d ∈ L, cellLoaded cfg v (x + d.1) (y + d.2.1) (z + d.2.2)) →
      (∀ d ∈ L, (x + d.1, y + d.2.1, z + d.2.2) ∉ v.fluidQueued) →
      (L.foldl (fun w d =>
        if |d.1| + |d.2.1| + |d.2.2| > 2 then w
        else enqueueFluidUpdate cfg w (x + d.1) (y + d.2.1) (z + d.2.2)) v).fluidQueue =
        v.fluidQueue ++ (L.filter (fun d => decide (|d.1| + |d.2.1| + |d.2.2| ≤ 2))).map
          (fun d => (x + d.1, y + d.2.1, z + d.2.2)) := by
  induction L with
  | nil => intro v _ _; simp
  | cons d rest ih =>
    intro v hl hf
    have hnd' := List.nodup_cons.mp hnd
    rw [List.foldl_cons]
    by_cases hd : |d.1| + |d.2.1| + |d.2.2| > 2
    · rw [if_pos hd, ih hnd'.2 v (fun e he => hl e (List.mem_cons_of_mem _ he))
        (fun e he => hf e (List.mem_cons_of_mem _ he))]
      rw [List.filter_cons_of_neg (by simpa using hd)]
    · rw [if_neg hd]
      rcases enqueueFluidUpdate_cases cfg v (x + d.1) (y + d.2.1) (z + d.2.2) with
        h | ⟨_, _, h2, h3⟩
      · exfalso
        rcases (enqueueFluidUpdate_fix cfg v _ _ _).mp h with h' | h'
        · exact h' (hl d (List.mem_cons_self _ _))
        · exact hf d (List.mem_cons_self _ _) h'
      · rw [ih hnd'.2 (enqueueFluidUpdate cfg v (x + d.1) (y + d.2.1) (z + d.2.2))
          (fun e he => (cellLoaded_enqueueFluidUpdate cfg v _ _ _ _ _ _).mpr
            (hl e (List.mem_cons_of_mem _ he)))
          (by
            intro e he hmem
            rw [h3] at hmem
            rcases List.mem_append.mp hmem with hm | hm
            · exact hf e (List.mem_cons_of_mem _ he) hm
            · rw [List.mem_singleton] at hm
              have e1 := congrArg Prod.fst hm
              have e2 := congrArg (fun p => p.2.1) hm
              have e3 := congrArg (fun p => p.2.2) hm
              simp only [] at e1 e2 e3
              have : e = d := by
                apply Prod.ext
                · omega
                · apply Prod.ext
                  · omega
                  · omega
              rw [this] at he
              exact hnd'.1 he)]
        rw [h2, List.filter_cons_of_pos (by simpa using hd), List.map_cons, List.append_assoc]
        rfl

/-- C27, as stated, fails: around `(5, 5, 5)`, whose whole neighbourhood is loaded and within
the height range, `enqueueFluidNeighbors` on empty queues enqueues 19 cells, and the corner
`(4, 4, 4)` is not among them. -/
theorem fluid_neighbourhood_counterexample :
    (∀ d ∈ fluidLoopOffsets,
      cellLoaded sampleConfig airWorld (5 + d.1) (5 + d.2.1) (5 + d.2.2)) ∧
    airWorld.fluidQueue = [] ∧
    (enqueueFluidNeighbors sampleConfig airWorld 5 5 5).fluidQueue.length = 19 ∧
    (4, 4, 4) ∉ (enqueueFluidNeighbors sampleConfig airWorld 5 5 5).fluidQueue := by
  decide

/-- C27, amended. Fluid re-enqueue neighbourhood: for every cell `(x, y, z)` whose 3x3x3
neighbourhood lies in loaded chunks and within the height range, `enqueueFluidNeighbors` on
empty queues enqueues, in loop order, the 19 cells `(x + dx, y + dy, z + dz)` with `dx`, `dy`,
`dz` in `-1..1` and at most two of them non-zero; the 8 corner cells are not enqueued. -/
theorem fluid_neighbourhood (cfg : Config) (w : VoxelWorld) (x y z : Int)
    (hl : ∀ d ∈ fluidLoopOffsets, cellLoaded cfg w (x + d.1) (y + d.2.1) (z + d.2.2))
    (hq : w.fluidQueue = []) (hs : w.fluidQueued = []) :
    (enqueueFluidNeighbors cfg w x y z).fluidQueue =
      (fluidLoopOffsets.filter (fun d => decide (|d.1| + |d.2.1| + |d.2.2| ≤ 2))).map
        (fun d => (x + d.1, y + d.2.1, z + d.2.2)) ∧
    (enqueueFluidNeighbors cfg w x y z).fluidQueue.length = 19 ∧
    ∀ d ∈ fluidLoopOffsets, |d.1| + |d.2.1| + |d.2.2| = 3 →
      (x + d.1, y + d.2.1, z + d.2.2) ∉ (enqueueFluidNeighbors cfg w x y z).fluidQueue := by
  have key := fluid_loop_appends cfg x y z fluidLoopOffsets (by decide) w hl
    (by intro d _; rw [hs]; exact List.not_mem_nil _)
  rw [← enqueueFluidNeighbors_flat, hq, List.nil_append] at key
  refine ⟨key, ?_, ?_⟩
  · rw [key, List.length_map]
    decide
  · intro d hd h3 hmem
    rw [key, List.mem_map] at hmem
    obtain ⟨e, he, heq⟩ := hmem
    have he2 := (List.mem_filter.mp he).2
    simp only [decide_eq_true_eq] at he2
    have e1 := congrArg Prod.fst heq
    have e2 := congrArg (fun p => p.2.1) heq
    have e3 := congrArg (fun p => p.2.2) heq
    simp only [] at e1 e2 e3
    have h1 : e.1 = d.1 := by omega
    have h2 : e.2.1 = d.2.1 := by omega
    have h4 : e.2.2 = d.2.2 := by omega
    rw [h1, h2, h4] at he2
    omega

theorem fluid_neighbourhood_witness :
    (enqueueFluidNeighbors sampleConfig airWorld 5 5 5).fluidQueue.length = 19 :=
  (fluid_neighbourhood sampleConfig airWorld 5 5 5 (by decide) rfl rfl).2.1

/-! ## Ties of the ray -/

/-- The ray from `(0.5, 0.5, 0.5)` along `(2, 2, 1)`: its first step has `tMaxX = tMaxY`, and
it enters the cell `(0, 1, 0)`, not `(1, 0, 0)`. -/
theorem raycast_tie_run (sqrt : Rat → Rat) (h : sqrt 9 = 3) :
    raycast sqrt sampleConfig tieWorld ⟨1 / 2, 1 / 2, 1 / 2⟩ ⟨2, 2, 1⟩ 5 2 =
      some (some ⟨0, 1, 0, 3, 0, 0, 0, some (7499 / 10000)⟩) := by
  have hl : (⟨2, 2, 1⟩ : Vec3).lengthSq = 9 := by norm_num [Vec3.lengthSq]
  have hn : Vec3.normalize sqrt ⟨2, 2, 1⟩ = ⟨2 / 3, 2 / 3, 1 / 3⟩ := by
    unfold Vec3.normalize
    simp only [hl, h]
    norm_num
  have f1 : ⌊(1 / 2 + 2 / 3 * (1 / 10000) : Rat)⌋ = 0 := by
    rw [Int.floor_eq_iff]; norm_num
  have f2 : ⌊(1 / 2 + 1 / 3 * (1 / 10000) : Rat)⌋ = 0 := by
    rw [Int.floor_eq_iff]; norm_num
  have g0 : getBlock sampleConfig tieWorld 0 0 0 = 0 := by decide
  have g1 : getBlock sampleConfig tieWorld 0 1 0 = 3 := by decide
  unfold raycast
  simp only [hl, hn, Vec3.addScaledVector, f1, f2]
  norm_num [raycastLoop, raycastAdvance, intBound, numLe, numLt, numAdd, f1, f2, g0, g1, BLOCK]

/-- C28, as stated, fails: in a step with `tMaxX = tMaxY < tMaxZ` the ray advances along Y, not
along X; with `tMaxX = tMaxZ < tMaxY` and with `tMaxY = tMaxZ < tMaxX` it advances along Z.
The ray from `(0.5, 0.5, 0.5)` along `(2, 2, 1)` begins with such a step and hits the block at
`(0, 1, 0)`. -/
theorem raycast_tie_counterexample :
    ((raycastAdvance 1 1 1 (some 1) (some 1) (some 1)
        ⟨0, 0, 0, some 1, some 1, some 2, some 0, 0, 0, 0⟩).x = 0 ∧
      (raycastAdvance 1 1 1 (some 1) (some 1) (some 1)
        ⟨0, 0, 0, some 1, some 1, some 2, some 0, 0, 0, 0⟩).y = 1) ∧
    ((raycastAdvance 1 1 1 (some 1) (some 1) (some 1)
        ⟨0, 0, 0, some 1, some 2, some 1, some 0, 0, 0, 0⟩).x = 0 ∧
      (raycastAdvance 1 1 1 (some 1) (some 1) (some 1)
        ⟨0, 0, 0, some 1, some 2, some 1, some 0, 0, 0, 0⟩).z = 1) ∧
    ((raycastAdvance 1 1 1 (some 1) (some 1) (some 1)
        ⟨0, 0, 0, some 2, some 1, some 1, some 0, 0, 0, 0⟩).y = 0 ∧
      (raycastAdvance 1 1 1 (some 1) (some 1) (some 1)
        ⟨0, 0, 0, some 2, some 1, some 1, some 0, 0, 0, 0⟩).z = 1) ∧
    raycast Rat.sqrt sampleConfig tieWorld ⟨1 / 2, 1 / 2, 1 / 2⟩ ⟨2, 2, 1⟩ 5 2 =
      some (some ⟨0, 1, 0, 3, 0, 0, 0, some (7499 / 10000)⟩) := by
  refine ⟨?_, ?_, ?_, ?_⟩
  · simp [raycastAdvance, numLt, numAdd]
  · simp [raycastAdvance, numLt, numAdd]
  · simp [raycastAdvance, numLt, numAdd]
  · apply raycast_tie_run
    have h : Rat.sqrt (3 * 3) = |3| := Rat.sqrt_eq 3
    have e1 : (3 : Rat) * 3 = 9 := by norm_num
    have e2 : |(3 : Rat)| = 3 := abs_of_pos (by norm_num)
    rw [e1, e2] at h
    exact h

/-- C28, amended. Raycast tie-breaking: a traversal step advances along X only when `tMaxX` is
strictly less than `tMaxY` and `tMaxZ`, along Y only when `tMaxY` is at most `tMaxX` and
strictly less than `tMaxZ`, and along Z otherwise; so among axes with the same, smallest
`tMax` the ray advances along Z in preference to Y and X, and along Y in preference to X. -/
theorem raycast_tie_breaking (stepX stepY stepZ : Int) (tDeltaX tDeltaY tDeltaZ : Option Rat)
    (s : RayState) :
    (numLt s.tMaxX s.tMaxY = true → numLt s.tMaxX s.tMaxZ = true →
      raycastAdvance stepX stepY stepZ tDeltaX tDeltaY tDeltaZ s =
        { s with prevX := s.x, prevY := s.y, prevZ := s.z, x := s.x + stepX, dist := s.tMaxX,
                 tMaxX := numAdd s.tMaxX tDeltaX }) ∧
    (numLt s.tMaxX s.tMaxY = false → numLt s.tMaxY s.tMaxZ = true →
      raycastAdvance stepX stepY stepZ tDeltaX tDeltaY tDeltaZ s =
        { s with prevX := s.x, prevY := s.y, prevZ := s.z, y := s.y + stepY, dist := s.tMaxY,
                 tMaxY := numAdd s.tMaxY tDeltaY }) ∧
    ((numLt s.tMaxX s.tMaxY = true ∧ numLt s.tMaxX s.tMaxZ = false) ∨
      (numLt s.tMaxX s.tMaxY = false ∧ numLt s.tMaxY s.tMaxZ = false) →
      raycastAdvance stepX stepY stepZ tDeltaX tDeltaY tDeltaZ s =
        { s with prevX := s.x, prevY := s.y, prevZ := s.z, z := s.z + stepZ, dist := s.tMaxZ,
                 tMaxZ := numAdd s.tMaxZ tDeltaZ }) ∧
    (∀ t : Rat, s.tMaxX = some t → s.tMaxY = some t →
      (raycastAdvance stepX stepY stepZ tDeltaX tDeltaY tDeltaZ s).x = s.x) ∧
    (∀ t : Rat, s.tMaxY = some t → s.tMaxZ = some t →
      (raycastAdvance stepX stepY stepZ tDeltaX tDeltaY tDeltaZ s).y = s.y) ∧
    (∀ t : Rat, s.tMaxX = some t → s.tMaxZ = some t →
      (raycastAdvance stepX stepY stepZ tDeltaX tDeltaY tDeltaZ s).x = s.x) := by
  refine ⟨?_, ?_, ?_, ?_, ?_, ?_⟩
  · intro h1 h2
    simp only [raycastAdvance, h1, h2, if_true]
  · intro h1 h2
    simp only [raycastAdvance, h1, h2, if_true, Bool.false_eq_true, if_false]
  · rintro (⟨h1, h2⟩ | ⟨h1, h2⟩)
    · simp only [raycastAdvance, h1, h2, if_true, Bool.false_eq_true, if_false]
    · simp only [raycastAdvance, h1, h2, Bool.false_eq_true, if_false]
  · intro t hx hy
    have h1 : numLt s.tMaxX s.tMaxY = false := by
      rw [hx, hy]; simp [numLt]
    unfold raycastAdvance
    simp only [h1, Bool.false_eq_true, if_false]
    split <;> rfl
  · intro t hy hz
    have h2 : numLt s.tMaxY s.tMaxZ = false := by
      rw [hy, hz]; simp [numLt]
    unfold raycastAdvance
    simp only [h2, Bool.false_eq_true, if_false]
    split
    · split <;> rfl
    · rfl
  · intro t hx hz
    have h2 : numLt s.tMaxX s.tMaxZ = false := by
      rw [hx, hz]; simp [numLt]
    unfold raycastAdvance
    simp only [h2, Bool.false_eq_true, if_false]
    split
    · rfl
    · split <;> rfl

theorem raycast_tie_breaking_witness :
    (raycastAdvance 1 1 1 (some 1) (some 1) (some 1)
      ⟨0, 0, 0, some 1, some 1, some 2, some 0, 0, 0, 0⟩).x = 0 :=
  (raycast_tie_breaking 1 1 1 (some 1) (some 1) (some 1)
    ⟨0, 0, 0, some 1, some 1, some 2, some 0, 0, 0, 0⟩).2.2.2.1 1 rfl rfl

/-! ## The power relay -/

theorem repeater_not_solid (id : Int) (h : isRepeater id = true) : isOpaqueSolid id = false := by
  obtain ⟨h1, h2⟩ := (family_ranges id).2.2.1.mp h
  interval_cases id <;> decide

theorem comparator_not_solid (id : Int) (h : isComparator id = true) :
    isOpaqueSolid id = false := by
  obtain ⟨h1, h2⟩ := (family_ranges id).2.2.2.1.mp h
  interval_cases id <;> decide

theorem opaque_direct_zero (id sx sy sz tx ty tz : Int) (ho : isOpaqueSolid id = true)
    (hne : id ≠ BLOCK.REDSTONE_BLOCK) :
    getDirectSignalFromBlock id sx sy sz tx ty tz = ⟨0, 0⟩ := by
  have hd : isRedstoneDust id = false := by
    cases h : isRedstoneDust id
    · rfl
    · rw [ dust_not_opaque id h] at ho; exact Bool.noConfusion ho
  have hr : isRepeater id = false := by
    cases h : isRepeater id
    · rfl
    · rw [repeater_not_solid id h] at ho; exact Bool.noConfusion ho
  have hc : isComparator id = false := by
    cases h : isComparator id
    · rfl
    · rw [comparator_not_solid id h] at ho; exact Bool.noConfusion ho
  unfold getDirectSignalFromBlock
  simp only [if_neg hne, hd, hr, hc, Bool.false_eq_true, if_false]

theorem strong_of_air (sx sy sz tx ty tz : Int) :
    (getDirectSignalFromBlock BLOCK.AIR sx sy sz tx ty tz).strong = 0 := by
  have h1 : isRedstoneDust BLOCK.AIR = false := by decide
  have h2 : isRepeater BLOCK.AIR = false := by decide
  have h3 : isComparator BLOCK.AIR = false := by decide
  have h4 : BLOCK.AIR ≠ BLOCK.REDSTONE_BLOCK := by decide
  unfold getDirectSignalFromBlock
  simp only [if_neg h4, h1, h2, h3, Bool.false_eq_true, if_false]

theorem foldl_max_top (L : List Int) (h : ∀ a ∈ L, a ≤ 15) : L.foldl max 15 = 15 := by
  induction L with
  | nil => rfl
  | cons a rest ih =>
    rw [List.foldl_cons, max_eq_left (h a (List.mem_cons_self _ _))]
    exact ih (fun b hb => h b (List.mem_cons_of_mem _ hb))

theorem foldl_max_bounds (L : List Int) (h : ∀ a ∈ L, 0 ≤ a ∧ a ≤ 15) :
    ∀ p : Int, 0 ≤ p → p ≤ 15 → 0 ≤ L.foldl max p ∧ L.foldl max p ≤ 15 := by
  induction L with
  | nil => intro p h0 h1; exact ⟨h0, h1⟩
  | cons a rest ih =>
    intro p h0 h1
    have ha := h a (List.mem_cons_self _ _)
    rw [List.foldl_cons]
    exact ih (fun b hb => h b (List.mem_cons_of_mem _ hb)) (max p a) (by omega) (by omega)

/-- The loop of `getStrongPowerAt` computes the maximum of the running value and the strong
signals of the remaining neighbours. -/
theorem strongLoop_eq_max (cfg : Config) (w : VoxelWorld) (x y z : Int)
    (L : List (Int × Int × Int)) :
    ∀ p : Int, 0 ≤ p → p ≤ 15 →
      getStrongPowerLoop cfg w x y z L p =
        (L.map (strongContribution cfg w x y z)).foldl max p := by
  induction L with
  | nil => intro p _ _; rfl
  | cons o rest ih =>
    intro p h0 h1
    have hr := (getDirectSignalFromBlock_range
      (getBlock cfg w (x + o.1) (y + o.2.1) (z + o.2.2))
      (x + o.1) (y + o.2.1) (z + o.2.2) x y z).2
    unfold getStrongPowerLoop
    simp only [List.map_cons, List.foldl_cons]
    by_cases hair : getBlock cfg w (x + o.1) (y + o.2.1) (z + o.2.2) = BLOCK.AIR
    · rw [if_pos hair]
      have hc : strongContribution cfg w x y z o = 0 := by
        unfold strongContribution
        rw [hair]
        exact strong_of_air _ _ _ _ _ _
      rw [hc, max_eq_left h0]
      exact ih p h0 h1
    · rw [if_neg hair]
      by_cases h15 : max p (getDirectSignalFromBlock
          (getBlock cfg w (x + o.1) (y + o.2.1) (z + o.2.2))
          (x + o.1) (y + o.2.1) (z + o.2.2) x y z).strong ≥ 15
      · rw [if_pos h15]
        have e : max p (strongContribution cfg w x y z o) = 15 := by
          unfold strongContribution
          omega
        rw [e]
        symm
        apply foldl_max_top
        intro a ha
        obtain ⟨o', _, rfl⟩ := List.mem_map.mp ha
        exact (getDirectSignalFromBlock_range _ _ _ _ _ _ _).2.2
      · rw [if_neg h15]
        exact ih _ (by omega) (by omega)

/-- C30. Indirect power relay: an opaque solid block at `S` with `getStrongPowerAt(S) > 0`
gives every target the signal 15; an opaque solid block other than a redstone block with no
strong power gives 0; and `getStrongPowerAt` is the maximum strong signal over the six
neighbours, a value in `0..15`. -/
theorem indirect_power_relay (cfg : Config) (w : VoxelWorld) (sx sy sz : Int) :
    (isOpaqueSolid (getBlock cfg w sx sy sz) = true → getStrongPowerAt cfg w sx sy sz > 0 →
      ∀ tx ty tz : Int, getSignalFromSourceToTarget cfg w sx sy sz tx ty tz = 15) ∧
    (isOpaqueSolid (getBlock cfg w sx sy sz) = true →
      getBlock cfg w sx sy sz ≠ BLOCK.REDSTONE_BLOCK → getStrongPowerAt cfg w sx sy sz = 0 →
      ∀ tx ty tz : Int, getSignalFromSourceToTarget cfg w sx sy sz tx ty tz = 0) ∧
    getStrongPowerAt cfg w sx sy sz =
      (ALL_NEIGHBOR_OFFSETS.map (strongContribution cfg w sx sy sz)).foldl max 0 ∧
    0 ≤ getStrongPowerAt cfg w sx sy sz ∧ getStrongPowerAt cfg w sx sy sz ≤ 15 := by
  have hmax : getStrongPowerAt cfg w sx sy sz =
      (ALL_NEIGHBOR_OFFSETS.map (strongContribution cfg w sx sy sz)).foldl max 0 := by
    unfold getStrongPowerAt
    exact strongLoop_eq_max cfg w sx sy sz ALL_NEIGHBOR_OFFSETS 0 (le_refl _) (by decide)
  have hb := foldl_max_bounds (ALL_NEIGHBOR_OFFSETS.map (strongContribution cfg w sx sy sz))
    (by
      intro a ha
      obtain ⟨o, _, rfl⟩ := List.mem_map.mp ha
      exact (getDirectSignalFromBlock_range _ _ _ _ _ _ _).2) 0 (le_refl _) (by decide)
  have hnair : isOpaqueSolid (getBlock cfg w sx sy sz) = true →
      getBlock cfg w sx sy sz ≠ BLOCK.AIR := by
    intro ho h0
    rw [h0] at ho
    exact absurd ho (by decide)
  refine ⟨?_, ?_, hmax, by rw [hmax]; exact hb.1, by rw [hmax]; exact hb.2⟩
  · intro ho hs tx ty tz
    have hr := getDirectSignalFromBlock_range (getBlock cfg w sx sy sz) sx sy sz tx ty tz
    have hhard : isHardPoweredBlock cfg w sx sy sz = true := by
      unfold isHardPoweredBlock
      simp only [ho, Bool.not_true, Bool.false_eq_true, if_false, decide_eq_true_eq]
      exact hs
    unfold getSignalFromSourceToTarget
    simp only [if_neg (hnair ho), ho, hhard, Bool.and_self, if_true]
    omega
  · intro ho hne hs tx ty tz
    have hhard : isHardPoweredBlock cfg w sx sy sz = false := by
      unfold isHardPoweredBlock
      simp only [ho, Bool.not_true, Bool.false_eq_true, if_false, decide_eq_false_iff_not]
      omega
    unfold getSignalFromSourceToTarget
    simp only [if_neg (hnair ho), ho, hhard, Bool.and_false, Bool.false_eq_true, if_false,
      opaque_direct_zero _ sx sy sz tx ty tz ho hne]
    rfl

theorem indirect_power_relay_witness :
    getSignalFromSourceToTarget sampleConfig relayWorld 5 1 5 6 1 5 = 15 :=
  (indirect_power_relay sampleConfig relayWorld 5 1 5).1 (by decide) (by decide) 6 1 5

/-! ## Claim on the lattice hash -/

theorem hashBits_range (n : ValueNoise) (x y z : Int) :
    0 ≤ n.hashBits x y z ∧ n.hashBits x y z ≤ 4294967295 := by
  have key : ∀ v : Int, 0 ≤ toUint32 v ∧ toUint32 v ≤ 4294967295 := by
    intro v
    unfold toUint32
    omega
  unfold ValueNoise.hashBits
  exact key _

/-- C29 fails on the code: with the seed 3143293654 the hash of the lattice point `(0, 0, 0)`
is exactly 1, and so is the hash of `(1624197535, 0, 0)` with the seed 1337; with the seed
3468665655 the tree draw `randomAt(5, 5, 99)` of the column `(5, 5)` is exactly 1, for which
`placeTree` computes a trunk of 7 blocks where every value below 1 gives 4, 5 or 6. -/
theorem hash_range_counterexample :
    (ValueNoise.create 3143293654).hash3 0 0 0 = 1 ∧
    (ValueNoise.create 1337).hash3 1624197535 0 0 = 1 ∧
    randomAt (ValueNoise.create 3468665655) 5 5 99 = 1 ∧
    trunkHeight (randomAt (ValueNoise.create 3468665655) 5 5 99) = 7 := by
  have h1 : (ValueNoise.create 3143293654).hashBits 0 0 0 = 4294967295 := by decide
  have h2 : (ValueNoise.create 1337).hashBits 1624197535 0 0 = 4294967295 := by decide
  have h3 : (ValueNoise.create 3468665655).hashBits (5 + 99 * 17) (5 - 99 * 31) (99 * 53)
      = 4294967295 := by decide
  have e3 : randomAt (ValueNoise.create 3468665655) 5 5 99 = 1 := by
    unfold randomAt ValueNoise.hash3
    rw [h3]
    norm_num
  refine ⟨?_, ?_, e3, ?_⟩
  · unfold ValueNoise.hash3
    rw [h1]
    norm_num
  · unfold ValueNoise.hash3
    rw [h2]
    norm_num
  · rw [e3]
    unfold trunkHeight
    norm_num

/-- C29, what the code guarantees. For every seed and all integer lattice coordinates,
`hash3` is a scalar `r` with `0 <= r <= 1` that depends only on the seed (through its unsigned
32-bit value) and the coordinates; `r` is exactly 1 when, and only when, the mixed 32-bit value
is 4294967295, the divisor of `hash3`; and the trunk height that `placeTree` derives from `r`
is 4, 5 or 6 when `r < 1` and 7 when `r = 1`. -/
theorem hash_range (seed x y z : Int) :
    0 ≤ (ValueNoise.create seed).hash3 x y z ∧ (ValueNoise.create seed).hash3 x y z ≤ 1 ∧
    ((ValueNoise.create seed).hash3 x y z = 1 ↔
      (ValueNoise.create seed).hashBits x y z = 4294967295) ∧
    (ValueNoise.create seed).hash3 x y z =
      (ValueNoise.create (seed % 4294967296)).hash3 x y z ∧
    ((ValueNoise.create seed).hash3 x y z < 1 →
      4 ≤ trunkHeight ((ValueNoise.create seed).hash3 x y z) ∧
      trunkHeight ((ValueNoise.create seed).hash3 x y z) ≤ 6) ∧
    ((ValueNoise.create seed).hash3 x y z = 1 →
      trunkHeight ((ValueNoise.create seed).hash3 x y z) = 7) := by
  obtain ⟨h0, h1⟩ := hashBits_range (ValueNoise.create seed) x y z
  have c0 : (0 : Rat) ≤ ((ValueNoise.create seed).hashBits x y z : Rat) := by exact_mod_cast h0
  have c1 : ((ValueNoise.create seed).hashBits x y z : Rat) ≤ 4294967295 := by exact_mod_cast h1
  have r0 : 0 ≤ (ValueNoise.create seed).hash3 x y z := by
    unfold ValueNoise.hash3
    exact div_nonneg c0 (by norm_num)
  refine ⟨r0, ?_, ?_, ?_, ?_, ?_⟩
  · unfold ValueNoise.hash3
    rw [div_le_one (by norm_num)]
    exact c1
  · unfold ValueNoise.hash3
    rw [div_eq_one_iff_eq (by norm_num)]
    constructor
    · intro h; exact_mod_cast h
    · intro h; exact_mod_cast h
  · have e : ValueNoise.create (seed % 4294967296) = ValueNoise.create seed := by
      unfold ValueNoise.create toUint32
      rw [Int.emod_emod_of_dvd seed (dvd_refl _)]
    rw [e]
  · intro hlt
    unfold trunkHeight
    have f0 : 0 ≤ Int.floor ((ValueNoise.create seed).hash3 x y z * 3) :=
      Int.floor_nonneg.mpr (by linarith)
    have f1 : Int.floor ((ValueNoise.create seed).hash3 x y z * 3) < 3 :=
      Int.floor_lt.mpr (by push_cast; linarith)
    omega
  · intro h1
    rw [h1]
    unfold trunkHeight
    norm_num

/-! ## Claims on chunk generation -/

theorem applyEditsStep_cx (cfg : Config) (acc : VoxelChunk × List Cell × List Cell)
    (entry : Cell × Int) :
    (applyEditsStep cfg acc entry).1 = acc.1.set cfg entry.1.1 entry.1.2.1 entry.1.2.2 entry.2 :=
  rfl

theorem chunk_get_set_ne (cfg : Config) (h : 0 < cfg.CHUNK_SIZE) (c : VoxelChunk)
    (lx y lz id lx' y' lz' : Int) (hne : ¬ (lx' = lx ∧ y' = y ∧ lz' = lz)) :
    (c.set cfg lx y lz id).get cfg lx' y' lz' = c.get cfg lx' y' lz' := by
  by_cases hr : lx < 0 ∨ lx ≥ cfg.CHUNK_SIZE ∨ lz < 0 ∨ lz ≥ cfg.CHUNK_SIZE ∨ y < 0 ∨
      y ≥ cfg.WORLD_HEIGHT
  · unfold VoxelChunk.set
    rw [if_pos hr]
  · exact chunk_get_set_other cfg h c lx y lz id lx' y' lz' ⟨by omega, by omega⟩
      ⟨by omega, by omega⟩ hne

theorem applyEdits_fold_other (cfg : Config) (h : 0 < cfg.CHUNK_SIZE) (lx y lz : Int) :
    ∀ (changes : List (Cell × Int)) (acc : VoxelChunk × List Cell × List Cell),
      (∀ e ∈ changes, e.1 ≠ (lx, y, lz)) →
      (changes.foldl (applyEditsStep cfg) acc).1.get cfg lx y lz = acc.1.get cfg lx y lz := by
  intro changes
  induction changes with
  | nil => intro acc _; rfl
  | cons e rest ih =>
    intro acc hne
    rw [List.foldl_cons, ih _ (fun e' he' => hne e' (List.mem_cons_of_mem _ he')),
      applyEditsStep_cx]
    apply chunk_get_set_ne cfg h
    intro hh
    apply hne e (List.mem_cons_self _ _)
    obtain ⟨⟨a, b, c⟩, d⟩ := e
    simp only at hh
    obtain ⟨h1, h2, h3⟩ := hh
    rw [h1, h2, h3]

theorem applyEdits_fold_entry (cfg : Config) (h : 0 < cfg.CHUNK_SIZE) (lx y lz id : Int)
    (hx : 0 ≤ lx ∧ lx < cfg.CHUNK_SIZE) (hz : 0 ≤ lz ∧ lz < cfg.CHUNK_SIZE)
    (hy : 0 ≤ y ∧ y < cfg.WORLD_HEIGHT) :
    ∀ (changes : List (Cell × Int)) (acc : VoxelChunk × List Cell × List Cell),
      (changes.map Prod.fst).Nodup → ((lx, y, lz), id) ∈ changes →
      (changes.foldl (applyEditsStep cfg) acc).1.get cfg lx y lz = id % 256 := by
  intro changes
  induction changes with
  | nil => intro acc _ hm; exact absurd hm (List.not_mem_nil _)
  | cons e rest ih =>
    intro acc hnd hm
    rw [List.map_cons, List.nodup_cons] at hnd
    rw [List.foldl_cons]
    rcases List.mem_cons.1 hm with he | hr
    · subst he
      rw [applyEdits_fold_other cfg h lx y lz rest _ ?_, applyEditsStep_cx]
      · exact chunk_get_set_same cfg _ lx y lz id hx hz hy
      · intro e' he' heq
        exact hnd.1 (List.mem_map.2 ⟨e', he', heq⟩)
    · exact ih _ hnd.2 hr

theorem mem_of_mapGet {κ ν : Type} [DecidableEq κ] :
    ∀ (m : List (κ × ν)) (k : κ) (v : ν), mapGet m k = some v → (k, v) ∈ m := by
  intro m
  induction m with
  | nil => intro k v hh; simp [mapGet] at hh
  | cons p rest ih =>
    intro k v hh
    obtain ⟨k1, v1⟩ := p
    unfold mapGet at hh
    by_cases e : k1 = k
    · rw [if_pos e] at hh
      cases hh
      rw [e]
      exact List.mem_cons_self _ _
    · rw [if_neg e] at hh
      exact List.mem_cons_of_mem _ (ih k v hh)

theorem fluidSeeds_fold_chunks (cfg : Config) :
    ∀ (seeds : List Cell) (w : VoxelWorld),
      (seeds.foldl (fun w seed => enqueueFluidNeighbors cfg w seed.1 seed.2.1 seed.2.2)
        w).chunks = w.chunks := by
  intro seeds
  induction seeds with
  | nil => intro w; rfl
  | cons s rest ih => intro w; rw [List.foldl_cons, ih, enqueueFluidNeighbors_chunks]

theorem redstoneSeeds_fold_chunks (cfg : Config) :
    ∀ (seeds : List Cell) (w : VoxelWorld),
      (seeds.foldl (fun w seed => enqueueRedstoneNeighbors cfg w seed.1 seed.2.1 seed.2.2)
        w).chunks = w.chunks := by
  intro seeds
  induction seeds with
  | nil => intro w; rfl
  | cons s rest ih => intro w; rw [List.foldl_cons, ih, enqueueRedstoneNeighbors_chunks]

theorem generateChunkNow_chunk (cfg : Config) (generate : Int → Int → Int → Fin 256)
    (w : VoxelWorld) (cx cz : Int) (hnot : w.chunks (cx, cz) = none) :
    (generateChunkNow cfg generate w cx cz).1.chunks (cx, cz) =
      some (applyEditsToChunk cfg w ⟨cx, cz, generate cx cz⟩).1 := by
  unfold generateChunkNow
  rw [hnot]
  simp only [markChunkDirty_chunks, redstoneSeeds_fold_chunks, fluidSeeds_fold_chunks, if_true]

/-- C23. Overlay replay on generation: for a chunk `(cx, cz)` that is not loaded and an entry
`(lx, y, lz) -> id` of its overlay (a map, so with one entry for each cell) with `lx` and `lz`
in `0 .. CHUNK_SIZE - 1`, `y` in `0 .. WORLD_HEIGHT - 1` and `id` in `0 .. 255`, after
`generateChunkNow(cx, cz)` the block at
`(cx * CHUNK_SIZE + lx, y, cz * CHUNK_SIZE + lz)` is `id`, whatever array `generate` the
procedural generation filled; and on a loaded chunk `generateChunkNow` returns that chunk and
leaves the whole state, hence every block, as it was. -/
theorem overlay_replay (cfg : Config) (h : 0 < cfg.CHUNK_SIZE)
    (generate : Int → Int → Int → Fin 256) (w : VoxelWorld) (cx cz : Int) :
    (w.chunks (cx, cz) = none →
      ∀ changes : List (Cell × Int), mapGet w.editsByChunk (cx, cz) = some changes →
        (changes.map Prod.fst).Nodup →
        ∀ lx y lz id : Int, mapGet changes (lx, y, lz) = some id →
          0 ≤ lx → lx < cfg.CHUNK_SIZE → 0 ≤ lz → lz < cfg.CHUNK_SIZE →
          0 ≤ y → y < cfg.WORLD_HEIGHT → 0 ≤ id → id ≤ 255 →
          getBlock cfg (generateChunkNow cfg generate w cx cz).1
            (cx * cfg.CHUNK_SIZE + lx) y (cz * cfg.CHUNK_SIZE + lz) = id) ∧
    (∀ chunk : VoxelChunk, w.chunks (cx, cz) = some chunk →
      generateChunkNow cfg generate w cx cz = (w, chunk)) := by
  constructor
  · intro hnot changes hov hnd lx y lz id hent hx0 hx1 hz0 hz1 hy0 hy1 hi0 hi1
    have ecx : worldToChunkCoord cfg (cx * cfg.CHUNK_SIZE + lx) = cx := by
      rw [worldToChunkCoord_eq cfg h]
      rw [add_comm, Int.add_mul_ediv_right _ _ (by omega), Int.ediv_eq_zero_of_lt hx0 hx1,
        zero_add]
    have ecz : worldToChunkCoord cfg (cz * cfg.CHUNK_SIZE + lz) = cz := by
      rw [worldToChunkCoord_eq cfg h]
      rw [add_comm, Int.add_mul_ediv_right _ _ (by omega), Int.ediv_eq_zero_of_lt hz0 hz1,
        zero_add]
    have elx : worldToLocalCoord cfg (cx * cfg.CHUNK_SIZE + lx) = lx := by
      rw [worldToLocalCoord_eq cfg h]
      rw [add_comm, Int.add_mul_emod_self, Int.emod_eq_of_lt hx0 hx1]
    have elz : worldToLocalCoord cfg (cz * cfg.CHUNK_SIZE + lz) = lz := by
      rw [worldToLocalCoord_eq cfg h]
      rw [add_comm, Int.add_mul_emod_self, Int.emod_eq_of_lt hz0 hz1]
    rw [getBlock_of_chunk cfg _ _ y _ (applyEditsToChunk cfg w ⟨cx, cz, generate cx cz⟩).1
      hy0 hy1 (by
        rw [ecx, ecz]
        exact generateChunkNow_chunk cfg generate w cx cz hnot)]
    rw [elx, elz]
    unfold applyEditsToChunk
    simp only [hov]
    rw [applyEdits_fold_entry cfg h lx y lz id ⟨hx0, hx1⟩ ⟨hz0, hz1⟩ ⟨hy0, hy1⟩ changes _ hnd
      (mem_of_mapGet changes _ _ hent)]
    omega
  · intro chunk hc
    unfold generateChunkNow
    rw [hc]

theorem overlay_replay_witness :
    overlayWorld.chunks (1, 0) = none ∧
    mapGet overlayWorld.editsByChunk (1, 0) = some [((3, 7, 2), 3)] ∧
    getBlock sampleConfig (generateChunkNow sampleConfig (fun _ _ _ => 2) overlayWorld 1 0).1
      (1 * sampleConfig.CHUNK_SIZE + 3) 7 (0 * sampleConfig.CHUNK_SIZE + 2) = 3 :=
  ⟨rfl, rfl,
    (overlay_replay sampleConfig (by decide) (fun _ _ _ => 2) overlayWorld 1 0).1 rfl
      [((3, 7, 2), 3)] rfl (by decide) 3 7 2 3 rfl (by decide) (by decide) (by decide)
      (by decide) (by decide) (by decide) (by decide) (by decide)⟩

/-! ## Claims on the chunks around the viewer -/

theorem mem_intRange (lo hi v : Int) : v ∈ intRange lo hi ↔ lo ≤ v ∧ v ≤ hi := by
  unfold intRange
  rw [List.mem_map]
  constructor
  · rintro ⟨i, hi', rfl⟩
    rw [List.mem_range] at hi'
    omega
  · rintro ⟨h1, h2⟩
    refine ⟨(v - lo).toNat, ?_, ?_⟩
    · rw [List.mem_range]; omega
    · omega

theorem mem_foldl_append {α β : Type} (f : α → List β) (b : β) :
    ∀ (l : List α) (init : List β),
      b ∈ l.foldl (fun acc a => acc ++ f a) init ↔ b ∈ init ∨ ∃ a ∈ l, b ∈ f a := by
  intro l
  induction l with
  | nil => intro init; simp
  | cons a rest ih =>
    intro init
    rw [List.foldl_cons, ih, List.mem_append]
    constructor
    · rintro ((h | h) | ⟨a', ha', h⟩)
      · exact Or.inl h
      · exact Or.inr ⟨a, List.mem_cons_self _ _, h⟩
      · exact Or.inr ⟨a', List.mem_cons_of_mem _ ha', h⟩
    · rintro (h | ⟨a', ha', h⟩)
      · exact Or.inl (Or.inl h)
      · rcases List.mem_cons.1 ha' with e | e
        · subst e; exact Or.inl (Or.inr h)
        · exact Or.inr ⟨a', e, h⟩

theorem mem_viewOffsets (cfg : Config) (dx dz : Int) :
    (dx, dz) ∈ viewOffsets cfg ↔
      (-cfg.VIEW_DISTANCE ≤ dx ∧ dx ≤ cfg.VIEW_DISTANCE) ∧
      (-cfg.VIEW_DISTANCE ≤ dz ∧ dz ≤ cfg.VIEW_DISTANCE) := by
  unfold viewOffsets
  rw [mem_foldl_append (fun dz =>
    (intRange (-cfg.VIEW_DISTANCE) cfg.VIEW_DISTANCE).map (fun dx => (dx, dz)))]
  constructor
  · rintro (h | ⟨a, ha, h⟩)
    · exact absurd h (List.not_mem_nil _)
    · rw [List.mem_map] at h
      obtain ⟨b, hb, e⟩ := h
      rw [mem_intRange] at ha hb
      cases e
      exact ⟨hb, ha⟩
  · rintro ⟨h1, h2⟩
    refine Or.inr ⟨dz, (mem_intRange _ _ _).2 h2, ?_⟩
    rw [List.mem_map]
    exact ⟨dx, (mem_intRange _ _ _).2 h1, rfl⟩

theorem mem_setAdd {κ : Type} [DecidableEq κ] (s : List κ) (k k' : κ) :
    k' ∈ setAdd s k ↔ k' ∈ s ∨ k' = k := by
  unfold setAdd
  split
  · rename_i hk
    constructor
    · exact Or.inl
    · rintro (h | h)
      · exact h
      · rw [h]; exact hk
  · simp

theorem mem_foldl_setAdd {α κ : Type} [DecidableEq κ] (g : α → κ) (k : κ) :
    ∀ (l : List α) (s : List κ),
      k ∈ l.foldl (fun s o => setAdd s (g o)) s ↔ k ∈ s ∨ ∃ o ∈ l, g o = k := by
  intro l
  induction l with
  | nil => intro s; simp
  | cons a rest ih =>
    intro s
    rw [List.foldl_cons, ih, mem_setAdd]
    constructor
    · rintro ((h | h) | ⟨o, ho, h⟩)
      · exact Or.inl h
      · exact Or.inr ⟨a, List.mem_cons_self _ _, h.symm⟩
      · exact Or.inr ⟨o, List.mem_cons_of_mem _ ho, h⟩
    · rintro (h | ⟨o, ho, h⟩)
      · exact Or.inl (Or.inl h)
      · rcases List.mem_cons.1 ho with e | e
        · subst e; exact Or.inl (Or.inr h.symm)
        · exact Or.inr ⟨o, e, h⟩

theorem chunkDistance_le (aX aZ bX bZ r : Int) :
    chunkDistance aX aZ bX bZ ≤ r ↔
      (-r ≤ aX - bX ∧ aX - bX ≤ r) ∧ (-r ≤ aZ - bZ ∧ aZ - bZ ≤ r) := by
  unfold chunkDistance
  rw [max_le_iff, abs_le, abs_le]

theorem mem_neededChunks (cfg : Config) (centerX centerZ cx cz : Int) :
    (cx, cz) ∈ neededChunks cfg centerX centerZ ↔
      chunkDistance cx cz centerX centerZ ≤ cfg.VIEW_DISTANCE := by
  unfold neededChunks
  rw [mem_foldl_setAdd (fun o : Int × Int => (centerX + o.1, centerZ + o.2)),
    chunkDistance_le]
  constructor
  · rintro (h | ⟨⟨dx, dz⟩, ho, e⟩)
    · exact absurd h (List.not_mem_nil _)
    · rw [mem_viewOffsets] at ho
      simp only [Prod.mk.injEq] at e
      obtain ⟨e1, e2⟩ := e
      omega
  · intro hd
    refine Or.inr ⟨(cx - centerX, cz - centerZ), (mem_viewOffsets _ _ _).2 hd, ?_⟩
    simp only [Prod.mk.injEq]
    omega

theorem queueChunk_chunks (w : VoxelWorld) (cx cz : Int) :
    (queueChunk w cx cz).chunks = w.chunks := by
  unfold queueChunk; split <;> rfl

theorem queueChunk_set_mono (w : VoxelWorld) (cx cz : Int) (k : ChunkKey)
    (hk : k ∈ w.pendingChunkSet) : k ∈ (queueChunk w cx cz).pendingChunkSet := by
  unfold queueChunk
  split
  · exact hk
  · exact (mem_setAdd _ _ _).2 (Or.inl hk)

theorem queueChunk_array_mono (w : VoxelWorld) (cx cz : Int) (k : ChunkKey)
    (hk : k ∈ w.pendingChunkGeneration) : k ∈ (queueChunk w cx cz).pendingChunkGeneration := by
  unfold queueChunk
  split
  · exact hk
  · exact List.mem_append_left _ hk

theorem queueChunk_queued (w : VoxelWorld) (cx cz : Int) (hn : hasChunk w cx cz = false) :
    (cx, cz) ∈ (queueChunk w cx cz).pendingChunkSet := by
  unfold queueChunk
  split
  · rename_i hh
    rcases hh with hh | hh
    · rw [hn] at hh; exact absurd hh (by decide)
    · exact hh
  · exact (mem_setAdd _ _ _).2 (Or.inr rfl)

theorem queueChunk_consistent (w : VoxelWorld) (cx cz : Int)
    (hc : ∀ k ∈ w.pendingChunkSet, k ∈ w.pendingChunkGeneration) :
    ∀ k ∈ (queueChunk w cx cz).pendingChunkSet,
      k ∈ (queueChunk w cx cz).pendingChunkGeneration := by
  unfold queueChunk
  split
  · exact hc
  · intro k hk
    rcases (mem_setAdd _ _ _).1 hk with h | h
    · exact List.mem_append_left _ (hc k h)
    · rw [h]; exact List.mem_append_right _ (List.mem_singleton_self _)

theorem queueTargets_spec :
    ∀ (targets : List (Int × Int × Int)) (w : VoxelWorld),
      (targets.foldl (fun w target => queueChunk w target.1 target.2.1) w).chunks = w.chunks ∧
      (∀ k ∈ w.pendingChunkSet,
        k ∈ (targets.foldl (fun w target => queueChunk w target.1 target.2.1)
          w).pendingChunkSet) ∧
      (∀ t ∈ targets, hasChunk w t.1 t.2.1 = false →
        (t.1, t.2.1) ∈ (targets.foldl (fun w target => queueChunk w target.1 target.2.1)
          w).pendingChunkSet) ∧
      ((∀ k ∈ w.pendingChunkSet, k ∈ w.pendingChunkGeneration) →
        ∀ k ∈ (targets.foldl (fun w target => queueChunk w target.1 target.2.1)
            w).pendingChunkSet,
          k ∈ (targets.foldl (fun w target => queueChunk w target.1 target.2.1)
            w).pendingChunkGeneration) := by
  intro targets
  induction targets with
  | nil =>
    intro w
    exact ⟨rfl, fun k hk => hk, fun t ht => absurd ht (List.not_mem_nil _), fun hc => hc⟩
  | cons a rest ih =>
    intro w
    obtain ⟨i1, i2, i3, i4⟩ := ih (queueChunk w a.1 a.2.1)
    simp only [List.foldl_cons]
    refine ⟨?_, ?_, ?_, ?_⟩
    · rw [i1, queueChunk_chunks]
    · intro k hk
      exact i2 k (queueChunk_set_mono w _ _ k hk)
    · intro t ht hn
      rcases List.mem_cons.1 ht with e | e
      · subst e
        exact i2 _ (queueChunk_queued w _ _ hn)
      · apply i3 t e
        unfold hasChunk
        rw [queueChunk_chunks]
        exact hn
    · intro hc
      exact i4 (queueChunk_consistent w _ _ hc)

theorem mem_erase_fold (k : ChunkKey) :
    ∀ (removed s : List ChunkKey), k ∈ s → k ∉ removed →
      k ∈ removed.foldl (fun s p => s.erase p) s := by
  intro removed
  induction removed with
  | nil => intro s hs _; exact hs
  | cons a rest ih =>
    intro s hs hn
    rw [List.foldl_cons]
    apply ih
    · exact (List.mem_erase_of_ne (fun e => hn (by rw [e]; exact List.mem_cons_self _ _))).2 hs
    · exact fun hm => hn (List.mem_cons_of_mem _ hm)

theorem prunePending_keeps (cfg : Config) (centerX centerZ : Int) (w : VoxelWorld) (k : ChunkKey)
    (hd : chunkDistance k.1 k.2 centerX centerZ ≤ cfg.UNLOAD_DISTANCE + 1) :
    (k ∈ w.pendingChunkSet → k ∈ (prunePending cfg centerX centerZ w).pendingChunkSet) ∧
    (k ∈ w.pendingChunkGeneration →
      k ∈ (prunePending cfg centerX centerZ w).pendingChunkGeneration) := by
  constructor
  · intro hk
    unfold prunePending
    dsimp only
    apply mem_erase_fold k _ _ hk
    intro hm
    rw [List.mem_filter] at hm
    have := of_decide_eq_true hm.2
    omega
  · intro hk
    unfold prunePending
    dsimp only
    simp only [List.mem_filter]
    refine ⟨hk, ?_⟩
    simp only [Bool.not_eq_true', decide_eq_false_iff_not]
    omega

theorem request_chunks (cfg : Config) (w : VoxelWorld) (x z : Int) (k : ChunkKey) :
    (requestChunksAroundWorldPosition cfg w x z).chunks k =
      match w.chunks k with
      | none => none
      | some chunk =>
        if k ∈ neededChunks cfg (worldToChunkCoord cfg x) (worldToChunkCoord cfg z) then
          some chunk
        else if chunkDistance k.1 k.2 (worldToChunkCoord cfg x) (worldToChunkCoord cfg z) >
            cfg.UNLOAD_DISTANCE then none
        else some chunk := by
  unfold requestChunksAroundWorldPosition prunePending evictChunks
  simp only [(queueTargets_spec _ _).1]

theorem queueTargets_pending (cfg : Config) (v : VoxelWorld) (centerX centerZ cx cz : Int)
    (hd : chunkDistance cx cz centerX centerZ ≤ cfg.VIEW_DISTANCE)
    (hl : hasChunk v cx cz = false) :
    (cx, cz) ∈ ((chunkTargets cfg v centerX centerZ).foldl
      (fun w target => queueChunk w target.1 target.2.1) v).pendingChunkSet := by
  by_cases hp : (cx, cz) ∈ v.pendingChunkSet
  · exact (queueTargets_spec _ _).2.1 _ hp
  · have hoff : (cx - centerX, cz - centerZ) ∈ viewOffsets cfg := by
      rw [mem_viewOffsets]
      exact (chunkDistance_le _ _ _ _ _).1 hd
    have ht : (cx, cz, chunkDistance 0 0 (cx - centerX) (cz - centerZ)) ∈
        chunkTargets cfg v centerX centerZ := by
      unfold chunkTargets
      rw [(List.perm_insertionSort _ _).mem_iff, List.mem_map]
      refine ⟨_, List.mem_filter.2 ⟨hoff, ?_⟩, ?_⟩
      · have e1 : centerX + (cx - centerX) = cx := by omega
        have e2 : centerZ + (cz - centerZ) = cz := by omega
        simp only [e1, e2]
        rw [hl]
        simp only [Bool.not_false, Bool.true_and, Bool.not_eq_true', decide_eq_false_iff_not]
        exact hp
      · simp
    exact (queueTargets_spec _ _).2.2.1 _ ht hl

theorem request_pending (cfg : Config) (v : VoxelWorld) (centerX centerZ cx cz : Int)
    (hv : cfg.VIEW_DISTANCE ≤ cfg.UNLOAD_DISTANCE)
    (hd : chunkDistance cx cz centerX centerZ ≤ cfg.VIEW_DISTANCE)
    (hl : hasChunk v cx cz = false) :
    (cx, cz) ∈ (prunePending cfg centerX centerZ
      (evictChunks cfg (neededChunks cfg centerX centerZ) centerX centerZ
        ((chunkTargets cfg v centerX centerZ).foldl
          (fun w target => queueChunk w target.1 target.2.1) v))).pendingChunkSet ∧
    ((∀ k ∈ v.pendingChunkSet, k ∈ v.pendingChunkGeneration) →
      (cx, cz) ∈ (prunePending cfg centerX centerZ
        (evictChunks cfg (neededChunks cfg centerX centerZ) centerX centerZ
          ((chunkTargets cfg v centerX centerZ).foldl
            (fun w target => queueChunk w target.1 target.2.1) v))).pendingChunkGeneration) := by
  have hd1 : chunkDistance (cx, cz).1 (cx, cz).2 centerX centerZ ≤ cfg.UNLOAD_DISTANCE + 1 := by
    change chunkDistance cx cz _ _ ≤ _
    omega
  have hmid := queueTargets_pending cfg v centerX centerZ cx cz hd hl
  constructor
  · exact (prunePending_keeps cfg _ _ _ (cx, cz) hd1).1 hmid
  · intro hc
    exact (prunePending_keeps cfg _ _ _ (cx, cz) hd1).2
      ((queueTargets_spec _ _).2.2.2 hc _ hmid)

/-- C24. Eviction by Chebyshev distance: assuming `VIEW_DISTANCE ≤ UNLOAD_DISTANCE`, after
`requestChunksAroundWorldPosition(x, z)` a chunk `(cx, cz)` that was loaded before the call
is still loaded if and only if `max(|cx - centerX|, |cz - centerZ|) ≤ UNLOAD_DISTANCE`,
`(centerX, centerZ)` being the chunk that contains `(x, z)`; and every chunk within
`VIEW_DISTANCE` of the centre is then loaded, or it is in `pendingChunkSet`, and also in the
array `pendingChunkGeneration` when every key of the set was in the array before the call. -/
theorem eviction_by_distance (cfg : Config) (w : VoxelWorld) (x z : Int)
    (hv : cfg.VIEW_DISTANCE ≤ cfg.UNLOAD_DISTANCE) :
    (∀ cx cz : Int, hasChunk w cx cz = true →
      (hasChunk (requestChunksAroundWorldPosition cfg w x z) cx cz = true ↔
        max |cx - worldToChunkCoord cfg x| |cz - worldToChunkCoord cfg z| ≤
          cfg.UNLOAD_DISTANCE)) ∧
    (∀ cx cz : Int,
      max |cx - worldToChunkCoord cfg x| |cz - worldToChunkCoord cfg z| ≤ cfg.VIEW_DISTANCE →
      hasChunk (requestChunksAroundWorldPosition cfg w x z) cx cz = true ∨
      ((cx, cz) ∈ (requestChunksAroundWorldPosition cfg w x z).pendingChunkSet ∧
        ((∀ k ∈ w.pendingChunkSet, k ∈ w.pendingChunkGeneration) →
          (cx, cz) ∈ (requestChunksAroundWorldPosition cfg w x z).pendingChunkGeneration))) := by
  constructor
  · intro cx cz hl
    unfold hasChunk at hl ⊢
    rw [request_chunks]
    obtain ⟨c, hc⟩ := Option.isSome_iff_exists.1 hl
    rw [hc]
    simp only []
    change _ ↔ chunkDistance cx cz _ _ ≤ _
    by_cases h1 : (cx, cz) ∈ neededChunks cfg (worldToChunkCoord cfg x) (worldToChunkCoord cfg z)
    · rw [if_pos h1]
      have := (mem_neededChunks _ _ _ _ _).1 h1
      simp only [Option.isSome_some, true_iff]
      omega
    · rw [if_neg h1]
      by_cases h2 : chunkDistance cx cz (worldToChunkCoord cfg x) (worldToChunkCoord cfg z) >
          cfg.UNLOAD_DISTANCE
      · rw [if_pos h2]
        simp only [Option.isSome_none, Bool.false_eq_true, false_iff]
        omega
      · rw [if_neg h2]
        simp only [Option.isSome_some, true_iff]
        omega
  · intro cx cz hd
    change chunkDistance cx cz _ _ ≤ _ at hd
    cases hl : hasChunk w cx cz
    · right
      unfold requestChunksAroundWorldPosition
      refine request_pending cfg _ _ _ cx cz hv hd ?_
      exact hl
    · left
      unfold hasChunk at hl ⊢
      rw [request_chunks]
      obtain ⟨c, hc⟩ := Option.isSome_iff_exists.1 hl
      rw [hc]
      simp only []
      rw [if_pos ((mem_neededChunks _ _ _ _ _).2 hd)]
      rfl

theorem eviction_by_distance_witness :
    sampleConfig.VIEW_DISTANCE ≤ sampleConfig.UNLOAD_DISTANCE ∧
    hasChunk farWorld 9 0 = true ∧
    (hasChunk (requestChunksAroundWorldPosition sampleConfig farWorld 5 5) 9 0 = true ↔
      max |9 - worldToChunkCoord sampleConfig 5| |0 - worldToChunkCoord sampleConfig 5| ≤
        sampleConfig.UNLOAD_DISTANCE) ∧
    (hasChunk (requestChunksAroundWorldPosition sampleConfig farWorld 5 5) 1 1 = true ∨
      ((1, 1) ∈ (requestChunksAroundWorldPosition sampleConfig farWorld 5 5).pendingChunkSet ∧
        ((∀ k ∈ farWorld.pendingChunkSet, k ∈ farWorld.pendingChunkGeneration) →
          (1, 1) ∈
            (requestChunksAroundWorldPosition sampleConfig farWorld 5 5).pendingChunkGeneration))) :=
  ⟨by decide, by decide,
    (eviction_by_distance sampleConfig farWorld 5 5 (by decide)).1 9 0 (by decide),
    (eviction_by_distance sampleConfig farWorld 5 5 (by decide)).2 1 1 (by decide)⟩

/-! ## Claims on the persisted overlay -/

theorem mapGet_mapSet_other {κ ν : Type} [DecidableEq κ] (m : List (κ × ν)) (k k' : κ) (v : ν)
    (hne : k' ≠ k) : mapGet (mapSet m k v) k' = mapGet m k' := by
  induction m with
  | nil => simp [mapSet, mapGet, Ne.symm hne]
  | cons p rest ih =>
    obtain ⟨k1, v1⟩ := p
    by_cases h : k1 = k
    · subst h
      simp [mapSet, mapGet, Ne.symm hne]
    · by_cases h' : k1 = k'
      · subst h'
        simp [mapSet, mapGet, h]
      · simp [mapSet, mapGet, h, h', ih]

theorem loadEntry_fields (s : String → Option Int) (changes : List (Cell × Int))
    (e : PersistedEntry) (lx y lz id : Int) (h : entryFields s e = some (lx, y, lz, id)) :
    loadEntry s changes e = mapSet changes (lx, y, lz) id := by
  unfold loadEntry
  rw [h]

theorem loadEntry_other (s : String → Option Int) (changes : List (Cell × Int))
    (e : PersistedEntry) (c : Cell)
    (hne : ∀ id : Int, entryFields s e ≠ some (c.1, c.2.1, c.2.2, id)) :
    mapGet (loadEntry s changes e) c = mapGet changes c := by
  unfold loadEntry
  cases hf : entryFields s e with
  | none => rfl
  | some r =>
    obtain ⟨lx, y, lz, id⟩ := r
    simp only []
    apply mapGet_mapSet_other
    intro hc
    apply hne id
    rw [hf, hc]

theorem loadEntry_fold_other (s : String → Option Int) (c : Cell) :
    ∀ (items : List PersistedEntry) (changes : List (Cell × Int)),
      (∀ e ∈ items, ∀ id : Int, entryFields s e ≠ some (c.1, c.2.1, c.2.2, id)) →
      mapGet (items.foldl (loadEntry s) changes) c = mapGet changes c := by
  intro items
  induction items with
  | nil => intro changes _; rfl
  | cons e rest ih =>
    intro changes hne
    rw [List.foldl_cons, ih _ (fun e' he' => hne e' (List.mem_cons_of_mem _ he'))]
    exact loadEntry_other s changes e c (hne e (List.mem_cons_self _ _))

theorem loadEditsLoop_other (s : String → Option Int) (key : ChunkKey) :
    ∀ (blob : List (ChunkKey × PersistedValue)) (edits result : List (ChunkKey × List (Cell × Int))),
      loadEditsLoop s edits blob = some result → key ∉ blob.map Prod.fst →
      mapGet result key = mapGet edits key := by
  intro blob
  induction blob with
  | nil =>
    intro edits result hr _
    unfold loadEditsLoop at hr
    cases hr
    rfl
  | cons p rest ih =>
    intro edits result hr hk
    obtain ⟨k1, v1⟩ := p
    cases v1 with
    | notIterable => simp [loadEditsLoop] at hr
    | entries items =>
      simp only [loadEditsLoop] at hr
      rw [List.map_cons, List.mem_cons, not_or] at hk
      rw [ih _ _ hr hk.2]
      exact mapGet_mapSet_other _ _ _ _ hk.1

theorem loadEditsLoop_some (s : String → Option Int) :
    ∀ (blob : List (ChunkKey × PersistedValue)) (edits : List (ChunkKey × List (Cell × Int))),
      (∀ p ∈ blob, p.2 ≠ PersistedValue.notIterable) →
      ∃ result, loadEditsLoop s edits blob = some result := by
  intro blob
  induction blob with
  | nil => intro edits _; exact ⟨edits, rfl⟩
  | cons p rest ih =>
    intro edits hall
    obtain ⟨k1, v1⟩ := p
    cases v1 with
    | notIterable => exact absurd rfl (hall _ (List.mem_cons_self _ _))
    | entries items =>
      simp only [loadEditsLoop]
      exact ih _ (fun p hp => hall p (List.mem_cons_of_mem _ hp))

theorem loadEditsLoop_entry (s : String → Option Int) (key : ChunkKey)
    (items : List PersistedEntry) :
    ∀ (blob : List (ChunkKey × PersistedValue)) (edits result : List (ChunkKey × List (Cell × Int))),
      loadEditsLoop s edits blob = some result → (blob.map Prod.fst).Nodup →
      (key, PersistedValue.entries items) ∈ blob →
      mapGet result key = some (items.foldl (loadEntry s) []) := by
  intro blob
  induction blob with
  | nil => intro edits result _ _ hm; exact absurd hm (List.not_mem_nil _)
  | cons p rest ih =>
    intro edits result hr hnd hm
    obtain ⟨k1, v1⟩ := p
    rw [List.map_cons, List.nodup_cons] at hnd
    rcases List.mem_cons.1 hm with e | e
    · cases e
      simp only [loadEditsLoop] at hr
      rw [loadEditsLoop_other s key rest _ result hr hnd.1]
      exact mapGet_mapSet_same _ _ _
    · cases v1 with
      | notIterable => simp [loadEditsLoop] at hr
      | entries items1 =>
        simp only [loadEditsLoop] at hr
        exact ih _ _ hr hnd.2 e

theorem entryFields_tuple (s : String → Option Int) (fields : List JsonValue) :
    entryFields s (PersistedEntry.tuple fields) =
      if fields.length ≠ 4 then none
      else
        match fields.map (JsonValue.toNumber s) with
        | [some lx, some y, some lz, some id] => some (lx, y, lz, id)
        | _ => none := rfl

theorem entryFields_nan (s : String → Option Int) (fields : List JsonValue)
    (h : ∃ f ∈ fields, JsonValue.toNumber s f = none) :
    entryFields s (PersistedEntry.tuple fields) = none := by
  rw [entryFields_tuple]
  by_cases hl : fields.length ≠ 4
  · rw [if_pos hl]
  · rw [if_neg hl]
    obtain ⟨f, hf, hnan⟩ := h
    match fields, hl, hf with
    | [a, b, c, d], _, hf =>
      simp only [List.mem_cons, List.mem_singleton, List.not_mem_nil, or_false] at hf
      simp only [List.map_cons, List.map_nil]
      rcases hf with e | e | e | e <;> subst e <;> rw [hnan] <;> split <;> simp_all
    | [], hl, _ => simp at hl
    | [_], hl, _ => simp at hl
    | [_, _], hl, _ => simp at hl
    | [_, _, _], hl, _ => simp at hl
    | _ :: _ :: _ :: _ :: _ :: _, hl, _ => simp at hl

/-- C22, as the code has it, fails twice.  A chunk value that is not iterable makes
`loadEdits` clear the whole overlay: the blob holds the well-formed tuple `[1, 2, 3, 4]`
under the chunk `(0, 0)` and a value that is not iterable under the chunk `(1, 0)`, and
nothing is loaded, while the same blob without the second key loads the tuple.  And a tuple
with a field that is not a number is not always discarded: in the list
`[[0, 0, 0, 7], [null, 0, 0, 1]]` the second entry is read as `[0, 0, 0, 1]`, since
`Number(null)` is 0, and replaces what the well-formed first entry has loaded. -/
theorem load_edits_counterexample :
    (loadEdits sampleStringToNumber airWorld (PersistedRaw.parsed
      [((0, 0), PersistedValue.entries
          [PersistedEntry.tuple [JsonValue.number 1, JsonValue.number 2, JsonValue.number 3,
            JsonValue.number 4]]),
        ((1, 0), PersistedValue.notIterable)])).editsByChunk = [] ∧
    (loadEdits sampleStringToNumber airWorld (PersistedRaw.parsed
      [((0, 0), PersistedValue.entries
          [PersistedEntry.tuple [JsonValue.number 1, JsonValue.number 2, JsonValue.number 3,
            JsonValue.number 4]])])).editsByChunk =
      [((0, 0), [((1, 2, 3), 4)])] ∧
    (loadEdits sampleStringToNumber airWorld (PersistedRaw.parsed
      [((0, 0), PersistedValue.entries
          [PersistedEntry.tuple [JsonValue.number 0, JsonValue.number 0, JsonValue.number 0,
            JsonValue.number 7],
           PersistedEntry.tuple [JsonValue.null, JsonValue.number 0, JsonValue.number 0,
            JsonValue.number 1]])])).editsByChunk =
      [((0, 0), [((0, 0, 0), 1)])] := by
  refine ⟨?_, ?_, ?_⟩ <;> rfl

/-- C22, amended. Entries are discarded individually, by the guards of the code: for every
persisted blob that parses to a mapping from chunk key to value (one value for each key) in
which every chunk value can be iterated, the loop of `loadEdits` throws nothing, and the
overlay then holds for every chunk key of the blob exactly the entries that pass the guards (a
4-element array none of whose fields `Number` converts to NaN), read through `Number` and the
last one winning at a cell: such an entry is loaded unless a later entry of the same list
that passes the guards names the same cell, whatever other entries occur in the blob; a cell
that no passing entry names gets nothing; chunk keys outside the blob keep what the overlay
held.  An entry that is not an array, has not 4 elements or has a field converting to NaN
does not pass; `null` and `false` convert to 0 and `true` to 1, so an entry with such a field
passes.  A blob with a chunk value that cannot be iterated, and a text that does not parse,
leave the overlay empty. -/
theorem load_edits_recovery (s : String → Option Int) (w : VoxelWorld)
    (blob : List (ChunkKey × PersistedValue)) (hkeys : (blob.map Prod.fst).Nodup) :
    ((∀ p ∈ blob, p.2 ≠ PersistedValue.notIterable) →
      loadEditsLoop s w.editsByChunk blob =
        some (loadEdits s w (PersistedRaw.parsed blob)).editsByChunk ∧
      (∀ (key : ChunkKey) (items : List PersistedEntry),
        (key, PersistedValue.entries items) ∈ blob →
        ∃ changes, mapGet (loadEdits s w (PersistedRaw.parsed blob)).editsByChunk key =
            some changes ∧
          (∀ (before after : List PersistedEntry) (e : PersistedEntry) (lx y lz id : Int),
            items = before ++ e :: after → entryFields s e = some (lx, y, lz, id) →
            (∀ e' ∈ after, ∀ id' : Int, entryFields s e' ≠ some (lx, y, lz, id')) →
            mapGet changes (lx, y, lz) = some id) ∧
          (∀ c : Cell,
            (∀ e ∈ items, ∀ id : Int, entryFields s e ≠ some (c.1, c.2.1, c.2.2, id)) →
            mapGet changes c = none)) ∧
      (∀ key : ChunkKey, key ∉ blob.map Prod.fst →
        mapGet (loadEdits s w (PersistedRaw.parsed blob)).editsByChunk key =
          mapGet w.editsByChunk key)) ∧
    ((∃ p ∈ blob, p.2 = PersistedValue.notIterable) →
      (loadEdits s w (PersistedRaw.parsed blob)).editsByChunk = []) ∧
    (loadEdits s w PersistedRaw.unparsable).editsByChunk = [] ∧
    (entryFields s PersistedEntry.notArray = none ∧
      (∀ fields : List JsonValue, fields.length ≠ 4 →
        entryFields s (PersistedEntry.tuple fields) = none) ∧
      (∀ fields : List JsonValue, (∃ f ∈ fields, JsonValue.toNumber s f = none) →
        entryFields s (PersistedEntry.tuple fields) = none) ∧
      (∀ (a b c d : JsonValue) (lx y lz id : Int),
        JsonValue.toNumber s a = some lx → JsonValue.toNumber s b = some y →
        JsonValue.toNumber s c = some lz → JsonValue.toNumber s d = some id →
        entryFields s (PersistedEntry.tuple [a, b, c, d]) = some (lx, y, lz, id))) ∧
    (JsonValue.toNumber s JsonValue.null = some 0 ∧
      JsonValue.toNumber s (JsonValue.bool false) = some 0 ∧
      JsonValue.toNumber s (JsonValue.bool true) = some 1 ∧
      ∀ n : Int, JsonValue.toNumber s (JsonValue.number n) = some n) := by
  refine ⟨?_, ?_, rfl, ⟨rfl, ?_, entryFields_nan s, ?_⟩, ⟨rfl, rfl, rfl, fun _ => rfl⟩⟩
  · intro hall
    obtain ⟨result, hr⟩ := loadEditsLoop_some s blob w.editsByChunk hall
    have hload : (loadEdits s w (PersistedRaw.parsed blob)).editsByChunk = result := by
      unfold loadEdits
      simp only [hr]
    rw [hload]
    refine ⟨hr, ?_, ?_⟩
    · intro key items hm
      refine ⟨_, loadEditsLoop_entry s key _ blob _ result hr hkeys hm, ?_, ?_⟩
      · intro before after e lx y lz id hitems he hlast
        rw [hitems, List.foldl_append, List.foldl_cons,
          loadEntry_fold_other s (lx, y, lz) after _ hlast, loadEntry_fields s _ e lx y lz id he]
        exact mapGet_mapSet_same _ _ _
      · intro c hc
        rw [loadEntry_fold_other s c items _ hc]
        rfl
    · intro key hk
      exact loadEditsLoop_other s key blob _ result hr hk
  · rintro ⟨p, hp, hbad⟩
    have hnone : ∀ (b : List (ChunkKey × PersistedValue))
        (edits : List (ChunkKey × List (Cell × Int))), p ∈ b →
        loadEditsLoop s edits b = none := by
      intro b
      induction b with
      | nil => intro edits hm; exact absurd hm (List.not_mem_nil _)
      | cons q rest ih =>
        intro edits hm
        obtain ⟨k1, v1⟩ := q
        cases v1 with
        | notIterable => rfl
        | entries items =>
          simp only [loadEditsLoop]
          rcases List.mem_cons.1 hm with e | e
          · rw [e] at hbad; cases hbad
          · exact ih _ e
    unfold loadEdits
    simp only [hnone blob _ hp]
  · intro fields hl
    rw [entryFields_tuple, if_pos hl]
  · intro a b c d lx y lz id ha hb hc hd
    rw [entryFields_tuple, if_neg (by simp)]
    simp only [List.map_cons, List.map_nil, ha, hb, hc, hd]

theorem load_edits_recovery_witness :
    (sampleBlob.map Prod.fst).Nodup ∧
    ∃ changes, mapGet (loadEdits sampleStringToNumber airWorld
        (PersistedRaw.parsed sampleBlob)).editsByChunk (0, 0) = some changes ∧
      mapGet changes (1, 2, 3) = some 4 ∧ mapGet changes (1, 0, 3) = none :=
  ⟨by decide,
    (((load_edits_recovery sampleStringToNumber airWorld sampleBlob (by decide)).1
      (by simp [sampleBlob])).2.1 (0, 0) sampleItems (by simp [sampleBlob])).imp
      (fun changes h => ⟨h.1,
        h.2.1 [PersistedEntry.notArray]
          [PersistedEntry.tuple [JsonValue.number 1, JsonValue.text "stone",
            JsonValue.number 3, JsonValue.number 9]]
          (PersistedEntry.tuple [JsonValue.number 1, JsonValue.number 2, JsonValue.number 3,
            JsonValue.number 4]) 1 2 3 4 rfl rfl
          (by simp [entryFields, JsonValue.toNumber, sampleStringToNumber]),
        h.2.2 (1, 0, 3)
          (by simp [sampleItems, entryFields, JsonValue.toNumber, sampleStringToNumber])⟩)⟩

/-! ## Claims on the coordinate split and on the components that emit forward -/

/-- C40. World-to-chunk coordinate split: for every integer `x`, negative ones included, and
every `CHUNK_SIZE > 0`, `0 <= worldToLocalCoord(x) < CHUNK_SIZE` and
`worldToChunkCoord(x) * CHUNK_SIZE + worldToLocalCoord(x) = x`; so two world cells with the
same chunk coordinates and the same local cell, given by its local coordinates or by its
index `VoxelChunk.index` in the block array, are the same cell. -/
theorem world_chunk_split (cfg : Config) (h : 0 < cfg.CHUNK_SIZE) (x : Int) :
    (0 ≤ worldToLocalCoord cfg x ∧ worldToLocalCoord cfg x < cfg.CHUNK_SIZE) ∧
    worldToChunkCoord cfg x * cfg.CHUNK_SIZE + worldToLocalCoord cfg x = x ∧
    (∀ x' : Int, worldToChunkCoord cfg x' = worldToChunkCoord cfg x →
      worldToLocalCoord cfg x' = worldToLocalCoord cfg x → x' = x) ∧
    (∀ y z x' y' z' : Int,
      worldToChunkCoord cfg x' = worldToChunkCoord cfg x →
      worldToChunkCoord cfg z' = worldToChunkCoord cfg z →
      VoxelChunk.index cfg (worldToLocalCoord cfg x') y' (worldToLocalCoord cfg z') =
        VoxelChunk.index cfg (worldToLocalCoord cfg x) y (worldToLocalCoord cfg z) →
      x' = x ∧ y' = y ∧ z' = z) := by
  refine ⟨worldToLocalCoord_range cfg h x, world_coord_split cfg h x, ?_, ?_⟩
  · intro x' hc hl
    exact world_coord_inj cfg h x' x hc hl
  · intro y z x' y' z' hcx hcz hi
    obtain ⟨e1, e2, e3⟩ := index_inj cfg h _ _ _ _ _ _ (worldToLocalCoord_range cfg h x')
      (worldToLocalCoord_range cfg h z') (worldToLocalCoord_range cfg h x)
      (worldToLocalCoord_range cfg h z) hi
    exact ⟨world_coord_inj cfg h x' x hcx e1, e2, world_coord_inj cfg h z' z hcz e3⟩

theorem world_chunk_split_witness :
    (0 ≤ worldToLocalCoord sampleConfig (-1) ∧
      worldToLocalCoord sampleConfig (-1) < sampleConfig.CHUNK_SIZE) ∧
    worldToChunkCoord sampleConfig (-1) * sampleConfig.CHUNK_SIZE +
      worldToLocalCoord sampleConfig (-1) = -1 ∧
    (∀ x' : Int, worldToChunkCoord sampleConfig x' = worldToChunkCoord sampleConfig (-1) →
      worldToLocalCoord sampleConfig x' = worldToLocalCoord sampleConfig (-1) → x' = -1) ∧
    (∀ y z x' y' z' : Int,
      worldToChunkCoord sampleConfig x' = worldToChunkCoord sampleConfig (-1) →
      worldToChunkCoord sampleConfig z' = worldToChunkCoord sampleConfig z →
      VoxelChunk.index sampleConfig (worldToLocalCoord sampleConfig x') y'
          (worldToLocalCoord sampleConfig z') =
        VoxelChunk.index sampleConfig (worldToLocalCoord sampleConfig (-1)) y
          (worldToLocalCoord sampleConfig z) →
      x' = -1 ∧ y' = y ∧ z' = z) :=
  world_chunk_split sampleConfig (by decide) (-1)

/-- C33. Repeater and comparator emit only forward: for a powered repeater id,
`getDirectSignalFromBlock` returns `weak = strong = 15` when the target is the source cell
moved by the unit vector of the repeater's facing, in the same layer, and `weak = strong = 0`
for every other target; an unpowered repeater returns 0 to every target; a comparator with
output `o` returns `weak = strong = o` to the cell it faces and 0 to every other target. -/
theorem forward_emission (id sx sy sz tx ty tz : Int) :
    (isRepeater id = true → isRepeaterPowered id = true →
      getDirectSignalFromBlock id sx sy sz tx ty tz =
        if ty = sy ∧ tx = sx + (getHorizontalDirVector (getRepeaterDir id)).dx ∧
            tz = sz + (getHorizontalDirVector (getRepeaterDir id)).dz then ⟨15, 15⟩
        else ⟨0, 0⟩) ∧
    (isRepeater id = true → isRepeaterPowered id = false →
      getDirectSignalFromBlock id sx sy sz tx ty tz = ⟨0, 0⟩) ∧
    (isComparator id = true →
      getDirectSignalFromBlock id sx sy sz tx ty tz =
        if ty = sy ∧ tx = sx + (getHorizontalDirVector (getComparatorDir id)).dx ∧
            tz = sz + (getHorizontalDirVector (getComparatorDir id)).dz then
          ⟨getComparatorOutput id, getComparatorOutput id⟩
        else ⟨0, 0⟩) := by
  obtain ⟨_, f2, f3, f4, _, _⟩ := family_ranges id
  refine ⟨?_, ?_, ?_⟩
  · intro hr hp
    have hr' := f3.1 hr
    have hnb : id ≠ BLOCK.REDSTONE_BLOCK := by simp only [BLOCK]; omega
    have hnd : isRedstoneDust id = false := by
      cases hd : isRedstoneDust id
      · rfl
      · have := f2.1 hd; omega
    unfold getDirectSignalFromBlock
    simp only [if_neg hnb, hnd, hr, hp, Bool.false_eq_true, if_false, if_true, Bool.not_true]
    by_cases hc : ty = sy ∧ tx = sx + (getHorizontalDirVector (getRepeaterDir id)).dx ∧
        tz = sz + (getHorizontalDirVector (getRepeaterDir id)).dz
    · rw [if_pos hc, if_pos (by omega)]
    · rw [if_neg hc, if_neg (by omega)]
  · intro hr hp
    have hr' := f3.1 hr
    have hnb : id ≠ BLOCK.REDSTONE_BLOCK := by simp only [BLOCK]; omega
    have hnd : isRedstoneDust id = false := by
      cases hd : isRedstoneDust id
      · rfl
      · have := f2.1 hd; omega
    unfold getDirectSignalFromBlock
    simp only [if_neg hnb, hnd, hr, hp, Bool.false_eq_true, if_false, if_true, Bool.not_false]
  · intro hcmp
    have hc' := f4.1 hcmp
    have hnb : id ≠ BLOCK.REDSTONE_BLOCK := by simp only [BLOCK]; omega
    have hnd : isRedstoneDust id = false := by
      cases hd : isRedstoneDust id
      · rfl
      · have := f2.1 hd; omega
    have hnr : isRepeater id = false := by
      cases hd : isRepeater id
      · rfl
      · have := f3.1 hd; omega
    have ho := getComparatorOutput_range id
    unfold getDirectSignalFromBlock
    simp only [if_neg hnb, hnd, hnr, hcmp, Bool.false_eq_true, if_false, if_true]
    by_cases hz : getComparatorOutput id ≤ 0
    · have e0 : getComparatorOutput id = 0 := by omega
      rw [if_pos hz, e0]
      split <;> rfl
    · rw [if_neg hz]
      by_cases hc : ty = sy ∧ tx = sx + (getHorizontalDirVector (getComparatorDir id)).dx ∧
          tz = sz + (getHorizontalDirVector (getComparatorDir id)).dz
      · rw [if_pos hc, if_pos (by omega)]
      · rw [if_neg hc, if_neg (by omega)]

theorem forward_emission_witness :
    getDirectSignalFromBlock 39 5 1 5 6 1 5 =
        (if (1 : Int) = 1 ∧ (6 : Int) = 5 + (getHorizontalDirVector (getRepeaterDir 39)).dx ∧
            (5 : Int) = 5 + (getHorizontalDirVector (getRepeaterDir 39)).dz then ⟨15, 15⟩
        else ⟨0, 0⟩) ∧
    getDirectSignalFromBlock 38 5 1 5 6 1 5 = ⟨0, 0⟩ ∧
    getDirectSignalFromBlock 83 5 1 5 6 1 5 =
        (if (1 : Int) = 1 ∧ (6 : Int) = 5 + (getHorizontalDirVector (getComparatorDir 83)).dx ∧
            (5 : Int) = 5 + (getHorizontalDirVector (getComparatorDir 83)).dz then
          ⟨getComparatorOutput 83, getComparatorOutput 83⟩
        else ⟨0, 0⟩) :=
  ⟨(forward_emission 39 5 1 5 6 1 5).1 (by decide) (by decide),
    (forward_emission 38 5 1 5 6 1 5).2.1 (by decide) (by decide),
    (forward_emission 83 5 1 5 6 1 5).2.2 (by decide)⟩

/-! ## Claims on the power of a piston -/

theorem dirVector_cases (dir : Int) :
    getHorizontalDirVector dir = ⟨0, -1⟩ ∨ getHorizontalDirVector dir = ⟨1, 0⟩ ∨
    getHorizontalDirVector dir = ⟨0, 1⟩ ∨ getHorizontalDirVector dir = ⟨-1, 0⟩ := by
  unfold getHorizontalDirVector HORIZONTAL_DIR_LOOKUP
  split_ifs <;> simp

theorem isPistonPoweredLoop_iff (cfg : Config) (w : VoxelWorld) (x y z : Int) (front : DirVec) :
    ∀ L : List (Int × Int × Int),
      isPistonPoweredLoop cfg w x y z front L = true ↔
        ∃ o ∈ L, o ≠ (front.dx, 0, front.dz) ∧
          getSignalFromSourceToTarget cfg w (x + o.1) (y + o.2.1) (z + o.2.2) x y z > 0 := by
  intro L
  induction L with
  | nil => simp [isPistonPoweredLoop]
  | cons a rest ih =>
    obtain ⟨a1, a2, a3⟩ := a
    unfold isPistonPoweredLoop
    by_cases hf : a2 = 0 ∧ a1 = front.dx ∧ a3 = front.dz
    · rw [if_pos hf, ih]
      constructor
      · rintro ⟨o, ho, h1, h2⟩
        exact ⟨o, List.mem_cons_of_mem _ ho, h1, h2⟩
      · rintro ⟨o, ho, h1, h2⟩
        rcases List.mem_cons.1 ho with e | e
        · exfalso
          apply h1
          rw [e, hf.1, hf.2.1, hf.2.2]
        · exact ⟨o, e, h1, h2⟩
    · rw [if_neg hf]
      simp only []
      by_cases hs : getSignalFromSourceToTarget cfg w (x + a1) (y + a2) (z + a3) x y z > 0
      · rw [if_pos hs]
        simp only [true_iff]
        refine ⟨(a1, a2, a3), List.mem_cons_self _ _, ?_, hs⟩
        intro e
        simp only [Prod.mk.injEq] at e
        exact hf ⟨e.2.1, e.1, e.2.2⟩
      · rw [if_neg hs, ih]
        constructor
        · rintro ⟨o, ho, h1, h2⟩
          exact ⟨o, List.mem_cons_of_mem _ ho, h1, h2⟩
        · rintro ⟨o, ho, h1, h2⟩
          rcases List.mem_cons.1 ho with e | e
          · rw [e] at h2; exact absurd h2 hs
          · exact ⟨o, e, h1, h2⟩

/-- The front cell of a piston is neither another neighbour of the piston cell nor a
neighbour of one. -/
theorem front_not_near (dir : Int) (o o' : Int × Int × Int)
    (ho : o ∈ ALL_NEIGHBOR_OFFSETS) (ho' : o' ∈ ALL_NEIGHBOR_OFFSETS)
    (hne : o ≠ ((getHorizontalDirVector dir).dx, 0, (getHorizontalDirVector dir).dz)) :
    ¬ (o.1 + o'.1 = (getHorizontalDirVector dir).dx ∧ o.2.1 + o'.2.1 = 0 ∧
      o.2.2 + o'.2.2 = (getHorizontalDirVector dir).dz) := by
  obtain ⟨a1, a2, a3⟩ := o
  obtain ⟨b1, b2, b3⟩ := o'
  simp only [ALL_NEIGHBOR_OFFSETS, List.mem_cons, Prod.mk.injEq, List.mem_singleton,
    List.not_mem_nil, or_false] at ho ho'
  simp only [ne_eq, Prod.mk.injEq] at hne
  rcases dirVector_cases dir with e | e | e | e <;> rw [e] at hne ⊢ <;> simp only [] at hne ⊢ <;>
    omega

/-- C31. Piston power excludes the front: for every piston cell `(x, y, z)` and facing
`dir`, `isPistonPowered` is true if and only if one of the neighbours other than the cell
directly in front, of which there are five, delivers a signal greater than 0 to the piston
cell; and a world that differs from this one in the front cell alone gives the same
result. -/
theorem piston_power_excludes_front (cfg : Config) (w : VoxelWorld) (x y z dir : Int) :
    (isPistonPowered cfg w x y z dir = true ↔
      ∃ o ∈ ALL_NEIGHBOR_OFFSETS,
        o ≠ ((getHorizontalDirVector dir).dx, 0, (getHorizontalDirVector dir).dz) ∧
        getSignalFromSourceToTarget cfg w (x + o.1) (y + o.2.1) (z + o.2.2) x y z > 0) ∧
    (ALL_NEIGHBOR_OFFSETS.filter (fun o =>
      decide (o ≠ ((getHorizontalDirVector dir).dx, 0, (getHorizontalDirVector dir).dz)))).length
        = 5 ∧
    (∀ w' : VoxelWorld,
      (∀ a b c : Int,
        ¬ (a = x + (getHorizontalDirVector dir).dx ∧ b = y ∧
          c = z + (getHorizontalDirVector dir).dz) →
        getBlock cfg w' a b c = getBlock cfg w a b c) →
      isPistonPowered cfg w' x y z dir = isPistonPowered cfg w x y z dir) := by
  refine ⟨isPistonPoweredLoop_iff cfg w x y z _ _, ?_, ?_⟩
  · rcases dirVector_cases dir with e | e | e | e <;> rw [e] <;> decide
  · intro w' hsame
    have key : ∀ o ∈ ALL_NEIGHBOR_OFFSETS,
        o ≠ ((getHorizontalDirVector dir).dx, 0, (getHorizontalDirVector dir).dz) →
        getSignalFromSourceToTarget cfg w' (x + o.1) (y + o.2.1) (z + o.2.2) x y z =
          getSignalFromSourceToTarget cfg w (x + o.1) (y + o.2.1) (z + o.2.2) x y z := by
      intro o ho hne
      apply signal_local
      · apply hsame
        intro hh
        apply hne
        obtain ⟨a1, a2, a3⟩ := o
        simp only [Prod.mk.injEq]
        simp only at hh
        omega
      · intro o' ho'
        apply hsame
        intro hh
        apply front_not_near dir o o' ho ho' hne
        omega
    have hiff : isPistonPowered cfg w' x y z dir = true ↔
        isPistonPowered cfg w x y z dir = true := by
      unfold isPistonPowered
      rw [isPistonPoweredLoop_iff, isPistonPoweredLoop_iff]
      constructor
      · rintro ⟨o, ho, h1, h2⟩
        exact ⟨o, ho, h1, by rw [← key o ho h1]; exact h2⟩
      · rintro ⟨o, ho, h1, h2⟩
        exact ⟨o, ho, h1, by rw [key o ho h1]; exact h2⟩
    cases h1 : isPistonPowered cfg w' x y z dir <;>
      cases h2 : isPistonPowered cfg w x y z dir <;> simp_all

theorem piston_power_excludes_front_witness :
    isPistonPowered sampleConfig poweredPistonWorld 5 1 5 1 = true ∧
    isPistonPowered sampleConfig
        (setBlock sampleConfig poweredPistonWorld 6 1 5 184 internalWrite).1 5 1 5 1 =
      isPistonPowered sampleConfig poweredPistonWorld 5 1 5 1 :=
  ⟨(piston_power_excludes_front sampleConfig poweredPistonWorld 5 1 5 1).1.2
      ⟨(0, 0, 1), by decide, by decide, by decide⟩,
    (piston_power_excludes_front sampleConfig poweredPistonWorld 5 1 5 1).2.2 _
      (fun a b c hne => getBlock_setBlock_other sampleConfig (by decide) poweredPistonWorld
        6 1 5 184 internalWrite a b c hne)⟩

/-! ## Claims on the retraction of a piston -/

theorem getPistonDir_eq (id : Int) (h : isPiston id = true) :
    getPistonDir id = (id - 172) / 2 := by
  unfold getPistonDir
  rw [h]
  simp only [Bool.not_true, Bool.false_eq_true, if_false, BLOCK]
  exact Int.fdiv_eq_ediv _ (by decide)

theorem piston_decode (id : Int) (h : isPiston id = true) :
    (0 ≤ getPistonDir id ∧ getPistonDir id < 4) ∧
    ∀ e : Bool, isPiston (makePistonId (getPistonDir id) e) = true ∧
      isPistonExtended (makePistonId (getPistonDir id) e) = e ∧
      getPistonDir (makePistonId (getPistonDir id) e) = getPistonDir id := by
  have hr := (family_ranges id).2.2.2.2.1.1 h
  have hdir := getPistonDir_eq id h
  have hd : 0 ≤ getPistonDir id ∧ getPistonDir id < 4 := by rw [hdir]; omega
  refine ⟨hd, ?_⟩
  intro e
  have hm : makePistonId (getPistonDir id) e = 172 + getPistonDir id * 2 +
      (if e = true then 1 else 0) := by
    unfold makePistonId
    rw [normalizeHorizontalDir_of_range _ hd.1 hd.2]
  have hb : (e = true ∧ (if e = true then (1 : Int) else 0) = 1) ∨
      (e = false ∧ (if e = true then (1 : Int) else 0) = 0) := by
    cases e
    · right; exact ⟨rfl, rfl⟩
    · left; exact ⟨rfl, rfl⟩
  generalize (if e = true then (1 : Int) else 0) = b at hm hb
  have hp : isPiston (makePistonId (getPistonDir id) e) = true := by
    apply (family_ranges _).2.2.2.2.1.2
    rw [hm]; omega
  refine ⟨hp, ?_, ?_⟩
  · unfold isPistonExtended
    rw [hp, hm]
    simp only [Bool.not_true, Bool.false_eq_true, if_false, BLOCK]
    rcases hb with ⟨h1, h2⟩ | ⟨h1, h2⟩
    · rw [h1, decide_eq_true_eq]; omega
    · rw [h1, decide_eq_false_iff_not]; omega
  · rw [getPistonDir_eq _ hp, hm]
    omega

/-- C32. Piston retraction: for a piston at `(x, y, z)` with facing `dir`, extended or not,
`tryRetractPiston(x, y, z, dir)` returns true and leaves the piston cell holding the
retracted piston of the same facing; the front cell becomes air if it held a piston head of
the same facing and is otherwise as it was; every other cell of the world, a block pushed
earlier included, is as it was. -/
theorem piston_retraction (cfg : Config) (hcs : 0 < cfg.CHUNK_SIZE) (w : VoxelWorld)
    (x y z : Int) (hp : isPiston (getBlock cfg w x y z) = true) :
    (tryRetractPiston cfg w x y z (getPistonDir (getBlock cfg w x y z))).2 = true ∧
    getBlock cfg (tryRetractPiston cfg w x y z (getPistonDir (getBlock cfg w x y z))).1 x y z =
      makePistonId (getPistonDir (getBlock cfg w x y z)) false ∧
    (isPiston (makePistonId (getPistonDir (getBlock cfg w x y z)) false) = true ∧
      isPistonExtended (makePistonId (getPistonDir (getBlock cfg w x y z)) false) = false ∧
      getPistonDir (makePistonId (getPistonDir (getBlock cfg w x y z)) false) =
        getPistonDir (getBlock cfg w x y z)) ∧
    getBlock cfg (tryRetractPiston cfg w x y z (getPistonDir (getBlock cfg w x y z))).1
        (x + (getHorizontalDirVector (getPistonDir (getBlock cfg w x y z))).dx) y
        (z + (getHorizontalDirVector (getPistonDir (getBlock cfg w x y z))).dz) =
      (if isPistonHead (getBlock cfg w
            (x + (getHorizontalDirVector (getPistonDir (getBlock cfg w x y z))).dx) y
            (z + (getHorizontalDirVector (getPistonDir (getBlock cfg w x y z))).dz)) = true ∧
          getPistonHeadDir (getBlock cfg w
            (x + (getHorizontalDirVector (getPistonDir (getBlock cfg w x y z))).dx) y
            (z + (getHorizontalDirVector (getPistonDir (getBlock cfg w x y z))).dz)) =
            getPistonDir (getBlock cfg w x y z) then BLOCK.AIR
        else getBlock cfg w
          (x + (getHorizontalDirVector (getPistonDir (getBlock cfg w x y z))).dx) y
          (z + (getHorizontalDirVector (getPistonDir (getBlock cfg w x y z))).dz)) ∧
    (∀ a b c : Int, ¬ (a = x ∧ b = y ∧ c = z) →
      ¬ (a = x + (getHorizontalDirVector (getPistonDir (getBlock cfg w x y z))).dx ∧ b = y ∧
        c = z + (getHorizontalDirVector (getPistonDir (getBlock cfg w x y z))).dz) →
      getBlock cfg (tryRetractPiston cfg w x y z (getPistonDir (getBlock cfg w x y z))).1 a b c =
        getBlock cfg w a b c) := by
  obtain ⟨hdir, hdec⟩ := piston_decode _ hp
  generalize hid : getBlock cfg w x y z = id at *
  generalize hdv : getPistonDir id = dir at *
  have hnz := dirVector_nonzero dir
  generalize hfv : getHorizontalDirVector dir = front at *
  have hpl : cellLoaded cfg w x y z := by
    apply cellLoaded_of_getBlock_ne
    rw [hid]
    have := (family_ranges id).2.2.2.2.1.1 hp
    simp only [BLOCK]; omega
  have hfne : ¬ (x + front.dx = x ∧ y = y ∧ z + front.dz = z) := by
    rintro ⟨h1, _, h3⟩
    rcases hnz with h | h <;> omega
  have hrange := makePistonId_range dir false
  have hmod : makePistonId dir false % 256 = makePistonId dir false := by omega
  have hres : tryRetractPiston cfg w x y z dir =
      (enqueueRedstoneNeighbors cfg (setBlock cfg
        (if isPistonHead (getBlock cfg w (x + front.dx) y (z + front.dz)) = true ∧
            getPistonHeadDir (getBlock cfg w (x + front.dx) y (z + front.dz)) = dir then
          enqueueFluidNeighbors cfg (enqueueRedstoneNeighbors cfg
            (setBlock cfg w (x + front.dx) y (z + front.dz) BLOCK.AIR internalWrite).1
            (x + front.dx) y (z + front.dz)) (x + front.dx) y (z + front.dz)
        else w) x y z (makePistonId dir false) internalWrite).1 x y z, true) := by
    unfold tryRetractPiston
    simp only [hfv]
  rw [hres]
  refine ⟨rfl, ?_, ⟨(hdec false).1, (hdec false).2.1, (hdec false).2.2⟩, ?_, ?_⟩ <;>
    simp only [getBlock_enqueueRedstoneNeighbors]
  · rw [getBlock_setBlock_same cfg hcs _ _ _ _ _ _ ?_, hmod]
    split
    · rw [cellLoaded_of_chunks_eq cfg _ (setBlock cfg w (x + front.dx) y (z + front.dz)
        BLOCK.AIR internalWrite).1 (by simp), cellLoaded_setBlock]
      exact hpl
    · exact hpl
  · rw [getBlock_setBlock_other cfg hcs _ _ _ _ _ _ _ _ _ hfne]
    by_cases hh : isPistonHead (getBlock cfg w (x + front.dx) y (z + front.dz)) = true ∧
        getPistonHeadDir (getBlock cfg w (x + front.dx) y (z + front.dz)) = dir
    · rw [if_pos hh, if_pos hh]
      simp only [getBlock_enqueueFluidNeighbors, getBlock_enqueueRedstoneNeighbors]
      rw [getBlock_setBlock_same cfg hcs]
      · rfl
      · apply cellLoaded_of_getBlock_ne
        have := (family_ranges _).2.2.2.2.2.1 hh.1
        simp only [BLOCK]; omega
    · rw [if_neg hh, if_neg hh]
  · intro a b c h1 h2
    rw [getBlock_setBlock_other cfg hcs _ _ _ _ _ _ _ _ _ h1]
    split
    · simp only [getBlock_enqueueFluidNeighbors, getBlock_enqueueRedstoneNeighbors]
      exact getBlock_setBlock_other cfg hcs _ _ _ _ _ _ _ _ _ h2
    · rfl

set_option maxRecDepth 100000 in
theorem piston_retraction_witness :
    isPiston (getBlock sampleConfig extendedPistonWorld 5 1 5) = true ∧
    isPistonExtended (getBlock sampleConfig extendedPistonWorld 5 1 5) = true ∧
    getPistonDir (getBlock sampleConfig extendedPistonWorld 5 1 5) = 1 ∧
    (tryRetractPiston sampleConfig extendedPistonWorld 5 1 5
      (getPistonDir (getBlock sampleConfig extendedPistonWorld 5 1 5))).2 = true ∧
    getBlock sampleConfig (tryRetractPiston sampleConfig extendedPistonWorld 5 1 5
        (getPistonDir (getBlock sampleConfig extendedPistonWorld 5 1 5))).1 5 1 5 =
      makePistonId (getPistonDir (getBlock sampleConfig extendedPistonWorld 5 1 5)) false ∧
    getBlock sampleConfig (tryRetractPiston sampleConfig extendedPistonWorld 5 1 5
        (getPistonDir (getBlock sampleConfig extendedPistonWorld 5 1 5))).1 7 1 5 =
      getBlock sampleConfig extendedPistonWorld 7 1 5 :=
  ⟨by decide, by decide, by decide,
    (piston_retraction sampleConfig (by decide) extendedPistonWorld 5 1 5 (by decide)).1,
    (piston_retraction sampleConfig (by decide) extendedPistonWorld 5 1 5 (by decide)).2.1,
    (piston_retraction sampleConfig (by decide) extendedPistonWorld 5 1 5 (by decide)).2.2.2.2 7 1 5 (by decide) (by decide)⟩

/-! ## Claims on the blocks that a piston pushes -/

/-- A scan that leaves the loop has met a free cell after at most 12 movable ones. -/
theorem pistonScan_inv (cfg : Config) (w : VoxelWorld) (x y z : Int) (front : DirVec) :
    ∀ (f s : Nat) (chain : List ChainNode) (r : List ChainNode × Int × Int),
      chain.reverse = descChain x y z front
        (fun i => getBlock cfg w (x + (i : Int) * front.dx) y (z + (i : Int) * front.dz)) s →
      s + f = 13 → s ≤ 12 →
      pistonScan cfg w front y f chain (x + ((s + 1 : Nat) : Int) * front.dx)
        (z + ((s + 1 : Nat) : Int) * front.dz) = some r →
      ∃ n : Nat, s + n ≤ 12 ∧
        (∀ i : Nat, s < i → i ≤ s + n → canPistonMoveBlock
          (getBlock cfg w (x + (i : Int) * front.dx) y (z + (i : Int) * front.dz)) = true) ∧
        (getBlock cfg w (x + ((s + n + 1 : Nat) : Int) * front.dx) y
            (z + ((s + n + 1 : Nat) : Int) * front.dz) = BLOCK.AIR ∨
          isWater (getBlock cfg w (x + ((s + n + 1 : Nat) : Int) * front.dx) y
            (z + ((s + n + 1 : Nat) : Int) * front.dz)) = true) := by
  intro f
  induction f with
  | zero => intro s chain r _ h1 h2 _; omega
  | succ f ih =>
    intro s chain r hchain hsf hs hscan
    by_cases hfree : getBlock cfg w (x + ((s + 1 : Nat) : Int) * front.dx) y
          (z + ((s + 1 : Nat) : Int) * front.dz) = BLOCK.AIR ∨
        isWater (getBlock cfg w (x + ((s + 1 : Nat) : Int) * front.dx) y
          (z + ((s + 1 : Nat) : Int) * front.dz)) = true
    · exact ⟨0, by omega, fun i h1 h2 => by omega, hfree⟩
    · unfold pistonScan at hscan
      simp only [] at hscan
      rw [if_neg hfree] at hscan
      cases hm : canPistonMoveBlock (getBlock cfg w (x + ((s + 1 : Nat) : Int) * front.dx) y
          (z + ((s + 1 : Nat) : Int) * front.dz))
      · rw [hm] at hscan
        simp only [Bool.not_false, if_true] at hscan
        exact absurd hscan (by simp)
      · rw [hm] at hscan
        simp only [Bool.not_true, Bool.false_eq_true, if_false] at hscan
        have hclen := chain_length_of_reverse chain x y z front _ s hchain
        by_cases hlen : (chain ++ [ChainNode.mk (x + ((s + 1 : Nat) : Int) * front.dx) y
            (z + ((s + 1 : Nat) : Int) * front.dz)
            (getBlock cfg w (x + ((s + 1 : Nat) : Int) * front.dx) y
              (z + ((s + 1 : Nat) : Int) * front.dz))]).length > 12
        · rw [if_pos hlen] at hscan
          exact absurd hscan (by simp)
        · rw [if_neg hlen] at hscan
          rw [List.length_append, hclen] at hlen
          simp only [List.length_singleton] at hlen
          have hchain1 : (chain ++ [ChainNode.mk (x + ((s + 1 : Nat) : Int) * front.dx) y
              (z + ((s + 1 : Nat) : Int) * front.dz)
              (getBlock cfg w (x + ((s + 1 : Nat) : Int) * front.dx) y
                (z + ((s + 1 : Nat) : Int) * front.dz))]).reverse =
              descChain x y z front
                (fun i => getBlock cfg w (x + (i : Int) * front.dx) y (z + (i : Int) * front.dz))
                (s + 1) := by
            rw [List.reverse_append, hchain]
            rfl
          have ex : x + ((s + 1 : Nat) : Int) * front.dx + front.dx
              = x + ((s + 1 + 1 : Nat) : Int) * front.dx := by push_cast; ring
          have ez : z + ((s + 1 : Nat) : Int) * front.dz + front.dz
              = z + ((s + 1 + 1 : Nat) : Int) * front.dz := by push_cast; ring
          rw [ex, ez] at hscan
          obtain ⟨n, h1, h2, h3⟩ := ih (s + 1) _ r hchain1 (by omega) (by omega) hscan
          refine ⟨n + 1, by omega, ?_, ?_⟩
          · intro i hi1 hi2
            by_cases e : i = s + 1
            · rw [e]; exact hm
            · exact h2 i (by omega) (by omega)
          · have e : s + (n + 1) + 1 = s + 1 + n + 1 := by omega
            rw [e]; exact h3

/-- The loop body of the shifting loop on one node whose cell is loaded, whatever the state
of the target cell: the node's cell is emptied, and no cell other than the two is touched. -/
theorem getBlock_pistonShiftNode_edge (cfg : Config) (hcs : 0 < cfg.CHUNK_SIZE) (front : DirVec)
    (w : VoxelWorld) (node : ChainNode)
    (hn : cellLoaded cfg w node.x node.y node.z) :
    getBlock cfg (pistonShiftNode cfg front w node) node.x node.y node.z = 0 ∧
    (∀ a b c : Int, ¬ (a = node.x ∧ b = node.y ∧ c = node.z) →
      ¬ (a = node.x + front.dx ∧ b = node.y ∧ c = node.z + front.dz) →
      getBlock cfg (pistonShiftNode cfg front w node) a b c = getBlock cfg w a b c) ∧
    (∀ a b c : Int, cellLoaded cfg (pistonShiftNode cfg front w node) a b c ↔
      cellLoaded cfg w a b c) := by
  unfold pistonShiftNode
  simp only [getBlock_enqueueFluidNeighbors, getBlock_enqueueRedstoneNeighbors]
  refine ⟨?_, ?_, ?_⟩
  · rw [getBlock_setBlock_same cfg hcs _ _ _ _ _ _ ((cellLoaded_setBlock cfg w _ _ _ _ _ _ _ _).mpr hn)]
    decide
  · intro a b c h1 h2
    rw [getBlock_setBlock_other cfg hcs _ _ _ _ _ _ _ _ _ h1,
      getBlock_setBlock_other cfg hcs _ _ _ _ _ _ _ _ _ h2]
  · intro a b c
    rw [cellLoaded_of_chunks_eq cfg _ _ (enqueueFluidNeighbors_chunks _ _ _ _ _),
      cellLoaded_of_chunks_eq cfg _ _ (enqueueFluidNeighbors_chunks _ _ _ _ _),
      cellLoaded_of_chunks_eq cfg _ _ (enqueueRedstoneNeighbors_chunks _ _ _ _ _),
      cellLoaded_of_chunks_eq cfg _ _ (enqueueRedstoneNeighbors_chunks _ _ _ _ _),
      cellLoaded_setBlock, cellLoaded_setBlock]

/-- The shifting loop does not load or unload any cell. -/
theorem cellLoaded_pistonShift (cfg : Config) (front : DirVec) (nodes : List ChainNode) :
    ∀ (w : VoxelWorld) (a b c : Int),
      cellLoaded cfg (nodes.foldl (pistonShiftNode cfg front) w) a b c ↔
        cellLoaded cfg w a b c := by
  induction nodes with
  | nil => intro w a b c; exact Iff.rfl
  | cons node rest ih =>
    intro w a b c
    rw [List.foldl_cons, ih]
    unfold pistonShiftNode
    rw [cellLoaded_of_chunks_eq cfg _ _ (enqueueFluidNeighbors_chunks _ _ _ _ _),
      cellLoaded_of_chunks_eq cfg _ _ (enqueueFluidNeighbors_chunks _ _ _ _ _),
      cellLoaded_of_chunks_eq cfg _ _ (enqueueRedstoneNeighbors_chunks _ _ _ _ _),
      cellLoaded_of_chunks_eq cfg _ _ (enqueueRedstoneNeighbors_chunks _ _ _ _ _),
      cellLoaded_setBlock, cellLoaded_setBlock]

set_option maxRecDepth 100000 in
/-- C34 fails on the code at the border of the loaded area: the piston at `(14, 1, 5)`
facing east pushes the stone block at `(15, 1, 5)` towards `(16, 1, 5)`, a cell of a chunk
that is not loaded; `tryExtendPiston` returns true, the piston head takes the place of the
stone and the stone is in neither cell afterwards. -/
theorem pushed_block_counterexample :
    (tryExtendPiston sampleConfig borderPistonWorld 14 1 5 1).2 = true ∧
    getBlock sampleConfig borderPistonWorld 15 1 5 = 3 ∧
    getBlock sampleConfig (tryExtendPiston sampleConfig borderPistonWorld 14 1 5 1).1 16 1 5
      = 0 ∧
    getBlock sampleConfig (tryExtendPiston sampleConfig borderPistonWorld 14 1 5 1).1 15 1 5
      = 181 := by
  refine ⟨?_, ?_, ?_, ?_⟩ <;> decide

/-- C34, what the code does with the pushed blocks. Whenever `tryExtendPiston` returns true,
the scan has collected a run of `n <= 12` movable blocks in the cells `1 .. n` in front of the
piston and has met a free cell (air or water, as `getBlock` reads it) at `n + 1`.  If that
cell `n + 1` (the piston's front cell, when the run is empty) lies in a loaded chunk, then
afterwards every block of the run sits one cell further along the facing direction and the
piston's front cell holds the piston head: no pushed block is destroyed.  If the cell `n + 1`
is not loaded, the write of the last block of the run into it is rejected and the result is
ignored: afterwards the cell `n + 1` still reads as air, only the blocks `1 .. n - 1` of the
run sit one cell further, the piston head stands in the front cell when the run is not empty,
and the last block of the run is in no cell (its own cell holds the block before it, or the
piston head).  The cell `i` steps in front of the piston is
`(x + i * front.dx, y, z + i * front.dz)`. -/
theorem pushed_blocks_kept (cfg : Config) (hcs : 0 < cfg.CHUNK_SIZE) (w : VoxelWorld)
    (x y z dir : Int) (front : DirVec) (hfront : getHorizontalDirVector dir = front)
    (hret : (tryExtendPiston cfg w x y z dir).2 = true) :
    ∃ n : Nat, n ≤ 12 ∧
      (∀ i : Nat, i < n → canPistonMoveBlock (getBlock cfg w
        (x + ((i + 1 : Nat) : Int) * front.dx) y (z + ((i + 1 : Nat) : Int) * front.dz)) = true) ∧
      (getBlock cfg w (x + ((n + 1 : Nat) : Int) * front.dx) y
          (z + ((n + 1 : Nat) : Int) * front.dz) = BLOCK.AIR ∨
        isWater (getBlock cfg w (x + ((n + 1 : Nat) : Int) * front.dx) y
          (z + ((n + 1 : Nat) : Int) * front.dz)) = true) ∧
      (cellLoaded cfg w (x + ((n + 1 : Nat) : Int) * front.dx) y
          (z + ((n + 1 : Nat) : Int) * front.dz) →
        (∀ i : Nat, i < n →
          getBlock cfg (tryExtendPiston cfg w x y z dir).1
              (x + ((i + 2 : Nat) : Int) * front.dx) y (z + ((i + 2 : Nat) : Int) * front.dz) =
            getBlock cfg w (x + ((i + 1 : Nat) : Int) * front.dx) y
              (z + ((i + 1 : Nat) : Int) * front.dz)) ∧
        getBlock cfg (tryExtendPiston cfg w x y z dir).1 (x + front.dx) y (z + front.dz) =
          makePistonHeadId dir) ∧
      (¬ cellLoaded cfg w (x + ((n + 1 : Nat) : Int) * front.dx) y
          (z + ((n + 1 : Nat) : Int) * front.dz) →
        getBlock cfg (tryExtendPiston cfg w x y z dir).1
            (x + ((n + 1 : Nat) : Int) * front.dx) y (z + ((n + 1 : Nat) : Int) * front.dz) =
          BLOCK.AIR ∧
        (∀ i : Nat, i + 1 < n →
          getBlock cfg (tryExtendPiston cfg w x y z dir).1
              (x + ((i + 2 : Nat) : Int) * front.dx) y (z + ((i + 2 : Nat) : Int) * front.dz) =
            getBlock cfg w (x + ((i + 1 : Nat) : Int) * front.dx) y
              (z + ((i + 1 : Nat) : Int) * front.dz)) ∧
        (1 ≤ n →
          getBlock cfg (tryExtendPiston cfg w x y z dir).1 (x + front.dx) y (z + front.dz) =
            makePistonHeadId dir)) := by
  have hnz : front.dx ≠ 0 ∨ front.dz ≠ 0 := by rw [← hfront]; exact dirVector_nonzero dir
  -- the scan has left the loop
  have hsome : ∃ r, pistonScan cfg w front y 13 [] (x + ((0 + 1 : Nat) : Int) * front.dx)
      (z + ((0 + 1 : Nat) : Int) * front.dz) = some r := by
    cases hs : pistonScan cfg w front y 13 [] (x + ((0 + 1 : Nat) : Int) * front.dx)
      (z + ((0 + 1 : Nat) : Int) * front.dz) with
    | some r => exact ⟨r, rfl⟩
    | none =>
      exfalso
      simp only [Nat.zero_add, Nat.cast_one, one_mul] at hs
      unfold tryExtendPiston at hret
      simp only [hfront, hs] at hret
      exact Bool.noConfusion hret
  obtain ⟨r, hr⟩ := hsome
  obtain ⟨n, hn, hmov0, hfree0⟩ := pistonScan_inv cfg w x y z front 13 0 [] r rfl (by omega)
    (by omega) hr
  simp only [Nat.zero_add] at hn hmov0 hfree0
  have hmov : ∀ i : Nat, i < n → canPistonMoveBlock (getBlock cfg w
      (x + ((i + 1 : Nat) : Int) * front.dx) y (z + ((i + 1 : Nat) : Int) * front.dz)) = true :=
    fun i hi => hmov0 (i + 1) (by omega) (by omega)
  have hrun : ∀ i : Nat, i < n → cellLoaded cfg w
      (x + ((i + 1 : Nat) : Int) * front.dx) y (z + ((i + 1 : Nat) : Int) * front.dz) := by
    intro i hi
    apply cellLoaded_of_getBlock_ne
    intro h0
    exact movable_not_free _ (hmov i hi) (Or.inl h0)
  obtain ⟨chain, hchain, hscan⟩ := pistonScan_free cfg w x y z front n 0 13 [] rfl (by omega)
    (by omega)
    (fun i h1 h2 => by
      obtain ⟨j, rfl⟩ : ∃ j, i = j + 1 := ⟨i - 1, by omega⟩
      exact hmov j (by omega))
    (by simp only [Nat.zero_add]; exact hfree0)
  simp only [Nat.zero_add, Nat.cast_one, one_mul] at hscan hchain
  have hdest : ¬ (getBlock cfg w (x + ((n + 1 : Nat) : Int) * front.dx) y
        (z + ((n + 1 : Nat) : Int) * front.dz) ≠ BLOCK.AIR ∧
      (!isWater (getBlock cfg w (x + ((n + 1 : Nat) : Int) * front.dx) y
        (z + ((n + 1 : Nat) : Int) * front.dz))) = true) := by
    rintro ⟨h1, h2⟩
    rcases hfree0 with h | h
    · exact h1 h
    · rw [h] at h2; exact Bool.noConfusion h2
  have hres : tryExtendPiston cfg w x y z dir =
      (enqueueFluidNeighbors cfg (enqueueRedstoneNeighbors cfg (enqueueRedstoneNeighbors cfg
        (setBlock cfg (setBlock cfg
          ((descChain x y z front
            (fun i => getBlock cfg w (x + (i : Int) * front.dx) y (z + (i : Int) * front.dz))
            n).foldl (pistonShiftNode cfg front) w)
          (x + front.dx) y (z + front.dz) (makePistonHeadId dir) internalWrite).1
          x y z (makePistonId dir true) internalWrite).1
        x y z) (x + front.dx) y (z + front.dz)) (x + front.dx) y (z + front.dz), true) := by
    unfold tryExtendPiston
    simp only [hfront, hscan]
    rw [if_neg hdest, hchain]
  have h0 : ∀ j : Nat, 1 ≤ j →
      ¬ (x + (j : Int) * front.dx = x ∧ y = y ∧ z + (j : Int) * front.dz = z) := by
    rintro j hj ⟨h1, _, h3⟩
    have := chain_cell_inj front hnz x z j 0 (by simpa using h1) (by simpa using h3)
    omega
  have hdist : ∀ i j : Nat, i ≠ j →
      ¬ (x + (i : Int) * front.dx = x + (j : Int) * front.dx ∧ y = y ∧
        z + (i : Int) * front.dz = z + (j : Int) * front.dz) := by
    rintro i j hij ⟨h1, _, h3⟩
    exact hij (chain_cell_inj front hnz x z i j h1 h3)
  have e1x : x + front.dx = x + ((1 : Nat) : Int) * front.dx := by simp
  have e1z : z + front.dz = z + ((1 : Nat) : Int) * front.dz := by simp
  refine ⟨n, hn, hmov, hfree0, ?_, ?_⟩
  · intro hlast
    have hload : ∀ i : Nat, i < n + 1 → cellLoaded cfg w
        (x + ((i + 1 : Nat) : Int) * front.dx) y (z + ((i + 1 : Nat) : Int) * front.dz) := by
      intro i hi
      by_cases e : i = n
      · rw [e]; exact hlast
      · exact hrun i (by omega)
    obtain ⟨s1, _, _, s4⟩ := pistonShift_spec cfg hcs x y z front hnz
      (fun i => getBlock cfg w (x + (i : Int) * front.dx) y (z + (i : Int) * front.dz))
      (fun i => getBlock_range _ _ _ _ _) n w
      (fun i h1 h2 => by
        obtain ⟨j, rfl⟩ : ∃ j, i = j + 1 := ⟨i - 1, by omega⟩
        exact hload j (by omega))
      (fun i _ _ => rfl)
    rw [hres]
    simp only [getBlock_enqueueFluidNeighbors, getBlock_enqueueRedstoneNeighbors]
    refine ⟨?_, ?_⟩
    · intro i hi
      rw [getBlock_setBlock_other cfg hcs _ _ _ _ _ _ _ _ _ (h0 (i + 2) (by omega)),
        e1x, e1z, getBlock_setBlock_other cfg hcs _ _ _ _ _ _ _ _ _ (hdist (i + 2) 1 (by omega))]
      exact s1 (i + 1) (by omega) (by omega)
    · have hl1 := (s4 (x + front.dx) y (z + front.dz)).mpr
        (by rw [e1x, e1z]; exact hload 0 (by omega))
      rw [getBlock_setBlock_other cfg hcs _ _ _ _ _ _ _ _ _
          (by rw [e1x, e1z]; exact h0 1 (by omega)),
        getBlock_setBlock_same cfg hcs _ _ _ _ _ _ hl1]
      have := makePistonHeadId_range dir
      omega
  · intro hlast
    rw [hres]
    simp only [getBlock_enqueueFluidNeighbors, getBlock_enqueueRedstoneNeighbors]
    refine ⟨?_, ?_, ?_⟩
    · apply getBlock_of_not_loaded
      rw [cellLoaded_setBlock, cellLoaded_setBlock, cellLoaded_pistonShift]
      exact hlast
    · intro i hi
      obtain ⟨m, rfl⟩ : ∃ m, n = m + 1 := ⟨n - 1, by omega⟩
      obtain ⟨_, n3, n4⟩ := getBlock_pistonShiftNode_edge cfg hcs front w
        ⟨x + ((m + 1 : Nat) : Int) * front.dx, y, z + ((m + 1 : Nat) : Int) * front.dz,
          getBlock cfg w (x + ((m + 1 : Nat) : Int) * front.dx) y
            (z + ((m + 1 : Nat) : Int) * front.dz)⟩
        (hrun m (by omega))
      simp only [] at n3 n4
      have ex : x + ((m + 1 : Nat) : Int) * front.dx + front.dx
          = x + ((m + 1 + 1 : Nat) : Int) * front.dx := by push_cast; ring
      have ez : z + ((m + 1 : Nat) : Int) * front.dz + front.dz
          = z + ((m + 1 + 1 : Nat) : Int) * front.dz := by push_cast; ring
      rw [ex, ez] at n3
      obtain ⟨s1, _, _, _⟩ := pistonShift_spec cfg hcs x y z front hnz
        (fun i => getBlock cfg w (x + (i : Int) * front.dx) y (z + (i : Int) * front.dz))
        (fun i => getBlock_range _ _ _ _ _) m
        (pistonShiftNode cfg front w
          ⟨x + ((m + 1 : Nat) : Int) * front.dx, y, z + ((m + 1 : Nat) : Int) * front.dz,
            getBlock cfg w (x + ((m + 1 : Nat) : Int) * front.dx) y
              (z + ((m + 1 : Nat) : Int) * front.dz)⟩)
        (fun j h1 h2 => by
          obtain ⟨k, rfl⟩ : ∃ k, j = k + 1 := ⟨j - 1, by omega⟩
          exact (n4 _ _ _).mpr (hrun k (by omega)))
        (fun j h1 h2 => by
          simp only []
          exact n3 _ _ _ (hdist j (m + 1) (by omega)) (hdist j (m + 1 + 1) (by omega)))
      rw [getBlock_setBlock_other cfg hcs _ _ _ _ _ _ _ _ _ (h0 (i + 2) (by omega)),
        e1x, e1z, getBlock_setBlock_other cfg hcs _ _ _ _ _ _ _ _ _ (hdist (i + 2) 1 (by omega))]
      exact s1 (i + 1) (by omega) (by omega)
    · intro hn1
      have hl1 : cellLoaded cfg ((descChain x y z front
          (fun i => getBlock cfg w (x + (i : Int) * front.dx) y (z + (i : Int) * front.dz))
          n).foldl (pistonShiftNode cfg front) w) (x + front.dx) y (z + front.dz) := by
        rw [cellLoaded_pistonShift, e1x, e1z]
        exact hrun 0 (by omega)
      rw [getBlock_setBlock_other cfg hcs _ _ _ _ _ _ _ _ _
          (by rw [e1x, e1z]; exact h0 1 (by omega)),
        getBlock_setBlock_same cfg hcs _ _ _ _ _ _ hl1]
      have := makePistonHeadId_range dir
      omega

set_option maxRecDepth 100000 in
theorem pushed_blocks_kept_witness :
    (tryExtendPiston sampleConfig (pistonWorld 2) 1 1 1 1).2 = true ∧
    ∃ n : Nat, n ≤ 12 ∧
      (∀ i : Nat, i < n → canPistonMoveBlock (getBlock sampleConfig (pistonWorld 2)
        (1 + ((i + 1 : Nat) : Int) * (DirVec.mk 1 0).dx) 1
        (1 + ((i + 1 : Nat) : Int) * (DirVec.mk 1 0).dz)) = true) ∧
      (getBlock sampleConfig (pistonWorld 2) (1 + ((n + 1 : Nat) : Int) * (DirVec.mk 1 0).dx) 1
          (1 + ((n + 1 : Nat) : Int) * (DirVec.mk 1 0).dz) = BLOCK.AIR ∨
        isWater (getBlock sampleConfig (pistonWorld 2)
          (1 + ((n + 1 : Nat) : Int) * (DirVec.mk 1 0).dx) 1
          (1 + ((n + 1 : Nat) : Int) * (DirVec.mk 1 0).dz)) = true) ∧
      (cellLoaded sampleConfig (pistonWorld 2) (1 + ((n + 1 : Nat) : Int) * (DirVec.mk 1 0).dx) 1
          (1 + ((n + 1 : Nat) : Int) * (DirVec.mk 1 0).dz) →
        (∀ i : Nat, i < n →
          getBlock sampleConfig (tryExtendPiston sampleConfig (pistonWorld 2) 1 1 1 1).1
              (1 + ((i + 2 : Nat) : Int) * (DirVec.mk 1 0).dx) 1
              (1 + ((i + 2 : Nat) : Int) * (DirVec.mk 1 0).dz) =
            getBlock sampleConfig (pistonWorld 2) (1 + ((i + 1 : Nat) : Int) * (DirVec.mk 1 0).dx)
              1 (1 + ((i + 1 : Nat) : Int) * (DirVec.mk 1 0).dz)) ∧
        getBlock sampleConfig (tryExtendPiston sampleConfig (pistonWorld 2) 1 1 1 1).1
            (1 + (DirVec.mk 1 0).dx) 1 (1 + (DirVec.mk 1 0).dz) =
          makePistonHeadId 1) ∧
      (¬ cellLoaded sampleConfig (pistonWorld 2)
          (1 + ((n + 1 : Nat) : Int) * (DirVec.mk 1 0).dx) 1
          (1 + ((n + 1 : Nat) : Int) * (DirVec.mk 1 0).dz) →
        getBlock sampleConfig (tryExtendPiston sampleConfig (pistonWorld 2) 1 1 1 1).1
            (1 + ((n + 1 : Nat) : Int) * (DirVec.mk 1 0).dx) 1
            (1 + ((n + 1 : Nat) : Int) * (DirVec.mk 1 0).dz) = BLOCK.AIR ∧
        (∀ i : Nat, i + 1 < n →
          getBlock sampleConfig (tryExtendPiston sampleConfig (pistonWorld 2) 1 1 1 1).1
              (1 + ((i + 2 : Nat) : Int) * (DirVec.mk 1 0).dx) 1
              (1 + ((i + 2 : Nat) : Int) * (DirVec.mk 1 0).dz) =
            getBlock sampleConfig (pistonWorld 2) (1 + ((i + 1 : Nat) : Int) * (DirVec.mk 1 0).dx)
              1 (1 + ((i + 1 : Nat) : Int) * (DirVec.mk 1 0).dz)) ∧
        (1 ≤ n →
          getBlock sampleConfig (tryExtendPiston sampleConfig (pistonWorld 2) 1 1 1 1).1
              (1 + (DirVec.mk 1 0).dx) 1 (1 + (DirVec.mk 1 0).dz) =
            makePistonHeadId 1)) :=
  ⟨by decide,
    pushed_blocks_kept sampleConfig (by decide) (pistonWorld 2) 1 1 1 1 ⟨1, 0⟩ rfl (by decide)⟩

/-! ## Claims on dust without a source of power -/

theorem foldl_max_le (L : List (Int × Int × Int)) (g : Int × Int × Int → Int) (v : Int) :
    ∀ init : Int, init ≤ v → (∀ o ∈ L, g o ≤ v) →
      L.foldl (fun acc o => max acc (g o)) init ≤ v := by
  induction L with
  | nil => intro init h _; exact h
  | cons o rest ih =>
    intro init hinit hub
    rw [List.foldl_cons]
    apply ih
    · exact max_le hinit (hub o (List.mem_cons_self _ _))
    · intro o' ho'
      exact hub o' (List.mem_cons_of_mem _ ho')

theorem foldl_max_ge (L : List (Int × Int × Int)) (g : Int × Int × Int → Int) :
    ∀ init : Int, init ≤ L.foldl (fun acc o => max acc (g o)) init := by
  induction L with
  | nil => intro init; exact le_refl _
  | cons o rest ih =>
    intro init
    rw [List.foldl_cons]
    exact le_trans (le_max_left _ _) (ih _)

theorem dust_fold_eq (cfg : Config) (w : VoxelWorld) (x y z : Int) :
    ALL_NEIGHBOR_OFFSETS.foldl (dustNeighborStep cfg w x y z) 0 =
      ALL_NEIGHBOR_OFFSETS.foldl (fun acc o => max acc (dustContribution cfg w x y z o)) 0 := by
  have e : dustNeighborStep cfg w x y z =
      fun acc o => max acc (dustContribution cfg w x y z o) := by
    funext acc o
    exact dustNeighborStep_eq cfg w x y z acc o
  rw [e]

/-- A dust cell that `updateDustAt` leaves as it is holds the dust id of the power that its
neighbours give it. -/
theorem dust_fixed_power (cfg : Config) (hcs : 0 < cfg.CHUNK_SIZE) (w : VoxelWorld)
    (x y z : Int) (hd : isRedstoneDust (getBlock cfg w x y z) = true)
    (hfix : getBlock cfg (updateDustAt cfg w x y z) x y z = getBlock cfg w x y z) :
    getDustPower (getBlock cfg w x y z) =
      clampPower (ALL_NEIGHBOR_OFFSETS.foldl
        (fun acc o => max acc (dustContribution cfg w x y z o)) 0) := by
  have hcl : ∀ v : Int, 0 ≤ clampPower v ∧ clampPower v ≤ 15 := by
    intro v
    unfold clampPower
    omega
  have hid : makeDustId (clampPower (ALL_NEIGHBOR_OFFSETS.foldl
      (dustNeighborStep cfg w x y z) 0)) = getBlock cfg w x y z := by
    by_contra hne
    unfold updateDustAt at hfix
    simp only [hd, Bool.not_true, Bool.false_eq_true, if_false] at hfix
    rw [if_neg hne, getBlock_enqueueRedstoneNeighbors,
      getBlock_setBlock_same cfg hcs _ _ _ _ _ _
        (cellLoaded_of_getBlock_ne cfg w x y z (dust_not_air _ hd))] at hfix
    have := makeDustId_range (clampPower (ALL_NEIGHBOR_OFFSETS.foldl
      (dustNeighborStep cfg w x y z) 0))
    apply hne
    omega
  rw [← dust_fold_eq, ← hid, getDustPower_makeDustId _ (hcl _).1 (hcl _).2]

/-- C35. No self-sustaining dust power: in every world state in which `updateDustAt` leaves
every dust cell as it is and no dust cell receives a signal greater than 0 from a neighbour
that is not dust (`getSignalFromSourceToTarget` is 0 from every such neighbour of every dust
cell), every dust cell has power 0. -/
theorem no_self_sustaining_dust (cfg : Config) (hcs : 0 < cfg.CHUNK_SIZE) (w : VoxelWorld)
    (hfix : ∀ x y z : Int, isRedstoneDust (getBlock cfg w x y z) = true →
      getBlock cfg (updateDustAt cfg w x y z) x y z = getBlock cfg w x y z)
    (hquiet : ∀ x y z : Int, isRedstoneDust (getBlock cfg w x y z) = true →
      ∀ o ∈ ALL_NEIGHBOR_OFFSETS,
        isRedstoneDust (getBlock cfg w (x + o.1) (y + o.2.1) (z + o.2.2)) = false →
        getSignalFromSourceToTarget cfg w (x + o.1) (y + o.2.1) (z + o.2.2) x y z = 0) :
    ∀ x y z : Int, isRedstoneDust (getBlock cfg w x y z) = true →
      getDustPower (getBlock cfg w x y z) = 0 := by
  have hbound : ∀ n : Nat, ∀ x y z : Int, isRedstoneDust (getBlock cfg w x y z) = true →
      getDustPower (getBlock cfg w x y z) ≤ 15 - (n : Int) ∨
        getDustPower (getBlock cfg w x y z) ≤ 0 := by
    intro n
    induction n with
    | zero =>
      intro x y z _
      left
      have := (getDustPower_range (getBlock cfg w x y z)).2
      simpa using this
    | succ n ih =>
      intro x y z hd
      by_cases hn : 15 - ((n + 1 : Nat) : Int) < 0
      · rcases ih x y z hd with h | h
        · right; push_cast at hn; omega
        · right; exact h
      · left
        rw [dust_fixed_power cfg hcs w x y z hd (hfix x y z hd)]
        have hle : ALL_NEIGHBOR_OFFSETS.foldl
            (fun acc o => max acc (dustContribution cfg w x y z o)) 0 ≤
              15 - ((n + 1 : Nat) : Int) := by
          apply foldl_max_le
          · omega
          · intro o ho
            unfold dustContribution
            split
            · rename_i hdn
              rcases ih _ _ _ hdn with h | h
              · push_cast at h ⊢; omega
              · omega
            · rename_i hdn
              rw [hquiet x y z hd o ho (by simpa using hdn)]
              omega
        have hge := foldl_max_ge ALL_NEIGHBOR_OFFSETS (dustContribution cfg w x y z) 0
        rw [clampPower_eq _ (by omega) (by push_cast at hle; omega)]
        omega
  intro x y z hd
  have h0 := (getDustPower_range (getBlock cfg w x y z)).1
  rcases hbound 15 x y z hd with h | h
  · push_cast at h; omega
  · omega

theorem getBlock_worldOfBlocks (blocks : Int → Fin 256) (x y z : Int) :
    getBlock sampleConfig (worldOfBlocks blocks) x y z =
      if 0 ≤ x ∧ x < 16 ∧ 0 ≤ z ∧ z < 16 ∧ 0 ≤ y ∧ y < 64 then
        ((blocks (256 * y + 16 * z + x)).val : Int)
      else 0 := by
  have hc : (0 : Int) < sampleConfig.CHUNK_SIZE := by decide
  unfold getBlock
  by_cases hy : y < 0 ∨ y ≥ sampleConfig.WORLD_HEIGHT
  · have hh : sampleConfig.WORLD_HEIGHT = 64 := rfl
    rw [if_pos hy, if_neg (by omega)]
  · rw [if_neg hy]
    have hh : sampleConfig.WORLD_HEIGHT = 64 := rfl
    have hs : sampleConfig.CHUNK_SIZE = 16 := rfl
    simp only [getChunk, worldOfBlocks, worldToChunkCoord_eq sampleConfig hc,
      worldToLocalCoord_eq sampleConfig hc, hs, Prod.mk.injEq]
    by_cases hin : x / 16 = 0 ∧ z / 16 = 0
    · rw [if_pos hin]
      simp only []
      unfold VoxelChunk.get VoxelChunk.index
      simp only [hs, hh]
      rw [if_neg (by omega), if_pos (by omega)]
      have e : y * 16 * 16 + z % 16 * 16 + x % 16 = 256 * y + 16 * z + x := by omega
      rw [e]
    · rw [if_neg hin]
      simp only []
      rw [if_neg (by omega)]

theorem quietDust_cell (x y z : Int)
    (h : isRedstoneDust (getBlock sampleConfig quietDustWorld x y z) = true) :
    x = 5 ∧ y = 1 ∧ z = 5 := by
  unfold quietDustWorld at h
  rw [getBlock_worldOfBlocks] at h
  split at h
  · split_ifs at h with h1 h2
    · omega
    · exact absurd h (by decide)
    · exact absurd h (by decide)
  · exact absurd h (by decide)

set_option maxRecDepth 100000 in
theorem no_self_sustaining_dust_witness :
    isRedstoneDust (getBlock sampleConfig quietDustWorld 5 1 5) = true ∧
    getDustPower (getBlock sampleConfig quietDustWorld 5 1 5) = 0 :=
  ⟨by decide,
    no_self_sustaining_dust sampleConfig (by decide) quietDustWorld
      (fun x y z h => by
        obtain ⟨rfl, rfl, rfl⟩ := quietDust_cell x y z h
        decide)
      (fun x y z h => by
        obtain ⟨rfl, rfl, rfl⟩ := quietDust_cell x y z h
        decide)
      5 1 5 (by decide)⟩

/-! ## Claims on flowing water without a source -/

theorem water_fold_mem (cfg : Config) (w : VoxelWorld) (x y z v : Int) :
    ∀ (L : List (Int × Int)) (acc : Option Int),
      L.foldl (waterNeighborStep cfg w x y z) acc = some v →
      acc = some v ∨ ∃ o ∈ L, waterContribution cfg w x y z o = some v := by
  intro L
  induction L with
  | nil => intro acc h; exact Or.inl h
  | cons o rest ih =>
    intro acc h
    rw [List.foldl_cons, waterNeighborStep_eq] at h
    rcases ih _ h with h1 | ⟨o', ho', h2⟩
    · cases hc : waterContribution cfg w x y z o with
      | none =>
        rw [hc] at h1
        exact Or.inl h1
      | some l =>
        rw [hc] at h1
        cases acc with
        | none =>
          simp only [Option.some.injEq] at h1
          exact Or.inr ⟨o, List.mem_cons_self _ _, by rw [hc, h1]⟩
        | some m =>
          simp only [Option.some.injEq] at h1
          rcases min_choice m l with e | e
          · left; rw [← h1, e]
          · right
            exact ⟨o, List.mem_cons_self _ _, by rw [hc, ← h1, e]⟩
    · exact Or.inr ⟨o', List.mem_cons_of_mem _ ho', h2⟩

theorem flow_level_of_id (id : Int) (h : isFlowingWater id = true) :
    getWaterLevel id = some (id - 12) := by
  have hr := (isFlowingWater_iff id).1 h
  unfold getWaterLevel
  by_cases e : id = BLOCK.WATER ∨ id = BLOCK.WATER_FLOW_0
  · rw [if_pos e]
    simp only [BLOCK] at e
    have : id = 12 := by omega
    rw [this]; rfl
  · rw [if_neg e]
    have : isWaterFlowId id = true := h
    rw [this]
    rfl

/-- A flowing-water cell that `updateWaterAt` leaves as it is has water directly above it or
a horizontal neighbour, in the same layer, that holds water of a level lower by one. -/
theorem flow_fixed_support (cfg : Config) (hcs : 0 < cfg.CHUNK_SIZE) (w : VoxelWorld)
    (x y z : Int) (hf : isFlowingWater (getBlock cfg w x y z) = true)
    (hfix : getBlock cfg (updateWaterAt cfg w x y z) x y z = getBlock cfg w x y z) :
    isWater (getBlock cfg w x (y + 1) z) = true ∨
    ∃ o ∈ waterNeighborOffsets, ∃ l : Int,
      isWater (getBlock cfg w (x + o.1) y (z + o.2)) = true ∧
      getWaterLevel (getBlock cfg w (x + o.1) y (z + o.2)) = some l ∧
      getBlock cfg w x y z = 12 + (l + 1) := by
  have hr := (isFlowingWater_iff _).1 hf
  have hnw : getBlock cfg w x y z ≠ BLOCK.WATER := by simp only [BLOCK]; omega
  have hocc : canWaterOccupyCell (getBlock cfg w x y z) = true := by
    unfold canWaterOccupyCell
    rw [hf]; simp
  have hl : cellLoaded cfg w x y z :=
    cellLoaded_of_getBlock_ne cfg w x y z (by simp only [BLOCK]; omega)
  -- the target of the update is the current id
  have htarget : ∀ target : Int, (0 ≤ target ∧ target < 256) →
      getBlock cfg (if getBlock cfg w x y z = target then w
        else enqueueFluidNeighbors cfg
          (setBlock cfg w x y z target internalWrite).1 x y z) x y z = getBlock cfg w x y z →
      getBlock cfg w x y z = target := by
    intro target ht h
    by_contra hne
    rw [if_neg hne, getBlock_enqueueFluidNeighbors,
      getBlock_setBlock_same cfg hcs _ _ _ _ _ _ hl] at h
    apply hne
    omega
  unfold updateWaterAt at hfix
  simp only [if_neg hnw, hocc, Bool.not_true, Bool.false_eq_true, if_false] at hfix
  by_cases habove : isWater (getBlock cfg w x (y + 1) z) = true
  · exact Or.inl habove
  · right
    have hdes : computeDesiredWaterLevel cfg w x y z =
        match waterNeighborOffsets.foldl (waterNeighborStep cfg w x y z) none with
        | none => none
        | some m => if m + 1 > 7 then none else some (m + 1) := by
      unfold computeDesiredWaterLevel
      simp only [hocc, Bool.not_true, Bool.false_eq_true, if_false, if_neg habove]
      rfl
    rw [hdes] at hfix
    cases hfold : waterNeighborOffsets.foldl (waterNeighborStep cfg w x y z) none with
    | none =>
      rw [hfold] at hfix
      have := htarget BLOCK.AIR (by decide) hfix
      simp only [BLOCK] at this
      omega
    | some m =>
      rw [hfold] at hfix
      simp only [] at hfix
      by_cases h7 : m + 1 > 7
      · rw [if_pos h7] at hfix
        have := htarget BLOCK.AIR (by decide) hfix
        simp only [BLOCK] at this
        omega
      · rw [if_neg h7] at hfix
        simp only [] at hfix
        rcases water_fold_mem cfg w x y z m _ _ hfold with h0 | ⟨o, ho, hc⟩
        · exact absurd h0 (by simp)
        · have hm := waterContribution_range cfg w x y z o m hc
          have hid := getFlowingWaterId_eq (m + 1) (by omega) (by omega)
          by_cases hsrc : shouldCreateWaterSource cfg w x y z = true
          · rw [hsrc] at hfix
            simp only [if_true] at hfix
            exact absurd (htarget BLOCK.WATER (by decide) hfix) hnw
          · rw [if_neg hsrc] at hfix
            have hcur := htarget (getFlowingWaterId (m + 1)) (by rw [hid]; omega) hfix
            refine ⟨o, ho, m, ?_, ?_, by rw [hcur, hid]⟩
            · unfold waterContribution at hc
              by_contra hnw'
              rw [Bool.not_eq_true] at hnw'
              rw [hnw'] at hc
              simp at hc
            · unfold waterContribution at hc
              split at hc
              · exact absurd hc (by simp)
              · split at hc
                · exact absurd hc (by simp)
                · exact hc

/-- C36. No flowing water without a source: in every world state that contains no water
source block and in which `updateWaterAt` leaves every cell as it is, no cell holds flowing
water; the number of loaded chunks plays no part. -/
theorem no_flow_without_source (cfg : Config) (hcs : 0 < cfg.CHUNK_SIZE) (w : VoxelWorld)
    (hnosrc : ∀ x y z : Int, isWaterSource (getBlock cfg w x y z) = false)
    (hfix : ∀ x y z : Int,
      getBlock cfg (updateWaterAt cfg w x y z) x y z = getBlock cfg w x y z) :
    ∀ x y z : Int, isFlowingWater (getBlock cfg w x y z) = false := by
  have hflow : ∀ a b c : Int, isWater (getBlock cfg w a b c) = true →
      isFlowingWater (getBlock cfg w a b c) = true := by
    intro a b c hw
    have h1 := (isWater_iff _).1 hw
    have h2 := hnosrc a b c
    apply (isFlowingWater_iff _).2
    rcases h1 with h | h
    · have := (isWaterSource_iff (getBlock cfg w a b c)).2 h
      rw [this] at h2
      exact Bool.noConfusion h2
    · exact h
  have hdesc : ∀ n : Nat, ∀ x y z : Int, isFlowingWater (getBlock cfg w x y z) = true →
      (cfg.WORLD_HEIGHT - y) * 8 + (getBlock cfg w x y z - 12) ≤ (n : Int) → False := by
    intro n
    induction n with
    | zero =>
      intro x y z hf hm
      have hr := (isFlowingWater_iff _).1 hf
      have hl : cellLoaded cfg w x y z :=
        cellLoaded_of_getBlock_ne cfg w x y z (by simp only [BLOCK]; omega)
      have := hl.2.1
      simp only [Nat.cast_zero] at hm
      omega
    | succ n ih =>
      intro x y z hf hm
      have hr := (isFlowingWater_iff _).1 hf
      rcases flow_fixed_support cfg hcs w x y z hf (hfix x y z) with habove | ⟨o, _, l, hw, hlv, hid⟩
      · have hfa := hflow _ _ _ habove
        have hra := (isFlowingWater_iff _).1 hfa
        apply ih x (y + 1) z hfa
        push_cast at hm
        omega
      · have hfn := hflow _ _ _ hw
        have hrn := (isFlowingWater_iff _).1 hfn
        have hlv' := flow_level_of_id _ hfn
        rw [hlv'] at hlv
        simp only [Option.some.injEq] at hlv
        apply ih (x + o.1) y (z + o.2) hfn
        push_cast at hm
        omega
  intro x y z
  cases hf : isFlowingWater (getBlock cfg w x y z)
  · rfl
  · exfalso
    have hr := (isFlowingWater_iff _).1 hf
    have hl : cellLoaded cfg w x y z :=
      cellLoaded_of_getBlock_ne cfg w x y z (by simp only [BLOCK]; omega)
    have := hl.2.1
    exact hdesc ((cfg.WORLD_HEIGHT - y) * 8 + (getBlock cfg w x y z - 12)).toNat x y z hf
      (by omega)

theorem getBlock_airWorld (x y z : Int) : getBlock sampleConfig airWorld x y z = 0 := by
  unfold airWorld
  rw [getBlock_worldOfBlocks]
  split <;> rfl

theorem updateWaterAt_airWorld (x y z : Int) :
    updateWaterAt sampleConfig airWorld x y z = airWorld := by
  have hd : computeDesiredWaterLevel sampleConfig airWorld x y z = none := by
    unfold computeDesiredWaterLevel
    simp only [getBlock_airWorld, List.foldl, waterNeighborStep]
    decide
  unfold updateWaterAt
  simp only [getBlock_airWorld, hd]
  rw [if_neg (by decide), if_neg (by decide), if_pos trivial]

theorem no_flow_without_source_witness :
    isWaterSource (getBlock sampleConfig airWorld 5 1 5) = false ∧
    isFlowingWater (getBlock sampleConfig airWorld 5 1 5) = false :=
  ⟨by decide,
    no_flow_without_source sampleConfig (by decide) airWorld
      (fun x y z => by rw [getBlock_airWorld]; decide)
      (fun x y z => by rw [updateWaterAt_airWorld])
      5 1 5⟩

/-! ## Claims on evaluating a component twice -/

/-- The signal that a neighbour of the cell `T` sends to `T` does not change when only the
block at `T` changes and the strong signal from `T` towards that neighbour stays the same. -/
theorem signal_without_target (cfg : Config) (w w' : VoxelWorld) (tx ty tz : Int)
    (o : Int × Int × Int) (ho : o ∈ ALL_NEIGHBOR_OFFSETS)
    (hsame : ∀ a b c : Int, ¬ (a = tx ∧ b = ty ∧ c = tz) →
      getBlock cfg w' a b c = getBlock cfg w a b c)
    (hstrong : (getDirectSignalFromBlock (getBlock cfg w' tx ty tz) tx ty tz
        (tx + o.1) (ty + o.2.1) (tz + o.2.2)).strong =
      (getDirectSignalFromBlock (getBlock cfg w tx ty tz) tx ty tz
        (tx + o.1) (ty + o.2.1) (tz + o.2.2)).strong) :
    getSignalFromSourceToTarget cfg w' (tx + o.1) (ty + o.2.1) (tz + o.2.2) tx ty tz =
      getSignalFromSourceToTarget cfg w (tx + o.1) (ty + o.2.1) (tz + o.2.2) tx ty tz := by
  have hne : ¬ (tx + o.1 = tx ∧ ty + o.2.1 = ty ∧ tz + o.2.2 = tz) := by
    obtain ⟨a1, a2, a3⟩ := o
    simp only [ALL_NEIGHBOR_OFFSETS, List.mem_cons, Prod.mk.injEq, List.mem_singleton,
      List.not_mem_nil, or_false] at ho
    simp only
    omega
  have hsrc := hsame _ _ _ hne
  have hpow : getStrongPowerAt cfg w' (tx + o.1) (ty + o.2.1) (tz + o.2.2) =
      getStrongPowerAt cfg w (tx + o.1) (ty + o.2.1) (tz + o.2.2) := by
    unfold getStrongPowerAt
    rw [strongLoop_eq_max _ _ _ _ _ _ 0 (le_refl _) (by decide),
      strongLoop_eq_max _ _ _ _ _ _ 0 (le_refl _) (by decide)]
    congr 1
    apply List.map_congr_left
    intro o' _
    unfold strongContribution
    by_cases hback : tx + o.1 + o'.1 = tx ∧ ty + o.2.1 + o'.2.1 = ty ∧ tz + o.2.2 + o'.2.2 = tz
    · rw [hback.1, hback.2.1, hback.2.2]
      exact hstrong
    · rw [hsame _ _ _ hback]
  unfold getSignalFromSourceToTarget isHardPoweredBlock
  simp only [hsrc, hpow]

theorem dir_offsets_mem (dir : Int) :
    ((getHorizontalDirVector dir).dx, 0, (getHorizontalDirVector dir).dz) ∈
      ALL_NEIGHBOR_OFFSETS := by
  rcases dirVector_cases dir with e | e | e | e <;> rw [e] <;> decide

/-- The back, left and right vectors of a facing differ from its front vector. -/
theorem side_vectors_ne_front (d : Int) (hd : 0 ≤ d ∧ d < 4) :
    getHorizontalDirVector (getOppositeHorizontalDir d) ≠ getHorizontalDirVector d ∧
    getHorizontalDirVector (getLeftHorizontalDir d) ≠ getHorizontalDirVector d ∧
    getHorizontalDirVector (getRightHorizontalDir d) ≠ getHorizontalDirVector d := by
  obtain ⟨h0, h4⟩ := hd
  interval_cases d <;> decide

theorem repeater_strong_aside (id tx ty tz : Int) (v : DirVec) (hr : isRepeater id = true)
    (hv : v ≠ getHorizontalDirVector (getRepeaterDir id)) :
    (getDirectSignalFromBlock id tx ty tz (tx + v.dx) (ty + 0) (tz + v.dz)).strong = 0 := by
  obtain ⟨_, f2, f3, _, _, _⟩ := family_ranges id
  have hr' := f3.1 hr
  have hnb : id ≠ BLOCK.REDSTONE_BLOCK := by simp only [BLOCK]; omega
  have hnd : isRedstoneDust id = false := by
    cases hd : isRedstoneDust id
    · rfl
    · have := f2.1 hd; omega
  have hoff : ¬ (ty + 0 - ty = 0 ∧
      tx + v.dx - tx = (getHorizontalDirVector (getRepeaterDir id)).dx ∧
      tz + v.dz - tz = (getHorizontalDirVector (getRepeaterDir id)).dz) := by
    rintro ⟨_, h1, h2⟩
    apply hv
    obtain ⟨a, b⟩ := v
    cases hf : getHorizontalDirVector (getRepeaterDir id) with
    | mk c d =>
      rw [hf] at h1 h2
      simp only at h1 h2
      have e1 : a = c := by omega
      have e2 : b = d := by omega
      rw [e1, e2]
  unfold getDirectSignalFromBlock
  simp only [if_neg hnb, hnd, hr, Bool.false_eq_true, if_false, if_true, if_neg hoff]
  split <;> rfl

theorem comparator_strong_aside (id tx ty tz : Int) (v : DirVec)
    (hc : isComparator id = true)
    (hv : v ≠ getHorizontalDirVector (getComparatorDir id)) :
    (getDirectSignalFromBlock id tx ty tz (tx + v.dx) (ty + 0) (tz + v.dz)).strong = 0 := by
  obtain ⟨_, f2, f3, f4, _, _⟩ := family_ranges id
  have hc' := f4.1 hc
  have hnb : id ≠ BLOCK.REDSTONE_BLOCK := by simp only [BLOCK]; omega
  have hnd : isRedstoneDust id = false := by
    cases hd : isRedstoneDust id
    · rfl
    · have := f2.1 hd; omega
  have hnr : isRepeater id = false := by
    cases hd : isRepeater id
    · rfl
    · have := f3.1 hd; omega
  have hoff : ¬ (ty + 0 - ty = 0 ∧
      tx + v.dx - tx = (getHorizontalDirVector (getComparatorDir id)).dx ∧
      tz + v.dz - tz = (getHorizontalDirVector (getComparatorDir id)).dz) := by
    rintro ⟨_, h1, h2⟩
    apply hv
    obtain ⟨a, b⟩ := v
    cases hf : getHorizontalDirVector (getComparatorDir id) with
    | mk c d =>
      rw [hf] at h1 h2
      simp only at h1 h2
      have e1 : a = c := by omega
      have e2 : b = d := by omega
      rw [e1, e2]
  unfold getDirectSignalFromBlock
  simp only [if_neg hnb, hnd, hnr, hc, Bool.false_eq_true, if_false, if_true, if_neg hoff]
  split <;> rfl

/-! ### Dust -/

theorem updateDustAt_other (cfg : Config) (hcs : 0 < cfg.CHUNK_SIZE) (w : VoxelWorld)
    (x y z a b c : Int) (hne : ¬ (a = x ∧ b = y ∧ c = z)) :
    getBlock cfg (updateDustAt cfg w x y z) a b c = getBlock cfg w a b c := by
  unfold updateDustAt
  simp only []
  split
  · rfl
  · split
    · rfl
    · rw [getBlock_enqueueRedstoneNeighbors]
      exact getBlock_setBlock_other cfg hcs _ _ _ _ _ _ _ _ _ hne

theorem updateDustAt_result (cfg : Config) (hcs : 0 < cfg.CHUNK_SIZE) (w : VoxelWorld)
    (x y z : Int) (hd : isRedstoneDust (getBlock cfg w x y z) = true) :
    getBlock cfg (updateDustAt cfg w x y z) x y z =
      makeDustId (clampPower (ALL_NEIGHBOR_OFFSETS.foldl (dustNeighborStep cfg w x y z) 0)) := by
  unfold updateDustAt
  simp only [hd, Bool.not_true, Bool.false_eq_true, if_false]
  split
  · rename_i heq
    exact heq.symm
  · rw [getBlock_enqueueRedstoneNeighbors, getBlock_setBlock_same cfg hcs _ _ _ _ _ _
      (cellLoaded_of_getBlock_ne cfg w x y z (dust_not_air _ hd))]
    have := makeDustId_range (clampPower (ALL_NEIGHBOR_OFFSETS.foldl
      (dustNeighborStep cfg w x y z) 0))
    omega

theorem updateDustAt_twice (cfg : Config) (hcs : 0 < cfg.CHUNK_SIZE) (w : VoxelWorld)
    (x y z : Int) (hd : isRedstoneDust (getBlock cfg w x y z) = true) :
    updateDustAt cfg (updateDustAt cfg w x y z) x y z = updateDustAt cfg w x y z := by
  have hres := updateDustAt_result cfg hcs w x y z hd
  have hother := updateDustAt_other cfg hcs w x y z
  generalize updateDustAt cfg w x y z = w1 at hres hother
  have hd1 : isRedstoneDust (getBlock cfg w1 x y z) = true := by
    rw [hres]; exact isRedstoneDust_makeDustId _
  have hfold : ALL_NEIGHBOR_OFFSETS.foldl (dustNeighborStep cfg w1 x y z) 0 =
      ALL_NEIGHBOR_OFFSETS.foldl (dustNeighborStep cfg w x y z) 0 := by
    apply List.foldl_ext
    intro acc o ho
    have hne : ¬ (x + o.1 = x ∧ y + o.2.1 = y ∧ z + o.2.2 = z) := by
      obtain ⟨a1, a2, a3⟩ := o
      simp only [ALL_NEIGHBOR_OFFSETS, List.mem_cons, Prod.mk.injEq, List.mem_singleton,
        List.not_mem_nil, or_false] at ho
      simp only
      omega
    unfold dustNeighborStep
    simp only [hother _ _ _ hne]
    rw [signal_without_target cfg w w1 x y z o ho hother
      (by rw [direct_strong_dust _ _ _ _ _ _ _ hd1, direct_strong_dust _ _ _ _ _ _ _ hd])]
  unfold updateDustAt
  simp only [hd1, Bool.not_true, Bool.false_eq_true, if_false]
  rw [hfold, if_pos hres.symm]

/-! ### Repeaters -/

theorem updateRepeaterAt_other (cfg : Config) (hcs : 0 < cfg.CHUNK_SIZE) (w : VoxelWorld)
    (x y z a b c : Int) (hne : ¬ (a = x ∧ b = y ∧ c = z)) :
    getBlock cfg (updateRepeaterAt cfg w x y z) a b c = getBlock cfg w a b c := by
  unfold updateRepeaterAt
  simp only []
  split
  · rfl
  · split
    · rfl
    · rw [getBlock_enqueueRedstoneNeighbors]
      exact getBlock_setBlock_other cfg hcs _ _ _ _ _ _ _ _ _ hne

theorem updateRepeaterAt_twice (cfg : Config) (hcs : 0 < cfg.CHUNK_SIZE) (w : VoxelWorld)
    (x y z : Int) (hr : isRepeater (getBlock cfg w x y z) = true) :
    updateRepeaterAt cfg (updateRepeaterAt cfg w x y z) x y z = updateRepeaterAt cfg w x y z := by
  have hres := updateRepeaterAt_result cfg hcs w x y z hr
  have hother := updateRepeaterAt_other cfg hcs w x y z
  obtain ⟨hdir, hdec⟩ := repeater_decode _ hr
  generalize updateRepeaterAt cfg w x y z = w1 at hres hother
  obtain ⟨hr1, _, hd1, _⟩ := hdec (decide (getComponentInputSignal cfg w x y z
    (getHorizontalDirVector
      (getOppositeHorizontalDir (getRepeaterDir (getBlock cfg w x y z)))).dx 0
    (getHorizontalDirVector
      (getOppositeHorizontalDir (getRepeaterDir (getBlock cfg w x y z)))).dz > 0))
  rw [← hres] at hr1 hd1
  have hback := (side_vectors_ne_front _ hdir).1
  have hin : getComponentInputSignal cfg w1 x y z
      (getHorizontalDirVector
        (getOppositeHorizontalDir (getRepeaterDir (getBlock cfg w x y z)))).dx 0
      (getHorizontalDirVector
        (getOppositeHorizontalDir (getRepeaterDir (getBlock cfg w x y z)))).dz =
      getComponentInputSignal cfg w x y z
      (getHorizontalDirVector
        (getOppositeHorizontalDir (getRepeaterDir (getBlock cfg w x y z)))).dx 0
      (getHorizontalDirVector
        (getOppositeHorizontalDir (getRepeaterDir (getBlock cfg w x y z)))).dz := by
    unfold getComponentInputSignal
    exact signal_without_target cfg w w1 x y z
      ((getHorizontalDirVector
        (getOppositeHorizontalDir (getRepeaterDir (getBlock cfg w x y z)))).dx, 0,
       (getHorizontalDirVector
        (getOppositeHorizontalDir (getRepeaterDir (getBlock cfg w x y z)))).dz)
      (dir_offsets_mem _) hother
      (by
        rw [repeater_strong_aside _ x y z _ hr1 (by rw [hd1]; exact hback),
          repeater_strong_aside _ x y z _ hr hback])
  unfold updateRepeaterAt
  simp only [hr1, Bool.not_true, Bool.false_eq_true, if_false]
  rw [hd1, hin, if_pos hres.symm]

/-! ### Comparators -/

theorem updateComparatorAt_other (cfg : Config) (hcs : 0 < cfg.CHUNK_SIZE) (w : VoxelWorld)
    (x y z a b c : Int) (hne : ¬ (a = x ∧ b = y ∧ c = z)) :
    getBlock cfg (updateComparatorAt cfg w x y z) a b c = getBlock cfg w a b c := by
  unfold updateComparatorAt
  simp only []
  split
  · rfl
  · split
    · rfl
    · rw [getBlock_enqueueRedstoneNeighbors]
      exact getBlock_setBlock_other cfg hcs _ _ _ _ _ _ _ _ _ hne

theorem updateComparatorAt_result (cfg : Config) (hcs : 0 < cfg.CHUNK_SIZE) (w : VoxelWorld)
    (x y z : Int) (hc : isComparator (getBlock cfg w x y z) = true) :
    getBlock cfg (updateComparatorAt cfg w x y z) x y z =
      makeComparatorId (getComparatorDir (getBlock cfg w x y z))
        (isComparatorSubtract (getBlock cfg w x y z))
        (comparatorOutput (isComparatorSubtract (getBlock cfg w x y z))
          (getComponentInputSignal cfg w x y z
            (getHorizontalDirVector
              (getOppositeHorizontalDir (getComparatorDir (getBlock cfg w x y z)))).dx 0
            (getHorizontalDirVector
              (getOppositeHorizontalDir (getComparatorDir (getBlock cfg w x y z)))).dz)
          (max
            (getComponentInputSignal cfg w x y z
              (getHorizontalDirVector
                (getLeftHorizontalDir (getComparatorDir (getBlock cfg w x y z)))).dx 0
              (getHorizontalDirVector
                (getLeftHorizontalDir (getComparatorDir (getBlock cfg w x y z)))).dz)
            (getComponentInputSignal cfg w x y z
              (getHorizontalDirVector
                (getRightHorizontalDir (getComparatorDir (getBlock cfg w x y z)))).dx 0
              (getHorizontalDirVector
                (getRightHorizontalDir (getComparatorDir (getBlock cfg w x y z)))).dz))) := by
  have hl : cellLoaded cfg w x y z := by
    apply cellLoaded_of_getBlock_ne
    intro h0
    rw [h0] at hc
    exact absurd hc (by decide)
  unfold updateComparatorAt
  simp only [hc, Bool.not_true, Bool.false_eq_true, if_false]
  split
  · rename_i heq
    exact heq.symm
  · rw [getBlock_enqueueRedstoneNeighbors, getBlock_setBlock_same cfg hcs _ _ _ _ _ _ hl]
    have := makeComparatorId_range (getComparatorDir (getBlock cfg w x y z))
      (isComparatorSubtract (getBlock cfg w x y z))
      (comparatorOutput (isComparatorSubtract (getBlock cfg w x y z))
          (getComponentInputSignal cfg w x y z
            (getHorizontalDirVector
              (getOppositeHorizontalDir (getComparatorDir (getBlock cfg w x y z)))).dx 0
            (getHorizontalDirVector
              (getOppositeHorizontalDir (getComparatorDir (getBlock cfg w x y z)))).dz)
          (max
            (getComponentInputSignal cfg w x y z
              (getHorizontalDirVector
                (getLeftHorizontalDir (getComparatorDir (getBlock cfg w x y z)))).dx 0
              (getHorizontalDirVector
                (getLeftHorizontalDir (getComparatorDir (getBlock cfg w x y z)))).dz)
            (getComponentInputSignal cfg w x y z
              (getHorizontalDirVector
                (getRightHorizontalDir (getComparatorDir (getBlock cfg w x y z)))).dx 0
              (getHorizontalDirVector
                (getRightHorizontalDir (getComparatorDir (getBlock cfg w x y z)))).dz)))
    omega

theorem comparatorOutput_range (s : Bool) (rear side : Int) :
    0 ≤ comparatorOutput s rear side ∧ comparatorOutput s rear side ≤ 15 := by
  have hcl : ∀ v : Int, 0 ≤ clampPower v ∧ clampPower v ≤ 15 := by
    intro v
    unfold clampPower
    omega
  unfold comparatorOutput
  split
  · exact hcl _
  · split
    · exact hcl _
    · omega

theorem updateComparatorAt_twice (cfg : Config) (hcs : 0 < cfg.CHUNK_SIZE) (w : VoxelWorld)
    (x y z : Int) (hc : isComparator (getBlock cfg w x y z) = true) :
    updateComparatorAt cfg (updateComparatorAt cfg w x y z) x y z =
      updateComparatorAt cfg w x y z := by
  have hres := updateComparatorAt_result cfg hcs w x y z hc
  have hother := updateComparatorAt_other cfg hcs w x y z
  have hdir := getComparatorDir_range (getBlock cfg w x y z)
  obtain ⟨hc1, hd1, hs1, _⟩ := makeComparatorId_decode
    (getComparatorDir (getBlock cfg w x y z)) (isComparatorSubtract (getBlock cfg w x y z))
    _ hdir (comparatorOutput_range (isComparatorSubtract (getBlock cfg w x y z))
      (getComponentInputSignal cfg w x y z
        (getHorizontalDirVector
          (getOppositeHorizontalDir (getComparatorDir (getBlock cfg w x y z)))).dx 0
        (getHorizontalDirVector
          (getOppositeHorizontalDir (getComparatorDir (getBlock cfg w x y z)))).dz)
      (max
        (getComponentInputSignal cfg w x y z
          (getHorizontalDirVector
            (getLeftHorizontalDir (getComparatorDir (getBlock cfg w x y z)))).dx 0
          (getHorizontalDirVector
            (getLeftHorizontalDir (getComparatorDir (getBlock cfg w x y z)))).dz)
        (getComponentInputSignal cfg w x y z
          (getHorizontalDirVector
            (getRightHorizontalDir (getComparatorDir (getBlock cfg w x y z)))).dx 0
          (getHorizontalDirVector
            (getRightHorizontalDir (getComparatorDir (getBlock cfg w x y z)))).dz)))
  rw [← hres] at hc1 hd1 hs1
  generalize updateComparatorAt cfg w x y z = w1 at hres hother hc1 hd1 hs1
  obtain ⟨hback, hleft, hright⟩ := side_vectors_ne_front _ hdir
  have hin : ∀ v : DirVec, v ≠ getHorizontalDirVector (getComparatorDir (getBlock cfg w x y z)) →
      getComponentInputSignal cfg w1 x y z v.dx 0 v.dz =
        getComponentInputSignal cfg w x y z v.dx 0 v.dz ∨ (v.dx, (0 : Int), v.dz) ∉
          ALL_NEIGHBOR_OFFSETS := by
    intro v hv
    by_cases hm : (v.dx, (0 : Int), v.dz) ∈ ALL_NEIGHBOR_OFFSETS
    · left
      unfold getComponentInputSignal
      exact signal_without_target cfg w w1 x y z (v.dx, 0, v.dz) hm hother
        (by
          rw [comparator_strong_aside _ x y z _ hc1 (by rw [hd1]; exact hv),
            comparator_strong_aside _ x y z _ hc hv])
    · right; exact hm
  have hb := (hin _ hback).resolve_right (fun h => h (dir_offsets_mem _))
  have hl := (hin _ hleft).resolve_right (fun h => h (dir_offsets_mem _))
  have hr := (hin _ hright).resolve_right (fun h => h (dir_offsets_mem _))
  unfold updateComparatorAt
  simp only [hc1, Bool.not_true, Bool.false_eq_true, if_false]
  rw [hd1, hs1, hb, hl, hr, if_pos hres.symm]

/-- C37. Redstone evaluation is idempotent: for every world state and every cell that holds
dust, a repeater or a comparator, running `evaluateRedstoneAt` on that cell twice in
succession leaves the state that one run leaves (the second evaluation writes nothing and
queues nothing), so the block grid is the same. -/
theorem redstone_evaluation_idempotent (cfg : Config) (hcs : 0 < cfg.CHUNK_SIZE) (w : VoxelWorld)
    (x y z : Int)
    (hcomp : isRedstoneDust (getBlock cfg w x y z) = true ∨
      isRepeater (getBlock cfg w x y z) = true ∨ isComparator (getBlock cfg w x y z) = true) :
    evaluateRedstoneAt cfg (evaluateRedstoneAt cfg w x y z) x y z =
        evaluateRedstoneAt cfg w x y z ∧
    ∀ a b c : Int,
      getBlock cfg (evaluateRedstoneAt cfg (evaluateRedstoneAt cfg w x y z) x y z) a b c =
        getBlock cfg (evaluateRedstoneAt cfg w x y z) a b c := by
  have key : evaluateRedstoneAt cfg (evaluateRedstoneAt cfg w x y z) x y z =
      evaluateRedstoneAt cfg w x y z := by
    by_cases hd : isRedstoneDust (getBlock cfg w x y z) = true
    · have e1 : evaluateRedstoneAt cfg w x y z = updateDustAt cfg w x y z := by
        unfold evaluateRedstoneAt
        simp only [hd, if_true]
      have hd1 : isRedstoneDust (getBlock cfg (updateDustAt cfg w x y z) x y z) = true := by
        rw [updateDustAt_result cfg hcs w x y z hd]
        exact isRedstoneDust_makeDustId _
      rw [e1]
      have e2 : evaluateRedstoneAt cfg (updateDustAt cfg w x y z) x y z =
          updateDustAt cfg (updateDustAt cfg w x y z) x y z := by
        unfold evaluateRedstoneAt
        simp only [hd1, if_true]
      rw [e2]
      exact updateDustAt_twice cfg hcs w x y z hd
    · by_cases hr : isRepeater (getBlock cfg w x y z) = true
      · have e1 : evaluateRedstoneAt cfg w x y z = updateRepeaterAt cfg w x y z := by
          unfold evaluateRedstoneAt
          simp only [hd, hr, if_true, if_false, Bool.false_eq_true]
        obtain ⟨_, hdec⟩ := repeater_decode _ hr
        have hres := updateRepeaterAt_result cfg hcs w x y z hr
        obtain ⟨hr1, _, _, h36, h43⟩ := hdec (decide (getComponentInputSignal cfg w x y z
          (getHorizontalDirVector
            (getOppositeHorizontalDir (getRepeaterDir (getBlock cfg w x y z)))).dx 0
          (getHorizontalDirVector
            (getOppositeHorizontalDir (getRepeaterDir (getBlock cfg w x y z)))).dz > 0))
        rw [← hres] at hr1 h36 h43
        have hd1 : ¬ isRedstoneDust (getBlock cfg (updateRepeaterAt cfg w x y z) x y z)
            = true := by
          intro h
          have := (family_ranges _).2.1.1 h
          omega
        rw [e1]
        have e2 : evaluateRedstoneAt cfg (updateRepeaterAt cfg w x y z) x y z =
            updateRepeaterAt cfg (updateRepeaterAt cfg w x y z) x y z := by
          unfold evaluateRedstoneAt
          simp only [hd1, hr1, if_true, if_false, Bool.false_eq_true]
        rw [e2]
        exact updateRepeaterAt_twice cfg hcs w x y z hr
      · have hc : isComparator (getBlock cfg w x y z) = true := by
          rcases hcomp with h | h | h
          · exact absurd h hd
          · exact absurd h hr
          · exact h
        have e1 : evaluateRedstoneAt cfg w x y z = updateComparatorAt cfg w x y z := by
          unfold evaluateRedstoneAt
          simp only [hd, hr, hc, if_true, if_false, Bool.false_eq_true]
        have hres := updateComparatorAt_result cfg hcs w x y z hc
        have hrange := makeComparatorId_range (getComparatorDir (getBlock cfg w x y z))
          (isComparatorSubtract (getBlock cfg w x y z))
          (comparatorOutput (isComparatorSubtract (getBlock cfg w x y z))
            (getComponentInputSignal cfg w x y z
              (getHorizontalDirVector
                (getOppositeHorizontalDir (getComparatorDir (getBlock cfg w x y z)))).dx 0
              (getHorizontalDirVector
                (getOppositeHorizontalDir (getComparatorDir (getBlock cfg w x y z)))).dz)
            (max
              (getComponentInputSignal cfg w x y z
                (getHorizontalDirVector
                  (getLeftHorizontalDir (getComparatorDir (getBlock cfg w x y z)))).dx 0
                (getHorizontalDirVector
                  (getLeftHorizontalDir (getComparatorDir (getBlock cfg w x y z)))).dz)
              (getComponentInputSignal cfg w x y z
                (getHorizontalDirVector
                  (getRightHorizontalDir (getComparatorDir (getBlock cfg w x y z)))).dx 0
                (getHorizontalDirVector
                  (getRightHorizontalDir (getComparatorDir (getBlock cfg w x y z)))).dz)))
        rw [← hres] at hrange
        have hd1 : ¬ isRedstoneDust (getBlock cfg (updateComparatorAt cfg w x y z) x y z)
            = true := by
          intro h
          have := (family_ranges _).2.1.1 h
          omega
        have hr1 : ¬ isRepeater (getBlock cfg (updateComparatorAt cfg w x y z) x y z)
            = true := by
          intro h
          have := (family_ranges _).2.2.1.1 h
          omega
        have hc1 : isComparator (getBlock cfg (updateComparatorAt cfg w x y z) x y z)
            = true := by
          apply (family_ranges _).2.2.2.1.2
          omega
        rw [e1]
        have e2 : evaluateRedstoneAt cfg (updateComparatorAt cfg w x y z) x y z =
            updateComparatorAt cfg (updateComparatorAt cfg w x y z) x y z := by
          unfold evaluateRedstoneAt
          simp only [hd1, hr1, hc1, if_true, if_false, Bool.false_eq_true]
        rw [e2]
        exact updateComparatorAt_twice cfg hcs w x y z hc
  exact ⟨key, fun a b c => by rw [key]⟩

set_option maxRecDepth 100000 in
theorem redstone_evaluation_idempotent_witness :
    isRepeater (getBlock sampleConfig repeaterWorld 5 1 5) = true ∧
    getBlock sampleConfig (evaluateRedstoneAt sampleConfig repeaterWorld 5 1 5) 5 1 5 = 39 ∧
    evaluateRedstoneAt sampleConfig (evaluateRedstoneAt sampleConfig repeaterWorld 5 1 5)
        5 1 5 = evaluateRedstoneAt sampleConfig repeaterWorld 5 1 5 :=
  ⟨by decide, by decide,
    (redstone_evaluation_idempotent sampleConfig (by decide) repeaterWorld 5 1 5
      (Or.inr (Or.inl (by decide)))).1⟩

/-! ## Claims on saving and loading the overlay -/

theorem mapSet_new {κ ν : Type} [DecidableEq κ] (k : κ) (v : ν) :
    ∀ m : List (κ × ν), k ∉ m.map Prod.fst → mapSet m k v = m ++ [(k, v)] := by
  intro m
  induction m with
  | nil => intro _; rfl
  | cons p rest ih =>
    intro hk
    obtain ⟨k1, v1⟩ := p
    rw [List.map_cons, List.mem_cons, not_or] at hk
    unfold mapSet
    rw [if_neg (fun e => hk.1 e.symm), ih hk.2]
    rfl

theorem loadEntry_saved (s : String → Option Int) (changes : List (Cell × Int)) :
    ∀ acc : List (Cell × Int), (acc.map Prod.fst ++ changes.map Prod.fst).Nodup →
      (changes.map (fun e =>
        PersistedEntry.tuple [JsonValue.number e.1.1, JsonValue.number e.1.2.1,
          JsonValue.number e.1.2.2, JsonValue.number e.2])).foldl
          (loadEntry s) acc = acc ++ changes := by
  induction changes with
  | nil => intro acc _; simp
  | cons e rest ih =>
    intro acc hnd
    obtain ⟨⟨lx, y, lz⟩, id⟩ := e
    rw [List.map_cons, List.foldl_cons,
      loadEntry_fields s acc (PersistedEntry.tuple [JsonValue.number lx, JsonValue.number y,
        JsonValue.number lz, JsonValue.number id]) lx y lz id rfl]
    have hnew : (lx, y, lz) ∉ acc.map Prod.fst := by
      intro hm
      rw [List.nodup_append] at hnd
      exact hnd.2.2 hm (by simp)
    rw [mapSet_new _ _ acc hnew, ih]
    · simp
    · rw [List.map_append, List.append_assoc]
      exact hnd

theorem loadEditsLoop_saved (s : String → Option Int)
    (overlay : List (ChunkKey × List (Cell × Int))) :
    ∀ acc : List (ChunkKey × List (Cell × Int)),
      (acc.map Prod.fst ++ overlay.map Prod.fst).Nodup →
      (∀ p ∈ overlay, (p.2.map Prod.fst).Nodup) →
      loadEditsLoop s acc (overlay.map (fun p =>
        (p.1, PersistedValue.entries (p.2.map (fun e =>
          PersistedEntry.tuple [JsonValue.number e.1.1, JsonValue.number e.1.2.1,
          JsonValue.number e.1.2.2, JsonValue.number e.2]))))) =
        some (acc ++ overlay) := by
  induction overlay with
  | nil => intro acc _ _; simp [loadEditsLoop]
  | cons p rest ih =>
    intro acc hnd hcells
    obtain ⟨key, changes⟩ := p
    rw [List.map_cons]
    simp only [loadEditsLoop]
    rw [loadEntry_saved s changes [] (by
      simpa using hcells (key, changes) (List.mem_cons_self _ _))]
    have hnew : key ∉ acc.map Prod.fst := by
      intro hm
      rw [List.nodup_append] at hnd
      exact hnd.2.2 hm (by simp)
    rw [mapSet_new _ _ acc hnew, ih]
    · simp
    · rw [List.map_append, List.append_assoc]
      exact hnd
    · intro q hq
      exact hcells q (List.mem_cons_of_mem _ hq)

/-- C39. Edit overlay save/load round trip: for every overlay in which every chunk has at
least one entry (the coordinates and ids being integers, and the overlay a map of maps, with
one entry for a chunk key and one for a cell of a chunk), `loadEdits`, run on a world whose
overlay is still empty, reconstructs from the blob written by `saveEditsNow` exactly the
same overlay: the same chunk keys, the same local cell keys and the same block ids, in the
same order. -/
theorem save_load_round_trip (s : String → Option Int) (w w0 : VoxelWorld)
    (hempty : w0.editsByChunk = [])
    (hsome : ∀ p ∈ w.editsByChunk, p.2 ≠ [])
    (hkeys : (w.editsByChunk.map Prod.fst).Nodup)
    (hcells : ∀ p ∈ w.editsByChunk, (p.2.map Prod.fst).Nodup) :
    (loadEdits s w0 (PersistedRaw.parsed (saveEditsNow w))).editsByChunk = w.editsByChunk := by
  have hfilter : w.editsByChunk.filter (fun p => !decide (p.2.length = 0)) = w.editsByChunk := by
    apply List.filter_eq_self.2
    intro p hp
    have := hsome p hp
    simp only [Bool.not_eq_true', decide_eq_false_iff_not, List.length_eq_zero]
    exact this
  unfold loadEdits saveEditsNow
  simp only [hfilter, hempty]
  rw [loadEditsLoop_saved s w.editsByChunk [] (by simpa using hkeys) hcells]
  rfl

theorem save_load_round_trip_witness :
    (loadEdits sampleStringToNumber airWorld
      (PersistedRaw.parsed (saveEditsNow savedWorld))).editsByChunk =
      savedWorld.editsByChunk :=
  save_load_round_trip sampleStringToNumber savedWorld airWorld rfl (by decide) (by decide) (by decide)

/-! ## Claim on the adjacent cell of the ray -/

theorem rayStep_cases {F : Type} (ops : NumberOps F) (d : F) :
    rayStep ops d = 0 ∨ rayStep ops d = 1 ∨ rayStep ops d = -1 := by
  unfold rayStep
  split
  · exact Or.inr (Or.inl rfl)
  · split
    · exact Or.inr (Or.inr rfl)
    · exact Or.inl rfl

/-- A step of the loop from an air cell keeps what the loop knows about the previous cell. -/
theorem raycastAdvanceWith_track {F : Type} (ops : NumberOps F) (cfg : Config) (w : VoxelWorld)
    (start : Int × Int × Int) (stepX stepY stepZ : Int) (tDeltaX tDeltaY tDeltaZ : F)
    (hx : stepX = 0 ∨ stepX = 1 ∨ stepX = -1) (hy : stepY = 0 ∨ stepY = 1 ∨ stepY = -1)
    (hz : stepZ = 0 ∨ stepZ = 1 ∨ stepZ = -1) (s : RayVars F)
    (hair : getBlock cfg w s.x s.y s.z = BLOCK.AIR) (ht : rayTrack ops cfg w start s) :
    rayTrack ops cfg w start
      (raycastAdvanceWith ops stepX stepY stepZ tDeltaX tDeltaY tDeltaZ s) := by
  have hstart : getBlock cfg w start.1 start.2.1 start.2.2 = BLOCK.AIR := by
    rcases ht with ⟨_, _, _, e1, e2, e3, _⟩ | ⟨_, h, _⟩
    · rw [← e1, ← e2, ← e3]; exact hair
    · exact h
  have key : ∀ d : Int, d = 0 ∨ d = 1 ∨ d = -1 → ∀ a : Int, a + d = a ∨ |a + d - a| = 1 := by
    intro d hd a
    rcases hd with h | h | h
    · left; omega
    · right; rw [h]; simp
    · right; rw [h]; simp
  right
  unfold raycastAdvanceWith
  simp only []
  split
  · split
    · refine ⟨hair, hstart, ?_⟩
      simp only []
      rcases key stepX hx s.x with h | h
      · left; exact ⟨h, trivial, trivial⟩
      · right; rw [h]; simp
    · refine ⟨hair, hstart, ?_⟩
      simp only []
      rcases key stepZ hz s.z with h | h
      · left; exact ⟨trivial, trivial, h⟩
      · right; rw [h]; simp
  · split
    · refine ⟨hair, hstart, ?_⟩
      simp only []
      rcases key stepY hy s.y with h | h
      · left; exact ⟨trivial, h, trivial⟩
      · right; rw [h]; simp
    · refine ⟨hair, hstart, ?_⟩
      simp only []
      rcases key stepZ hz s.z with h | h
      · left; exact ⟨trivial, trivial, h⟩
      · right; rw [h]; simp

/-- A hit that the loop returns: the cell is not air, the distance has passed the guard of
the loop, and the adjacent cell is the hit cell before any step and an air cell one step away
from it afterwards. -/
theorem raycastLoopWith_track {F : Type} (ops : NumberOps F) (cfg : Config) (w : VoxelWorld)
    (start : Int × Int × Int) (stepX stepY stepZ : Int) (tDeltaX tDeltaY tDeltaZ : F)
    (maxDistance : F)
    (hx : stepX = 0 ∨ stepX = 1 ∨ stepX = -1) (hy : stepY = 0 ∨ stepY = 1 ∨ stepY = -1)
    (hz : stepZ = 0 ∨ stepZ = 1 ∨ stepZ = -1) :
    ∀ (fuel : Nat) (s : RayVars F) (hit : RayResult F), rayTrack ops cfg w start s →
      raycastLoopWith ops cfg w stepX stepY stepZ tDeltaX tDeltaY tDeltaZ maxDistance fuel s =
        some (some hit) →
      hit.id = getBlock cfg w hit.x hit.y hit.z ∧ hit.id ≠ BLOCK.AIR ∧
      ops.le hit.distance maxDistance = true ∧
      ((hit.adjacentX = hit.x ∧ hit.adjacentY = hit.y ∧ hit.adjacentZ = hit.z ∧
          hit.x = start.1 ∧ hit.y = start.2.1 ∧ hit.z = start.2.2 ∧
          hit.distance = ops.zero) ∨
        (|hit.x - hit.adjacentX| + |hit.y - hit.adjacentY| + |hit.z - hit.adjacentZ| = 1 ∧
          getBlock cfg w hit.adjacentX hit.adjacentY hit.adjacentZ = BLOCK.AIR ∧
          getBlock cfg w start.1 start.2.1 start.2.2 = BLOCK.AIR)) := by
  intro fuel
  induction fuel with
  | zero =>
    intro s hit _ h
    unfold raycastLoopWith at h
    exact absurd h (by simp)
  | succ fuel ih =>
    intro s hit ht h
    unfold raycastLoopWith at h
    cases hle : ops.le s.dist maxDistance with
    | false =>
      rw [hle] at h
      simp only [Bool.not_false, if_true] at h
      exact absurd h (by simp)
    | true =>
      rw [hle] at h
      simp only [Bool.not_true, Bool.false_eq_true, if_false] at h
      by_cases hid : getBlock cfg w s.x s.y s.z ≠ BLOCK.AIR
      · rw [if_pos hid] at h
        simp only [Option.some.injEq] at h
        subst h
        refine ⟨rfl, hid, hle, ?_⟩
        rcases ht with ⟨e1, e2, e3, e4, e5, e6, e7⟩ | ⟨a1, a2, a3⟩
        · left
          exact ⟨e1, e2, e3, e4, e5, e6, e7⟩
        · right
          rcases a3 with ⟨c1, c2, c3⟩ | c
          · exfalso
            apply hid
            rw [c1, c2, c3]
            exact a1
          · exact ⟨c, a1, a2⟩
      · rw [if_neg hid] at h
        exact ih _ hit (raycastAdvanceWith_track ops cfg w start stepX stepY stepZ tDeltaX
          tDeltaY tDeltaZ hx hy hz s (not_not.mp hid) ht) h

/-- The ray from `(0.5, 0.5, 0.5)` along `(1, 0, 0)` in `stoneWorld`, in exact arithmetic. -/
theorem stone_ray_run (sqrtQ : Rat → Rat) (h : sqrtQ 1 = 1) :
    raycastWith (exactOps sqrtQ) sampleConfig stoneWorld
        ⟨ExactNumber.finite (1 / 2), ExactNumber.finite (1 / 2), ExactNumber.finite (1 / 2)⟩
        ⟨ExactNumber.finite 1, ExactNumber.finite 0, ExactNumber.finite 0⟩
        (ExactNumber.finite 5) 1 =
      some (some ⟨0, 0, 0, 3, 0, 0, 0, ExactNumber.finite 0⟩) := by
  have f1 : ⌊(1 / 2 + 1 * (1 / 10000) : Rat)⌋ = 0 := by
    rw [Int.floor_eq_iff]; norm_num
  have f2 : ⌊(1 / 2 + 0 * (1 / 10000) : Rat)⌋ = 0 := by
    rw [Int.floor_eq_iff]; norm_num
  have g0 : getBlock sampleConfig stoneWorld 0 0 0 = 3 := by decide
  have hl : Vector3.lengthSq (exactOps sqrtQ)
      ⟨ExactNumber.finite 1, ExactNumber.finite 0, ExactNumber.finite 0⟩ =
      ExactNumber.finite 1 := by
    norm_num [Vector3.lengthSq, exactOps, ExactNumber.add, ExactNumber.mul]
  have hs : rayStart (exactOps sqrtQ)
      ⟨ExactNumber.finite (1 / 2), ExactNumber.finite (1 / 2), ExactNumber.finite (1 / 2)⟩
      ⟨ExactNumber.finite 1, ExactNumber.finite 0, ExactNumber.finite 0⟩ = (0, 0, 0) := by
    unfold rayStart rayOrigin rayDirection Vector3.normalize
    rw [hl]
    norm_num [exactOps, ExactNumber.sqrt, h, ExactNumber.truthy, ExactNumber.div,
      ExactNumber.mul, ExactNumber.add, Vector3.addScaledVector, ExactNumber.cell, f1, f2]
  unfold raycastWith
  rw [hl, hs]
  norm_num [exactOps, ExactNumber.eq, raycastLoopWith, ExactNumber.le, g0, BLOCK]

/-- The ray from `(0.5, 0.5, 0.5)` along `(2, 2, 1)` in `tieWorld`, in exact arithmetic: it
enters the cell `(0, 1, 0)` at the distance 0.7499. -/
theorem tie_ray_run (sqrtQ : Rat → Rat) (h : sqrtQ 9 = 3) :
    raycastWith (exactOps sqrtQ) sampleConfig tieWorld
        ⟨ExactNumber.finite (1 / 2), ExactNumber.finite (1 / 2), ExactNumber.finite (1 / 2)⟩
        ⟨ExactNumber.finite 2, ExactNumber.finite 2, ExactNumber.finite 1⟩
        (ExactNumber.finite 5) 2 =
      some (some ⟨0, 1, 0, 3, 0, 0, 0, ExactNumber.finite (7499 / 10000)⟩) := by
  have f1 : ⌊(1 / 2 + 2 / 3 * (1 / 10000) : Rat)⌋ = 0 := by
    rw [Int.floor_eq_iff]; norm_num
  have f2 : ⌊(1 / 2 + 1 / 3 * (1 / 10000) : Rat)⌋ = 0 := by
    rw [Int.floor_eq_iff]; norm_num
  have g0 : getBlock sampleConfig tieWorld 0 0 0 = 0 := by decide
  have g1 : getBlock sampleConfig tieWorld 0 1 0 = 3 := by decide
  have hl : Vector3.lengthSq (exactOps sqrtQ)
      ⟨ExactNumber.finite 2, ExactNumber.finite 2, ExactNumber.finite 1⟩ =
      ExactNumber.finite 9 := by
    norm_num [Vector3.lengthSq, exactOps, ExactNumber.add, ExactNumber.mul]
  have hd : rayDirection (exactOps sqrtQ)
      ⟨ExactNumber.finite 2, ExactNumber.finite 2, ExactNumber.finite 1⟩ =
      ⟨ExactNumber.finite (2 / 3), ExactNumber.finite (2 / 3), ExactNumber.finite (1 / 3)⟩ := by
    unfold rayDirection Vector3.normalize
    rw [hl]
    norm_num [exactOps, ExactNumber.sqrt, h, ExactNumber.truthy, ExactNumber.div,
      ExactNumber.mul]
  unfold raycastWith
  rw [hl]
  unfold rayStart rayOrigin
  rw [hd]
  norm_num [exactOps, ExactNumber.eq, raycastLoopWith, raycastAdvanceWith, intBoundWith,
    rayStep, rayDelta, ExactNumber.le, ExactNumber.lt, ExactNumber.add, ExactNumber.sub,
    ExactNumber.mul, ExactNumber.div, ExactNumber.neg, ExactNumber.abs, ExactNumber.floor,
    ExactNumber.cell, Vector3.addScaledVector, f1, f2, g0, g1, BLOCK]

/-- C38, as stated, fails for a ray that starts inside a block: the ray from
`(0.5, 0.5, 0.5)`, a point of the stone block at `(0, 0, 0)`, along `(1, 0, 0)` returns the
hit cell `(0, 0, 0)` with the adjacent cell `(0, 0, 0)` and distance 0, and the adjacent cell
holds stone, not air. -/
theorem ray_adjacent_counterexample :
    raycastWith (exactOps Rat.sqrt) sampleConfig stoneWorld
        ⟨ExactNumber.finite (1 / 2), ExactNumber.finite (1 / 2), ExactNumber.finite (1 / 2)⟩
        ⟨ExactNumber.finite 1, ExactNumber.finite 0, ExactNumber.finite 0⟩
        (ExactNumber.finite 5) 1 =
      some (some ⟨0, 0, 0, 3, 0, 0, 0, ExactNumber.finite 0⟩) ∧
    getBlock sampleConfig stoneWorld 0 0 0 = 3 ∧ (3 : Int) ≠ BLOCK.AIR := by
  refine ⟨?_, by decide, by decide⟩
  apply stone_ray_run
  have h : Rat.sqrt (1 * 1) = |1| := Rat.sqrt_eq 1
  have e1 : (1 : Rat) * 1 = 1 := by norm_num
  have e2 : |(1 : Rat)| = 1 := abs_of_pos (by norm_num)
  rw [e1, e2] at h
  exact h

/-- C38, amended. Raycast adjacency, for every arithmetic of numbers (the doubles of the
runtime among them): whenever `raycast` returns a hit, the squared length of the direction is
not `=== 0`, the hit cell holds the reported id, which is not air, and the reported distance
has passed the test `distance <= maxDistance`; the reported adjacent cell either equals the
hit cell, which is then the ray's starting cell (the cell of the origin moved by 0.0001 along
the normalised direction), with distance 0, or differs from the hit cell by exactly 1 along
exactly one axis (`|dx| + |dy| + |dz| = 1`), and in this second case the adjacent cell and
the starting cell hold air; so the adjacent cell equals the hit cell exactly when the
starting cell is not air. -/
theorem raycast_adjacency {F : Type} (ops : NumberOps F) (cfg : Config) (w : VoxelWorld)
    (origin direction : Vector3 F) (maxDistance : F) (fuel : Nat) (hit : RayResult F)
    (h : raycastWith ops cfg w origin direction maxDistance fuel = some (some hit)) :
    ops.eq (direction.lengthSq ops) ops.zero = false ∧
    hit.id = getBlock cfg w hit.x hit.y hit.z ∧ hit.id ≠ BLOCK.AIR ∧
    ops.le hit.distance maxDistance = true ∧
    ((hit.adjacentX = hit.x ∧ hit.adjacentY = hit.y ∧ hit.adjacentZ = hit.z ∧
        (hit.x, hit.y, hit.z) = rayStart ops origin direction ∧ hit.distance = ops.zero) ∨
      (|hit.x - hit.adjacentX| + |hit.y - hit.adjacentY| + |hit.z - hit.adjacentZ| = 1 ∧
        getBlock cfg w hit.adjacentX hit.adjacentY hit.adjacentZ = BLOCK.AIR ∧
        getBlock cfg w (rayStart ops origin direction).1 (rayStart ops origin direction).2.1
          (rayStart ops origin direction).2.2 = BLOCK.AIR)) ∧
    ((hit.adjacentX = hit.x ∧ hit.adjacentY = hit.y ∧ hit.adjacentZ = hit.z) ↔
      getBlock cfg w (rayStart ops origin direction).1 (rayStart ops origin direction).2.1
        (rayStart ops origin direction).2.2 ≠ BLOCK.AIR) := by
  have hlen : ops.eq (direction.lengthSq ops) ops.zero = false := by
    cases h0 : ops.eq (direction.lengthSq ops) ops.zero with
    | false => rfl
    | true =>
      unfold raycastWith at h
      rw [h0] at h
      simp only [if_true] at h
      exact absurd h (by simp)
  unfold raycastWith at h
  rw [hlen] at h
  simp only [Bool.false_eq_true, if_false] at h
  obtain ⟨r1, r2, r3, r4⟩ := raycastLoopWith_track ops cfg w (rayStart ops origin direction)
    _ _ _ _ _ _ maxDistance (rayStep_cases ops _) (rayStep_cases ops _) (rayStep_cases ops _)
    fuel _ hit (Or.inl ⟨rfl, rfl, rfl, rfl, rfl, rfl, rfl⟩) h
  have r5 : (hit.adjacentX = hit.x ∧ hit.adjacentY = hit.y ∧ hit.adjacentZ = hit.z ∧
        (hit.x, hit.y, hit.z) = rayStart ops origin direction ∧ hit.distance = ops.zero) ∨
      (|hit.x - hit.adjacentX| + |hit.y - hit.adjacentY| + |hit.z - hit.adjacentZ| = 1 ∧
        getBlock cfg w hit.adjacentX hit.adjacentY hit.adjacentZ = BLOCK.AIR ∧
        getBlock cfg w (rayStart ops origin direction).1 (rayStart ops origin direction).2.1
          (rayStart ops origin direction).2.2 = BLOCK.AIR) := by
    rcases r4 with ⟨e1, e2, e3, e4, e5, e6, e7⟩ | ⟨e1, e2, e3⟩
    · left
      exact ⟨e1, e2, e3, by rw [e4, e5, e6], e7⟩
    · right
      exact ⟨e1, e2, e3⟩
  refine ⟨hlen, r1, r2, r3, r5, ?_⟩
  rcases r5 with ⟨e1, e2, e3, e4, _⟩ | ⟨e1, _, e3⟩
  · constructor
    · intro _
      rw [← e4]
      simp only []
      rw [← r1]
      exact r2
    · intro _
      exact ⟨e1, e2, e3⟩
  · constructor
    · rintro ⟨h1, h2, h3⟩
      rw [h1, h2, h3] at e1
      simp at e1
    · intro hne
      exact absurd e3 hne

theorem rat_sqrt_nine : Rat.sqrt 9 = 3 := by
  have h : Rat.sqrt (3 * 3) = |3| := Rat.sqrt_eq 3
  have e1 : (3 : Rat) * 3 = 9 := by norm_num
  have e2 : |(3 : Rat)| = 3 := abs_of_pos (by norm_num)
  rw [e1, e2] at h
  exact h

theorem raycast_adjacency_witness :
    raycastWith (exactOps Rat.sqrt) sampleConfig tieWorld tieRayOrigin tieRayDirection
      (ExactNumber.finite 5) 2 = some (some tieRayResult) ∧
    (exactOps Rat.sqrt).le tieRayResult.distance (ExactNumber.finite 5) = true ∧
    |tieRayResult.x - tieRayResult.adjacentX| + |tieRayResult.y - tieRayResult.adjacentY| +
      |tieRayResult.z - tieRayResult.adjacentZ| = 1 ∧
    getBlock sampleConfig tieWorld tieRayResult.adjacentX tieRayResult.adjacentY
      tieRayResult.adjacentZ = BLOCK.AIR ∧
    getBlock sampleConfig tieWorld
      (rayStart (exactOps Rat.sqrt) tieRayOrigin tieRayDirection).1
      (rayStart (exactOps Rat.sqrt) tieRayOrigin tieRayDirection).2.1
      (rayStart (exactOps Rat.sqrt) tieRayOrigin tieRayDirection).2.2 = BLOCK.AIR :=
  ⟨tie_ray_run Rat.sqrt rat_sqrt_nine,
    (raycast_adjacency (exactOps Rat.sqrt) sampleConfig tieWorld tieRayOrigin tieRayDirection
      (ExactNumber.finite 5) 2 tieRayResult (tie_ray_run Rat.sqrt rat_sqrt_nine)).2.2.2.1,
    (raycast_adjacency (exactOps Rat.sqrt) sampleConfig tieWorld tieRayOrigin tieRayDirection
      (ExactNumber.finite 5) 2 tieRayResult
      (tie_ray_run Rat.sqrt rat_sqrt_nine)).2.2.2.2.1.resolve_left
      (fun h => absurd h.2.1 (by decide))⟩

end Voxel
